import Mathlib

/-!
# RayMesh-Studio: the recursive ray tracer of `src/RayTracer.h`

A shallow embedding of the intersection tests, the scene aggregate, the
illumination model and the recursive integrator, followed by theorems about them.

Modelling conventions.

* `float` is modelled by an arbitrary linearly ordered field `F` (exact
  arithmetic): rounding, NaN and signed zeros are outside the model.  Every
  definition is computable and can be run at `F = ℚ`.
* The one infinite value the source uses, the upper end
  `std::numeric_limits<float>::infinity()` of a query window, is modelled by
  taking the upper end of every window in `WithTop F`.
* `sqrt` and `std::pow` come from the C library; they are parameters of the
  definitions that call them, and a theorem that needs a property of them
  states it as a hypothesis.  `qsqrt` is a concrete instance on `ℚ`.
* `bool hit(ray, tMin, tMax, HitRecord& rec)` becomes a function returning
  `Option (HitRecord F)`: `none` for `false` (the source never writes to `rec`
  before returning `false`), `some rec'` for `true` with the updated record.
* The buffer of `render()` is a list of bytes; `int` arithmetic is done in `Int`,
  without wrap-around, and an output file is the list of the chunks written to it.
* A scene file is `none` when it cannot be opened, else the list of its lines; a
  line is the list of its whitespace-separated tokens, which is how the `>>`
  extractions see it.  The numeral conversions of the stream library and the mesh
  reader `readOffFile` are parameters.
* A division by zero has no value in exact arithmetic, and gives an infinity or a
  NaN in the source.  The field operation `x / 0 = 0` is not a model of it: where the
  source divides without a guard (`1.0f / radius` in `Sphere::hit`, the divisors
  `imageWidth - 1` and `imageHeight - 1` in `render()`, the length in a
  normalisation), a definition is faithful only for a non-zero divisor.
* A `while (true)` loop, as in `LineRasterizer::BresenhamLine` of
  `src/LineRasterizer.h`, becomes a function with a bound on the number of
  iterations that returns `none` when the bound is used up; termination is the
  statement that a large enough bound gives a result.
-/

namespace RayMesh

set_option linter.unusedSectionVars false

variable {F : Type} [LinearOrderedField F]

/-! ## Vectors -/

/-- Modelled from the spec: the 3-vector type `Vector3f` of `include/math_utils.h`,
which is not among the sources; it is the "low-level vector algebra" the ray
tracer consumes.  Only the operations `RayTracer.h` calls are given. -/
structure Vector3f (F : Type) where
  x : F
  y : F
  z : F
deriving DecidableEq

namespace Vector3f

instance : Add (Vector3f F) := ⟨fun a b => ⟨a.x + b.x, a.y + b.y, a.z + b.z⟩⟩

instance : Sub (Vector3f F) := ⟨fun a b => ⟨a.x - b.x, a.y - b.y, a.z - b.z⟩⟩

instance : Neg (Vector3f F) := ⟨fun a => ⟨-a.x, -a.y, -a.z⟩⟩

/-- The product `v * s` of a vector and a scalar. -/
def scale (v : Vector3f F) (s : F) : Vector3f F := ⟨v.x * s, v.y * s, v.z * s⟩

/-- The component-wise product `a * b` of two vectors (used for colours). -/
def mul (a b : Vector3f F) : Vector3f F := ⟨a.x * b.x, a.y * b.y, a.z * b.z⟩

/-- The inner product `a.Dot(b)`. -/
def Dot (a b : Vector3f F) : F := a.x * b.x + a.y * b.y + a.z * b.z

/-- The vector product `a.Cross(b)`. -/
def Cross (a b : Vector3f F) : Vector3f F :=
  ⟨a.y * b.z - a.z * b.y, a.z * b.x - a.x * b.z, a.x * b.y - a.y * b.x⟩

/-- The Euclidean norm `v.length()`. -/
def length (sqrt : F → F) (v : Vector3f F) : F := sqrt (v.x * v.x + v.y * v.y + v.z * v.z)

/-- The result of `v.Normalize()`: every component divided by the length. -/
def Normalize (sqrt : F → F) (v : Vector3f F) : Vector3f F :=
  ⟨v.x / v.length sqrt, v.y / v.length sqrt, v.z / v.length sqrt⟩

/-- The component `v[i]`. -/
def get (v : Vector3f F) (i : Nat) : F :=
  match i with
  | 0 => v.x
  | 1 => v.y
  | _ => v.z

/-- The result of `v.SetZero()`. -/
def zero : Vector3f F := ⟨0, 0, 0⟩

/-- The vector `v` with component `i` replaced by `s` (`v.x = s`, `v.y = s`, `v.z = s`). -/
def set (v : Vector3f F) (i : Nat) (s : F) : Vector3f F :=
  match i with
  | 0 => { v with x := s }
  | 1 => { v with y := s }
  | _ => { v with z := s }

end Vector3f

/-- A computable square root on `ℚ`, exact on squares of rationals: the integer
square roots of numerator and denominator.  It instantiates the `sqrt` parameter. -/
def qsqrt (q : ℚ) : ℚ := (Nat.sqrt q.num.toNat : ℚ) / (Nat.sqrt q.den : ℚ)

/-! ## Rays, materials, hit records -/

/-- A ray; `Ray.new` is the constructor of the source. -/
structure Ray (F : Type) where
  origin : Vector3f F
  direction : Vector3f F
deriving DecidableEq

/-- The constructor `Ray(o, d)`: the direction is normalised. -/
def Ray.new (sqrt : F → F) (o d : Vector3f F) : Ray F :=
  { origin := o, direction := d.Normalize sqrt }

/-- The appearance of a surface. -/
structure Material (F : Type) where
  color : Vector3f F
  ambientCoef : F
  diffuseCoef : F
  specularCoef : F
  shininess : F
  reflectivity : F
deriving DecidableEq

/-- The default constructor `Material()`: a gray material. -/
def Material.default : Material F :=
  { color := ⟨4 / 5, 4 / 5, 4 / 5⟩, ambientCoef := 1 / 10, diffuseCoef := 7 / 10,
    specularCoef := 3 / 10, shininess := 32, reflectivity := 0 }

/-- The record of an intersection. -/
structure HitRecord (F : Type) where
  t : F
  point : Vector3f F
  normal : Vector3f F
  frontFace : Bool
  material : Material F
deriving DecidableEq

/-- A default-constructed record (`HitRecord rec;`): its scalar and vector
fields are indeterminate in the source and are 0 here; every one of them is
overwritten before it is read. -/
def HitRecord.fresh : HitRecord F :=
  { t := 0, point := Vector3f.zero, normal := Vector3f.zero, frontFace := false,
    material := Material.default }

/-- The method `setFaceNormal(ray, outwardNormal)`. -/
def HitRecord.setFaceNormal (rec : HitRecord F) (ray : Ray F) (outwardNormal : Vector3f F) :
    HitRecord F :=
  let frontFace : Bool := decide (ray.direction.Dot outwardNormal < 0)
  { rec with
    frontFace := frontFace
    normal := if frontFace then outwardNormal else outwardNormal.scale (-1) }

/-! ## Sphere -/

/-- A sphere. -/
structure Sphere (F : Type) where
  center : Vector3f F
  radius : F
  material : Material F
deriving DecidableEq

/-- The local `discriminant` of `Sphere::hit`. -/
def Sphere.discriminant (s : Sphere F) (ray : Ray F) : F :=
  let oc := ray.origin - s.center
  let a := ray.direction.Dot ray.direction
  let half_b := oc.Dot ray.direction
  let c := oc.Dot oc - s.radius * s.radius
  half_b * half_b - a * c

/-- The first value of the local `root` of `Sphere::hit`: `(-half_b - sqrtd) / a`. -/
def Sphere.rootNear (sqrt : F → F) (s : Sphere F) (ray : Ray F) : F :=
  let oc := ray.origin - s.center
  let a := ray.direction.Dot ray.direction
  let half_b := oc.Dot ray.direction
  let sqrtd := sqrt (s.discriminant ray)
  (-half_b - sqrtd) / a

/-- The second value of the local `root` of `Sphere::hit`: `(-half_b + sqrtd) / a`. -/
def Sphere.rootFar (sqrt : F → F) (s : Sphere F) (ray : Ray F) : F :=
  let oc := ray.origin - s.center
  let a := ray.direction.Dot ray.direction
  let half_b := oc.Dot ray.direction
  let sqrtd := sqrt (s.discriminant ray)
  (-half_b + sqrtd) / a

/-- The tail of `Sphere::hit`, once `root` is accepted: fill the record.  The source
scales by `1.0f / radius` without a guard; for `radius = 0` that is a division by zero,
which the model does not represent: the quotient of the field is 0 there, and the
definition says nothing about the source. -/
def Sphere.fill (s : Sphere F) (ray : Ray F) (root : F) (rec : HitRecord F) : HitRecord F :=
  let rec1 := { rec with t := root }
  let rec2 := { rec1 with point := ray.origin + ray.direction.scale rec1.t }
  let outwardNormal := (rec2.point - s.center).scale (1 / s.radius)
  let rec3 := rec2.setFaceNormal ray outwardNormal
  { rec3 with material := s.material }

/-- The method `Sphere::hit`. -/
def Sphere.hit (sqrt : F → F) (s : Sphere F) (ray : Ray F) (tMin : F) (tMax : WithTop F)
    (rec : HitRecord F) : Option (HitRecord F) :=
  if s.discriminant ray < 0 then none
  else
    let root := s.rootNear sqrt ray
    if root < tMin ∨ (root : WithTop F) > tMax then
      let root := s.rootFar sqrt ray
      if root < tMin ∨ (root : WithTop F) > tMax then none
      else some (s.fill ray root rec)
    else some (s.fill ray root rec)

/-! ## Axis-aligned box -/

/-- An axis-aligned box. -/
structure Box (F : Type) where
  boxMin : Vector3f F
  boxMax : Vector3f F
  material : Material F
deriving DecidableEq

/-- The locals `tNear`, `tFar`, `hitAxis`, `hitIsMin` of `Box::hit`. -/
structure SlabState (F : Type) where
  tNear : F
  tFar : WithTop F
  hitAxis : Int
  hitIsMin : Bool

/-- One iteration, for axis `i`, of the slab loop of `Box::hit`; `none` is `return false`. -/
def Box.slabStep (b : Box F) (ray : Ray F) (tMin : F) (st : SlabState F) (i : Nat) :
    Option (SlabState F) :=
  if |ray.direction.get i| < 1 / 10 ^ 8 then
    if ray.origin.get i < b.boxMin.get i ∨ ray.origin.get i > b.boxMax.get i then none
    else some st
  else
    let invD := 1 / ray.direction.get i
    let t0 := (b.boxMin.get i - ray.origin.get i) * invD
    let t1 := (b.boxMax.get i - ray.origin.get i) * invD
    let p : F × F := if t0 > t1 then (t1, t0) else (t0, t1)
    let t0 := p.1
    let t1 := p.2
    let st1 : SlabState F :=
      if t0 > st.tNear then { st with tNear := t0, hitAxis := (i : Int), hitIsMin := true }
      else st
    let st2 : SlabState F :=
      if (t1 : WithTop F) < st1.tFar then
        let st' := { st1 with tFar := (t1 : WithTop F) }
        if t1 < t0 then { st' with hitAxis := (i : Int), hitIsMin := false } else st'
      else st1
    if (st2.tNear : WithTop F) > st2.tFar then none
    else if st2.tFar < (tMin : WithTop F) then none
    else some st2

/-- The slab loop of `Box::hit` over the axes 0, 1, 2, from the initial locals. -/
def Box.slabs (b : Box F) (ray : Ray F) (tMin : F) (tMax : WithTop F) : Option (SlabState F) :=
  [0, 1, 2].foldlM (b.slabStep ray tMin)
    { tNear := tMin, tFar := tMax, hitAxis := -1, hitIsMin := false }

/-- The local `outwardNormal` of `Box::hit`, from `hitAxis` and `hitIsMin`. -/
def Box.outwardNormal (hitAxis : Int) (hitIsMin : Bool) : Vector3f F :=
  let outwardNormal : Vector3f F := Vector3f.zero
  if hitAxis ≥ 0 then
    if hitAxis = 0 then { outwardNormal with x := if hitIsMin then -1 else 1 }
    else if hitAxis = 1 then { outwardNormal with y := if hitIsMin then -1 else 1 }
    else if hitAxis = 2 then { outwardNormal with z := if hitIsMin then -1 else 1 }
    else outwardNormal
  else outwardNormal

/-- The tail of `Box::hit`, after the loop: fill the record. -/
def Box.fill (b : Box F) (ray : Ray F) (st : SlabState F) (rec : HitRecord F) : HitRecord F :=
  let rec1 := { rec with t := st.tNear }
  let rec2 := { rec1 with point := ray.origin + ray.direction.scale rec1.t }
  let rec3 := rec2.setFaceNormal ray (Box.outwardNormal st.hitAxis st.hitIsMin)
  { rec3 with material := b.material }

/-- The method `Box::hit` (slab method). -/
def Box.hit (b : Box F) (ray : Ray F) (tMin : F) (tMax : WithTop F) (rec : HitRecord F) :
    Option (HitRecord F) :=
  match b.slabs ray tMin tMax with
  | none => none
  | some st =>
    if (st.tNear : WithTop F) > tMax then none
    else some (b.fill ray st rec)

/-! ## Triangle -/

/-- A triangle with its stored face normal; `Triangle.new` is the constructor of the source. -/
structure Triangle (F : Type) where
  v0 : Vector3f F
  v1 : Vector3f F
  v2 : Vector3f F
  normal : Vector3f F
  material : Material F
deriving DecidableEq

/-- The constructor `Triangle(v0, v1, v2, mat)`: the face normal is computed and normalised. -/
def Triangle.new (sqrt : F → F) (v0 v1 v2 : Vector3f F) (mat : Material F) : Triangle F :=
  let edge1 := v1 - v0
  let edge2 := v2 - v0
  let normal := edge1.Cross edge2
  { v0 := v0, v1 := v1, v2 := v2, normal := normal.Normalize sqrt, material := mat }

/-- The local `a` of `Triangle::hit`: the determinant `edge1 . (direction x edge2)`. -/
def Triangle.det (tr : Triangle F) (ray : Ray F) : F :=
  let edge1 := tr.v1 - tr.v0
  let edge2 := tr.v2 - tr.v0
  let h := ray.direction.Cross edge2
  edge1.Dot h

/-- The local `u` of `Triangle::hit`. -/
def Triangle.baryU (tr : Triangle F) (ray : Ray F) : F :=
  let edge2 := tr.v2 - tr.v0
  let h := ray.direction.Cross edge2
  let f := 1 / tr.det ray
  let s := ray.origin - tr.v0
  f * s.Dot h

/-- The local `v` of `Triangle::hit`. -/
def Triangle.baryV (tr : Triangle F) (ray : Ray F) : F :=
  let edge1 := tr.v1 - tr.v0
  let f := 1 / tr.det ray
  let s := ray.origin - tr.v0
  let q := s.Cross edge1
  f * ray.direction.Dot q

/-- The local `t` of `Triangle::hit`. -/
def Triangle.dist (tr : Triangle F) (ray : Ray F) : F :=
  let edge1 := tr.v1 - tr.v0
  let edge2 := tr.v2 - tr.v0
  let f := 1 / tr.det ray
  let s := ray.origin - tr.v0
  let q := s.Cross edge1
  f * edge2.Dot q

/-- The tail of `Triangle::hit`, once `t` is accepted: fill the record. -/
def Triangle.fill (tr : Triangle F) (ray : Ray F) (t : F) (rec : HitRecord F) : HitRecord F :=
  let rec1 := { rec with t := t }
  let rec2 := { rec1 with point := ray.origin + ray.direction.scale t }
  let rec3 := rec2.setFaceNormal ray tr.normal
  { rec3 with material := tr.material }

/-- The method `Triangle::hit` (Moeller-Trumbore). -/
def Triangle.hit (tr : Triangle F) (ray : Ray F) (tMin : F) (tMax : WithTop F)
    (rec : HitRecord F) : Option (HitRecord F) :=
  if |tr.det ray| < 1 / 10 ^ 8 then none
  else
    let u := tr.baryU ray
    if u < 0 ∨ u > 1 then none
    else
      let v := tr.baryV ray
      if v < 0 ∨ u + v > 1 then none
      else
        let t := tr.dist ray
        if t < tMin ∨ (t : WithTop F) > tMax then none
        else some (tr.fill ray t rec)

/-! ## The scene aggregate -/

/-- The primitives the ray tracer stores in a scene (`addSphere`, `addBox`, `addTriangle`). -/
inductive Hittable (F : Type) where
  | sphere (s : Sphere F)
  | box (b : Box F)
  | triangle (tr : Triangle F)
deriving DecidableEq

/-- The virtual method `Hittable::hit`, dispatched on the variant. -/
def Hittable.hit (sqrt : F → F) (h : Hittable F) (ray : Ray F) (tMin : F) (tMax : WithTop F)
    (rec : HitRecord F) : Option (HitRecord F) :=
  match h with
  | .sphere s => s.hit sqrt ray tMin tMax rec
  | .box b => b.hit ray tMin tMax rec
  | .triangle tr => tr.hit ray tMin tMax rec

/-- The scene aggregate: the ordered sequence `objects`. -/
structure HittableList (F : Type) where
  objects : List (Hittable F)
deriving DecidableEq

/-- The locals of `HittableList::hit` together with its out-parameter `rec` (`outRec`). -/
structure ScanState (F : Type) where
  tempRec : HitRecord F
  hitAnything : Bool
  closestSoFar : WithTop F
  outRec : HitRecord F

/-- One iteration of the loop of `HittableList::hit`. -/
def HittableList.scanStep (sqrt : F → F) (ray : Ray F) (tMin : F) (st : ScanState F)
    (object : Hittable F) : ScanState F :=
  match object.hit sqrt ray tMin st.closestSoFar st.tempRec with
  | some r => { tempRec := r, hitAnything := true, closestSoFar := (r.t : WithTop F), outRec := r }
  | none => st

/-- The loop of `HittableList::hit` over all objects, from the initial locals. -/
def HittableList.scan (sqrt : F → F) (l : HittableList F) (ray : Ray F) (tMin : F)
    (tMax : WithTop F) (rec : HitRecord F) : ScanState F :=
  l.objects.foldl (HittableList.scanStep sqrt ray tMin)
    { tempRec := HitRecord.fresh, hitAnything := false, closestSoFar := tMax, outRec := rec }

/-- The method `HittableList::hit`: the nearest hit among all objects. -/
def HittableList.hit (sqrt : F → F) (l : HittableList F) (ray : Ray F) (tMin : F)
    (tMax : WithTop F) (rec : HitRecord F) : Option (HitRecord F) :=
  let st := l.scan sqrt ray tMin tMax rec
  if st.hitAnything then some st.outRec else none

/-- A computable stand-in on `ℚ` for `std::pow`, exact when the exponent is a natural
number (the default shininess is 32).  It instantiates the `pow` parameter. -/
def qpow (b e : ℚ) : ℚ := b ^ (Int.toNat ⌊e⌋)

/-! ## Lights, camera, renderer state -/

/-- A point light. -/
structure Light (F : Type) where
  position : Vector3f F
  color : Vector3f F
  intensity : F
deriving DecidableEq

/-- The camera; `Camera.new` is the constructor of the source. -/
structure Camera (F : Type) where
  origin : Vector3f F
  lowerLeftCorner : Vector3f F
  horizontal : Vector3f F
  vertical : Vector3f F
deriving DecidableEq

/-- The constructor `Camera(lookFrom, lookAt, vup, vfov, aspect)`. -/
def Camera.new (sqrt tan : F → F) (lookFrom lookAt vup : Vector3f F) (vfov aspect : F) :
    Camera F :=
  let theta := vfov * (31415926 / 10000000) / 180
  let h := tan (theta / 2)
  let viewport_height := 2 * h
  let viewport_width := aspect * viewport_height
  let w := (lookFrom - lookAt).Normalize sqrt
  let u := (vup.Cross w).Normalize sqrt
  let v := w.Cross u
  let origin := lookFrom
  let horizontal := u.scale viewport_width
  let vertical := v.scale viewport_height
  { origin := origin
    horizontal := horizontal
    vertical := vertical
    lowerLeftCorner := origin - horizontal.scale (1 / 2) - vertical.scale (1 / 2) - w }

/-- The method `Camera::getRay(s, t)`. -/
def Camera.getRay (sqrt : F → F) (cam : Camera F) (s t : F) : Ray F :=
  Ray.new sqrt cam.origin
    (cam.lowerLeftCorner + cam.horizontal.scale s + cam.vertical.scale t - cam.origin)

/-- The state of a `RayTracer` object. -/
structure RayTracer (F : Type) where
  imageWidth : Int
  imageHeight : Int
  maxReflectionDepth : Int
  reflectionsEnabled : Bool
  camera : Camera F
  world : HittableList F
  lights : List (Light F)
  backgroundColor : Vector3f F

/-! ## Illumination and the recursive integrator -/

/-- The body of the loop over the lights in `RayTracer::calculateLighting`: the value
of `resultColor` after the iteration for `light`. -/
def RayTracer.lightStep (sqrt : F → F) (pow : F → F → F) (rec : HitRecord F) (ray : Ray F)
    (world : HittableList F) (resultColor : Vector3f F) (light : Light F) : Vector3f F :=
  let lightDir := light.position - rec.point
  let lightDistance := lightDir.length sqrt
  let lightDir := lightDir.Normalize sqrt
  let shadowRay := Ray.new sqrt (rec.point + rec.normal.scale (1 / 1000)) lightDir
  let shadowRec : HitRecord F := HitRecord.fresh
  let inShadow : Bool :=
    (world.hit sqrt shadowRay (1 / 1000) ((lightDistance - 1 / 1000 : F) : WithTop F)
      shadowRec).isSome
  if !inShadow then
    let diffuseFactor := max (rec.normal.Dot lightDir) 0
    let diffuse :=
      (((rec.material.color.mul light.color).scale diffuseFactor).scale
        rec.material.diffuseCoef).scale light.intensity
    let viewDir := -ray.direction
    let halfVector := (viewDir + lightDir).Normalize sqrt
    let specularFactor := pow (max (rec.normal.Dot halfVector) 0) rec.material.shininess
    let specular :=
      ((light.color.scale specularFactor).scale rec.material.specularCoef).scale light.intensity
    resultColor + diffuse + specular
  else resultColor

/-- The method `RayTracer::calculateLighting(rec, ray, world)`. -/
def RayTracer.calculateLighting (sqrt : F → F) (pow : F → F → F) (rt : RayTracer F)
    (rec : HitRecord F) (ray : Ray F) (world : HittableList F) : Vector3f F :=
  let ambient := rec.material.color.scale rec.material.ambientCoef
  let resultColor := rt.lights.foldl (RayTracer.lightStep sqrt pow rec ray world) ambient
  { x := min resultColor.x 1, y := min resultColor.y 1, z := min resultColor.z 1 }

/-- The backdrop both integrators return for a ray that hits nothing. -/
def RayTracer.background (rt : RayTracer F) (ray : Ray F) : Vector3f F :=
  let unitDir := ray.direction
  let t := 1 / 2 * (unitDir.y + 1)
  (Vector3f.mk 1 1 1).scale (1 - t) + rt.backgroundColor.scale t

/-- The method `RayTracer::rayColor(ray, world)`. -/
def RayTracer.rayColor (sqrt : F → F) (pow : F → F → F) (rt : RayTracer F) (ray : Ray F)
    (world : HittableList F) : Vector3f F :=
  match world.hit sqrt ray (1 / 1000) ⊤ HitRecord.fresh with
  | some rec => rt.calculateLighting sqrt pow rec ray world
  | none => rt.background ray

/-- The method `RayTracer::reflect(v, n)`. -/
def RayTracer.reflect (v n : Vector3f F) : Vector3f F :=
  v - (n.scale 2).scale (v.Dot n)

/-- The method `RayTracer::rayColorWithReflection(ray, world, depth)`. -/
def RayTracer.rayColorWithReflection (sqrt : F → F) (pow : F → F → F) (rt : RayTracer F)
    (ray : Ray F) (world : HittableList F) (depth : Int) : Vector3f F :=
  if depth ≤ 0 then Vector3f.mk 0 0 0
  else
    match world.hit sqrt ray (1 / 1000) ⊤ HitRecord.fresh with
    | some rec =>
      let directColor := rt.calculateLighting sqrt pow rec ray world
      if rec.material.reflectivity > 0 then
        let reflected := RayTracer.reflect ray.direction rec.normal
        let reflectionRay := Ray.new sqrt (rec.point + rec.normal.scale (1 / 1000)) reflected
        let reflectionColor := rt.rayColorWithReflection sqrt pow reflectionRay world (depth - 1)
        directColor.scale (1 - rec.material.reflectivity) +
          reflectionColor.scale rec.material.reflectivity
      else directColor
    | none => rt.background ray
termination_by depth.toNat
decreasing_by omega

/-! ## Auxiliary definitions used by the proofs -/

/-- The entry parameter of the slab of axis `i`: the smaller of the two plane parameters. -/
def Box.slabLo (b : Box F) (ray : Ray F) (i : Nat) : F :=
  min ((b.boxMin.get i - ray.origin.get i) * (1 / ray.direction.get i))
    ((b.boxMax.get i - ray.origin.get i) * (1 / ray.direction.get i))

/-- The exit parameter of the slab of axis `i`: the larger of the two plane parameters. -/
def Box.slabHi (b : Box F) (ray : Ray F) (i : Nat) : F :=
  max ((b.boxMin.get i - ray.origin.get i) * (1 / ray.direction.get i))
    ((b.boxMax.get i - ray.origin.get i) * (1 / ray.direction.get i))

/-- The slab state with its upper end cut down to `c`. -/
def SlabState.narrow (c : WithTop F) (st : SlabState F) : SlabState F :=
  { st with tFar := min st.tFar c }

/-- The state after one iteration on an axis the ray is not parallel to. -/
def Box.slabNext (b : Box F) (ray : Ray F) (st : SlabState F) (i : Nat) : SlabState F :=
  { tNear := max st.tNear (b.slabLo ray i)
    tFar := min st.tFar ((b.slabHi ray i : F) : WithTop F)
    hitAxis := if st.tNear < b.slabLo ray i then (i : Int) else st.hitAxis
    hitIsMin := if st.tNear < b.slabLo ray i then true else st.hitIsMin }

/-- The choice the scan makes between the best record so far and the record a further
primitive reports on its own: the new one wins unless it is strictly farther. -/
def nearer (acc own : Option (HitRecord F)) : Option (HitRecord F) :=
  match own with
  | none => acc
  | some r =>
    match acc with
    | none => some r
    | some a => if r.t ≤ a.t then some r else some a

/-- The scan state `st` stands for the best record `acc` found so far. -/
def ScanState.Holds (tMax : WithTop F) (st : ScanState F) (acc : Option (HitRecord F)) : Prop :=
  match acc with
  | none => st.hitAnything = false ∧ st.closestSoFar = tMax
  | some a =>
    st.hitAnything = true ∧ st.closestSoFar = ((a.t : F) : WithTop F) ∧ st.outRec = a ∧
      ((a.t : F) : WithTop F) ≤ tMax

/-- The number `E` is the entry distance of the ray into the box: the largest entry
parameter `slabLo` over the axes along which the ray moves. -/
def Box.IsEntry (b : Box F) (ray : Ray F) (E : F) : Prop :=
  (∃ i, i < 3 ∧ ray.direction.get i ≠ 0 ∧ b.slabLo ray i = E) ∧
    ∀ i, i < 3 → ray.direction.get i ≠ 0 → b.slabLo ray i ≤ E

/-- The vector `n` is the local `outwardNormal` that the `hit` method of the primitive `o`
passes to `setFaceNormal` for the record `r`: `(point - center) / radius` for a sphere, the
stored normal for a triangle, and for a box the vector `Box::hit` derives from `hitAxis`
and `hitIsMin`.  For a box this is not always the geometric outward normal of the face
the ray enters through: see `Box.IsOutwardNormal`. -/
def Hittable.IsFaceArgument (o : Hittable F) (ray : Ray F) (tMin : F) (tMax : WithTop F)
    (r : HitRecord F) (n : Vector3f F) : Prop :=
  match o with
  | .sphere s => n = (r.point - s.center).scale (1 / s.radius)
  | .box b =>
    ∃ st, b.slabs ray tMin tMax = some st ∧ n = Box.outwardNormal st.hitAxis st.hitIsMin
  | .triangle tr => n = tr.normal

/-- The axis recorded by the slab loop: either no slab raised `tNear` above `tMin`, or the
axis is 0, 1 or 2, the flag `hitIsMin` is set and `tNear` exceeds `tMin`. -/
def SlabState.AxisOk (tMin : F) (st : SlabState F) : Prop :=
  (st.hitAxis = -1 ∧ st.tNear = tMin) ∨
    ((st.hitAxis = 0 ∨ st.hitAxis = 1 ∨ st.hitAxis = 2) ∧ st.hitIsMin = true ∧ tMin < st.tNear)

/-- The point `p` lies in the solid box `b`. -/
def Box.Contains (b : Box F) (p : Vector3f F) : Prop :=
  b.boxMin.x ≤ p.x ∧ p.x ≤ b.boxMax.x ∧ b.boxMin.y ≤ p.y ∧ p.y ≤ b.boxMax.y ∧
    b.boxMin.z ≤ p.z ∧ p.z ≤ b.boxMax.z

/-! ## Concrete inputs over `ℚ` -/

/-- A triangle with legs of length `1e-5`: twice its area is `1e-10`. -/
def tinyTriangle : Triangle ℚ :=
  Triangle.new qsqrt ⟨0, 0, 0⟩ ⟨1 / 100000, 0, 0⟩ ⟨0, 1 / 100000, 0⟩ Material.default

/-- The ray from `centroid + 1 * n` with direction `-n` for `tinyTriangle`. -/
def tinyRay : Ray ℚ :=
  Ray.new qsqrt
    (((⟨0, 0, 0⟩ : Vector3f ℚ) + ⟨1 / 100000, 0, 0⟩ + ⟨0, 1 / 100000, 0⟩).scale (1 / 3) +
      tinyTriangle.normal.scale 1)
    (-tinyTriangle.normal)

/-- The triangle with vertices `(0,0,0)`, `(1,0,0)`, `(0,1,0)`. -/
def unitTriangle : Triangle ℚ :=
  Triangle.new qsqrt ⟨0, 0, 0⟩ ⟨1, 0, 0⟩ ⟨0, 1, 0⟩ Material.default

/-- A scene of two unit spheres and a box on the z axis. -/
def demoWorld : HittableList ℚ :=
  ⟨[.sphere ⟨⟨0, 0, 10⟩, 1, Material.default⟩, .sphere ⟨⟨0, 0, 5⟩, 1, Material.default⟩,
    .box ⟨⟨-1, -1, 7⟩, ⟨1, 1, 8⟩, Material.default⟩]⟩

/-- The ray from the origin along the z axis. -/
def demoRay : Ray ℚ := ⟨⟨0, 0, 0⟩, ⟨0, 0, 1⟩⟩

/-- A renderer state holding `demoWorld` and one white light. -/
def demoTracer : RayTracer ℚ :=
  { imageWidth := 4, imageHeight := 3, maxReflectionDepth := 3, reflectionsEnabled := true
    camera := ⟨⟨0, 0, 5⟩, ⟨-1, -1, 4⟩, ⟨2, 0, 0⟩, ⟨0, 2, 0⟩⟩
    world := demoWorld
    lights := [⟨⟨10, 10, 10⟩, ⟨1, 1, 1⟩, 1⟩]
    backgroundColor := ⟨1 / 5, 1 / 5, 2 / 5⟩ }

/-- The box `[-1, 1]^3`. -/
def unitBox : Box ℚ := ⟨⟨-1, -1, -1⟩, ⟨1, 1, 1⟩, Material.default⟩

/-- A far origin outside `unitBox`: the vector to the centre is `(2e9, 0, 1e18 - 1)`, of
length `1e18 + 1`. -/
def farOrigin : Vector3f ℚ := ⟨-2000000000, 0, -(10 ^ 18 - 1)⟩

/-- The ray from `farOrigin` aimed at the centre `(0, 0, 0)` of `unitBox`. -/
def farRay : Ray ℚ := Ray.new qsqrt farOrigin ((⟨0, 0, 0⟩ : Vector3f ℚ) - farOrigin)

/-- The ray from `(0, 0, -5)` aimed at the centre of `unitBox`. -/
def nearRay : Ray ℚ := Ray.new qsqrt ⟨0, 0, -5⟩ ((⟨0, 0, 0⟩ : Vector3f ℚ) - ⟨0, 0, -5⟩)

/-- The unit sphere centred at `(0, 0, 5)`. -/
def demoSphere : Sphere ℚ := ⟨⟨0, 0, 5⟩, 1, Material.default⟩

/-- A thin box around the z axis between heights `0.0005` and `0.0015`. -/
def thinBox : Box ℚ := ⟨⟨-1, -1, 1 / 2000⟩, ⟨1, 1, 3 / 2000⟩, Material.default⟩

/-- A box around the z axis between heights 4 and 6. -/
def highBox : Box ℚ := ⟨⟨-1, -1, 4⟩, ⟨1, 1, 6⟩, Material.default⟩

/-- A shaded point at the origin with normal `(0, 0, 1)`, seen from above. -/
def shadeRec : HitRecord ℚ :=
  { t := 5, point := ⟨0, 0, 0⟩, normal := ⟨0, 0, 1⟩, frontFace := true,
    material := Material.default }

/-- The viewing ray that produced `shadeRec`: from `(0, 0, 5)` straight down. -/
def shadeRay : Ray ℚ := ⟨⟨0, 0, 5⟩, ⟨0, 0, -1⟩⟩

/-- A white light of intensity 1 at `(0, 0, 10)`, straight above `shadeRec`. -/
def topLight : Light ℚ := ⟨⟨0, 0, 10⟩, ⟨1, 1, 1⟩, 1⟩

/-- A renderer state whose only light is `topLight` and whose only primitive is `thinBox`. -/
def shadeTracer : RayTracer ℚ :=
  { imageWidth := 4, imageHeight := 3, maxReflectionDepth := 3, reflectionsEnabled := false
    camera := ⟨⟨0, 0, 5⟩, ⟨-1, -1, 4⟩, ⟨2, 0, 0⟩, ⟨0, 2, 0⟩⟩
    world := ⟨[.box thinBox]⟩
    lights := [topLight]
    backgroundColor := ⟨1 / 5, 1 / 5, 2 / 5⟩ }

/-! ## The render loop and the image files -/

/-- The local `u` of the render loop: `static_cast<float>(x) / (imageWidth - 1)`.  The
divisor is computed in `int` and converted.  The source has no guard: for `imageWidth = 1`
this is a division by zero, which the model does not represent: the quotient of the field
is 0 there, and the definition says nothing about the source. -/
def RayTracer.pixelU (rt : RayTracer F) (x : Int) : F :=
  (x : F) / ((rt.imageWidth - 1 : Int) : F)

/-- The local `v` of the render loop: `1.0f - static_cast<float>(y) / (imageHeight - 1)`.
The source has no guard: for `imageHeight = 1` this is a division by zero, which the model
does not represent: the quotient of the field is 0 there, and the definition says nothing
about the source. -/
def RayTracer.pixelV (rt : RayTracer F) (y : Int) : F :=
  1 - (y : F) / ((rt.imageHeight - 1 : Int) : F)

/-- The colour `render()` computes for the pixel `(x, y)`, before gamma correction: the
viewport coordinates, the camera ray, and one of the two integrators. -/
def RayTracer.pixelColor (sqrt : F → F) (pow : F → F → F) (rt : RayTracer F) (x y : Int) :
    Vector3f F :=
  let u : F := rt.pixelU x
  let v : F := rt.pixelV y
  let ray := rt.camera.getRay sqrt u v
  if rt.reflectionsEnabled then
    rt.rayColorWithReflection sqrt pow ray rt.world rt.maxReflectionDepth
  else rt.rayColor sqrt pow ray rt.world

/-- The conversion `static_cast<unsigned char>(v)` of a floating value: truncation, which
for the values the render loop produces (`0 <= v < 256`) is the floor.  Outside that range
the source has no defined result; the model reduces modulo 256. -/
def toByte [FloorRing F] (v : F) : Nat := Int.toNat ⌊v⌋ % 256

/-- The byte stored for a linear channel value `c`:
`static_cast<unsigned char>(255.99 * sqrt(std::min(c, 1.0f)))`. -/
def channelByte [FloorRing F] (sqrt : F → F) (c : F) : Nat :=
  toByte (25599 / 100 * sqrt (min c 1))

/-- The three stores of the render loop for one pixel: `pixels[idx]`, `pixels[idx + 1]`,
`pixels[idx + 2]`. -/
def RayTracer.storePixel [FloorRing F] (sqrt : F → F) (pixels : List Nat) (idx : Nat)
    (color : Vector3f F) : List Nat :=
  ((pixels.set idx (channelByte sqrt color.x)).set (idx + 1) (channelByte sqrt color.y)).set
    (idx + 2) (channelByte sqrt color.z)

/-- The body of the inner loop of `render()` for the pixel `(x, y)`. -/
def RayTracer.renderPixel [FloorRing F] (sqrt : F → F) (pow : F → F → F) (rt : RayTracer F)
    (y : Nat) (pixels : List Nat) (x : Nat) : List Nat :=
  let color := rt.pixelColor sqrt pow (x : Int) (y : Int)
  let idx := (((y : Int) * rt.imageWidth + (x : Int)) * 3).toNat
  RayTracer.storePixel sqrt pixels idx color

/-- The body of the outer loop of `render()` for the row `y`. -/
def RayTracer.renderRow [FloorRing F] (sqrt : F → F) (pow : F → F → F) (rt : RayTracer F)
    (pixels : List Nat) (y : Nat) : List Nat :=
  (List.range rt.imageWidth.toNat).foldl (rt.renderPixel sqrt pow y) pixels

/-- The method `RayTracer::render()`: the buffer of `imageWidth * imageHeight * 3` bytes. -/
def RayTracer.render [FloorRing F] (sqrt : F → F) (pow : F → F → F) (rt : RayTracer F) :
    List Nat :=
  let pixels : List Nat := List.replicate (rt.imageWidth * rt.imageHeight * 3).toNat 0
  (List.range rt.imageHeight.toNat).foldl (rt.renderRow sqrt pow) pixels

/-- What is sent to an output stream: a string literal, an integer printed in decimal by
`operator<<`, or a block of raw bytes. -/
inductive Chunk where
  | text (s : String)
  | int (n : Int)
  | raw (bytes : List Nat)
deriving DecidableEq

/-- The header both writers send: the tag, `width height`, and the maximum value 255. -/
def RayTracer.header (rt : RayTracer F) (tag : String) : List Chunk :=
  [Chunk.text tag, Chunk.int rt.imageWidth, Chunk.text " ", Chunk.int rt.imageHeight,
    Chunk.text "\n255\n"]

/-- The method `RayTracer::saveToFile`: the return value and what is written to the file
(`none` when the file cannot be opened).  `openOk` and `writeOk` stand for the state of the
stream after opening and after writing. -/
def RayTracer.saveToFile [FloorRing F] (sqrt : F → F) (pow : F → F → F) (rt : RayTracer F)
    (openOk writeOk : Bool) : Bool × Option (List Chunk) :=
  let pixels := rt.render sqrt pow
  if !openOk then (false, none)
  else
    let out := rt.header "P6\n" ++ [Chunk.raw pixels]
    if !writeOk then (false, some out) else (true, some out)

/-- The line `saveToTextFile` writes for the pixel `(x, y)`: three numbers. -/
def RayTracer.textPixel (rt : RayTracer F) (pixels : List Nat) (y x : Nat) : List Chunk :=
  let idx := (((y : Int) * rt.imageWidth + (x : Int)) * 3).toNat
  [Chunk.int (pixels.getD idx 0 : Nat), Chunk.text " ",
    Chunk.int (pixels.getD (idx + 1) 0 : Nat), Chunk.text " ",
    Chunk.int (pixels.getD (idx + 2) 0 : Nat), Chunk.text "\n"]

/-- The pixel loops of `saveToTextFile`: what is appended to the stream. -/
def RayTracer.textBody (rt : RayTracer F) (pixels : List Nat) : List Chunk :=
  (List.range rt.imageHeight.toNat).foldl
    (fun out y =>
      (List.range rt.imageWidth.toNat).foldl (fun out x => out ++ rt.textPixel pixels y x) out)
    []

/-- The method `RayTracer::saveToTextFile`. -/
def RayTracer.saveToTextFile [FloorRing F] (sqrt : F → F) (pow : F → F → F) (rt : RayTracer F)
    (openOk writeOk : Bool) : Bool × Option (List Chunk) :=
  let pixels := rt.render sqrt pow
  if !openOk then (false, none)
  else
    let out := rt.header "P3\n" ++ rt.textBody pixels
    if !writeOk then (false, some out) else (true, some out)

/-! ## Definitions that follow the words of the specification -/

/-- After the specification (illumination model): a light is unoccluded at a hit record
exactly when the scene's nearest-hit query for the ray from `hitPoint + 0.001 * normal` in
the unit direction `l` towards the light finds nothing in `[0.001, distance - 0.001]`. -/
def RayTracer.unoccludedSpec (sqrt : F → F) (rec : HitRecord F) (world : HittableList F)
    (light : Light F) : Bool :=
  (world.hit sqrt
    (Ray.new sqrt (rec.point + rec.normal.scale (1 / 1000))
      ((light.position - rec.point).Normalize sqrt)) (1 / 1000)
    ((((light.position - rec.point).length sqrt - 1 / 1000 : F)) : WithTop F)
    HitRecord.fresh).isNone

/-- After the specification: the sum, for one colour channel `ch`, of the diffuse term
`baseColor * lightColor * max(n.l, 0) * diffuseCoef * intensity` and the specular term
`lightColor * max(n.h, 0)^shininess * specularCoef * intensity` of one light, with `l` the
unit direction from the hit point to the light and `h = normalize(-rayDirection + l)`. -/
def RayTracer.lightTermSpec (sqrt : F → F) (pow : F → F → F) (rec : HitRecord F) (ray : Ray F)
    (ch : Vector3f F → F) (light : Light F) : F :=
  let l := (light.position - rec.point).Normalize sqrt
  let h := (-ray.direction + l).Normalize sqrt
  ch rec.material.color * ch light.color * max (rec.normal.Dot l) 0 * rec.material.diffuseCoef *
      light.intensity +
    ch light.color * pow (max (rec.normal.Dot h) 0) rec.material.shininess *
      rec.material.specularCoef * light.intensity

/-- After the specification: one channel of the illumination,
`min(1, ambient + sum over the unoccluded lights of (diffuse + specular))`, with
`ambient = baseColor * ambientCoef`; the clamp is applied once, after the summation. -/
def RayTracer.lightingSpec (sqrt : F → F) (pow : F → F → F) (rt : RayTracer F)
    (rec : HitRecord F) (ray : Ray F) (world : HittableList F) (ch : Vector3f F → F) : F :=
  min 1 (ch rec.material.color * rec.material.ambientCoef +
    ((rt.lights.filter (RayTracer.unoccludedSpec sqrt rec world)).map
      (RayTracer.lightTermSpec sqrt pow rec ray ch)).sum)

/-! ## Comparing scenes that differ only in reflectivity -/

/-- The material with its reflectivity forgotten (set to 0). -/
def Material.eraseReflectivity (m : Material F) : Material F := { m with reflectivity := 0 }

/-- The record with the reflectivity of its material forgotten. -/
def HitRecord.eraseReflectivity (r : HitRecord F) : HitRecord F :=
  { r with material := r.material.eraseReflectivity }

/-- The primitive with the reflectivity of its material forgotten. -/
def Hittable.eraseReflectivity : Hittable F → Hittable F
  | .sphere s => .sphere { s with material := s.material.eraseReflectivity }
  | .box b => .box { b with material := b.material.eraseReflectivity }
  | .triangle tr => .triangle { tr with material := tr.material.eraseReflectivity }

/-- The scene with every reflectivity forgotten: two scenes differ only in the reflectivity
of their materials exactly when these are equal. -/
def HittableList.eraseReflectivity (l : HittableList F) : HittableList F :=
  ⟨l.objects.map Hittable.eraseReflectivity⟩

/-- The ray from the origin straight up. -/
def upRay : Ray ℚ := ⟨⟨0, 0, 0⟩, ⟨0, 1, 0⟩⟩

/-- The ray from the origin straight down. -/
def downRay : Ray ℚ := ⟨⟨0, 0, 0⟩, ⟨0, -1, 0⟩⟩

/-- A ray from the origin with the unit direction `(0, 3/5, 4/5)`. -/
def slantRay : Ray ℚ := ⟨⟨0, 0, 0⟩, ⟨0, 3 / 5, 4 / 5⟩⟩

/-- The local `w` of the `Camera` constructor: the forward axis. -/
def Camera.forward (sqrt : F → F) (lookFrom lookAt : Vector3f F) : Vector3f F :=
  (lookFrom - lookAt).Normalize sqrt

/-- The local `u` of the `Camera` constructor: the right axis. -/
def Camera.right (sqrt : F → F) (lookFrom lookAt vup : Vector3f F) : Vector3f F :=
  (vup.Cross (Camera.forward sqrt lookFrom lookAt)).Normalize sqrt

/-- The local `v` of the `Camera` constructor: the true up axis. -/
def Camera.trueUp (sqrt : F → F) (lookFrom lookAt vup : Vector3f F) : Vector3f F :=
  (Camera.forward sqrt lookFrom lookAt).Cross (Camera.right sqrt lookFrom lookAt vup)

/-- A perfect mirror: reflectivity 1. -/
def mirrorMat : Material ℚ :=
  { color := ⟨9 / 10, 9 / 10, 9 / 10⟩, ambientCoef := 0, diffuseCoef := 0, specularCoef := 1,
    shininess := 128, reflectivity := 1 }

/-- A red material without reflection. -/
def redMat : Material ℚ :=
  { color := ⟨9 / 10, 1 / 5, 1 / 5⟩, ambientCoef := 1 / 10, diffuseCoef := 7 / 10,
    specularCoef := 2 / 5, shininess := 32, reflectivity := 0 }

/-- The mirror sphere of Scenario C: radius 1 at the origin. -/
def mirrorSphere : Sphere ℚ := ⟨⟨0, 0, 0⟩, 1, mirrorMat⟩

/-- The coloured sphere of Scenario C: radius 1 at `(0, 0, 10)`, facing the mirror. -/
def colourSphere : Sphere ℚ := ⟨⟨0, 0, 10⟩, 1, redMat⟩

/-- The scene of Scenario C. -/
def mirrorWorld : HittableList ℚ := ⟨[.sphere mirrorSphere, .sphere colourSphere]⟩

/-- The renderer state of Scenario C: reflections enabled, maximum reflection depth 1, one
white light at `(0, 0, 5)`. -/
def mirrorTracer : RayTracer ℚ :=
  { imageWidth := 4, imageHeight := 3, maxReflectionDepth := 1, reflectionsEnabled := true
    camera := ⟨⟨0, 0, 5⟩, ⟨-1, -1, 4⟩, ⟨2, 0, 0⟩, ⟨0, 2, 0⟩⟩
    world := mirrorWorld
    lights := [⟨⟨0, 0, 5⟩, ⟨1, 1, 1⟩, 1⟩]
    backgroundColor := ⟨1 / 5, 1 / 5, 2 / 5⟩ }

/-- The mirror ray of `shadeRay` at the top of `mirrorSphere`: from `(0, 0, 1.001)` upwards. -/
def mirrorRay : Ray ℚ := ⟨⟨0, 0, 1001 / 1000⟩, ⟨0, 0, 1⟩⟩

/-- The record of `shadeRay` on `mirrorWorld`: the top of the mirror sphere. -/
def mirrorHit : HitRecord ℚ :=
  { t := 4, point := ⟨0, 0, 1⟩, normal := ⟨0, 0, 1⟩, frontFace := true, material := mirrorMat }

/-- The record of `mirrorRay` on `mirrorWorld`: the near pole of the coloured sphere. -/
def colourHit : HitRecord ℚ :=
  { t := 7999 / 1000, point := ⟨0, 0, 9⟩, normal := ⟨0, 0, -1⟩, frontFace := true,
    material := redMat }

/-- A renderer state for an image of one pixel. -/
def onePixelTracer : RayTracer ℚ := { shadeTracer with imageWidth := 1, imageHeight := 1 }

/-- The byte the render loop computes for position `j` of a buffer of rows of `W` pixels:
channel `j % 3` of the pixel in column `j / 3 % W` of row `j / 3 / W`. -/
def RayTracer.byteAt [FloorRing F] (sqrt : F → F) (pow : F → F → F) (rt : RayTracer F)
    (W j : Nat) : Nat :=
  channelByte sqrt
    ((rt.pixelColor sqrt pow ((j / 3 % W : Nat) : Int) ((j / 3 / W : Nat) : Int)).get (j % 3))

/-- The decimal numbers of an output, in the order in which they were written. -/
def Chunk.ints : List Chunk → List Int
  | [] => []
  | Chunk.int n :: cs => n :: Chunk.ints cs
  | _ :: cs => Chunk.ints cs

/-! ## Building the scene -/

/-- The method `HittableList::add`. -/
def HittableList.add (l : HittableList F) (object : Hittable F) : HittableList F :=
  ⟨l.objects ++ [object]⟩

/-- The method `HittableList::clear`. -/
def HittableList.clear (_l : HittableList F) : HittableList F := ⟨[]⟩

/-- The method `RayTracer::setCamera`; the aspect ratio is
`static_cast<float>(imageWidth) / imageHeight`. -/
def RayTracer.setCamera (sqrt tan : F → F) (rt : RayTracer F) (lookFrom lookAt up : Vector3f F)
    (fov : F) : RayTracer F :=
  { rt with
    camera := Camera.new sqrt tan lookFrom lookAt up fov
      ((rt.imageWidth : F) / (rt.imageHeight : F)) }

/-- The method `RayTracer::addLight(position, color, intensity)`. -/
def RayTracer.addLight (rt : RayTracer F) (position color : Vector3f F) (intensity : F) :
    RayTracer F :=
  { rt with lights := rt.lights ++ [⟨position, color, intensity⟩] }

/-- The method `RayTracer::addSphere`. -/
def RayTracer.addSphere (rt : RayTracer F) (center : Vector3f F) (radius : F)
    (material : Material F) : RayTracer F :=
  { rt with world := rt.world.add (.sphere ⟨center, radius, material⟩) }

/-- The method `RayTracer::addBox`. -/
def RayTracer.addBox (rt : RayTracer F) (min max : Vector3f F) (material : Material F) :
    RayTracer F :=
  { rt with world := rt.world.add (.box ⟨min, max, material⟩) }

/-- The method `RayTracer::addTriangle`. -/
def RayTracer.addTriangle (sqrt : F → F) (rt : RayTracer F) (v0 v1 v2 : Vector3f F)
    (material : Material F) : RayTracer F :=
  { rt with world := rt.world.add (.triangle (Triangle.new sqrt v0 v1 v2 material)) }

/-- The method `RayTracer::addMesh`: the loop `for (i = 0; i < indices.size(); i += 3)`
with its guard `i + 2 < indices.size()`.  An index outside `vertices` has no defined
meaning in the source; the model reads the zero vector there. -/
def RayTracer.addMesh (sqrt : F → F) (rt : RayTracer F) (vertices : List (Vector3f F))
    (indices : List Nat) (material : Material F) : RayTracer F :=
  match indices with
  | i0 :: i1 :: i2 :: rest =>
    RayTracer.addMesh sqrt
      (rt.addTriangle sqrt (vertices.getD i0 Vector3f.zero) (vertices.getD i1 Vector3f.zero)
        (vertices.getD i2 Vector3f.zero) material)
      vertices rest material
  | _ => rt

/-- The method `RayTracer::setMaxReflectionDepth`. -/
def RayTracer.setMaxReflectionDepth (rt : RayTracer F) (depth : Int) : RayTracer F :=
  { rt with maxReflectionDepth := depth }

/-- The method `RayTracer::setReflectionsEnabled`. -/
def RayTracer.setReflectionsEnabled (rt : RayTracer F) (enabled : Bool) : RayTracer F :=
  { rt with reflectionsEnabled := enabled }

/-- The method `RayTracer::setBackgroundColor`. -/
def RayTracer.setBackgroundColor (rt : RayTracer F) (color : Vector3f F) : RayTracer F :=
  { rt with backgroundColor := color }

/-- The method `RayTracer::clearScene`. -/
def RayTracer.clearScene (rt : RayTracer F) : RayTracer F :=
  { rt with world := rt.world.clear, lights := [] }

/-! ## Mesh import -/

/-- Modelled from the spec: a polygon of the mesh the import collaborator returns
(`models/OFFReader.h`): its number of sides `noSides` and the 0-based indices `v[0]`,
`v[1]`, ... of its vertices.  An index `v[j]` beyond the list reads 0 in the model. -/
structure Polygon where
  noSides : Int
  v : List Nat
deriving DecidableEq

/-- Modelled from the spec: the mesh the import collaborator `readOffFile` returns
(`models/OFFReader.h`): `numberOfVertices` vertex positions and `numberOfPolygons`
polygons. -/
structure OffModel (F : Type) where
  vertices : List (Vector3f F)
  polygons : List Polygon

/-- The body of the polygon loop of `addMeshFromFile`: the indices pushed for one polygon. -/
def Polygon.pushIndices (indices : List Nat) (p : Polygon) : List Nat :=
  if p.noSides ≥ 3 then
    let indices := indices ++ [p.v.getD 0 0] ++ [p.v.getD 1 0] ++ [p.v.getD 2 0]
    (List.range' 3 (p.noSides.toNat - 3)).foldl
      (fun indices j => indices ++ [p.v.getD 0 0] ++ [p.v.getD (j - 1) 0] ++ [p.v.getD j 0])
      indices
  else indices

/-- The function `addMeshFromFile` of `ray_tracer_demo.cpp`.  The import collaborator
`readOffFile` is a parameter; `none` is its null result. -/
def addMeshFromFile (sqrt : F → F) (readOffFile : String → Option (OffModel F))
    (rayTracer : RayTracer F) (filename : String) (position : Vector3f F) (scale : F)
    (material : Material F) : RayTracer F :=
  match readOffFile filename with
  | none => rayTracer
  | some model =>
    let vertices : List (Vector3f F) :=
      model.vertices.foldl
        (fun vertices p =>
          vertices ++
            [⟨p.x * scale + position.x, p.y * scale + position.y, p.z * scale + position.z⟩])
        []
    let indices : List Nat := model.polygons.foldl Polygon.pushIndices []
    rayTracer.addMesh sqrt vertices indices material

/-! ## The scene file -/

/-- The value `ss >> x` stores for the `i`-th token of a line, `toFloat` being the
conversion of the stream library.  A line with fewer tokens leaves the local as it was; the
model reads 0 there. -/
def field (toFloat : String → F) (line : List String) (i : Nat) : F :=
  match line.get? i with
  | some s => toFloat s
  | none => 0

/-- The material fields of a directive, starting at token `i`: colour, ambient, diffuse,
specular, shininess, reflectivity. -/
def materialAt (toFloat : String → F) (line : List String) (i : Nat) : Material F :=
  { color := ⟨field toFloat line i, field toFloat line (i + 1), field toFloat line (i + 2)⟩
    ambientCoef := field toFloat line (i + 3)
    diffuseCoef := field toFloat line (i + 4)
    specularCoef := field toFloat line (i + 5)
    shininess := field toFloat line (i + 6)
    reflectivity := field toFloat line (i + 7) }

/-- The body of the `while (std::getline(file, line))` loop of `loadSceneFromFile`.  A line
is given by its whitespace-separated tokens, which is how the extractions `ss >> ...` see
it; `toFloat` and `toInt` are the conversions of the stream library. -/
def RayTracer.loadLine (sqrt tan : F → F) (toFloat : String → F) (toInt : String → Int)
    (readOffFile : String → Option (OffModel F)) (rt : RayTracer F) (line : List String) :
    RayTracer F :=
  let type := line.headD ""
  let f := field toFloat line
  if type = "camera" then
    rt.setCamera sqrt tan ⟨f 1, f 2, f 3⟩ ⟨f 4, f 5, f 6⟩ ⟨f 7, f 8, f 9⟩ (f 10)
  else if type = "light" then
    rt.addLight ⟨f 1, f 2, f 3⟩ ⟨f 4, f 5, f 6⟩ (f 7)
  else if type = "sphere" then
    rt.addSphere ⟨f 1, f 2, f 3⟩ (f 4) (materialAt toFloat line 5)
  else if type = "box" then
    rt.addBox ⟨f 1, f 2, f 3⟩ ⟨f 4, f 5, f 6⟩ (materialAt toFloat line 7)
  else if type = "triangle" then
    rt.addTriangle sqrt ⟨f 1, f 2, f 3⟩ ⟨f 4, f 5, f 6⟩ ⟨f 7, f 8, f 9⟩
      (materialAt toFloat line 10)
  else if type = "background" then
    rt.setBackgroundColor ⟨f 1, f 2, f 3⟩
  else if type = "reflections" then
    let enabled := toInt (line.getD 1 "")
    let depth := toInt (line.getD 2 "")
    (rt.setReflectionsEnabled (enabled != 0)).setMaxReflectionDepth depth
  else if type = "off_model" then
    let filePath := line.getD 1 ""
    let mat := materialAt toFloat line 2
    let scale := mat.color.x * 5
    addMeshFromFile sqrt readOffFile rt filePath ⟨0, 0, 0⟩ scale mat
  else rt

/-- The method `RayTracer::loadSceneFromFile`: the return value and the state after the
call.  `file` is `none` when the file cannot be opened, else its lines. -/
def RayTracer.loadSceneFromFile (sqrt tan : F → F) (toFloat : String → F)
    (toInt : String → Int) (readOffFile : String → Option (OffModel F)) (rt : RayTracer F)
    (file : Option (List (List String))) : Bool × RayTracer F :=
  match file with
  | none => (false, rt)
  | some lines =>
    let rt := rt.clearScene
    let rt := lines.foldl (RayTracer.loadLine sqrt tan toFloat toInt readOffFile) rt
    let rt := if rt.lights.isEmpty then rt.addLight ⟨10, 10, 10⟩ ⟨1, 1, 1⟩ 1 else rt
    (true, rt)

/-! ## The recursion of the integrator, made explicit -/

/-- The method `RayTracer::rayColorWithReflection` run with a bound `fuel` on the number of
nested invocations: the control flow of the source, with `none` when an invocation would
exceed the bound. -/
def RayTracer.rayColorWithReflectionFuel (sqrt : F → F) (pow : F → F → F) (rt : RayTracer F) :
    Nat → Ray F → HittableList F → Int → Option (Vector3f F)
  | 0, _, _, _ => none
  | fuel + 1, ray, world, depth =>
    if depth ≤ 0 then some (Vector3f.mk 0 0 0)
    else
      match world.hit sqrt ray (1 / 1000) ⊤ HitRecord.fresh with
      | some rec =>
        let directColor := rt.calculateLighting sqrt pow rec ray world
        if rec.material.reflectivity > 0 then
          let reflected := RayTracer.reflect ray.direction rec.normal
          let reflectionRay := Ray.new sqrt (rec.point + rec.normal.scale (1 / 1000)) reflected
          match RayTracer.rayColorWithReflectionFuel sqrt pow rt fuel reflectionRay world
              (depth - 1) with
          | some reflectionColor =>
            some (directColor.scale (1 - rec.material.reflectivity) +
              reflectionColor.scale rec.material.reflectivity)
          | none => none
        else some directColor
      | none => some (rt.background ray)

/-- The number of recursive invocations that `rayColorWithReflection(ray, world, depth)`
makes, one inside the other: the control flow of the source, counting the calls. -/
def RayTracer.recursiveCalls (sqrt : F → F) (ray : Ray F) (world : HittableList F)
    (depth : Int) : Nat :=
  if depth ≤ 0 then 0
  else
    match world.hit sqrt ray (1 / 1000) ⊤ HitRecord.fresh with
    | some rec =>
      if rec.material.reflectivity > 0 then
        let reflected := RayTracer.reflect ray.direction rec.normal
        let reflectionRay := Ray.new sqrt (rec.point + rec.normal.scale (1 / 1000)) reflected
        1 + RayTracer.recursiveCalls sqrt reflectionRay world (depth - 1)
      else 0
    | none => 0
termination_by depth.toNat
decreasing_by omega

/-! ## Auxiliary definitions for the scene loader -/

/-- The triangles `addMesh` adds for a list of indices, three at a time. -/
def meshTriangles (sqrt : F → F) (vertices : List (Vector3f F)) (material : Material F) :
    List Nat → List (Hittable F)
  | i0 :: i1 :: i2 :: rest =>
    Hittable.triangle
        (Triangle.new sqrt (vertices.getD i0 Vector3f.zero) (vertices.getD i1 Vector3f.zero)
          (vertices.getD i2 Vector3f.zero) material) ::
      meshTriangles sqrt vertices material rest
  | _ => []

/-- The light a `light` directive describes: position, colour, intensity. -/
def lightOfLine (toFloat : String → F) (line : List String) : Light F :=
  ⟨⟨field toFloat line 1, field toFloat line 2, field toFloat line 3⟩,
    ⟨field toFloat line 4, field toFloat line 5, field toFloat line 6⟩, field toFloat line 7⟩

/-- The keywords `loadSceneFromFile` recognises. -/
def sceneKeywords : List String :=
  ["camera", "light", "sphere", "box", "triangle", "background", "reflections", "off_model"]

/-- A reader of unsigned decimal numerals, for the concrete scene files. -/
def readDecimal (s : String) : ℚ :=
  ((s.data.foldl (fun n c => 10 * n + (c.toNat - 48)) 0 : Nat) : ℚ)

/-- A reader of unsigned decimal integers, for the concrete scene files. -/
def readInteger (s : String) : Int :=
  ((s.data.foldl (fun n c => 10 * n + (c.toNat - 48)) 0 : Nat) : Int)

/-- The primitive a well-formed `sphere`, `box` or `triangle` directive describes, in the
field order of the scene format: `Sphere(center xyz, radius)`, `Box(min xyz, max xyz)`,
`Triangle(v0, v1, v2)`, each followed by `Material(color rgb, ambient, diffuse, specular,
shininess, reflectivity)`.  Other lines describe none. -/
def primitiveOfLine (sqrt : F → F) (toFloat : String → F) : List String → Option (Hittable F)
  | [kw, cx, cy, cz, r, cr, cg, cb, a, d, s, sh, rf] =>
    if kw = "sphere" then
      some (Hittable.sphere ⟨⟨toFloat cx, toFloat cy, toFloat cz⟩, toFloat r,
        ⟨⟨toFloat cr, toFloat cg, toFloat cb⟩, toFloat a, toFloat d, toFloat s, toFloat sh,
          toFloat rf⟩⟩)
    else none
  | [kw, x0, y0, z0, x1, y1, z1, cr, cg, cb, a, d, s, sh, rf] =>
    if kw = "box" then
      some (Hittable.box ⟨⟨toFloat x0, toFloat y0, toFloat z0⟩,
        ⟨toFloat x1, toFloat y1, toFloat z1⟩,
        ⟨⟨toFloat cr, toFloat cg, toFloat cb⟩, toFloat a, toFloat d, toFloat s, toFloat sh,
          toFloat rf⟩⟩)
    else none
  | [kw, x0, y0, z0, x1, y1, z1, x2, y2, z2, cr, cg, cb, a, d, s, sh, rf] =>
    if kw = "triangle" then
      some (Hittable.triangle (Triangle.new sqrt ⟨toFloat x0, toFloat y0, toFloat z0⟩
        ⟨toFloat x1, toFloat y1, toFloat z1⟩ ⟨toFloat x2, toFloat y2, toFloat z2⟩
        ⟨⟨toFloat cr, toFloat cg, toFloat cb⟩, toFloat a, toFloat d, toFloat s, toFloat sh,
          toFloat rf⟩))
    else none
  | _ => none

/-! ## Concrete scene files -/

/-- A scene file of three primitives. -/
def primitiveScene : List (List String) :=
  [["sphere", "0", "0", "0", "1", "1", "0", "0", "0", "1", "0", "32", "0"],
    ["box", "0", "0", "0", "1", "1", "1", "0", "1", "0", "0", "1", "0", "32", "0"],
    ["triangle", "0", "0", "0", "1", "0", "0", "0", "1", "0", "0", "0", "1", "0", "1", "0",
      "32", "0"]]

/-- A scene file that names a mesh file and then a sphere. -/
def brokenMeshScene : List (List String) :=
  [["off_model", "missing.off", "1", "1", "1", "0", "1", "0", "32", "0"],
    ["sphere", "0", "0", "0", "1", "1", "0", "0", "0", "1", "0", "32", "0"]]

/-- An import collaborator that can read no file. -/
def noMesh : String → Option (OffModel ℚ) := fun _ => none

/-- The sphere of the concrete scene files. -/
def sceneSphere : Hittable ℚ :=
  Hittable.sphere ⟨⟨0, 0, 0⟩, 1, ⟨⟨1, 0, 0⟩, 0, 1, 0, 32, 0⟩⟩

/-- The box of `primitiveScene`. -/
def sceneBox : Hittable ℚ :=
  Hittable.box ⟨⟨0, 0, 0⟩, ⟨1, 1, 1⟩, ⟨⟨0, 1, 0⟩, 0, 1, 0, 32, 0⟩⟩

/-- The triangle of `primitiveScene`. -/
def sceneTriangle : Hittable ℚ :=
  Hittable.triangle
    (Triangle.new qsqrt ⟨0, 0, 0⟩ ⟨1, 0, 0⟩ ⟨0, 1, 0⟩ ⟨⟨0, 0, 1⟩, 0, 1, 0, 32, 0⟩)

/-- The vertex triples of the fan of one polygon: `(v[0], v[j-1], v[j])` for
`j = 2, ..., noSides - 1`; none for fewer than 3 sides. -/
def Polygon.fan (p : Polygon) : List (Nat × Nat × Nat) :=
  if 3 ≤ p.noSides then
    (List.range' 2 (p.noSides.toNat - 2)).map
      (fun j => (p.v.getD 0 0, p.v.getD (j - 1) 0, p.v.getD j 0))
  else []

/-- A square of side 1 in the plane `z = 0`, as one polygon of four sides, followed by a
polygon of two sides. -/
def squareModel : OffModel ℚ :=
  { vertices := [⟨0, 0, 0⟩, ⟨1, 0, 0⟩, ⟨1, 1, 0⟩, ⟨0, 1, 0⟩]
    polygons := [⟨4, [0, 1, 2, 3]⟩, ⟨2, [0, 1]⟩] }

/-- An import collaborator that returns `squareModel` for every file. -/
def squareReader : String → Option (OffModel ℚ) := fun _ => some squareModel

/-- The position `addMeshFromFile` gives vertex `i` of the mesh: scaled, then translated. -/
def placeVertex (model : OffModel F) (scale : F) (position : Vector3f F) (i : Nat) :
    Vector3f F :=
  ⟨(model.vertices.getD i Vector3f.zero).x * scale + position.x,
    (model.vertices.getD i Vector3f.zero).y * scale + position.y,
    (model.vertices.getD i Vector3f.zero).z * scale + position.z⟩

/-- The triangle `(0,0,0)`, `(1,0,0)`, `(0,1,0)` with its face normal `(0,0,1)`. -/
def flatTriangle : Triangle ℚ :=
  ⟨⟨0, 0, 0⟩, ⟨1, 0, 0⟩, ⟨0, 1, 0⟩, ⟨0, 0, 1⟩, Material.default⟩

/-- A ray from `(1/4, 1/4, 2)` straight down. -/
def dropRay : Ray ℚ := ⟨⟨1 / 4, 1 / 4, 2⟩, ⟨0, 0, -1⟩⟩

/-- The shadow ray `calculateLighting` builds at the hit `rec` towards `light`: from
`rec.point + rec.normal * 0.001` in the normalised direction of the light. -/
def RayTracer.shadowRay (sqrt : F → F) (rec : HitRecord F) (light : Light F) : Ray F :=
  Ray.new sqrt (rec.point + rec.normal.scale (1 / 1000))
    ((light.position - rec.point).Normalize sqrt)

/-- The reflection ray `rayColorWithReflection` builds at the hit `rec` of `ray`. -/
def RayTracer.reflectionRay (sqrt : F → F) (rec : HitRecord F) (ray : Ray F) : Ray F :=
  Ray.new sqrt (rec.point + rec.normal.scale (1 / 1000))
    (RayTracer.reflect ray.direction rec.normal)

/-! ## The intersection tests with their divisions checked -/

/-- The quotient `a / b` as the source computes it: undefined, `none`, for a zero
divisor. -/
def checkedDiv (a b : F) : Option F := if b = 0 then none else some (a / b)

/-- The `else` branch of the slab loop of `Box::hit`, after `invD` has been computed. -/
def Box.slabBody (b : Box F) (ray : Ray F) (tMin : F) (st : SlabState F) (i : Nat) (invD : F) :
    Option (SlabState F) :=
  let t0 := (b.boxMin.get i - ray.origin.get i) * invD
  let t1 := (b.boxMax.get i - ray.origin.get i) * invD
  let p : F × F := if t0 > t1 then (t1, t0) else (t0, t1)
  let t0 := p.1
  let t1 := p.2
  let st1 : SlabState F :=
    if t0 > st.tNear then { st with tNear := t0, hitAxis := (i : Int), hitIsMin := true }
    else st
  let st2 : SlabState F :=
    if (t1 : WithTop F) < st1.tFar then
      let st' := { st1 with tFar := (t1 : WithTop F) }
      if t1 < t0 then { st' with hitAxis := (i : Int), hitIsMin := false } else st'
    else st1
  if (st2.tNear : WithTop F) > st2.tFar then none
  else if st2.tFar < (tMin : WithTop F) then none
  else some st2

/-- One iteration of the slab loop of `Box::hit` with the division `1.0f / direction[i]`
checked: the outer `none` is a division by zero, the inner one is `return false`. -/
def Box.slabStepChecked (b : Box F) (ray : Ray F) (tMin : F) (st : SlabState F) (i : Nat) :
    Option (Option (SlabState F)) :=
  if |ray.direction.get i| < 1 / 10 ^ 8 then
    if ray.origin.get i < b.boxMin.get i ∨ ray.origin.get i > b.boxMax.get i then some none
    else some (some st)
  else
    match checkedDiv 1 (ray.direction.get i) with
    | none => none
    | some invD => some (b.slabBody ray tMin st i invD)

/-- The method `Box::hit` with its divisions checked: the outer `none` is a division by
zero. -/
def Box.hitChecked (b : Box F) (ray : Ray F) (tMin : F) (tMax : WithTop F)
    (rec : HitRecord F) : Option (Option (HitRecord F)) :=
  let loop : Option (Option (SlabState F)) :=
    [0, 1, 2].foldl
      (fun acc i =>
        match acc with
        | some (some st) => b.slabStepChecked ray tMin st i
        | other => other)
      (some (some { tNear := tMin, tFar := tMax, hitAxis := -1, hitIsMin := false }))
  match loop with
  | none => none
  | some none => some none
  | some (some st) =>
    if (st.tNear : WithTop F) > tMax then some none
    else some (some (b.fill ray st rec))

/-- The part of `Triangle::hit` after `f = 1.0f / a` has been computed. -/
def Triangle.hitBody (tr : Triangle F) (ray : Ray F) (tMin : F) (tMax : WithTop F)
    (rec : HitRecord F) (f : F) : Option (HitRecord F) :=
  let edge1 := tr.v1 - tr.v0
  let edge2 := tr.v2 - tr.v0
  let h := ray.direction.Cross edge2
  let s := ray.origin - tr.v0
  let u := f * s.Dot h
  if u < 0 ∨ u > 1 then none
  else
    let q := s.Cross edge1
    let v := f * ray.direction.Dot q
    if v < 0 ∨ u + v > 1 then none
    else
      let t := f * edge2.Dot q
      if t < tMin ∨ (t : WithTop F) > tMax then none
      else some (tr.fill ray t rec)

/-- The method `Triangle::hit` with the division `1.0f / a` checked: the outer `none` is a
division by zero. -/
def Triangle.hitChecked (tr : Triangle F) (ray : Ray F) (tMin : F) (tMax : WithTop F)
    (rec : HitRecord F) : Option (Option (HitRecord F)) :=
  let edge1 := tr.v1 - tr.v0
  let edge2 := tr.v2 - tr.v0
  let h := ray.direction.Cross edge2
  let a := edge1.Dot h
  if |a| < 1 / 10 ^ 8 then some none
  else
    match checkedDiv 1 a with
    | none => none
    | some f => some (tr.hitBody ray tMin tMax rec f)

/-! ## Line rasterisation (`src/LineRasterizer.h`) -/

/-- The structure `Pixel`. -/
structure Pixel where
  x : Int
  y : Int
deriving DecidableEq

/-- The loop `while (true)` of `LineRasterizer::BresenhamLine`, run for at most `fuel`
iterations: `none` when the end point is not reached within the bound.  `int` arithmetic is
done in `Int`, without overflow. -/
def LineRasterizer.bresenhamLoop (x1 y1 deltaX deltaY stepX stepY : Int) :
    Nat → Int → Int → Int → List Pixel → Option (List Pixel)
  | 0, _, _, _, _ => none
  | fuel + 1, x0, y0, error, pixels =>
    let pixels := pixels ++ [⟨x0, y0⟩]
    if x0 = x1 ∧ y0 = y1 then some pixels
    else
      let error_next := 2 * error
      let p : Int × Int :=
        if error_next > -deltaY then (error - deltaY, x0 + stepX) else (error, x0)
      let error := p.1
      let x0 := p.2
      let q : Int × Int :=
        if error_next < deltaX then (error + deltaX, y0 + stepY) else (error, y0)
      let error := q.1
      let y0 := q.2
      LineRasterizer.bresenhamLoop x1 y1 deltaX deltaY stepX stepY fuel x0 y0 error pixels

/-- The function `LineRasterizer::BresenhamLine(x0, y0, x1, y1)`, with a bound `fuel` on the
number of iterations of its loop. -/
def LineRasterizer.BresenhamLine (fuel : Nat) (x0 y0 x1 y1 : Int) : Option (List Pixel) :=
  let deltaX := |x1 - x0|
  let deltaY := |y1 - y0|
  let stepX : Int := if x0 < x1 then 1 else -1
  let stepY : Int := if y0 < y1 then 1 else -1
  let error := deltaX - deltaY
  LineRasterizer.bresenhamLoop x1 y1 deltaX deltaY stepX stepY fuel x0 y0 error []

/-- The material of a primitive. -/
def Hittable.material : Hittable F → Material F
  | .sphere s => s.material
  | .box b => b.material
  | .triangle t => t.material

/-- Two coincident unit spheres at the origin: a mirror first, a red one second. -/
def twinWorld : HittableList ℚ :=
  ⟨[.sphere ⟨⟨0, 0, 0⟩, 1, mirrorMat⟩, .sphere ⟨⟨0, 0, 0⟩, 1, redMat⟩]⟩

/-- Two consecutive pixels of a line: distinct, and at most 1 apart in each coordinate. -/
def LineRasterizer.Adjacent (p q : Pixel) : Prop :=
  p ≠ q ∧ |q.x - p.x| ≤ 1 ∧ |q.y - p.y| ≤ 1

/-- A list of `n + 1` pixels from `first` to `last` whose consecutive pixels are
adjacent. -/
def LineRasterizer.IsPath (p : List Pixel) (first last : Pixel) (n : Nat) : Prop :=
  p.head? = some first ∧ p.getLast? = some last ∧ p.length = n + 1 ∧
    List.Chain' LineRasterizer.Adjacent p

/-! ## Auxiliary definitions for the face flag and the colour bound -/

/-- The vector `n` is the geometric outward normal of the box `b` at the point `p` of its
boundary: the unit vector of an axis `i`, positive on the face `p[i] = boxMax[i]` and
negative on the face `p[i] = boxMin[i]`. -/
def Box.IsOutwardNormal (b : Box F) (p n : Vector3f F) : Prop :=
  b.Contains p ∧
    ∃ i, i < 3 ∧ ((p.get i = b.boxMax.get i ∧ n = Vector3f.zero.set i 1) ∨
      (p.get i = b.boxMin.get i ∧ n = Vector3f.zero.set i (-1)))

/-- A ray along the x axis that starts at `(3, 0, 0)`, outside `unitBox`, and runs in the
negative x direction. -/
def sideRay : Ray ℚ := ⟨⟨3, 0, 0⟩, ⟨-1, 0, 0⟩⟩

namespace Vector3f

@[simp] theorem add_x (a b : Vector3f F) : (a + b).x = a.x + b.x := rfl
@[simp] theorem add_y (a b : Vector3f F) : (a + b).y = a.y + b.y := rfl
@[simp] theorem add_z (a b : Vector3f F) : (a + b).z = a.z + b.z := rfl
@[simp] theorem sub_x (a b : Vector3f F) : (a - b).x = a.x - b.x := rfl
@[simp] theorem sub_y (a b : Vector3f F) : (a - b).y = a.y - b.y := rfl
@[simp] theorem sub_z (a b : Vector3f F) : (a - b).z = a.z - b.z := rfl
@[simp] theorem neg_x (a : Vector3f F) : (-a).x = -a.x := rfl
@[simp] theorem neg_y (a : Vector3f F) : (-a).y = -a.y := rfl
@[simp] theorem neg_z (a : Vector3f F) : (-a).z = -a.z := rfl
@[simp] theorem scale_x (a : Vector3f F) (s : F) : (a.scale s).x = a.x * s := rfl
@[simp] theorem scale_y (a : Vector3f F) (s : F) : (a.scale s).y = a.y * s := rfl
@[simp] theorem scale_z (a : Vector3f F) (s : F) : (a.scale s).z = a.z * s := rfl

theorem dot_def (a b : Vector3f F) : a.Dot b = a.x * b.x + a.y * b.y + a.z * b.z := rfl

theorem dot_self_nonneg (a : Vector3f F) : 0 ≤ a.Dot a := by
  rw [dot_def]; nlinarith [mul_self_nonneg a.x, mul_self_nonneg a.y, mul_self_nonneg a.z]

end Vector3f

theorem qsqrt_nonneg (q : ℚ) : 0 ≤ qsqrt q := by
  unfold qsqrt; positivity

theorem qsqrt_mul_self (x : ℚ) (hx : 0 ≤ x) : qsqrt (x * x) = x := by
  unfold qsqrt
  have hn : 0 ≤ x.num := Rat.num_nonneg.mpr hx
  rw [Rat.mul_self_num, Rat.mul_self_den]
  obtain ⟨n, hn'⟩ := Int.eq_ofNat_of_zero_le hn
  rw [hn']
  have : ((n : ℤ) * (n : ℤ)).toNat = n * n := by
    rw [← Int.natCast_mul]; exact Int.toNat_natCast _
  rw [this, Nat.sqrt_eq, Nat.sqrt_eq]
  have := Rat.num_div_den x
  rw [hn'] at this
  simpa using this

/-! ## Sphere: the accepted root -/

@[simp] theorem Sphere.fill_t_sphere (s : Sphere F) (ray : Ray F) (root : F) (rec : HitRecord F) :
    (s.fill ray root rec).t = root := rfl

theorem Sphere.fill_indep_sphere (s : Sphere F) (ray : Ray F) (root : F) (rec rec' : HitRecord F) :
    s.fill ray root rec = s.fill ray root rec' := rfl

/-- The two roots are ordered when `sqrt` returns a non-negative value. -/
theorem Sphere.rootNear_le_rootFar (sqrt : F → F) (s : Sphere F) (ray : Ray F)
    (hs : 0 ≤ sqrt (s.discriminant ray)) : s.rootNear sqrt ray ≤ s.rootFar sqrt ray := by
  unfold Sphere.rootNear Sphere.rootFar
  apply div_le_div_of_nonneg_right _ (Vector3f.dot_self_nonneg _)
  linarith

/-- `Sphere::hit` as a function of the window: the verdict in closed form. -/
theorem Sphere.hit_eq_sphere (sqrt : F → F) (s : Sphere F) (ray : Ray F) (tMin : F) (tMax : WithTop F)
    (rec : HitRecord F) :
    s.hit sqrt ray tMin tMax rec =
      if s.discriminant ray < 0 then none
      else if tMin ≤ s.rootNear sqrt ray ∧ ((s.rootNear sqrt ray : F) : WithTop F) ≤ tMax then
        some (s.fill ray (s.rootNear sqrt ray) rec)
      else if tMin ≤ s.rootFar sqrt ray ∧ ((s.rootFar sqrt ray : F) : WithTop F) ≤ tMax then
        some (s.fill ray (s.rootFar sqrt ray) rec)
      else none := by
  unfold Sphere.hit
  have e : ∀ r : F, (tMin ≤ r ∧ (r : WithTop F) ≤ tMax) ↔ ¬ (r < tMin ∨ (r : WithTop F) > tMax) :=
    fun r => by rw [not_or, not_lt, gt_iff_lt, not_lt]
  simp only [e]
  split_ifs <;> rfl

/-- Narrowing the window of `Sphere::hit` keeps exactly the hits within the narrower window. -/
theorem Sphere.hit_narrow_sphere (sqrt : F → F) (hs : ∀ x, 0 ≤ sqrt x) (s : Sphere F) (ray : Ray F)
    (tMin : F) (c tMax : WithTop F) (hc : c ≤ tMax) (rec rec' : HitRecord F) :
    s.hit sqrt ray tMin c rec =
      (s.hit sqrt ray tMin tMax rec').filter (fun r => decide ((r.t : WithTop F) ≤ c)) := by
  rw [Sphere.hit_eq_sphere, Sphere.hit_eq_sphere]
  have hord := Sphere.rootNear_le_rootFar sqrt s ray (hs _)
  by_cases hd : s.discriminant ray < 0
  · simp [hd]
  · simp only [hd, if_false]
    by_cases h1 : tMin ≤ s.rootNear sqrt ray ∧ ((s.rootNear sqrt ray : F) : WithTop F) ≤ tMax
    · by_cases h1c : ((s.rootNear sqrt ray : F) : WithTop F) ≤ c
      · simp [h1, h1c, Option.filter, Sphere.fill_indep_sphere s ray _ rec rec']
      · have h2c : ¬ ((s.rootFar sqrt ray : F) : WithTop F) ≤ c := fun h =>
          h1c (le_trans (WithTop.coe_le_coe.mpr hord) h)
        simp [h1, h1c, h2c, Option.filter]
    · have h1' : ¬ (tMin ≤ s.rootNear sqrt ray ∧ ((s.rootNear sqrt ray : F) : WithTop F) ≤ c) :=
        fun h => h1 ⟨h.1, le_trans h.2 hc⟩
      simp only [h1, h1', if_false]
      by_cases h2 : tMin ≤ s.rootFar sqrt ray ∧ ((s.rootFar sqrt ray : F) : WithTop F) ≤ tMax
      · by_cases h2c : ((s.rootFar sqrt ray : F) : WithTop F) ≤ c
        · simp [h2, h2c, Option.filter, Sphere.fill_indep_sphere s ray _ rec rec']
        · simp [h2, h2c, Option.filter]
      · have h2' : ¬ (tMin ≤ s.rootFar sqrt ray ∧ ((s.rootFar sqrt ray : F) : WithTop F) ≤ c) :=
          fun h => h2 ⟨h.1, le_trans h.2 hc⟩
        simp [h2, h2', Option.filter]

/-! ## Box: the slab loop in closed form -/

theorem Box.slabLo_le_slabHi (b : Box F) (ray : Ray F) (i : Nat) :
    b.slabLo ray i ≤ b.slabHi ray i :=
  le_trans (min_le_left _ _) (le_max_left _ _)

/-- One iteration of the slab loop on an axis the ray is not parallel to. -/
theorem Box.slabStep_eq (b : Box F) (ray : Ray F) (tMin : F) (st : SlabState F) (i : Nat)
    (hp : ¬ |ray.direction.get i| < 1 / 10 ^ 8) :
    b.slabStep ray tMin st i =
      if ((max st.tNear (b.slabLo ray i) : F) : WithTop F) >
          min st.tFar ((b.slabHi ray i : F) : WithTop F) then none
      else if min st.tFar ((b.slabHi ray i : F) : WithTop F) < ((tMin : F) : WithTop F) then none
      else some
        { tNear := max st.tNear (b.slabLo ray i)
          tFar := min st.tFar ((b.slabHi ray i : F) : WithTop F)
          hitAxis := if st.tNear < b.slabLo ray i then (i : Int) else st.hitAxis
          hitIsMin := if st.tNear < b.slabLo ray i then true else st.hitIsMin } := by
  unfold Box.slabStep Box.slabLo Box.slabHi
  simp only [hp, if_false]
  generalize (b.boxMin.get i - ray.origin.get i) * (1 / ray.direction.get i) = t0
  generalize (b.boxMax.get i - ray.origin.get i) * (1 / ray.direction.get i) = t1
  by_cases h01 : t0 > t1
  · have hmin : min t0 t1 = t1 := min_eq_right h01.le
    have hmax : max t0 t1 = t0 := max_eq_left h01.le
    have hdead : ¬ t0 < t1 := not_lt.mpr h01.le
    simp only [h01, if_true, hmin, hmax, hdead, if_false, gt_iff_lt]
    by_cases hn : st.tNear < t1
    · by_cases hf : ((t0 : F) : WithTop F) < st.tFar
      · simp [hn, hf, max_eq_right hn.le, min_eq_right hf.le]
      · simp [hn, hf, max_eq_right hn.le, min_eq_left (not_lt.mp hf)]
    · by_cases hf : ((t0 : F) : WithTop F) < st.tFar
      · simp [hn, hf, max_eq_left (not_lt.mp hn), min_eq_right hf.le]
      · simp [hn, hf, max_eq_left (not_lt.mp hn), min_eq_left (not_lt.mp hf)]
  · have hmin : min t0 t1 = t0 := min_eq_left (not_lt.mp h01)
    have hmax : max t0 t1 = t1 := max_eq_right (not_lt.mp h01)
    have hdead : ¬ t1 < t0 := h01
    simp only [h01, if_false, hmin, hmax, hdead, gt_iff_lt]
    by_cases hn : st.tNear < t0
    · by_cases hf : ((t1 : F) : WithTop F) < st.tFar
      · simp [hn, hf, max_eq_right hn.le, min_eq_right hf.le]
      · simp [hn, hf, max_eq_right hn.le, min_eq_left (not_lt.mp hf)]
    · by_cases hf : ((t1 : F) : WithTop F) < st.tFar
      · simp [hn, hf, max_eq_left (not_lt.mp hn), min_eq_right hf.le]
      · simp [hn, hf, max_eq_left (not_lt.mp hn), min_eq_left (not_lt.mp hf)]

theorem Box.slabStep_some_iff (b : Box F) (ray : Ray F) (tMin : F) (st st' : SlabState F)
    (i : Nat) (hp : ¬ |ray.direction.get i| < 1 / 10 ^ 8) :
    b.slabStep ray tMin st i = some st' ↔
      (((b.slabNext ray st i).tNear : F) : WithTop F) ≤ (b.slabNext ray st i).tFar ∧
      ((tMin : F) : WithTop F) ≤ (b.slabNext ray st i).tFar ∧ st' = b.slabNext ray st i := by
  rw [Box.slabStep_eq b ray tMin st i hp]
  by_cases h1 : ((max st.tNear (b.slabLo ray i) : F) : WithTop F) >
      min st.tFar ((b.slabHi ray i : F) : WithTop F)
  · rw [if_pos h1]
    constructor
    · intro h; cases h
    · intro h; exact absurd h.1 (not_le.mpr h1)
  · rw [if_neg h1]
    by_cases h2 : min st.tFar ((b.slabHi ray i : F) : WithTop F) < ((tMin : F) : WithTop F)
    · rw [if_pos h2]
      constructor
      · intro h; cases h
      · intro h; exact absurd h.2.1 (not_le.mpr h2)
    · rw [if_neg h2]
      constructor
      · intro h
        injection h with h
        exact ⟨not_lt.mp h1, not_lt.mp h2, h.symm⟩
      · intro h
        rw [h.2.2]; rfl

theorem Box.slabStep_parallel (b : Box F) (ray : Ray F) (tMin : F) (st st' : SlabState F)
    (i : Nat) (hp : |ray.direction.get i| < 1 / 10 ^ 8) :
    b.slabStep ray tMin st i = some st' ↔
      ¬ (ray.origin.get i < b.boxMin.get i ∨ ray.origin.get i > b.boxMax.get i) ∧ st' = st := by
  unfold Box.slabStep
  rw [if_pos hp]
  by_cases ho : ray.origin.get i < b.boxMin.get i ∨ ray.origin.get i > b.boxMax.get i
  · rw [if_pos ho]; simp [ho]
  · rw [if_neg ho]; simp [ho, eq_comm]

theorem Box.slabStep_tNear_le (b : Box F) (ray : Ray F) (tMin : F) (st st' : SlabState F)
    (i : Nat) (h : b.slabStep ray tMin st i = some st') : st.tNear ≤ st'.tNear := by
  by_cases hp : |ray.direction.get i| < 1 / 10 ^ 8
  · rw [Box.slabStep_parallel b ray tMin st st' i hp] at h
    rw [h.2]
  · rw [Box.slabStep_some_iff b ray tMin st st' i hp] at h
    rw [h.2.2]
    exact le_max_left _ _

theorem Box.slabStep_narrow_some (b : Box F) (ray : Ray F) (tMin : F) (c : WithTop F)
    (st st'' : SlabState F) (i : Nat)
    (h : b.slabStep ray tMin (st.narrow c) i = some st'') :
    ∃ st', b.slabStep ray tMin st i = some st' ∧ st'' = st'.narrow c := by
  by_cases hp : |ray.direction.get i| < 1 / 10 ^ 8
  · rw [Box.slabStep_parallel b ray tMin _ st'' i hp] at h
    exact ⟨st, (Box.slabStep_parallel b ray tMin st st i hp).mpr ⟨h.1, rfl⟩, h.2⟩
  · rw [Box.slabStep_some_iff b ray tMin _ st'' i hp] at h
    obtain ⟨h1, h2, h3⟩ := h
    have hle : (b.slabNext ray (st.narrow c) i).tFar ≤ (b.slabNext ray st i).tFar :=
      min_le_min_right _ (min_le_left _ _)
    refine ⟨b.slabNext ray st i,
      (Box.slabStep_some_iff b ray tMin st _ i hp).mpr ⟨le_trans h1 hle, le_trans h2 hle, rfl⟩, ?_⟩
    rw [h3]
    simp only [SlabState.narrow, Box.slabNext, min_right_comm]

theorem Box.slabStep_narrow_of (b : Box F) (ray : Ray F) (tMin : F) (c : WithTop F)
    (st st' : SlabState F) (i : Nat) (h : b.slabStep ray tMin st i = some st')
    (hc : ((st'.tNear : F) : WithTop F) ≤ c) (hm : ((tMin : F) : WithTop F) ≤ c) :
    b.slabStep ray tMin (st.narrow c) i = some (st'.narrow c) := by
  by_cases hp : |ray.direction.get i| < 1 / 10 ^ 8
  · rw [Box.slabStep_parallel b ray tMin st st' i hp] at h
    rw [Box.slabStep_parallel b ray tMin _ _ i hp]
    exact ⟨h.1, by rw [h.2]⟩
  · rw [Box.slabStep_some_iff b ray tMin st st' i hp] at h
    obtain ⟨h1, h2, h3⟩ := h
    subst h3
    rw [Box.slabStep_some_iff b ray tMin _ _ i hp]
    have e : (b.slabNext ray (st.narrow c) i).tFar = min (b.slabNext ray st i).tFar c := by
      simp only [SlabState.narrow, Box.slabNext, min_right_comm]
    refine ⟨?_, ?_, ?_⟩
    · rw [e]; exact le_min h1 hc
    · rw [e]; exact le_min h2 hm
    · simp only [SlabState.narrow, Box.slabNext, min_right_comm]

theorem Box.foldlM_tNear_le (b : Box F) (ray : Ray F) (tMin : F) (l : List Nat) :
    ∀ st st' : SlabState F, l.foldlM (b.slabStep ray tMin) st = some st' →
      st.tNear ≤ st'.tNear := by
  induction l with
  | nil => intro st st' h; simp at h; subst h; exact le_refl _
  | cons i l ih =>
    intro st st' h
    simp only [List.foldlM_cons, Option.bind_eq_bind, Option.bind_eq_some] at h
    obtain ⟨st1, h1, h2⟩ := h
    exact le_trans (b.slabStep_tNear_le ray tMin st st1 i h1) (ih st1 st' h2)

theorem Box.foldlM_narrow_some (b : Box F) (ray : Ray F) (tMin : F) (c : WithTop F)
    (l : List Nat) :
    ∀ st st'' : SlabState F, l.foldlM (b.slabStep ray tMin) (st.narrow c) = some st'' →
      ∃ st', l.foldlM (b.slabStep ray tMin) st = some st' ∧ st'' = st'.narrow c := by
  induction l with
  | nil => intro st st'' h; simp at h; exact ⟨st, by simp, h.symm⟩
  | cons i l ih =>
    intro st st'' h
    simp only [List.foldlM_cons, Option.bind_eq_bind, Option.bind_eq_some] at h ⊢
    obtain ⟨st1, h1, h2⟩ := h
    obtain ⟨st1', h1', e1⟩ := b.slabStep_narrow_some ray tMin c st st1 i h1
    subst e1
    obtain ⟨st', h', e⟩ := ih st1' st'' h2
    exact ⟨st', ⟨st1', h1', h'⟩, e⟩

theorem Box.foldlM_narrow_of (b : Box F) (ray : Ray F) (tMin : F) (c : WithTop F)
    (hm : ((tMin : F) : WithTop F) ≤ c) (l : List Nat) :
    ∀ st st' : SlabState F, l.foldlM (b.slabStep ray tMin) st = some st' →
      ((st'.tNear : F) : WithTop F) ≤ c →
      l.foldlM (b.slabStep ray tMin) (st.narrow c) = some (st'.narrow c) := by
  induction l with
  | nil => intro st st' h _; simp at h ⊢; rw [h]
  | cons i l ih =>
    intro st st' h hc
    simp only [List.foldlM_cons, Option.bind_eq_bind, Option.bind_eq_some] at h ⊢
    obtain ⟨st1, h1, h2⟩ := h
    have hle := b.foldlM_tNear_le ray tMin l st1 st' h2
    have hc1 : ((st1.tNear : F) : WithTop F) ≤ c :=
      le_trans (WithTop.coe_le_coe.mpr hle) hc
    exact ⟨st1.narrow c, b.slabStep_narrow_of ray tMin c st st1 i h1 hc1 hm, ih st1 st' h2 hc⟩

theorem filter_some_iff {α : Type} (p : α → Bool) (o : Option α) (r : α) :
    o.filter p = some r ↔ o = some r ∧ p r = true := by
  cases o with
  | none => simp [Option.filter]
  | some a =>
    by_cases hp : p a = true
    · simp only [Option.filter, hp, if_true, Option.some.injEq]
      constructor
      · intro h; subst h; exact ⟨rfl, hp⟩
      · intro h; exact h.1
    · simp only [Option.filter, hp, Option.some.injEq]
      constructor
      · intro h; simp at h
      · intro h; rw [h.1] at hp; exact absurd h.2 hp

@[simp] theorem Box.fill_t_box (b : Box F) (ray : Ray F) (st : SlabState F) (rec : HitRecord F) :
    (b.fill ray st rec).t = st.tNear := rfl

theorem Box.slabs_narrow_init (tMin : F) (c tMax : WithTop F) (hc : c ≤ tMax) :
    ({ tNear := tMin, tFar := c, hitAxis := -1, hitIsMin := false } : SlabState F) =
      SlabState.narrow c { tNear := tMin, tFar := tMax, hitAxis := -1, hitIsMin := false } := by
  simp only [SlabState.narrow, min_eq_right hc]

theorem Box.hit_some_iff (b : Box F) (ray : Ray F) (tMin : F) (tMax : WithTop F)
    (rec r : HitRecord F) :
    b.hit ray tMin tMax rec = some r ↔
      ∃ st, b.slabs ray tMin tMax = some st ∧ ((st.tNear : F) : WithTop F) ≤ tMax ∧
        r = b.fill ray st rec := by
  unfold Box.hit
  cases hsl : b.slabs ray tMin tMax with
  | none => simp
  | some st =>
    by_cases hc : ((st.tNear : F) : WithTop F) > tMax
    · simp only [hc, if_true, Option.some.injEq]
      constructor
      · intro h; cases h
      · rintro ⟨st', e, hle, -⟩
        subst e
        exact absurd hle (not_le.mpr hc)
    · simp only [hc, if_false, Option.some.injEq]
      constructor
      · intro h; exact ⟨st, rfl, not_lt.mp hc, h.symm⟩
      · rintro ⟨st', e, -, h⟩
        subst e
        exact h.symm

/-- The entry parameter `tNear` never falls below `tMin`. -/
theorem Box.slabs_tMin_le (b : Box F) (ray : Ray F) (tMin : F) (tMax : WithTop F)
    (st : SlabState F) (h : b.slabs ray tMin tMax = some st) : tMin ≤ st.tNear :=
  b.foldlM_tNear_le ray tMin [0, 1, 2] _ st h

/-- Narrowing the window of `Box::hit` keeps exactly the hits within the narrower window. -/
theorem Box.hit_narrow_box (b : Box F) (ray : Ray F) (tMin : F) (c tMax : WithTop F) (hc : c ≤ tMax)
    (rec rec' : HitRecord F) :
    b.hit ray tMin c rec =
      (b.hit ray tMin tMax rec').filter (fun r => decide (((r.t : F) : WithTop F) ≤ c)) := by
  apply Option.ext
  intro r
  simp only [Option.mem_def]
  rw [filter_some_iff, Box.hit_some_iff, Box.hit_some_iff]
  constructor
  · rintro ⟨st'', hsl, hle, hr⟩
    unfold Box.slabs at hsl
    rw [Box.slabs_narrow_init tMin c tMax hc] at hsl
    obtain ⟨st', hsl', e⟩ := b.foldlM_narrow_some ray tMin c [0, 1, 2] _ st'' hsl
    subst e
    refine ⟨⟨st', hsl', le_trans hle hc, hr⟩, ?_⟩
    rw [hr]
    simpa using hle
  · rintro ⟨⟨st', hsl', -, hr⟩, hle⟩
    rw [hr] at hle
    have hle' : ((st'.tNear : F) : WithTop F) ≤ c := by simpa using hle
    have hm : ((tMin : F) : WithTop F) ≤ c :=
      le_trans (WithTop.coe_le_coe.mpr (b.slabs_tMin_le ray tMin tMax st' hsl')) hle'
    refine ⟨st'.narrow c, ?_, hle', hr⟩
    unfold Box.slabs
    rw [Box.slabs_narrow_init tMin c tMax hc]
    exact b.foldlM_narrow_of ray tMin c hm [0, 1, 2] _ st' hsl' hle'

@[simp] theorem Triangle.fill_t_triangle (tr : Triangle F) (ray : Ray F) (t : F) (rec : HitRecord F) :
    (tr.fill ray t rec).t = t := rfl

/-- `Triangle::hit` in closed form. -/
theorem Triangle.hit_eq_triangle (tr : Triangle F) (ray : Ray F) (tMin : F) (tMax : WithTop F)
    (rec : HitRecord F) :
    tr.hit ray tMin tMax rec =
      if 1 / 10 ^ 8 ≤ |tr.det ray| ∧ 0 ≤ tr.baryU ray ∧ tr.baryU ray ≤ 1 ∧ 0 ≤ tr.baryV ray ∧
          tr.baryU ray + tr.baryV ray ≤ 1 ∧ tMin ≤ tr.dist ray ∧
          ((tr.dist ray : F) : WithTop F) ≤ tMax then
        some (tr.fill ray (tr.dist ray) rec)
      else none := by
  unfold Triangle.hit
  by_cases h1 : |tr.det ray| < 1 / 10 ^ 8
  · simp only [h1, if_true]
    rw [if_neg (fun h => absurd h.1 (not_le.mpr h1))]
  · by_cases h2 : tr.baryU ray < 0 ∨ tr.baryU ray > 1
    · have : ¬ (0 ≤ tr.baryU ray ∧ tr.baryU ray ≤ 1) := by
        rintro ⟨ha, hb⟩
        rcases h2 with h | h
        · exact absurd ha (not_le.mpr h)
        · exact absurd hb (not_le.mpr h)
      have h' : ¬ (1 / 10 ^ 8 ≤ |tr.det ray| ∧ 0 ≤ tr.baryU ray ∧ tr.baryU ray ≤ 1 ∧
          0 ≤ tr.baryV ray ∧ tr.baryU ray + tr.baryV ray ≤ 1 ∧ tMin ≤ tr.dist ray ∧
          ((tr.dist ray : F) : WithTop F) ≤ tMax) := fun h => this ⟨h.2.1, h.2.2.1⟩
      simp only [h1, h2, h', if_true, if_false]
    · by_cases h3 : tr.baryV ray < 0 ∨ tr.baryU ray + tr.baryV ray > 1
      · have h' : ¬ (1 / 10 ^ 8 ≤ |tr.det ray| ∧ 0 ≤ tr.baryU ray ∧ tr.baryU ray ≤ 1 ∧
            0 ≤ tr.baryV ray ∧ tr.baryU ray + tr.baryV ray ≤ 1 ∧ tMin ≤ tr.dist ray ∧
            ((tr.dist ray : F) : WithTop F) ≤ tMax) := by
          rintro ⟨-, -, -, ha, hb, -⟩
          rcases h3 with h | h
          · exact absurd ha (not_le.mpr h)
          · exact absurd hb (not_le.mpr h)
        simp only [h1, h2, h3, h', if_true, if_false]
      · by_cases h4 : tr.dist ray < tMin ∨ ((tr.dist ray : F) : WithTop F) > tMax
        · have h' : ¬ (1 / 10 ^ 8 ≤ |tr.det ray| ∧ 0 ≤ tr.baryU ray ∧ tr.baryU ray ≤ 1 ∧
              0 ≤ tr.baryV ray ∧ tr.baryU ray + tr.baryV ray ≤ 1 ∧ tMin ≤ tr.dist ray ∧
              ((tr.dist ray : F) : WithTop F) ≤ tMax) := by
            rintro ⟨-, -, -, -, -, ha, hb⟩
            rcases h4 with h | h
            · exact absurd ha (not_le.mpr h)
            · exact absurd hb (not_le.mpr h)
          simp only [h1, h2, h3, h4, h', if_true, if_false]
        · rw [not_or, not_lt, not_lt] at h2 h3
          rw [not_or, not_lt, gt_iff_lt, not_lt] at h4
          have h' : (1 / 10 ^ 8 ≤ |tr.det ray| ∧ 0 ≤ tr.baryU ray ∧ tr.baryU ray ≤ 1 ∧
              0 ≤ tr.baryV ray ∧ tr.baryU ray + tr.baryV ray ≤ 1 ∧ tMin ≤ tr.dist ray ∧
              ((tr.dist ray : F) : WithTop F) ≤ tMax) :=
            ⟨not_lt.mp h1, h2.1, h2.2, h3.1, h3.2, h4.1, h4.2⟩
          have h2' : ¬ (tr.baryU ray < 0 ∨ tr.baryU ray > 1) := by
            rw [not_or, not_lt, not_lt]; exact h2
          have h3' : ¬ (tr.baryV ray < 0 ∨ tr.baryU ray + tr.baryV ray > 1) := by
            rw [not_or, not_lt, not_lt]; exact h3
          have h4' : ¬ (tr.dist ray < tMin ∨ ((tr.dist ray : F) : WithTop F) > tMax) := by
            rw [not_or, not_lt, gt_iff_lt, not_lt]; exact h4
          rw [if_pos h']
          simp only [h1, h2', h3', h4', if_false]

/-- Narrowing the window of `Triangle::hit` keeps exactly the hits within the narrower window. -/
theorem Triangle.hit_narrow_triangle (tr : Triangle F) (ray : Ray F) (tMin : F) (c tMax : WithTop F)
    (hc : c ≤ tMax) (rec rec' : HitRecord F) :
    tr.hit ray tMin c rec =
      (tr.hit ray tMin tMax rec').filter (fun r => decide (((r.t : F) : WithTop F) ≤ c)) := by
  apply Option.ext
  intro r
  simp only [Option.mem_def]
  rw [filter_some_iff, Triangle.hit_eq_triangle, Triangle.hit_eq_triangle]
  constructor
  · intro h
    split_ifs at h with hh
    injection h with h
    have hh' : 1 / 10 ^ 8 ≤ |tr.det ray| ∧ 0 ≤ tr.baryU ray ∧ tr.baryU ray ≤ 1 ∧
        0 ≤ tr.baryV ray ∧ tr.baryU ray + tr.baryV ray ≤ 1 ∧ tMin ≤ tr.dist ray ∧
        ((tr.dist ray : F) : WithTop F) ≤ tMax :=
      ⟨hh.1, hh.2.1, hh.2.2.1, hh.2.2.2.1, hh.2.2.2.2.1, hh.2.2.2.2.2.1,
        le_trans hh.2.2.2.2.2.2 hc⟩
    rw [if_pos hh']
    refine ⟨by rw [← h]; rfl, ?_⟩
    rw [← h]
    simpa using hh.2.2.2.2.2.2
  · rintro ⟨h, hle⟩
    split_ifs at h with hh
    injection h with h
    rw [← h] at hle
    have hle' : ((tr.dist ray : F) : WithTop F) ≤ c := by simpa using hle
    rw [if_pos ⟨hh.1, hh.2.1, hh.2.2.1, hh.2.2.2.1, hh.2.2.2.2.1, hh.2.2.2.2.2.1, hle'⟩]
    rw [← h]; rfl

/-- Narrowing the window of any primitive keeps exactly the hits within the narrower
window; the record does not depend on the record passed in. -/
theorem Hittable.hit_narrow (sqrt : F → F) (hs : ∀ x, 0 ≤ sqrt x) (h : Hittable F) (ray : Ray F)
    (tMin : F) (c tMax : WithTop F) (hc : c ≤ tMax) (rec rec' : HitRecord F) :
    h.hit sqrt ray tMin c rec =
      (h.hit sqrt ray tMin tMax rec').filter (fun r => decide (((r.t : F) : WithTop F) ≤ c)) := by
  cases h with
  | sphere s => exact Sphere.hit_narrow_sphere sqrt hs s ray tMin c tMax hc rec rec'
  | box b => exact Box.hit_narrow_box b ray tMin c tMax hc rec rec'
  | triangle tr => exact Triangle.hit_narrow_triangle tr ray tMin c tMax hc rec rec'

/-! ## The scene aggregate keeps the nearest hit -/

theorem Sphere.hit_indep_sphere (sqrt : F → F) (s : Sphere F) (ray : Ray F) (tMin : F)
    (tMax : WithTop F) (rec rec' : HitRecord F) :
    s.hit sqrt ray tMin tMax rec = s.hit sqrt ray tMin tMax rec' := by
  rw [Sphere.hit_eq_sphere, Sphere.hit_eq_sphere]; rfl

theorem Box.hit_indep_box (b : Box F) (ray : Ray F) (tMin : F) (tMax : WithTop F)
    (rec rec' : HitRecord F) : b.hit ray tMin tMax rec = b.hit ray tMin tMax rec' := rfl

theorem Triangle.hit_indep_triangle (tr : Triangle F) (ray : Ray F) (tMin : F) (tMax : WithTop F)
    (rec rec' : HitRecord F) : tr.hit ray tMin tMax rec = tr.hit ray tMin tMax rec' := rfl

/-- The record a primitive reports does not depend on the record passed in. -/
theorem Hittable.hit_indep (sqrt : F → F) (h : Hittable F) (ray : Ray F) (tMin : F)
    (tMax : WithTop F) (rec rec' : HitRecord F) :
    h.hit sqrt ray tMin tMax rec = h.hit sqrt ray tMin tMax rec' := by
  cases h with
  | sphere s => exact Sphere.hit_indep_sphere sqrt s ray tMin tMax rec rec'
  | box b => exact Box.hit_indep_box b ray tMin tMax rec rec'
  | triangle tr => exact Triangle.hit_indep_triangle tr ray tMin tMax rec rec'

theorem HittableList.scanStep_holds (sqrt : F → F) (hs : ∀ x, 0 ≤ sqrt x) (ray : Ray F)
    (tMin : F) (tMax : WithTop F) (rec0 : HitRecord F) (st : ScanState F)
    (acc : Option (HitRecord F)) (o : Hittable F) (h : st.Holds tMax acc) :
    (HittableList.scanStep sqrt ray tMin st o).Holds tMax
      (nearer acc (o.hit sqrt ray tMin tMax rec0)) := by
  have hown : ∀ r, o.hit sqrt ray tMin tMax rec0 = some r → ((r.t : F) : WithTop F) ≤ tMax := by
    intro r hr
    have := Hittable.hit_narrow sqrt hs o ray tMin tMax tMax (le_refl _) rec0 rec0
    rw [hr] at this
    have h2 := (filter_some_iff _ _ r).mp this.symm
    simpa using h2.2
  unfold HittableList.scanStep
  cases acc with
  | none =>
    obtain ⟨h1, h2⟩ := h
    rw [h2, Hittable.hit_indep sqrt o ray tMin tMax st.tempRec rec0]
    cases hr : o.hit sqrt ray tMin tMax rec0 with
    | none => exact ⟨h1, h2⟩
    | some r => exact ⟨rfl, rfl, rfl, hown r hr⟩
  | some a =>
    obtain ⟨h1, h2, h3, h4⟩ := h
    have hn := Hittable.hit_narrow sqrt hs o ray tMin st.closestSoFar tMax (by rw [h2]; exact h4)
      st.tempRec rec0
    rw [hn]
    cases hr : o.hit sqrt ray tMin tMax rec0 with
    | none => exact ⟨h1, h2, h3, h4⟩
    | some r =>
      by_cases hle : r.t ≤ a.t
      · have : decide (((r.t : F) : WithTop F) ≤ st.closestSoFar) = true := by
          rw [h2]; simpa using hle
        simp only [Option.filter, this, if_true, nearer, hle]
        exact ⟨rfl, rfl, rfl, hown r hr⟩
      · have : ¬ decide (((r.t : F) : WithTop F) ≤ st.closestSoFar) = true := by
          rw [h2]; simpa using hle
        simp only [Option.filter, this, if_false, nearer, hle]
        exact ⟨h1, h2, h3, h4⟩

theorem HittableList.foldl_holds (sqrt : F → F) (hs : ∀ x, 0 ≤ sqrt x) (ray : Ray F)
    (tMin : F) (tMax : WithTop F) (rec0 : HitRecord F) (objects : List (Hittable F)) :
    ∀ (st : ScanState F) (acc : Option (HitRecord F)), st.Holds tMax acc →
      (objects.foldl (HittableList.scanStep sqrt ray tMin) st).Holds tMax
        ((objects.map (fun o => o.hit sqrt ray tMin tMax rec0)).foldl nearer acc) := by
  induction objects with
  | nil => intro st acc h; exact h
  | cons o os ih =>
    intro st acc h
    simp only [List.foldl_cons, List.map_cons]
    exact ih _ _ (HittableList.scanStep_holds sqrt hs ray tMin tMax rec0 st acc o h)

/-- `HittableList::hit` returns the record picked by `nearer` among the records the
primitives report on their own over the original window. -/
theorem HittableList.hit_eq_foldl (sqrt : F → F) (hs : ∀ x, 0 ≤ sqrt x) (l : HittableList F)
    (ray : Ray F) (tMin : F) (tMax : WithTop F) (rec rec0 : HitRecord F) :
    l.hit sqrt ray tMin tMax rec =
      (l.objects.map (fun o => o.hit sqrt ray tMin tMax rec0)).foldl nearer none := by
  have h := HittableList.foldl_holds sqrt hs ray tMin tMax rec0 l.objects
    { tempRec := HitRecord.fresh, hitAnything := false, closestSoFar := tMax, outRec := rec }
    none ⟨rfl, rfl⟩
  unfold HittableList.hit HittableList.scan
  cases hacc : (l.objects.map (fun o => o.hit sqrt ray tMin tMax rec0)).foldl nearer none with
  | none =>
    rw [hacc] at h
    simp only [h.1]
    rfl
  | some a =>
    rw [hacc] at h
    simp only [h.1, h.2.2.1, if_true]

/-- What `nearer` picks from a list of own results: some record of the list whose
distance is least, and nothing exactly when the list has no record. -/
theorem foldl_nearer_spec (owns : List (Option (HitRecord F))) :
    ((owns.foldl nearer none = none ↔ ∀ x ∈ owns, x = none) ∧
      ∀ a, owns.foldl nearer none = some a →
        some a ∈ owns ∧ ∀ r, some r ∈ owns → a.t ≤ r.t) := by
  induction owns using List.reverseRecOn with
  | nil => simp
  | append_singleton pre x ih =>
    obtain ⟨ih1, ih2⟩ := ih
    rw [List.foldl_append, List.foldl_cons, List.foldl_nil]
    cases x with
    | none =>
      simp only [nearer]
      constructor
      · rw [ih1]
        constructor
        · intro h x hx
          simp only [List.mem_append, List.mem_singleton] at hx
          rcases hx with hx | hx
          · exact h x hx
          · exact hx
        · intro h x hx
          exact h x (by simp [hx])
      · intro a ha
        obtain ⟨m, hmin⟩ := ih2 a ha
        refine ⟨by simp [m], ?_⟩
        intro r hr
        simp only [List.mem_append, List.mem_singleton] at hr
        rcases hr with hr | hr
        · exact hmin r hr
        · cases hr
    | some r =>
      cases hacc : pre.foldl nearer none with
      | none =>
        simp only [nearer]
        constructor
        · constructor
          · intro h; cases h
          · intro h; exact absurd (h (some r) (by simp)) (by simp)
        · intro a ha
          injection ha with ha
          subst ha
          refine ⟨by simp, ?_⟩
          intro r' hr'
          simp only [List.mem_append, List.mem_singleton] at hr'
          rcases hr' with hr' | hr'
          · exact absurd ((ih1.mp hacc) _ hr') (by simp)
          · injection hr' with hr'; rw [hr']
      | some a0 =>
        obtain ⟨m, hmin⟩ := ih2 a0 hacc
        simp only [nearer]
        constructor
        · constructor
          · intro h; split_ifs at h
          · intro h; exact absurd (h (some r) (by simp)) (by simp)
        · intro a ha
          by_cases hle : r.t ≤ a0.t
          · rw [if_pos hle] at ha
            injection ha with ha
            subst ha
            refine ⟨by simp, ?_⟩
            intro r' hr'
            simp only [List.mem_append, List.mem_singleton] at hr'
            rcases hr' with hr' | hr'
            · exact le_trans hle (hmin r' hr')
            · injection hr' with hr'; rw [hr']
          · rw [if_neg hle] at ha
            injection ha with ha
            subst ha
            refine ⟨by simp [m], ?_⟩
            intro r' hr'
            simp only [List.mem_append, List.mem_singleton] at hr'
            rcases hr' with hr' | hr'
            · exact hmin r' hr'
            · injection hr' with hr'; rw [hr']; exact le_of_lt (not_le.mp hle)

theorem Vector3f.eq_of_components (a b : Vector3f F) (hx : a.x = b.x) (hy : a.y = b.y)
    (hz : a.z = b.z) : a = b := by
  cases a; cases b; simp only [Vector3f.mk.injEq]; exact ⟨hx, hy, hz⟩

theorem Vector3f.dot_self_pos (a : Vector3f F) (h : a ≠ Vector3f.zero) : 0 < a.Dot a := by
  rcases lt_or_eq_of_le (Vector3f.dot_self_nonneg a) with hlt | heq
  · exact hlt
  · exfalso
    apply h
    rw [Vector3f.dot_def] at heq
    have hx : a.x = 0 := by nlinarith [mul_self_nonneg a.x, mul_self_nonneg a.y, mul_self_nonneg a.z]
    have hy : a.y = 0 := by nlinarith [mul_self_nonneg a.x, mul_self_nonneg a.y, mul_self_nonneg a.z]
    have hz : a.z = 0 := by nlinarith [mul_self_nonneg a.x, mul_self_nonneg a.y, mul_self_nonneg a.z]
    exact Vector3f.eq_of_components _ _ hx hy hz

/-- The values `Triangle::hit` computes for a ray along the cross product `N` of the edges
that starts at `centroid + nu * N` and has direction `mu * N`. -/
theorem Triangle.values_along_normal (v0 v1 v2 nrm : Vector3f F) (mat : Material F) (nu mu : F) :
    let N := (v1 - v0).Cross (v2 - v0)
    let tr : Triangle F := ⟨v0, v1, v2, nrm, mat⟩
    let ray : Ray F := ⟨(v0 + v1 + v2).scale (1 / 3) + N.scale nu, N.scale mu⟩
    tr.det ray = -mu * N.Dot N ∧
      (ray.origin - v0).Dot (ray.direction.Cross (v2 - v0)) = -mu * N.Dot N / 3 ∧
      ray.direction.Dot ((ray.origin - v0).Cross (v1 - v0)) = -mu * N.Dot N / 3 ∧
      (v2 - v0).Dot ((ray.origin - v0).Cross (v1 - v0)) = nu * N.Dot N := by
  intro N tr ray
  simp only [N, tr, ray, Triangle.det, Vector3f.dot_def, Vector3f.Cross, Vector3f.sub_x, Vector3f.sub_y,
    Vector3f.sub_z, Vector3f.add_x, Vector3f.add_y, Vector3f.add_z, Vector3f.scale_x,
    Vector3f.scale_y, Vector3f.scale_z]
  refine ⟨?_, ?_, ?_, ?_⟩ <;> ring

/-! ## Evaluating `qsqrt` on concrete vectors -/

theorem qsqrt_one : qsqrt 1 = 1 := by
  have := qsqrt_mul_self 1 (by norm_num)
  simpa using this

theorem length_qsqrt (v : Vector3f ℚ) (l : ℚ) (hl : 0 ≤ l)
    (h : v.x * v.x + v.y * v.y + v.z * v.z = l * l) : v.length qsqrt = l := by
  unfold Vector3f.length
  rw [h]
  exact qsqrt_mul_self l hl

theorem normalize_qsqrt (v : Vector3f ℚ) (l : ℚ) (hl : 0 ≤ l)
    (h : v.x * v.x + v.y * v.y + v.z * v.z = l * l) :
    v.Normalize qsqrt = ⟨v.x / l, v.y / l, v.z / l⟩ := by
  unfold Vector3f.Normalize
  rw [length_qsqrt v l hl h]

theorem tinyTriangle_normal : tinyTriangle.normal = ⟨0, 0, 1⟩ := by
  unfold tinyTriangle Triangle.new
  simp only
  rw [normalize_qsqrt _ (1 / 10 ^ 10) (by norm_num) (by norm_num [Vector3f.Cross])]
  norm_num [Vector3f.Cross]

theorem tinyRay_eq : tinyRay = ⟨⟨1 / 300000, 1 / 300000, 1⟩, ⟨0, 0, -1⟩⟩ := by
  unfold tinyRay Ray.new
  rw [tinyTriangle_normal, normalize_qsqrt _ 1 (by norm_num) (by norm_num)]
  simp only [Ray.mk.injEq]
  constructor
  · apply Vector3f.eq_of_components <;> norm_num
  · apply Vector3f.eq_of_components <;> norm_num

theorem farRay_eq : farRay =
    ⟨⟨-2000000000, 0, -(10 ^ 18 - 1)⟩,
      ⟨2000000000 / (10 ^ 18 + 1), 0, (10 ^ 18 - 1) / (10 ^ 18 + 1)⟩⟩ := by
  unfold farRay Ray.new farOrigin
  rw [normalize_qsqrt _ (10 ^ 18 + 1) (by norm_num) (by norm_num)]
  simp only [Ray.mk.injEq, true_and]
  apply Vector3f.eq_of_components <;> norm_num

theorem nearRay_eq : nearRay = ⟨⟨0, 0, -5⟩, ⟨0, 0, 1⟩⟩ := by
  unfold nearRay Ray.new
  rw [normalize_qsqrt _ 5 (by norm_num) (by norm_num)]
  simp only [Ray.mk.injEq, true_and]
  apply Vector3f.eq_of_components <;> norm_num

theorem unitBox_entry_nearRay : unitBox.IsEntry nearRay 4 := by
  rw [nearRay_eq]
  constructor
  · refine ⟨2, by norm_num, ?_, ?_⟩
    · norm_num [Vector3f.get]
    · norm_num [Box.slabLo, unitBox, Vector3f.get]
  · intro i hi hd
    have : i = 0 ∨ i = 1 ∨ i = 2 := by omega
    rcases this with rfl | rfl | rfl
    · exact absurd rfl hd
    · exact absurd rfl hd
    · norm_num [Box.slabLo, unitBox, Vector3f.get]

/-! ## Box: a ray aimed at the centre -/

theorem Vector3f.get_add (a b : Vector3f F) (i : Nat) : (a + b).get i = a.get i + b.get i := by
  unfold Vector3f.get; split <;> rfl

theorem Vector3f.get_scale (a : Vector3f F) (s : F) (i : Nat) :
    (a.scale s).get i = a.get i * s := by
  unfold Vector3f.get; split <;> rfl

/-- The slab loop succeeds when every axis in the list either is treated as parallel with the
origin inside its slab, or has its entry parameter at most `E` and its exit parameter above
`E`; the resulting `tNear` stays at most `E` and dominates the entry parameters met. -/
theorem Box.foldlM_entry (b : Box F) (ray : Ray F) (tMin E : F) (hE : tMin ≤ E) (l : List Nat)
    (hax : ∀ i ∈ l,
      (|ray.direction.get i| < 1 / 10 ^ 8 →
        ¬ (ray.origin.get i < b.boxMin.get i ∨ ray.origin.get i > b.boxMax.get i)) ∧
      (¬ |ray.direction.get i| < 1 / 10 ^ 8 → b.slabLo ray i ≤ E ∧ E < b.slabHi ray i)) :
    ∀ st : SlabState F, st.tNear ≤ E → ((E : F) : WithTop F) ≤ st.tFar →
      ∃ st', l.foldlM (b.slabStep ray tMin) st = some st' ∧ st.tNear ≤ st'.tNear ∧
        st'.tNear ≤ E ∧ ((E : F) : WithTop F) ≤ st'.tFar ∧
        (((E : F) : WithTop F) < st.tFar → ((E : F) : WithTop F) < st'.tFar) ∧
        ∀ i ∈ l, ¬ |ray.direction.get i| < 1 / 10 ^ 8 → b.slabLo ray i ≤ st'.tNear := by
  induction l with
  | nil =>
    intro st h1 h2
    exact ⟨st, rfl, le_refl _, h1, h2, fun h => h, by simp⟩
  | cons i l ih =>
    intro st h1 h2
    have hi := hax i (List.mem_cons_self i l)
    have hl : ∀ j ∈ l,
        (|ray.direction.get j| < 1 / 10 ^ 8 →
          ¬ (ray.origin.get j < b.boxMin.get j ∨ ray.origin.get j > b.boxMax.get j)) ∧
        (¬ |ray.direction.get j| < 1 / 10 ^ 8 → b.slabLo ray j ≤ E ∧ E < b.slabHi ray j) :=
      fun j hj => hax j (List.mem_cons_of_mem i hj)
    by_cases hp : |ray.direction.get i| < 1 / 10 ^ 8
    · have hstep : b.slabStep ray tMin st i = some st :=
        (Box.slabStep_parallel b ray tMin st st i hp).mpr ⟨hi.1 hp, rfl⟩
      obtain ⟨st', hf, m1, m2, m3, m4, m5⟩ := ih hl st h1 h2
      refine ⟨st', ?_, m1, m2, m3, m4, ?_⟩
      · simp only [List.foldlM_cons, Option.bind_eq_bind, hstep, Option.some_bind]
        exact hf
      · intro j hj hnp
        rcases List.mem_cons.mp hj with rfl | hj
        · exact absurd hp hnp
        · exact m5 j hj hnp
    · obtain ⟨hlo, hhi⟩ := hi.2 hp
      have n1 : (b.slabNext ray st i).tNear ≤ E := max_le h1 hlo
      have n2 : ((E : F) : WithTop F) ≤ (b.slabNext ray st i).tFar :=
        le_min h2 (WithTop.coe_le_coe.mpr hhi.le)
      have n3 : ((E : F) : WithTop F) < st.tFar →
          ((E : F) : WithTop F) < (b.slabNext ray st i).tFar :=
        fun h => lt_min h (WithTop.coe_lt_coe.mpr hhi)
      have hstep : b.slabStep ray tMin st i = some (b.slabNext ray st i) :=
        (Box.slabStep_some_iff b ray tMin st _ i hp).mpr
          ⟨le_trans (WithTop.coe_le_coe.mpr n1) n2,
            le_trans (WithTop.coe_le_coe.mpr hE) n2, rfl⟩
      obtain ⟨st', hf, m1, m2, m3, m4, m5⟩ := ih hl (b.slabNext ray st i) n1 n2
      have n0 : st.tNear ≤ (b.slabNext ray st i).tNear := le_max_left _ _
      refine ⟨st', ?_, le_trans n0 m1, m2, m3, fun h => m4 (n3 h), ?_⟩
      · simp only [List.foldlM_cons, Option.bind_eq_bind, hstep, Option.some_bind]
        exact hf
      · intro j hj hnp
        rcases List.mem_cons.mp hj with rfl | hj
        · exact le_trans (le_max_right _ _) m1
        · exact m5 j hj hnp

/-- On an axis along which the ray moves towards the centre of the slab, the centre is
reached strictly between the entry and the exit parameter. -/
theorem Box.slab_centre_between (b : Box F) (ray : Ray F) (i : Nat) (L : F)
    (hbox : b.boxMin.get i < b.boxMax.get i) (hd : ray.direction.get i ≠ 0)
    (haim : (b.boxMin.get i + b.boxMax.get i) / 2 - ray.origin.get i = L * ray.direction.get i) :
    b.slabLo ray i < L ∧ L < b.slabHi ray i := by
  unfold Box.slabLo Box.slabHi
  have hL : L = ((b.boxMin.get i + b.boxMax.get i) / 2 - ray.origin.get i) *
      (1 / ray.direction.get i) := by
    rw [haim]; field_simp
  rcases lt_or_gt_of_ne hd with hneg | hpos
  · have hinv : 1 / ray.direction.get i < 0 := one_div_neg.mpr hneg
    constructor
    · apply lt_of_le_of_lt (min_le_right _ _)
      rw [hL]
      apply mul_lt_mul_of_neg_right _ hinv
      linarith
    · apply lt_of_lt_of_le _ (le_max_left _ _)
      rw [hL]
      apply mul_lt_mul_of_neg_right _ hinv
      linarith
  · have hinv : 0 < 1 / ray.direction.get i := one_div_pos.mpr hpos
    constructor
    · apply lt_of_le_of_lt (min_le_left _ _)
      rw [hL]
      apply mul_lt_mul_of_pos_right _ hinv
      linarith
    · apply lt_of_lt_of_le _ (le_max_right _ _)
      rw [hL]
      apply mul_lt_mul_of_pos_right _ hinv
      linarith

/-- On an axis on which the origin lies outside the slab and the ray moves towards the
centre, the entry parameter is positive. -/
theorem Box.slabLo_pos_of_outside (b : Box F) (ray : Ray F) (i : Nat) (L : F) (hL : 0 < L)
    (hbox : b.boxMin.get i < b.boxMax.get i)
    (hout : ray.origin.get i < b.boxMin.get i ∨ b.boxMax.get i < ray.origin.get i)
    (haim : (b.boxMin.get i + b.boxMax.get i) / 2 - ray.origin.get i = L * ray.direction.get i) :
    ray.direction.get i ≠ 0 ∧ 0 < b.slabLo ray i := by
  unfold Box.slabLo
  rcases hout with h | h
  · have hd : 0 < ray.direction.get i := by
      have : 0 < L * ray.direction.get i := by rw [← haim]; linarith
      exact (pos_iff_pos_of_mul_pos this).mp hL
    have hinv : 0 < 1 / ray.direction.get i := one_div_pos.mpr hd
    exact ⟨ne_of_gt hd, lt_min (mul_pos (by linarith) hinv) (mul_pos (by linarith) hinv)⟩
  · have hd : ray.direction.get i < 0 := by
      have : L * ray.direction.get i < 0 := by rw [← haim]; linarith
      exact (pos_iff_neg_of_mul_neg this).mp hL
    have hinv : 1 / ray.direction.get i < 0 := one_div_neg.mpr hd
    exact ⟨ne_of_lt hd,
      lt_min (mul_pos_of_neg_of_neg (by linarith) hinv)
        (mul_pos_of_neg_of_neg (by linarith) hinv)⟩

/-- On an axis on which the origin lies inside the slab, the entry parameter is not
positive. -/
theorem Box.slabLo_nonpos_of_inside (b : Box F) (ray : Ray F) (i : Nat)
    (hd : ray.direction.get i ≠ 0)
    (hin : b.boxMin.get i ≤ ray.origin.get i ∧ ray.origin.get i ≤ b.boxMax.get i) :
    b.slabLo ray i ≤ 0 := by
  unfold Box.slabLo
  rcases lt_or_gt_of_ne hd with hneg | hpos
  · have hinv : 1 / ray.direction.get i < 0 := one_div_neg.mpr hneg
    exact le_trans (min_le_right _ _)
      (mul_nonpos_of_nonneg_of_nonpos (by linarith [hin.2]) hinv.le)
  · have hinv : 0 < 1 / ray.direction.get i := one_div_pos.mpr hpos
    exact le_trans (min_le_left _ _)
      (mul_nonpos_of_nonpos_of_nonneg (by linarith [hin.1]) hinv.le)

/-! ## Every reported hit lies in the window -/

theorem Sphere.hit_bounds_sphere (sqrt : F → F) (s : Sphere F) (ray : Ray F) (tMin : F)
    (tMax : WithTop F) (rec r : HitRecord F) (h : s.hit sqrt ray tMin tMax rec = some r) :
    tMin ≤ r.t ∧ ((r.t : F) : WithTop F) ≤ tMax ∧
      r.point = ray.origin + ray.direction.scale r.t := by
  rw [Sphere.hit_eq_sphere] at h
  split_ifs at h with h0 h1 h2
  · injection h with h; subst h; exact ⟨h1.1, h1.2, rfl⟩
  · injection h with h; subst h; exact ⟨h2.1, h2.2, rfl⟩

theorem Box.hit_bounds_box (b : Box F) (ray : Ray F) (tMin : F) (tMax : WithTop F)
    (rec r : HitRecord F) (h : b.hit ray tMin tMax rec = some r) :
    tMin ≤ r.t ∧ ((r.t : F) : WithTop F) ≤ tMax ∧
      r.point = ray.origin + ray.direction.scale r.t := by
  obtain ⟨st, hsl, hle, hr⟩ := (Box.hit_some_iff b ray tMin tMax rec r).mp h
  subst hr
  exact ⟨b.slabs_tMin_le ray tMin tMax st hsl, hle, rfl⟩

theorem Triangle.hit_bounds_triangle (tr : Triangle F) (ray : Ray F) (tMin : F)
    (tMax : WithTop F) (rec r : HitRecord F) (h : tr.hit ray tMin tMax rec = some r) :
    tMin ≤ r.t ∧ ((r.t : F) : WithTop F) ≤ tMax ∧
      r.point = ray.origin + ray.direction.scale r.t := by
  rw [Triangle.hit_eq_triangle] at h
  split_ifs at h with h0
  injection h with h; subst h
  exact ⟨h0.2.2.2.2.2.1, h0.2.2.2.2.2.2, rfl⟩

theorem Hittable.hit_bounds (sqrt : F → F) (o : Hittable F) (ray : Ray F) (tMin : F)
    (tMax : WithTop F) (rec r : HitRecord F) (h : o.hit sqrt ray tMin tMax rec = some r) :
    tMin ≤ r.t ∧ ((r.t : F) : WithTop F) ≤ tMax ∧
      r.point = ray.origin + ray.direction.scale r.t := by
  cases o with
  | sphere s => exact Sphere.hit_bounds_sphere sqrt s ray tMin tMax rec r h
  | box b => exact Box.hit_bounds_box b ray tMin tMax rec r h
  | triangle tr => exact Triangle.hit_bounds_triangle tr ray tMin tMax rec r h

/-- An invariant of the scan: whatever property `P` every record reported by a primitive
over a window below `tMax` has, the record held after the scan has, once something was hit. -/
theorem HittableList.foldl_invariant (sqrt : F → F) (ray : Ray F) (tMin : F) (tMax : WithTop F)
    (P : HitRecord F → Prop) (objects : List (Hittable F))
    (hP : ∀ o ∈ objects, ∀ (c : WithTop F) (rec r : HitRecord F), c ≤ tMax →
      o.hit sqrt ray tMin c rec = some r → P r) :
    ∀ st : ScanState F, st.closestSoFar ≤ tMax → (st.hitAnything = true → P st.outRec) →
      (objects.foldl (HittableList.scanStep sqrt ray tMin) st).closestSoFar ≤ tMax ∧
      ((objects.foldl (HittableList.scanStep sqrt ray tMin) st).hitAnything = true →
        P (objects.foldl (HittableList.scanStep sqrt ray tMin) st).outRec) := by
  induction objects with
  | nil => intro st h1 h2; exact ⟨h1, h2⟩
  | cons o os ih =>
    intro st h1 h2
    simp only [List.foldl_cons]
    apply ih (fun o' ho' => hP o' (List.mem_cons_of_mem o ho'))
    · unfold HittableList.scanStep
      cases hr : o.hit sqrt ray tMin st.closestSoFar st.tempRec with
      | none => exact h1
      | some r =>
        exact le_trans (Hittable.hit_bounds sqrt o ray tMin st.closestSoFar st.tempRec r hr).2.1 h1
    · unfold HittableList.scanStep
      cases hr : o.hit sqrt ray tMin st.closestSoFar st.tempRec with
      | none => exact h2
      | some r =>
        intro _
        exact hP o (List.mem_cons_self o os) st.closestSoFar st.tempRec r h1 hr

/-- Whatever property every record reported by a primitive of the list over a window below
`tMax` has, the record `HittableList::hit` reports has. -/
theorem HittableList.hit_invariant (sqrt : F → F) (l : HittableList F) (ray : Ray F) (tMin : F)
    (tMax : WithTop F) (P : HitRecord F → Prop)
    (hP : ∀ o ∈ l.objects, ∀ (c : WithTop F) (rec r : HitRecord F), c ≤ tMax →
      o.hit sqrt ray tMin c rec = some r → P r)
    (rec r : HitRecord F) (h : l.hit sqrt ray tMin tMax rec = some r) : P r := by
  unfold HittableList.hit HittableList.scan at h
  have hinv := HittableList.foldl_invariant sqrt ray tMin tMax P l.objects hP
    { tempRec := HitRecord.fresh, hitAnything := false, closestSoFar := tMax, outRec := rec }
    (le_refl _) (fun hh => by cases hh)
  simp only at h
  split_ifs at h with hh
  injection h with h
  rw [← h]
  exact hinv.2 hh

/-- A list with a single object reports what the object reports. -/
theorem HittableList.hit_singleton (sqrt : F → F) (o : Hittable F) (ray : Ray F) (tMin : F)
    (tMax : WithTop F) (rec : HitRecord F) :
    (HittableList.mk [o]).hit sqrt ray tMin tMax rec =
      o.hit sqrt ray tMin tMax HitRecord.fresh := by
  unfold HittableList.hit HittableList.scan
  simp only [List.foldl_cons, List.foldl_nil, HittableList.scanStep]
  cases o.hit sqrt ray tMin tMax HitRecord.fresh with
  | none => rfl
  | some r => rfl

/-! ## The front-face convention -/

theorem Vector3f.dot_comm (a b : Vector3f F) : a.Dot b = b.Dot a := by
  simp only [Vector3f.dot_def]; ring

theorem Vector3f.scale_neg_one_dot (n d : Vector3f F) : (n.scale (-1)).Dot d = -(n.Dot d) := by
  simp only [Vector3f.dot_def, Vector3f.scale_x, Vector3f.scale_y, Vector3f.scale_z]; ring

/-- What `setFaceNormal` stores. -/
theorem HitRecord.setFaceNormal_spec (rec : HitRecord F) (ray : Ray F) (n : Vector3f F) :
    ((rec.setFaceNormal ray n).frontFace = true ↔ ray.direction.Dot n < 0) ∧
      (rec.setFaceNormal ray n).normal =
        (if (rec.setFaceNormal ray n).frontFace = true then n else n.scale (-1)) ∧
      (rec.setFaceNormal ray n).normal.Dot ray.direction ≤ 0 := by
  unfold HitRecord.setFaceNormal
  by_cases h : ray.direction.Dot n < 0
  · simp only [h, decide_True, if_true, true_and, iff_true]
    rw [Vector3f.dot_comm]; exact h.le
  · simp only [h, decide_False, if_false, true_and, iff_false, Bool.false_eq_true,
      not_false_eq_true]
    rw [Vector3f.scale_neg_one_dot, Vector3f.dot_comm]
    linarith [not_lt.mp h]

/-- Every primitive fills the normal and the flag of its record through `setFaceNormal`,
applied to its outward normal. -/
theorem Hittable.hit_faceNormal (sqrt : F → F) (o : Hittable F) (ray : Ray F) (tMin : F)
    (tMax : WithTop F) (rec r : HitRecord F) (h : o.hit sqrt ray tMin tMax rec = some r) :
    ∃ n, o.IsFaceArgument ray tMin tMax r n ∧ (r.frontFace = true ↔ ray.direction.Dot n < 0) ∧
      r.normal = (if r.frontFace = true then n else n.scale (-1)) ∧
      r.normal.Dot ray.direction ≤ 0 := by
  cases o with
  | sphere s =>
    have key : ∀ root, r = s.fill ray root rec →
        ∃ n, (Hittable.sphere s).IsFaceArgument ray tMin tMax r n ∧
          (r.frontFace = true ↔ ray.direction.Dot n < 0) ∧
          r.normal = (if r.frontFace = true then n else n.scale (-1)) ∧
          r.normal.Dot ray.direction ≤ 0 := by
      intro root hr
      subst hr
      exact ⟨((ray.origin + ray.direction.scale root) - s.center).scale (1 / s.radius), rfl,
        HitRecord.setFaceNormal_spec
          { { rec with t := root } with point := ray.origin + ray.direction.scale root } ray _⟩
    simp only [Hittable.hit] at h
    rw [Sphere.hit_eq_sphere] at h
    split_ifs at h
    · injection h with h; exact key _ h.symm
    · injection h with h; exact key _ h.symm
  | box b =>
    obtain ⟨st, hsl, -, hr⟩ := (Box.hit_some_iff b ray tMin tMax rec r).mp h
    subst hr
    exact ⟨Box.outwardNormal st.hitAxis st.hitIsMin, ⟨st, hsl, rfl⟩,
      HitRecord.setFaceNormal_spec
        { { rec with t := st.tNear } with point := ray.origin + ray.direction.scale st.tNear }
        ray _⟩
  | triangle tr =>
    simp only [Hittable.hit] at h
    rw [Triangle.hit_eq_triangle] at h
    split_ifs at h
    injection h with h
    subst h
    exact ⟨tr.normal, rfl,
      HitRecord.setFaceNormal_spec
        { { rec with t := tr.dist ray } with
          point := ray.origin + ray.direction.scale (tr.dist ray) } ray _⟩

/-! ## Unit normals -/

theorem Vector3f.neg_scale_dot_self (n : Vector3f F) :
    (n.scale (-1)).Dot (n.scale (-1)) = n.Dot n := by
  simp only [Vector3f.dot_def, Vector3f.scale_x, Vector3f.scale_y, Vector3f.scale_z]; ring

/-- The normal `setFaceNormal` stores has the squared length of the outward normal. -/
theorem HitRecord.setFaceNormal_dot_self (rec : HitRecord F) (ray : Ray F) (n : Vector3f F) :
    (rec.setFaceNormal ray n).normal.Dot (rec.setFaceNormal ray n).normal = n.Dot n := by
  unfold HitRecord.setFaceNormal
  by_cases h : ray.direction.Dot n < 0
  · simp only [h, decide_True, if_true]
  · simp only [h, decide_False, if_false, Bool.false_eq_true]
    exact Vector3f.neg_scale_dot_self n

/-- A parameter `t` with `(a*t + half_b)^2 = disc` puts the point `o + t*d` at distance
`radius` from the centre. -/
theorem Sphere.point_on_sphere (s : Sphere F) (ray : Ray F) (t : F)
    (ha : ray.direction.Dot ray.direction ≠ 0)
    (ht : (ray.direction.Dot ray.direction * t + (ray.origin - s.center).Dot ray.direction) *
      (ray.direction.Dot ray.direction * t + (ray.origin - s.center).Dot ray.direction) =
      s.discriminant ray) :
    ((ray.origin + ray.direction.scale t) - s.center).Dot
      ((ray.origin + ray.direction.scale t) - s.center) = s.radius * s.radius := by
  have h1 : ray.direction.Dot ray.direction *
      (((ray.origin + ray.direction.scale t) - s.center).Dot
        ((ray.origin + ray.direction.scale t) - s.center) - s.radius * s.radius) =
      (ray.direction.Dot ray.direction * t + (ray.origin - s.center).Dot ray.direction) *
      (ray.direction.Dot ray.direction * t + (ray.origin - s.center).Dot ray.direction) -
      s.discriminant ray := by
    simp only [Sphere.discriminant, Vector3f.dot_def, Vector3f.sub_x, Vector3f.sub_y,
      Vector3f.sub_z, Vector3f.add_x, Vector3f.add_y, Vector3f.add_z, Vector3f.scale_x,
      Vector3f.scale_y, Vector3f.scale_z]
    ring
  rw [ht, sub_self] at h1
  rcases mul_eq_zero.mp h1 with h | h
  · exact absurd h ha
  · exact sub_eq_zero.mp h

/-- The normal a sphere records has unit length when `sqrt` is exact at the discriminant. -/
theorem Sphere.hit_normal_unit_sphere (sqrt : F → F) (s : Sphere F) (ray : Ray F) (tMin : F)
    (tMax : WithTop F) (rec r : HitRecord F) (hr : s.radius ≠ 0)
    (ha : ray.direction.Dot ray.direction ≠ 0)
    (hsq : sqrt (s.discriminant ray) * sqrt (s.discriminant ray) = s.discriminant ray)
    (h : s.hit sqrt ray tMin tMax rec = some r) : r.normal.Dot r.normal = 1 := by
  have key : ∀ t,
      (ray.direction.Dot ray.direction * t + (ray.origin - s.center).Dot ray.direction) *
      (ray.direction.Dot ray.direction * t + (ray.origin - s.center).Dot ray.direction) =
      s.discriminant ray → (s.fill ray t rec).normal.Dot (s.fill ray t rec).normal = 1 := by
    intro t ht
    have hp := Sphere.point_on_sphere s ray t ha ht
    show (HitRecord.setFaceNormal
        { { rec with t := t } with point := ray.origin + ray.direction.scale t } ray
        (((ray.origin + ray.direction.scale t) - s.center).scale (1 / s.radius))).normal.Dot
      (HitRecord.setFaceNormal
        { { rec with t := t } with point := ray.origin + ray.direction.scale t } ray
        (((ray.origin + ray.direction.scale t) - s.center).scale (1 / s.radius))).normal = 1
    rw [HitRecord.setFaceNormal_dot_self]
    have : ((ray.origin + ray.direction.scale t - s.center).scale (1 / s.radius)).Dot
        ((ray.origin + ray.direction.scale t - s.center).scale (1 / s.radius)) =
        (ray.origin + ray.direction.scale t - s.center).Dot
          (ray.origin + ray.direction.scale t - s.center) * (1 / s.radius) * (1 / s.radius) := by
      simp only [Vector3f.dot_def, Vector3f.scale_x, Vector3f.scale_y, Vector3f.scale_z]
      ring
    rw [this, hp]
    field_simp
  rw [Sphere.hit_eq_sphere] at h
  split_ifs at h
  · injection h with h
    rw [← h]
    apply key
    unfold Sphere.rootNear
    have : ray.direction.Dot ray.direction *
        ((-(ray.origin - s.center).Dot ray.direction - sqrt (s.discriminant ray)) /
          ray.direction.Dot ray.direction) + (ray.origin - s.center).Dot ray.direction =
        -sqrt (s.discriminant ray) := by
      field_simp
      ring
    simp only [this]
    rw [neg_mul_neg, hsq]
  · injection h with h
    rw [← h]
    apply key
    unfold Sphere.rootFar
    have : ray.direction.Dot ray.direction *
        ((-(ray.origin - s.center).Dot ray.direction + sqrt (s.discriminant ray)) /
          ray.direction.Dot ray.direction) + (ray.origin - s.center).Dot ray.direction =
        sqrt (s.discriminant ray) := by
      field_simp
    simp only [this]
    rw [hsq]

theorem Box.slabStep_axisOk (b : Box F) (ray : Ray F) (tMin : F) (st st' : SlabState F)
    (i : Nat) (hi : i < 3) (hst : st.AxisOk tMin) (h : b.slabStep ray tMin st i = some st') :
    st'.AxisOk tMin := by
  by_cases hp : |ray.direction.get i| < 1 / 10 ^ 8
  · rw [(Box.slabStep_parallel b ray tMin st st' i hp).mp h |>.2]
    exact hst
  · obtain ⟨-, -, e⟩ := (Box.slabStep_some_iff b ray tMin st st' i hp).mp h
    subst e
    have hge : tMin ≤ st.tNear := by
      rcases hst with h1 | h1
      · exact le_of_eq h1.2.symm
      · exact h1.2.2.le
    by_cases hlt : st.tNear < b.slabLo ray i
    · right
      simp only [Box.slabNext, hlt, if_true, max_eq_right hlt.le]
      refine ⟨?_, trivial, lt_of_le_of_lt hge hlt⟩
      have : i = 0 ∨ i = 1 ∨ i = 2 := by omega
      rcases this with rfl | rfl | rfl
      · left; rfl
      · right; left; rfl
      · right; right; rfl
    · have hmax : max st.tNear (b.slabLo ray i) = st.tNear := max_eq_left (not_lt.mp hlt)
      rcases hst with h1 | h1
      · left
        simp only [Box.slabNext, hlt, if_false, hmax]
        exact h1
      · right
        simp only [Box.slabNext, hlt, if_false, hmax]
        exact h1

theorem Box.foldlM_axisOk (b : Box F) (ray : Ray F) (tMin : F) (l : List Nat)
    (hl : ∀ i ∈ l, i < 3) :
    ∀ st st' : SlabState F, st.AxisOk tMin → l.foldlM (b.slabStep ray tMin) st = some st' →
      st'.AxisOk tMin := by
  induction l with
  | nil => intro st st' h1 h2; simp at h2; subst h2; exact h1
  | cons i l ih =>
    intro st st' h1 h2
    simp only [List.foldlM_cons, Option.bind_eq_bind, Option.bind_eq_some] at h2
    obtain ⟨st1, e1, e2⟩ := h2
    exact ih (fun j hj => hl j (List.mem_cons_of_mem i hj)) st1 st'
      (Box.slabStep_axisOk b ray tMin st st1 i (hl i (List.mem_cons_self i l)) h1 e1) e2

theorem Box.slabs_axisOk (b : Box F) (ray : Ray F) (tMin : F) (tMax : WithTop F)
    (st : SlabState F) (h : b.slabs ray tMin tMax = some st) : st.AxisOk tMin := by
  apply Box.foldlM_axisOk b ray tMin [0, 1, 2] _ _ st (Or.inl ⟨rfl, rfl⟩) h
  intro i hi
  simp only [List.mem_cons, List.mem_singleton, List.not_mem_nil, or_false] at hi
  omega

/-- The normal a box records: of unit length when the reported distance exceeds `tMin`, and
the zero vector when it equals `tMin`. -/
theorem Box.hit_normal_box (b : Box F) (ray : Ray F) (tMin : F) (tMax : WithTop F)
    (rec r : HitRecord F) (h : b.hit ray tMin tMax rec = some r) :
    (tMin < r.t → r.normal.Dot r.normal = 1) ∧ (r.t = tMin → r.normal = Vector3f.zero) := by
  obtain ⟨st, hsl, -, hr⟩ := (Box.hit_some_iff b ray tMin tMax rec r).mp h
  subst hr
  have hn : (b.fill ray st rec).normal.Dot (b.fill ray st rec).normal =
      (Box.outwardNormal st.hitAxis st.hitIsMin : Vector3f F).Dot
        (Box.outwardNormal st.hitAxis st.hitIsMin) :=
    HitRecord.setFaceNormal_dot_self
      { { rec with t := st.tNear } with point := ray.origin + ray.direction.scale st.tNear }
      ray _
  rcases Box.slabs_axisOk b ray tMin tMax st hsl with ⟨h1, h2⟩ | ⟨h1, h2, h3⟩
  · constructor
    · intro hlt
      rw [Box.fill_t_box, h2] at hlt
      exact absurd hlt (lt_irrefl _)
    · intro _
      show (HitRecord.setFaceNormal
        { { rec with t := st.tNear } with point := ray.origin + ray.direction.scale st.tNear }
        ray (Box.outwardNormal st.hitAxis st.hitIsMin)).normal = Vector3f.zero
      rw [h1]
      simp [HitRecord.setFaceNormal, Box.outwardNormal, Vector3f.zero, Vector3f.dot_def,
        Vector3f.scale]
  · constructor
    · intro _
      rw [hn, h2]
      rcases h1 with h1 | h1 | h1 <;> rw [h1] <;>
        simp [Box.outwardNormal, Vector3f.zero, Vector3f.dot_def]
    · intro heq
      rw [Box.fill_t_box] at heq
      exact absurd heq (ne_of_gt h3)

/-- The normal a triangle built by the constructor records has unit length when `sqrt` is
exact at the squared length of the cross product of the edges. -/
theorem Triangle.hit_normal_unit_triangle (sqrt : F → F) (v0 v1 v2 : Vector3f F)
    (mat : Material F) (ray : Ray F) (tMin : F) (tMax : WithTop F) (rec r : HitRecord F)
    (hnc : (v1 - v0).Cross (v2 - v0) ≠ Vector3f.zero)
    (hsq : sqrt (((v1 - v0).Cross (v2 - v0)).Dot ((v1 - v0).Cross (v2 - v0))) *
      sqrt (((v1 - v0).Cross (v2 - v0)).Dot ((v1 - v0).Cross (v2 - v0))) =
      ((v1 - v0).Cross (v2 - v0)).Dot ((v1 - v0).Cross (v2 - v0)))
    (h : (Triangle.new sqrt v0 v1 v2 mat).hit ray tMin tMax rec = some r) :
    r.normal.Dot r.normal = 1 := by
  have hNN := Vector3f.dot_self_pos _ hnc
  rw [Triangle.hit_eq_triangle] at h
  split_ifs at h
  injection h with h
  rw [← h]
  show (HitRecord.setFaceNormal
      { { rec with t := (Triangle.new sqrt v0 v1 v2 mat).dist ray } with
        point := ray.origin + ray.direction.scale ((Triangle.new sqrt v0 v1 v2 mat).dist ray) }
      ray (Triangle.new sqrt v0 v1 v2 mat).normal).normal.Dot
    (HitRecord.setFaceNormal
      { { rec with t := (Triangle.new sqrt v0 v1 v2 mat).dist ray } with
        point := ray.origin + ray.direction.scale ((Triangle.new sqrt v0 v1 v2 mat).dist ray) }
      ray (Triangle.new sqrt v0 v1 v2 mat).normal).normal = 1
  rw [HitRecord.setFaceNormal_dot_self]
  show (((v1 - v0).Cross (v2 - v0)).Normalize sqrt).Dot
    (((v1 - v0).Cross (v2 - v0)).Normalize sqrt) = 1
  generalize hL : sqrt (((v1 - v0).Cross (v2 - v0)).Dot ((v1 - v0).Cross (v2 - v0))) = L
    at hsq
  have hlen : ((v1 - v0).Cross (v2 - v0)).length sqrt = L := hL
  have hLne : L ≠ 0 := by
    intro h0; rw [h0, mul_zero] at hsq; rw [← hsq] at hNN; exact lt_irrefl _ hNN
  simp only [Vector3f.Normalize, hlen, Vector3f.dot_def] at hsq ⊢
  field_simp
  linear_combination -hsq

/-! ## Shadows -/

/-- If a primitive of the list reports a hit on its own, the list reports a hit. -/
theorem HittableList.hit_isSome_of_mem (sqrt : F → F) (hs : ∀ x, 0 ≤ sqrt x)
    (l : HittableList F) (ray : Ray F) (tMin : F) (tMax : WithTop F) (rec rec0 : HitRecord F)
    (o : Hittable F) (ho : o ∈ l.objects) (h : (o.hit sqrt ray tMin tMax rec0).isSome = true) :
    (l.hit sqrt ray tMin tMax rec).isSome = true := by
  rw [HittableList.hit_eq_foldl sqrt hs l ray tMin tMax rec rec0]
  obtain ⟨h1, -⟩ := foldl_nearer_spec (l.objects.map (fun o => o.hit sqrt ray tMin tMax rec0))
  rw [Option.isSome_iff_ne_none]
  intro hn
  have := (h1.mp hn) _ (List.mem_map.mpr ⟨o, ho, rfl⟩)
  simp only at this
  rw [this] at h
  cases h

/-- A light whose shadow query reports a hit leaves `resultColor` unchanged. -/
theorem RayTracer.lightStep_inShadow (sqrt : F → F) (pow : F → F → F) (rec : HitRecord F)
    (ray : Ray F) (world : HittableList F) (acc : Vector3f F) (light : Light F)
    (h : (world.hit sqrt
      (Ray.new sqrt (rec.point + rec.normal.scale (1 / 1000))
        ((light.position - rec.point).Normalize sqrt)) (1 / 1000)
      ((((light.position - rec.point).length sqrt - 1 / 1000 : F)) : WithTop F)
      HitRecord.fresh).isSome = true) :
    RayTracer.lightStep sqrt pow rec ray world acc light = acc := by
  unfold RayTracer.lightStep
  simp only [h, Bool.not_true, Bool.false_eq_true, if_false]

/-! ## Concrete hits over `ℚ` -/

theorem qsqrt_four : qsqrt 4 = 2 := by
  have := qsqrt_mul_self 2 (by norm_num)
  norm_num at this
  exact this

theorem demoSphere_hit (tMax : WithTop ℚ) (h : ((4 : ℚ) : WithTop ℚ) ≤ tMax)
    (rec : HitRecord ℚ) :
    demoSphere.hit qsqrt demoRay 0 tMax rec = some (demoSphere.fill demoRay 4 rec) := by
  have hd : demoSphere.discriminant demoRay = 1 := by
    norm_num [Sphere.discriminant, demoSphere, demoRay, Vector3f.dot_def]
  have hn : demoSphere.rootNear qsqrt demoRay = 4 := by
    unfold Sphere.rootNear
    rw [hd, qsqrt_one]
    norm_num [demoSphere, demoRay, Vector3f.dot_def]
  rw [Sphere.hit_eq_sphere, hd, hn, if_neg (by norm_num), if_pos ⟨by norm_num, h⟩]

/-- The slab loop on a ray along the z axis, for a box whose x and y slabs contain the
origin: only the z slab acts. -/
theorem Box.slabs_along_z (b : Box ℚ) (oz tMin : ℚ) (tMax : WithTop ℚ)
    (hx : b.boxMin.x ≤ 0 ∧ 0 ≤ b.boxMax.x) (hy : b.boxMin.y ≤ 0 ∧ 0 ≤ b.boxMax.y)
    (hz : b.boxMin.z ≤ b.boxMax.z) :
    b.slabs ⟨⟨0, 0, oz⟩, ⟨0, 0, 1⟩⟩ tMin tMax =
      b.slabStep ⟨⟨0, 0, oz⟩, ⟨0, 0, 1⟩⟩ tMin
        { tNear := tMin, tFar := tMax, hitAxis := -1, hitIsMin := false } 2 ∧
    b.slabLo ⟨⟨0, 0, oz⟩, ⟨0, 0, 1⟩⟩ 2 = b.boxMin.z - oz ∧
    b.slabHi ⟨⟨0, 0, oz⟩, ⟨0, 0, 1⟩⟩ 2 = b.boxMax.z - oz := by
  have h0 : ∀ st : SlabState ℚ, b.slabStep ⟨⟨0, 0, oz⟩, ⟨0, 0, 1⟩⟩ tMin st 0 = some st :=
    fun st => (Box.slabStep_parallel _ _ _ _ _ _ (by norm_num [Vector3f.get])).mpr
      ⟨by simp only [Vector3f.get, not_or, not_lt, gt_iff_lt]; exact hx, rfl⟩
  have h1 : ∀ st : SlabState ℚ, b.slabStep ⟨⟨0, 0, oz⟩, ⟨0, 0, 1⟩⟩ tMin st 1 = some st :=
    fun st => (Box.slabStep_parallel _ _ _ _ _ _ (by norm_num [Vector3f.get])).mpr
      ⟨by simp only [Vector3f.get, not_or, not_lt, gt_iff_lt]; exact hy, rfl⟩
  refine ⟨?_, ?_, ?_⟩
  · simp only [Box.slabs, List.foldlM_cons, List.foldlM_nil, h0, h1, Option.bind_eq_bind,
      Option.some_bind]
    cases b.slabStep ⟨⟨0, 0, oz⟩, ⟨0, 0, 1⟩⟩ tMin
      { tNear := tMin, tFar := tMax, hitAxis := -1, hitIsMin := false } 2 <;> rfl
  · simp only [Box.slabLo, Vector3f.get, div_one, mul_one]
    exact min_eq_left (by linarith)
  · simp only [Box.slabHi, Vector3f.get, div_one, mul_one]
    exact max_eq_right (by linarith)

theorem unitBox_slabs_nearRay (tMax : WithTop ℚ) (h : ((4 : ℚ) : WithTop ℚ) ≤ tMax) :
    unitBox.slabs nearRay 0 tMax =
      some { tNear := 4, tFar := min tMax ((6 : ℚ) : WithTop ℚ), hitAxis := 2,
             hitIsMin := true } := by
  rw [nearRay_eq]
  obtain ⟨e, hlo, hhi⟩ := Box.slabs_along_z unitBox (-5) 0 tMax (by norm_num [unitBox])
    (by norm_num [unitBox]) (by norm_num [unitBox])
  have hlo' : unitBox.slabLo ⟨⟨0, 0, -5⟩, ⟨0, 0, 1⟩⟩ 2 = 4 := by
    rw [hlo]; norm_num [unitBox]
  have hhi' : unitBox.slabHi ⟨⟨0, 0, -5⟩, ⟨0, 0, 1⟩⟩ 2 = 6 := by
    rw [hhi]; norm_num [unitBox]
  rw [e, Box.slabStep_some_iff _ _ _ _ _ _ (by norm_num [Vector3f.get])]
  have hnext : unitBox.slabNext ⟨⟨0, 0, -5⟩, ⟨0, 0, 1⟩⟩
      { tNear := 0, tFar := tMax, hitAxis := -1, hitIsMin := false } 2 =
      { tNear := 4, tFar := min tMax ((6 : ℚ) : WithTop ℚ), hitAxis := 2, hitIsMin := true } := by
    simp only [Box.slabNext, hlo', hhi', SlabState.mk.injEq]
    exact ⟨by norm_num, trivial, by norm_num, by norm_num⟩
  rw [hnext]
  exact ⟨le_min h (WithTop.coe_le_coe.mpr (by norm_num)),
    le_min (le_trans (WithTop.coe_le_coe.mpr (by norm_num)) h)
      (WithTop.coe_le_coe.mpr (by norm_num)), rfl⟩

theorem unitBox_hit_nearRay (rec : HitRecord ℚ) :
    unitBox.hit nearRay 0 ((10 : ℚ) : WithTop ℚ) rec =
      some (unitBox.fill nearRay
        { tNear := 4, tFar := ((6 : ℚ) : WithTop ℚ), hitAxis := 2, hitIsMin := true } rec) := by
  rw [Box.hit_some_iff]
  refine ⟨_, unitBox_slabs_nearRay _ (WithTop.coe_le_coe.mpr (by norm_num)), ?_, ?_⟩
  · exact WithTop.coe_le_coe.mpr (by norm_num)
  · rw [min_eq_right (WithTop.coe_le_coe.mpr (by norm_num))]

theorem unitBox_hit_inside (rec : HitRecord ℚ) :
    unitBox.hit demoRay (1 / 1000) ⊤ rec =
      some (unitBox.fill demoRay
        { tNear := 1 / 1000, tFar := ((1 : ℚ) : WithTop ℚ), hitAxis := -1, hitIsMin := false }
        rec) := by
  obtain ⟨e, hlo, hhi⟩ := Box.slabs_along_z unitBox 0 (1 / 1000) ⊤ (by norm_num [unitBox])
    (by norm_num [unitBox]) (by norm_num [unitBox])
  have hlo' : unitBox.slabLo ⟨⟨0, 0, 0⟩, ⟨0, 0, 1⟩⟩ 2 = -1 := by
    rw [hlo]; norm_num [unitBox]
  have hhi' : unitBox.slabHi ⟨⟨0, 0, 0⟩, ⟨0, 0, 1⟩⟩ 2 = 1 := by
    rw [hhi]; norm_num [unitBox]
  have hnext : unitBox.slabNext ⟨⟨0, 0, 0⟩, ⟨0, 0, 1⟩⟩
      { tNear := 1 / 1000, tFar := ⊤, hitAxis := -1, hitIsMin := false } 2 =
      { tNear := 1 / 1000, tFar := ((1 : ℚ) : WithTop ℚ), hitAxis := -1, hitIsMin := false } := by
    simp only [Box.slabNext, hlo', hhi', SlabState.mk.injEq]
    exact ⟨by norm_num, by simp, by norm_num, by norm_num⟩
  rw [Box.hit_some_iff]
  refine ⟨_, ?_, le_top, rfl⟩
  show unitBox.slabs ⟨⟨0, 0, 0⟩, ⟨0, 0, 1⟩⟩ (1 / 1000) ⊤ = _
  rw [e, Box.slabStep_some_iff _ _ _ _ _ _ (by norm_num [Vector3f.get]), hnext]
  exact ⟨WithTop.coe_le_coe.mpr (by norm_num), WithTop.coe_le_coe.mpr (by norm_num), rfl⟩

/-! ## The shaded point under `topLight` -/

theorem shade_lightDir :
    (topLight.position - shadeRec.point).length qsqrt = 10 ∧
      (topLight.position - shadeRec.point).Normalize qsqrt = ⟨0, 0, 1⟩ := by
  have hl : (topLight.position - shadeRec.point).length qsqrt = 10 :=
    length_qsqrt _ 10 (by norm_num) (by norm_num [topLight, shadeRec])
  refine ⟨hl, ?_⟩
  unfold Vector3f.Normalize
  rw [hl]
  apply Vector3f.eq_of_components <;> norm_num [topLight, shadeRec]

theorem shade_shadowRay :
    Ray.new qsqrt (shadeRec.point + shadeRec.normal.scale (1 / 1000))
      ((topLight.position - shadeRec.point).Normalize qsqrt) =
      ⟨⟨0, 0, 1 / 1000⟩, ⟨0, 0, 1⟩⟩ := by
  rw [shade_lightDir.2]
  unfold Ray.new
  rw [normalize_qsqrt _ 1 (by norm_num) (by norm_num)]
  simp only [Ray.mk.injEq]
  constructor
  · apply Vector3f.eq_of_components <;> norm_num [shadeRec]
  · apply Vector3f.eq_of_components <;> norm_num

theorem thinBox_shadow_miss (rec : HitRecord ℚ) :
    thinBox.hit ⟨⟨0, 0, 1 / 1000⟩, ⟨0, 0, 1⟩⟩ (1 / 1000)
      (((10 - 1 / 1000 : ℚ)) : WithTop ℚ) rec = none := by
  obtain ⟨e, hlo, hhi⟩ := Box.slabs_along_z thinBox (1 / 1000) (1 / 1000)
    (((10 - 1 / 1000 : ℚ)) : WithTop ℚ) (by norm_num [thinBox]) (by norm_num [thinBox])
    (by norm_num [thinBox])
  have hnone : thinBox.slabs ⟨⟨0, 0, 1 / 1000⟩, ⟨0, 0, 1⟩⟩ (1 / 1000)
      (((10 - 1 / 1000 : ℚ)) : WithTop ℚ) = none := by
    rw [e, Option.eq_none_iff_forall_not_mem]
    intro st hst
    rw [Option.mem_def, Box.slabStep_some_iff _ _ _ _ _ _ (by norm_num [Vector3f.get])] at hst
    have h1 := hst.1
    simp only [Box.slabNext, hlo, hhi] at h1
    have h2 := le_trans h1 (min_le_right _ _)
    rw [WithTop.coe_le_coe] at h2
    norm_num [thinBox] at h2
  unfold Box.hit
  rw [hnone]

theorem highBox_shadow_hit (rec : HitRecord ℚ) :
    (highBox.hit ⟨⟨0, 0, 1 / 1000⟩, ⟨0, 0, 1⟩⟩ (1 / 1000)
      (((10 - 1 / 1000 : ℚ)) : WithTop ℚ) rec).isSome = true := by
  obtain ⟨e, hlo, hhi⟩ := Box.slabs_along_z highBox (1 / 1000) (1 / 1000)
    (((10 - 1 / 1000 : ℚ)) : WithTop ℚ) (by norm_num [highBox]) (by norm_num [highBox])
    (by norm_num [highBox])
  have hsl : highBox.slabs ⟨⟨0, 0, 1 / 1000⟩, ⟨0, 0, 1⟩⟩ (1 / 1000)
      (((10 - 1 / 1000 : ℚ)) : WithTop ℚ) =
      some (highBox.slabNext ⟨⟨0, 0, 1 / 1000⟩, ⟨0, 0, 1⟩⟩
        { tNear := 1 / 1000, tFar := (((10 - 1 / 1000 : ℚ)) : WithTop ℚ), hitAxis := -1,
          hitIsMin := false } 2) := by
    rw [e, Box.slabStep_some_iff _ _ _ _ _ _ (by norm_num [Vector3f.get])]
    simp only [Box.slabNext, hlo, hhi, and_true]
    constructor
    · apply le_min <;> exact WithTop.coe_le_coe.mpr (by norm_num [highBox])
    · apply le_min <;> exact WithTop.coe_le_coe.mpr (by norm_num [highBox])
  have hle : (((highBox.slabNext ⟨⟨0, 0, 1 / 1000⟩, ⟨0, 0, 1⟩⟩
        { tNear := 1 / 1000, tFar := (((10 - 1 / 1000 : ℚ)) : WithTop ℚ), hitAxis := -1,
          hitIsMin := false } 2).tNear : ℚ) : WithTop ℚ) ≤
      (((10 - 1 / 1000 : ℚ)) : WithTop ℚ) := by
    simp only [Box.slabNext, hlo]
    exact WithTop.coe_le_coe.mpr (by norm_num [highBox])
  rw [(Box.hit_some_iff highBox _ _ _ rec _).mpr ⟨_, hsl, hle, rfl⟩]
  rfl

/-- A light whose shadow query reports no hit adds its diffuse and specular terms. -/
theorem RayTracer.lightStep_lit (sqrt : F → F) (pow : F → F → F) (rec : HitRecord F)
    (ray : Ray F) (world : HittableList F) (acc : Vector3f F) (light : Light F)
    (h : (world.hit sqrt
      (Ray.new sqrt (rec.point + rec.normal.scale (1 / 1000))
        ((light.position - rec.point).Normalize sqrt)) (1 / 1000)
      ((((light.position - rec.point).length sqrt - 1 / 1000 : F)) : WithTop F)
      HitRecord.fresh).isSome = false) :
    RayTracer.lightStep sqrt pow rec ray world acc light =
      acc +
        (((rec.material.color.mul light.color).scale
          (max (rec.normal.Dot ((light.position - rec.point).Normalize sqrt)) 0)).scale
          rec.material.diffuseCoef).scale light.intensity +
        ((light.color.scale
          (pow (max (rec.normal.Dot
            ((-ray.direction + (light.position - rec.point).Normalize sqrt).Normalize sqrt)) 0)
            rec.material.shininess)).scale rec.material.specularCoef).scale light.intensity := by
  unfold RayTracer.lightStep
  simp only [h, Bool.not_false, if_true]

/-! ## The illumination model in closed form -/

@[simp] theorem Vector3f.mul_x (a b : Vector3f F) : (a.mul b).x = a.x * b.x := rfl
@[simp] theorem Vector3f.mul_y (a b : Vector3f F) : (a.mul b).y = a.y * b.y := rfl
@[simp] theorem Vector3f.mul_z (a b : Vector3f F) : (a.mul b).z = a.z * b.z := rfl

/-- One iteration of the loop over the lights, in terms of the specification's words. -/
theorem RayTracer.lightStep_eq (sqrt : F → F) (pow : F → F → F) (rec : HitRecord F)
    (ray : Ray F) (world : HittableList F) (acc : Vector3f F) (light : Light F) :
    RayTracer.lightStep sqrt pow rec ray world acc light =
      if RayTracer.unoccludedSpec sqrt rec world light = true then
        ⟨acc.x + RayTracer.lightTermSpec sqrt pow rec ray Vector3f.x light,
          acc.y + RayTracer.lightTermSpec sqrt pow rec ray Vector3f.y light,
          acc.z + RayTracer.lightTermSpec sqrt pow rec ray Vector3f.z light⟩
      else acc := by
  unfold RayTracer.unoccludedSpec
  cases h : world.hit sqrt
      (Ray.new sqrt (rec.point + rec.normal.scale (1 / 1000))
        ((light.position - rec.point).Normalize sqrt)) (1 / 1000)
      ((((light.position - rec.point).length sqrt - 1 / 1000 : F)) : WithTop F)
      HitRecord.fresh with
  | none =>
    rw [RayTracer.lightStep_lit sqrt pow rec ray world acc light (by rw [h]; rfl)]
    simp only [Option.isNone_none, if_true]
    apply Vector3f.eq_of_components <;>
      simp only [RayTracer.lightTermSpec, Vector3f.add_x, Vector3f.add_y, Vector3f.add_z,
        Vector3f.scale_x, Vector3f.scale_y, Vector3f.scale_z, Vector3f.mul_x, Vector3f.mul_y,
        Vector3f.mul_z] <;> ring
  | some r =>
    rw [RayTracer.lightStep_inShadow sqrt pow rec ray world acc light (by rw [h]; rfl)]
    simp only [Option.isNone_some, Bool.false_eq_true, if_false]

/-- The loop over the lights adds, channel by channel, the terms of the unoccluded lights. -/
theorem RayTracer.foldl_lightStep (sqrt : F → F) (pow : F → F → F) (rec : HitRecord F)
    (ray : Ray F) (world : HittableList F) (lights : List (Light F)) :
    ∀ acc : Vector3f F,
      lights.foldl (RayTracer.lightStep sqrt pow rec ray world) acc =
        ⟨acc.x + ((lights.filter (RayTracer.unoccludedSpec sqrt rec world)).map
            (RayTracer.lightTermSpec sqrt pow rec ray Vector3f.x)).sum,
          acc.y + ((lights.filter (RayTracer.unoccludedSpec sqrt rec world)).map
            (RayTracer.lightTermSpec sqrt pow rec ray Vector3f.y)).sum,
          acc.z + ((lights.filter (RayTracer.unoccludedSpec sqrt rec world)).map
            (RayTracer.lightTermSpec sqrt pow rec ray Vector3f.z)).sum⟩ := by
  induction lights with
  | nil => intro acc; simp
  | cons light ls ih =>
    intro acc
    rw [List.foldl_cons, ih, RayTracer.lightStep_eq]
    by_cases h : RayTracer.unoccludedSpec sqrt rec world light = true
    · simp only [h, if_true, List.filter_cons_of_pos, List.map_cons, List.sum_cons,
        Vector3f.mk.injEq]
      refine ⟨?_, ?_, ?_⟩ <;> ring
    · simp only [h, if_false, List.filter_cons_of_neg, not_false_eq_true, Bool.false_eq_true]

/-! ## The recursive integrator, one level unfolded -/

/-- The integrator at a positive depth on a ray that hits the scene. -/
theorem RayTracer.rayColorWithReflection_some (sqrt : F → F) (pow : F → F → F)
    (rt : RayTracer F) (ray : Ray F) (world : HittableList F) (depth : Int)
    (rec : HitRecord F) (hd : 1 ≤ depth)
    (hhit : world.hit sqrt ray (1 / 1000) ⊤ HitRecord.fresh = some rec) :
    rt.rayColorWithReflection sqrt pow ray world depth =
      if rec.material.reflectivity > 0 then
        (rt.calculateLighting sqrt pow rec ray world).scale (1 - rec.material.reflectivity) +
          (rt.rayColorWithReflection sqrt pow
            (Ray.new sqrt (rec.point + rec.normal.scale (1 / 1000))
              (RayTracer.reflect ray.direction rec.normal)) world (depth - 1)).scale
            rec.material.reflectivity
      else rt.calculateLighting sqrt pow rec ray world := by
  rw [RayTracer.rayColorWithReflection, if_neg (by omega)]
  simp only [hhit]

/-- The integrator at a positive depth on a ray that hits nothing. -/
theorem RayTracer.rayColorWithReflection_none (sqrt : F → F) (pow : F → F → F)
    (rt : RayTracer F) (ray : Ray F) (world : HittableList F) (depth : Int) (hd : 1 ≤ depth)
    (hhit : world.hit sqrt ray (1 / 1000) ⊤ HitRecord.fresh = none) :
    rt.rayColorWithReflection sqrt pow ray world depth = rt.background ray := by
  rw [RayTracer.rayColorWithReflection, if_neg (by omega)]
  simp only [hhit]

/-- The mirror image of a unit vector about a unit normal is a unit vector. -/
theorem RayTracer.reflect_dot_self (v n : Vector3f F) (hn : n.Dot n = 1) :
    (RayTracer.reflect v n).Dot (RayTracer.reflect v n) = v.Dot v := by
  simp only [RayTracer.reflect, Vector3f.dot_def, Vector3f.sub_x, Vector3f.sub_y,
    Vector3f.sub_z, Vector3f.scale_x, Vector3f.scale_y, Vector3f.scale_z] at hn ⊢
  linear_combination (4 * (v.x * n.x + v.y * n.y + v.z * n.z) ^ 2) * hn

/-- The constructor `Ray(o, d)` keeps a direction of length 1 when `sqrt 1 = 1`. -/
theorem Ray.new_of_unit (sqrt : F → F) (hs1 : sqrt 1 = 1) (o d : Vector3f F)
    (hd : d.Dot d = 1) : Ray.new sqrt o d = ⟨o, d⟩ := by
  have hlen : d.length sqrt = 1 := by
    unfold Vector3f.length
    rw [← Vector3f.dot_def, hd, hs1]
  simp only [Ray.new, Vector3f.Normalize, hlen, div_one]

/-! ## Without reflections the reflectivity is never read -/

/-- A scene without primitives reports no hit. -/
theorem HittableList.hit_nil (sqrt : F → F) (ray : Ray F) (tMin : F) (tMax : WithTop F)
    (rec : HitRecord F) : (HittableList.mk []).hit sqrt ray tMin tMax rec = none := rfl

theorem RayTracer.rayColor_none (sqrt : F → F) (pow : F → F → F) (rt : RayTracer F)
    (ray : Ray F) (world : HittableList F)
    (hhit : world.hit sqrt ray (1 / 1000) ⊤ HitRecord.fresh = none) :
    rt.rayColor sqrt pow ray world = rt.background ray := by
  unfold RayTracer.rayColor
  rw [hhit]

/-- The y component of a unit vector lies in `[-1, 1]`. -/
theorem Vector3f.y_bounds_of_unit (d : Vector3f F) (hd : d.Dot d = 1) : -1 ≤ d.y ∧ d.y ≤ 1 := by
  rw [Vector3f.dot_def] at hd
  constructor <;> nlinarith [mul_self_nonneg d.x, mul_self_nonneg d.z, mul_self_nonneg (d.y - 1),
    mul_self_nonneg (d.y + 1)]

/-! ## The camera basis -/

/-- A normalised non-zero vector has length 1 when `sqrt` is exact at its squared length. -/
theorem Vector3f.normalize_dot_self (sqrt : F → F) (v : Vector3f F) (hv : v ≠ Vector3f.zero)
    (hsq : sqrt (v.Dot v) * sqrt (v.Dot v) = v.Dot v) :
    (v.Normalize sqrt).Dot (v.Normalize sqrt) = 1 := by
  have hpos := Vector3f.dot_self_pos v hv
  generalize hL : sqrt (v.Dot v) = L at hsq
  have hlen : v.length sqrt = L := hL
  have hLne : L ≠ 0 := by
    intro h0; rw [h0, mul_zero] at hsq; rw [← hsq] at hpos; exact lt_irrefl _ hpos
  simp only [Vector3f.Normalize, hlen, Vector3f.dot_def] at hsq ⊢
  field_simp
  linear_combination -hsq

theorem Vector3f.normalize_dot (sqrt : F → F) (v w : Vector3f F) :
    (v.Normalize sqrt).Dot w = v.Dot w / v.length sqrt := by
  simp only [Vector3f.Normalize, Vector3f.dot_def]
  ring

theorem Vector3f.cross_dot_left (a b : Vector3f F) : (a.Cross b).Dot a = 0 := by
  simp only [Vector3f.Cross, Vector3f.dot_def]; ring

theorem Vector3f.cross_dot_right (a b : Vector3f F) : (a.Cross b).Dot b = 0 := by
  simp only [Vector3f.Cross, Vector3f.dot_def]; ring

theorem Vector3f.cross_dot_self (a b : Vector3f F) :
    (a.Cross b).Dot (a.Cross b) = a.Dot a * b.Dot b - a.Dot b * a.Dot b := by
  simp only [Vector3f.Cross, Vector3f.dot_def]; ring

/-! ## Scenario C over `ℚ` -/

/-- `Sphere::hit` for a unit sphere centred on the z axis and a ray along the z axis. -/
theorem axisSphere_hit (cz oz s : ℚ) (mat : Material ℚ) (hs : s * s = 1) (tMin : ℚ)
    (tMax : WithTop ℚ) (rec : HitRecord ℚ) :
    Sphere.hit qsqrt ⟨⟨0, 0, cz⟩, 1, mat⟩ ⟨⟨0, 0, oz⟩, ⟨0, 0, s⟩⟩ tMin tMax rec =
      if tMin ≤ -(oz - cz) * s - 1 ∧ ((-(oz - cz) * s - 1 : ℚ) : WithTop ℚ) ≤ tMax then
        some (Sphere.fill ⟨⟨0, 0, cz⟩, 1, mat⟩ ⟨⟨0, 0, oz⟩, ⟨0, 0, s⟩⟩ (-(oz - cz) * s - 1) rec)
      else if tMin ≤ -(oz - cz) * s + 1 ∧ ((-(oz - cz) * s + 1 : ℚ) : WithTop ℚ) ≤ tMax then
        some (Sphere.fill ⟨⟨0, 0, cz⟩, 1, mat⟩ ⟨⟨0, 0, oz⟩, ⟨0, 0, s⟩⟩ (-(oz - cz) * s + 1) rec)
      else none := by
  have hd : Sphere.discriminant ⟨⟨0, 0, cz⟩, 1, mat⟩ ⟨⟨0, 0, oz⟩, ⟨0, 0, s⟩⟩ = 1 := by
    simp only [Sphere.discriminant, Vector3f.dot_def, Vector3f.sub_x, Vector3f.sub_y,
      Vector3f.sub_z]
    linear_combination hs
  have hn : Sphere.rootNear qsqrt ⟨⟨0, 0, cz⟩, 1, mat⟩ ⟨⟨0, 0, oz⟩, ⟨0, 0, s⟩⟩ =
      -(oz - cz) * s - 1 := by
    unfold Sphere.rootNear
    rw [hd, qsqrt_one]
    simp only [Vector3f.dot_def, Vector3f.sub_x, Vector3f.sub_y, Vector3f.sub_z, mul_zero,
      zero_add, sub_self, zero_mul, hs, div_one]
    ring
  have hf : Sphere.rootFar qsqrt ⟨⟨0, 0, cz⟩, 1, mat⟩ ⟨⟨0, 0, oz⟩, ⟨0, 0, s⟩⟩ =
      -(oz - cz) * s + 1 := by
    unfold Sphere.rootFar
    rw [hd, qsqrt_one]
    simp only [Vector3f.dot_def, Vector3f.sub_x, Vector3f.sub_y, Vector3f.sub_z, mul_zero,
      zero_add, sub_self, zero_mul, hs, div_one]
    ring
  rw [Sphere.hit_eq_sphere, hd, hn, hf, if_neg (by norm_num)]

/-- A list of two spheres picks the nearer of the two own results. -/
theorem HittableList.hit_pair (l : HittableList ℚ) (o1 o2 : Hittable ℚ) (ray : Ray ℚ)
    (tMin : ℚ) (tMax : WithTop ℚ) (rec : HitRecord ℚ) (hl : l.objects = [o1, o2]) :
    l.hit qsqrt ray tMin tMax rec =
      nearer (nearer none (o1.hit qsqrt ray tMin tMax HitRecord.fresh))
        (o2.hit qsqrt ray tMin tMax HitRecord.fresh) := by
  rw [HittableList.hit_eq_foldl qsqrt qsqrt_nonneg l ray tMin tMax rec HitRecord.fresh, hl]
  rfl

theorem mirrorWorld_primary (rec : HitRecord ℚ) :
    mirrorWorld.hit qsqrt shadeRay (1 / 1000) ⊤ rec =
      some (mirrorSphere.fill shadeRay 4 HitRecord.fresh) := by
  rw [HittableList.hit_pair mirrorWorld _ _ shadeRay _ _ rec rfl]
  have h1 : (Hittable.sphere mirrorSphere).hit qsqrt shadeRay (1 / 1000) ⊤ HitRecord.fresh =
      some (mirrorSphere.fill shadeRay 4 HitRecord.fresh) := by
    show Sphere.hit qsqrt ⟨⟨0, 0, 0⟩, 1, mirrorMat⟩ ⟨⟨0, 0, 5⟩, ⟨0, 0, -1⟩⟩ _ _ _ = _
    rw [axisSphere_hit 0 5 (-1) mirrorMat (by norm_num), if_pos ⟨by norm_num, le_top⟩]
    norm_num [mirrorSphere, shadeRay]
  have h2 : (Hittable.sphere colourSphere).hit qsqrt shadeRay (1 / 1000) ⊤ HitRecord.fresh =
      none := by
    show Sphere.hit qsqrt ⟨⟨0, 0, 10⟩, 1, redMat⟩ ⟨⟨0, 0, 5⟩, ⟨0, 0, -1⟩⟩ _ _ _ = _
    rw [axisSphere_hit 10 5 (-1) redMat (by norm_num),
      if_neg (fun h => absurd h.1 (by norm_num)), if_neg (fun h => absurd h.1 (by norm_num))]
  rw [h1, h2]
  rfl

theorem mirrorWorld_reflected (rec : HitRecord ℚ) :
    mirrorWorld.hit qsqrt mirrorRay (1 / 1000) ⊤ rec =
      some (colourSphere.fill mirrorRay (7999 / 1000) HitRecord.fresh) := by
  rw [HittableList.hit_pair mirrorWorld _ _ mirrorRay _ _ rec rfl]
  have h1 : (Hittable.sphere mirrorSphere).hit qsqrt mirrorRay (1 / 1000) ⊤ HitRecord.fresh =
      none := by
    show Sphere.hit qsqrt ⟨⟨0, 0, 0⟩, 1, mirrorMat⟩ ⟨⟨0, 0, 1001 / 1000⟩, ⟨0, 0, 1⟩⟩ _ _ _ = _
    rw [axisSphere_hit 0 (1001 / 1000) 1 mirrorMat (by norm_num),
      if_neg (fun h => absurd h.1 (by norm_num)), if_neg (fun h => absurd h.1 (by norm_num))]
  have h2 : (Hittable.sphere colourSphere).hit qsqrt mirrorRay (1 / 1000) ⊤ HitRecord.fresh =
      some (colourSphere.fill mirrorRay (7999 / 1000) HitRecord.fresh) := by
    show Sphere.hit qsqrt ⟨⟨0, 0, 10⟩, 1, redMat⟩ ⟨⟨0, 0, 1001 / 1000⟩, ⟨0, 0, 1⟩⟩ _ _ _ = _
    rw [axisSphere_hit 10 (1001 / 1000) 1 redMat (by norm_num), if_pos ⟨by norm_num, le_top⟩]
    norm_num [colourSphere, mirrorRay]
  rw [h1, h2]
  rfl

/-- The record of the primary hit: the top of the mirror sphere, normal `(0, 0, 1)`. -/
theorem mirrorSphere_fill :
    mirrorSphere.fill shadeRay 4 HitRecord.fresh =
      { t := 4, point := ⟨0, 0, 1⟩, normal := ⟨0, 0, 1⟩, frontFace := true,
        material := mirrorMat } := by
  simp only [Sphere.fill, HitRecord.setFaceNormal, mirrorSphere, shadeRay, Vector3f.dot_def,
    Vector3f.scale, HitRecord.mk.injEq]
  refine ⟨trivial, ?_, ?_, ?_, trivial⟩
  · apply Vector3f.eq_of_components <;> norm_num
  · norm_num
  · norm_num

/-- The record of the reflected hit: the bottom of the coloured sphere, normal `(0, 0, -1)`. -/
theorem colourSphere_fill :
    colourSphere.fill mirrorRay (7999 / 1000) HitRecord.fresh =
      { t := 7999 / 1000, point := ⟨0, 0, 9⟩, normal := ⟨0, 0, -1⟩, frontFace := true,
        material := redMat } := by
  simp only [Sphere.fill, HitRecord.setFaceNormal, colourSphere, mirrorRay, Vector3f.dot_def,
    Vector3f.scale, HitRecord.mk.injEq]
  refine ⟨trivial, ?_, ?_, ?_, trivial⟩
  · apply Vector3f.eq_of_components <;> norm_num
  · norm_num
  · norm_num

theorem mirrorWorld_hit_shadeRay :
    mirrorWorld.hit qsqrt shadeRay (1 / 1000) ⊤ HitRecord.fresh = some mirrorHit := by
  rw [mirrorWorld_primary, mirrorSphere_fill]
  rfl

theorem mirrorWorld_hit_mirrorRay :
    mirrorWorld.hit qsqrt mirrorRay (1 / 1000) ⊤ HitRecord.fresh = some colourHit := by
  rw [mirrorWorld_reflected, colourSphere_fill]
  rfl

/-- The reflection ray built at `mirrorHit` for `shadeRay` is `mirrorRay`. -/
theorem mirrorHit_reflectionRay :
    Ray.new qsqrt (mirrorHit.point + mirrorHit.normal.scale (1 / 1000))
      (RayTracer.reflect shadeRay.direction mirrorHit.normal) = mirrorRay := by
  have hr : RayTracer.reflect shadeRay.direction mirrorHit.normal = ⟨0, 0, 1⟩ := by
    apply Vector3f.eq_of_components <;>
      norm_num [RayTracer.reflect, shadeRay, mirrorHit, Vector3f.dot_def]
  rw [hr, Ray.new_of_unit qsqrt qsqrt_one _ _ (by norm_num [Vector3f.dot_def])]
  show Ray.mk _ _ = Ray.mk _ _
  congr 1
  apply Vector3f.eq_of_components <;> norm_num [mirrorHit]

/-- The local illumination at `colourHit`: ambient `0.1`, diffuse `0.7` and specular `0.4`
of the light straight below, clamped. -/
theorem colourHit_lighting :
    mirrorTracer.calculateLighting qsqrt qpow colourHit mirrorRay mirrorWorld =
      ⟨1, 14 / 25, 14 / 25⟩ := by
  have hdir : ((⟨0, 0, 5⟩ : Vector3f ℚ) - colourHit.point).Normalize qsqrt = ⟨0, 0, -1⟩ := by
    rw [normalize_qsqrt _ 4 (by norm_num) (by norm_num [colourHit])]
    apply Vector3f.eq_of_components <;> norm_num [colourHit]
  have hlen : ((⟨0, 0, 5⟩ : Vector3f ℚ) - colourHit.point).length qsqrt = 4 :=
    length_qsqrt _ 4 (by norm_num) (by norm_num [colourHit])
  have hray : Ray.new qsqrt (colourHit.point + colourHit.normal.scale (1 / 1000))
      (⟨0, 0, -1⟩ : Vector3f ℚ) = ⟨⟨0, 0, 8999 / 1000⟩, ⟨0, 0, -1⟩⟩ := by
    rw [Ray.new_of_unit qsqrt qsqrt_one _ _ (by norm_num [Vector3f.dot_def])]
    show Ray.mk _ _ = Ray.mk _ _
    congr 1
    apply Vector3f.eq_of_components <;> norm_num [colourHit]
  have hmiss : (mirrorWorld.hit qsqrt
      (Ray.new qsqrt (colourHit.point + colourHit.normal.scale (1 / 1000))
        (((⟨0, 0, 5⟩ : Vector3f ℚ) - colourHit.point).Normalize qsqrt)) (1 / 1000)
      ((((((⟨0, 0, 5⟩ : Vector3f ℚ) - colourHit.point).length qsqrt - 1 / 1000 : ℚ))) :
        WithTop ℚ) HitRecord.fresh).isSome = false := by
    rw [hdir, hlen, hray, HittableList.hit_pair mirrorWorld _ _ _ _ _ _ rfl]
    have h1 : (Hittable.sphere mirrorSphere).hit qsqrt ⟨⟨0, 0, 8999 / 1000⟩, ⟨0, 0, -1⟩⟩
        (1 / 1000) (((4 - 1 / 1000 : ℚ)) : WithTop ℚ) HitRecord.fresh = none := by
      show Sphere.hit qsqrt ⟨⟨0, 0, 0⟩, 1, mirrorMat⟩ _ _ _ _ = _
      rw [axisSphere_hit 0 (8999 / 1000) (-1) mirrorMat (by norm_num),
        if_neg (fun h => absurd (WithTop.coe_le_coe.mp h.2) (by norm_num)),
        if_neg (fun h => absurd (WithTop.coe_le_coe.mp h.2) (by norm_num))]
    have h2 : (Hittable.sphere colourSphere).hit qsqrt ⟨⟨0, 0, 8999 / 1000⟩, ⟨0, 0, -1⟩⟩
        (1 / 1000) (((4 - 1 / 1000 : ℚ)) : WithTop ℚ) HitRecord.fresh = none := by
      show Sphere.hit qsqrt ⟨⟨0, 0, 10⟩, 1, redMat⟩ _ _ _ _ = _
      rw [axisSphere_hit 10 (8999 / 1000) (-1) redMat (by norm_num),
        if_neg (fun h => absurd h.1 (by norm_num)), if_neg (fun h => absurd h.1 (by norm_num))]
    rw [h1, h2]
    rfl
  have hhalf : ((-mirrorRay.direction) + (⟨0, 0, -1⟩ : Vector3f ℚ)).Normalize qsqrt =
      ⟨0, 0, -1⟩ := by
    rw [normalize_qsqrt _ 2 (by norm_num) (by norm_num [mirrorRay])]
    apply Vector3f.eq_of_components <;> norm_num [mirrorRay]
  unfold RayTracer.calculateLighting
  simp only [show mirrorTracer.lights = [⟨⟨0, 0, 5⟩, ⟨1, 1, 1⟩, 1⟩] from rfl, List.foldl_cons,
    List.foldl_nil]
  rw [RayTracer.lightStep_lit qsqrt qpow colourHit mirrorRay _ _ ⟨⟨0, 0, 5⟩, ⟨1, 1, 1⟩, 1⟩ hmiss]
  simp only [hdir, hhalf]
  norm_num [colourHit, redMat, Vector3f.dot_def, Vector3f.mul, qpow, Vector3f.scale]

/-- At reflectivity 1 the blend keeps only the reflected colour. -/
theorem Vector3f.blend_one (a b : Vector3f F) : a.scale (1 - 1) + b.scale 1 = b := by
  apply Vector3f.eq_of_components <;> simp

/-- A perfect mirror seen at depth 1: the reflected ray is traced at depth 0, which is
black, and the blend keeps nothing of the direct colour. -/
theorem RayTracer.rayColorWithReflection_mirror_one (sqrt : F → F) (pow : F → F → F)
    (rt : RayTracer F) (ray : Ray F) (world : HittableList F) (rec : HitRecord F)
    (hhit : world.hit sqrt ray (1 / 1000) ⊤ HitRecord.fresh = some rec)
    (hrho : rec.material.reflectivity = 1) :
    rt.rayColorWithReflection sqrt pow ray world 1 = ⟨0, 0, 0⟩ := by
  rw [RayTracer.rayColorWithReflection_some sqrt pow rt ray world 1 rec (le_refl 1) hhit,
    if_pos (by rw [hrho]; exact one_pos), hrho, Vector3f.blend_one]
  rw [RayTracer.rayColorWithReflection, if_pos (by norm_num)]

/-- A perfect mirror seen at depth `>= 2` whose reflected ray hits a surface without
reflection: the result is the local illumination of that surface. -/
theorem RayTracer.rayColorWithReflection_mirror_deep (sqrt : F → F) (pow : F → F → F)
    (rt : RayTracer F) (ray : Ray F) (world : HittableList F) (rec rec2 : HitRecord F)
    (depth : Int) (hd : 2 ≤ depth)
    (hhit : world.hit sqrt ray (1 / 1000) ⊤ HitRecord.fresh = some rec)
    (hrho : rec.material.reflectivity = 1)
    (hhit2 : world.hit sqrt
      (Ray.new sqrt (rec.point + rec.normal.scale (1 / 1000))
        (RayTracer.reflect ray.direction rec.normal)) (1 / 1000) ⊤ HitRecord.fresh = some rec2)
    (hrho2 : rec2.material.reflectivity = 0) :
    rt.rayColorWithReflection sqrt pow ray world depth =
      rt.calculateLighting sqrt pow rec2
        (Ray.new sqrt (rec.point + rec.normal.scale (1 / 1000))
          (RayTracer.reflect ray.direction rec.normal)) world := by
  rw [RayTracer.rayColorWithReflection_some sqrt pow rt ray world depth rec (by omega) hhit,
    if_pos (by rw [hrho]; exact one_pos), hrho, Vector3f.blend_one,
    RayTracer.rayColorWithReflection_some sqrt pow rt _ world (depth - 1) rec2 (by omega) hhit2,
    if_neg (by rw [hrho2]; exact lt_irrefl _)]

/-! ## The render buffer -/

theorem toByte_of_bounds [FloorRing F] (v : F) (h0 : 0 ≤ v) (h1 : v < 256) :
    toByte v = Int.toNat ⌊v⌋ ∧ toByte v ≤ 255 := by
  have hf0 : 0 ≤ ⌊v⌋ := Int.floor_nonneg.mpr h0
  have hf1 : ⌊v⌋ < 256 := Int.floor_lt.mpr (by exact_mod_cast h1)
  have hlt : Int.toNat ⌊v⌋ < 256 := by omega
  unfold toByte
  rw [Nat.mod_eq_of_lt hlt]
  exact ⟨rfl, by omega⟩

/-- The argument of the byte conversion lies in `[0, 255.99]`. -/
theorem channelByte_arg_bounds (sqrt : F → F) (hs0 : sqrt 0 = 0) (hs1 : sqrt 1 = 1)
    (hmono : ∀ a b : F, 0 ≤ a → a ≤ b → sqrt a ≤ sqrt b) (c : F) (hc : 0 ≤ c) :
    0 ≤ 25599 / 100 * sqrt (min c 1) ∧ 25599 / 100 * sqrt (min c 1) < 256 := by
  have hm0 : (0 : F) ≤ min c 1 := le_min hc zero_le_one
  have h0 : 0 ≤ sqrt (min c 1) := by
    have := hmono 0 (min c 1) (le_refl 0) hm0
    rwa [hs0] at this
  have h1 : sqrt (min c 1) ≤ 1 := by
    have := hmono (min c 1) 1 hm0 (min_le_right c 1)
    rwa [hs1] at this
  constructor
  · exact mul_nonneg (by norm_num) h0
  · have : (25599 / 100 : F) * sqrt (min c 1) ≤ 25599 / 100 * 1 :=
      mul_le_mul_of_nonneg_left h1 (by norm_num)
    linarith

theorem channelByte_eq [FloorRing F] (sqrt : F → F) (hs0 : sqrt 0 = 0) (hs1 : sqrt 1 = 1)
    (hmono : ∀ a b : F, 0 ≤ a → a ≤ b → sqrt a ≤ sqrt b) (c : F) (hc : 0 ≤ c) :
    channelByte sqrt c = Int.toNat ⌊25599 / 100 * sqrt (min c 1)⌋ ∧ channelByte sqrt c ≤ 255 := by
  obtain ⟨h0, h1⟩ := channelByte_arg_bounds sqrt hs0 hs1 hmono c hc
  exact toByte_of_bounds _ h0 h1

theorem channelByte_mono [FloorRing F] (sqrt : F → F) (hs0 : sqrt 0 = 0) (hs1 : sqrt 1 = 1)
    (hmono : ∀ a b : F, 0 ≤ a → a ≤ b → sqrt a ≤ sqrt b) (c c' : F) (hc : 0 ≤ c)
    (hcc : c ≤ c') : channelByte sqrt c ≤ channelByte sqrt c' := by
  rw [(channelByte_eq sqrt hs0 hs1 hmono c hc).1,
    (channelByte_eq sqrt hs0 hs1 hmono c' (le_trans hc hcc)).1]
  apply Int.toNat_le_toNat
  apply Int.floor_le_floor
  apply mul_le_mul_of_nonneg_left _ (by norm_num)
  exact hmono _ _ (le_min hc zero_le_one) (min_le_min_right 1 hcc)

theorem channelByte_zero [FloorRing F] (sqrt : F → F) (hs0 : sqrt 0 = 0) :
    channelByte sqrt (0 : F) = 0 := by
  unfold channelByte toByte
  rw [min_eq_left (zero_le_one : (0 : F) ≤ 1), hs0, mul_zero, Int.floor_zero]
  rfl

theorem channelByte_of_one_le [FloorRing F] (sqrt : F → F) (hs1 : sqrt 1 = 1) (c : F)
    (hc : 1 ≤ c) : channelByte sqrt c = 255 := by
  unfold channelByte toByte
  rw [min_eq_right hc, hs1, mul_one]
  have : ⌊(25599 / 100 : F)⌋ = 255 := by
    rw [Int.floor_eq_iff]
    constructor <;> norm_num
  rw [this]
  rfl

theorem RayTracer.length_storePixel [FloorRing F] (sqrt : F → F) (pixels : List Nat)
    (idx : Nat) (color : Vector3f F) :
    (RayTracer.storePixel sqrt pixels idx color).length = pixels.length := by
  simp [RayTracer.storePixel]

/-- The three stores for one pixel change the positions `idx`, `idx + 1`, `idx + 2` and
nothing else. -/
theorem RayTracer.getElem?_storePixel [FloorRing F] (sqrt : F → F) (pixels : List Nat)
    (idx : Nat) (color : Vector3f F) (hlen : idx + 2 < pixels.length) (j : Nat) :
    (RayTracer.storePixel sqrt pixels idx color)[j]? =
      if idx ≤ j ∧ j < idx + 3 then some (channelByte sqrt (color.get (j - idx)))
      else pixels[j]? := by
  unfold RayTracer.storePixel
  simp only [List.getElem?_set, List.length_set]
  by_cases h2 : idx + 2 = j
  · subst h2
    simp [hlen, Vector3f.get]
  · by_cases h1 : idx + 1 = j
    · subst h1
      have : idx + 1 < pixels.length := by omega
      simp [this, Vector3f.get]
    · by_cases h0 : idx = j
      · subst h0
        have : idx < pixels.length := by omega
        simp [this, Vector3f.get]
      · rw [if_neg h2, if_neg h1, if_neg h0, if_neg (by omega)]

theorem RayTracer.renderPixel_eq [FloorRing F] (sqrt : F → F) (pow : F → F → F)
    (rt : RayTracer F) (W : Nat) (hW : rt.imageWidth = (W : Int)) (y x : Nat)
    (pixels : List Nat) :
    rt.renderPixel sqrt pow y pixels x =
      RayTracer.storePixel sqrt pixels ((x + y * W) * 3)
        (rt.pixelColor sqrt pow (x : Int) (y : Int)) := by
  unfold RayTracer.renderPixel
  have : ((y : Int) * rt.imageWidth + (x : Int)) * 3 = (((x + y * W) * 3 : Nat) : Int) := by
    rw [hW]
    push_cast
    ring
  simp only [this, Int.toNat_natCast]

/-- Position `(x + y * W) * 3 + k` belongs to channel `k` of pixel `(x, y)`. -/
theorem RayTracer.byteAt_pixel [FloorRing F] (sqrt : F → F) (pow : F → F → F)
    (rt : RayTracer F) (W x y k : Nat) (hx : x < W) (hk : k < 3) :
    rt.byteAt sqrt pow W ((x + y * W) * 3 + k) =
      channelByte sqrt ((rt.pixelColor sqrt pow (x : Int) (y : Int)).get k) := by
  have h3 : ((x + y * W) * 3 + k) / 3 = x + y * W := by omega
  have hm : ((x + y * W) * 3 + k) % 3 = k := by omega
  have hxm : (x + y * W) % W = x := by
    rw [Nat.add_mul_mod_self_right, Nat.mod_eq_of_lt hx]
  have hxd : (x + y * W) / W = y := by
    rw [Nat.add_mul_div_right _ _ (by omega : 0 < W), Nat.div_eq_of_lt hx, Nat.zero_add]
  unfold RayTracer.byteAt
  rw [h3, hm, hxm, hxd]

/-- The inner loop of `render()` after `n` columns of row `y`. -/
theorem RayTracer.renderRow_prefix [FloorRing F] (sqrt : F → F) (pow : F → F → F)
    (rt : RayTracer F) (W : Nat) (hW : rt.imageWidth = (W : Int)) (y : Nat)
    (pixels : List Nat) (hlen : (W + y * W) * 3 ≤ pixels.length) (n : Nat) (hn : n ≤ W) :
    ((List.range n).foldl (rt.renderPixel sqrt pow y) pixels).length = pixels.length ∧
    ∀ j, ((List.range n).foldl (rt.renderPixel sqrt pow y) pixels)[j]? =
      if y * W * 3 ≤ j ∧ j < (n + y * W) * 3 then some (rt.byteAt sqrt pow W j)
      else pixels[j]? := by
  induction n with
  | zero =>
    refine ⟨rfl, fun j => ?_⟩
    rw [if_neg (by omega)]
    rfl
  | succ n ih =>
    obtain ⟨ihl, ihj⟩ := ih (by omega)
    rw [List.range_succ, List.foldl_append]
    simp only [List.foldl_cons, List.foldl_nil]
    rw [RayTracer.renderPixel_eq sqrt pow rt W hW]
    refine ⟨by rw [RayTracer.length_storePixel, ihl], fun j => ?_⟩
    have hidx : (n + y * W) * 3 + 2 <
        ((List.range n).foldl (rt.renderPixel sqrt pow y) pixels).length := by
      rw [ihl]
      omega
    rw [RayTracer.getElem?_storePixel sqrt _ _ _ hidx j, ihj j]
    by_cases hj : (n + y * W) * 3 ≤ j ∧ j < (n + y * W) * 3 + 3
    · rw [if_pos hj, if_pos (by omega)]
      have hjk : j = (n + y * W) * 3 + (j - (n + y * W) * 3) := by omega
      have hk : j - (n + y * W) * 3 < 3 := by omega
      congr 1
      conv_rhs => rw [hjk]
      rw [RayTracer.byteAt_pixel sqrt pow rt W n y _ (by omega) hk]
    · rw [if_neg hj]
      by_cases hj2 : y * W * 3 ≤ j ∧ j < (n + y * W) * 3
      · rw [if_pos hj2, if_pos (by omega)]
      · rw [if_neg hj2, if_neg (by omega)]

/-- The outer loop of `render()` after `m` rows. -/
theorem RayTracer.render_prefix [FloorRing F] (sqrt : F → F) (pow : F → F → F)
    (rt : RayTracer F) (W H : Nat) (hW : rt.imageWidth = (W : Int)) (pixels : List Nat)
    (hlen : pixels.length = H * W * 3) (m : Nat) (hm : m ≤ H) :
    ((List.range m).foldl
        (fun px y => (List.range W).foldl (rt.renderPixel sqrt pow y) px) pixels).length =
      pixels.length ∧
    ∀ j, ((List.range m).foldl
        (fun px y => (List.range W).foldl (rt.renderPixel sqrt pow y) px) pixels)[j]? =
      if j < m * W * 3 then some (rt.byteAt sqrt pow W j) else pixels[j]? := by
  induction m with
  | zero =>
    refine ⟨rfl, fun j => ?_⟩
    rw [if_neg (by omega)]
    rfl
  | succ m ih =>
    obtain ⟨ihl, ihj⟩ := ih (by omega)
    rw [List.range_succ, List.foldl_append]
    simp only [List.foldl_cons, List.foldl_nil]
    have hmul : (m + 1) * W ≤ H * W := Nat.mul_le_mul_right W hm
    have hsucc : (m + 1) * W = W + m * W := by ring
    have hrow := RayTracer.renderRow_prefix sqrt pow rt W hW m
      ((List.range m).foldl
        (fun px y => (List.range W).foldl (rt.renderPixel sqrt pow y) px) pixels)
      (by rw [ihl, hlen]; omega) W (le_refl W)
    refine ⟨by rw [hrow.1, ihl], fun j => ?_⟩
    rw [hrow.2 j, ihj j, hsucc]
    by_cases h1 : m * W * 3 ≤ j ∧ j < (W + m * W) * 3
    · rw [if_pos h1, if_pos h1.2]
    · rw [if_neg h1]
      by_cases h2 : j < m * W * 3
      · rw [if_pos h2, if_pos (by omega)]
      · rw [if_neg h2, if_neg (by omega)]

/-- The buffer `render()` returns, position by position. -/
theorem RayTracer.render_getElem? [FloorRing F] (sqrt : F → F) (pow : F → F → F)
    (rt : RayTracer F) (W H : Nat) (hW : rt.imageWidth = (W : Int))
    (hH : rt.imageHeight = (H : Int)) :
    (rt.render sqrt pow).length = H * W * 3 ∧
    ∀ j, j < H * W * 3 → (rt.render sqrt pow)[j]? = some (rt.byteAt sqrt pow W j) := by
  have hsize : (rt.imageWidth * rt.imageHeight * 3).toNat = H * W * 3 := by
    have : rt.imageWidth * rt.imageHeight * 3 = ((H * W * 3 : Nat) : Int) := by
      rw [hW, hH]
      push_cast
      ring
    rw [this, Int.toNat_natCast]
  have h := RayTracer.render_prefix sqrt pow rt W H hW (List.replicate (H * W * 3) 0)
    (List.length_replicate _ _) H (le_refl H)
  have hr : rt.render sqrt pow =
      (List.range H).foldl
        (fun px y => (List.range W).foldl (rt.renderPixel sqrt pow y) px)
        (List.replicate (H * W * 3) 0) := by
    unfold RayTracer.render RayTracer.renderRow
    simp only [hsize]
    simp only [hW, hH, Int.toNat_natCast]
  rw [hr]
  refine ⟨by rw [h.1, List.length_replicate], fun j hj => ?_⟩
  rw [h.2 j, if_pos hj]

theorem RayTracer.length_foldl_renderPixel [FloorRing F] (sqrt : F → F) (pow : F → F → F)
    (rt : RayTracer F) (y : Nat) (xs : List Nat) (pixels : List Nat) :
    (xs.foldl (rt.renderPixel sqrt pow y) pixels).length = pixels.length := by
  induction xs generalizing pixels with
  | nil => rfl
  | cons x xs ih =>
    rw [List.foldl_cons, ih]
    exact RayTracer.length_storePixel sqrt _ _ _

theorem RayTracer.length_foldl_renderRow [FloorRing F] (sqrt : F → F) (pow : F → F → F)
    (rt : RayTracer F) (ys : List Nat) (pixels : List Nat) :
    (ys.foldl (rt.renderRow sqrt pow) pixels).length = pixels.length := by
  induction ys generalizing pixels with
  | nil => rfl
  | cons y ys ih =>
    rw [List.foldl_cons, ih]
    exact RayTracer.length_foldl_renderPixel sqrt pow rt y _ _

/-- The buffer `render()` returns has `imageWidth * imageHeight * 3` entries. -/
theorem RayTracer.length_render [FloorRing F] (sqrt : F → F) (pow : F → F → F)
    (rt : RayTracer F) :
    (rt.render sqrt pow).length = (rt.imageWidth * rt.imageHeight * 3).toNat := by
  unfold RayTracer.render
  simp only [RayTracer.length_foldl_renderRow, List.length_replicate]

/-- The byte of channel `k` of pixel `(x, y)` in the buffer `render()` returns. -/
theorem RayTracer.render_pixel [FloorRing F] (sqrt : F → F) (pow : F → F → F)
    (rt : RayTracer F) (x y k : Nat) (hx : (x : Int) < rt.imageWidth)
    (hy : (y : Int) < rt.imageHeight) (hk : k < 3) :
    (rt.render sqrt pow)[3 * (y * rt.imageWidth.toNat + x) + k]? =
      some (channelByte sqrt ((rt.pixelColor sqrt pow (x : Int) (y : Int)).get k)) := by
  have hW : rt.imageWidth = ((rt.imageWidth.toNat : Nat) : Int) := by omega
  have hH : rt.imageHeight = ((rt.imageHeight.toNat : Nat) : Int) := by omega
  have hxW : x < rt.imageWidth.toNat := by omega
  have hyH : y + 1 ≤ rt.imageHeight.toNat := by omega
  have hmul : (y + 1) * rt.imageWidth.toNat ≤ rt.imageHeight.toNat * rt.imageWidth.toNat :=
    Nat.mul_le_mul_right _ hyH
  have hsucc : (y + 1) * rt.imageWidth.toNat = rt.imageWidth.toNat + y * rt.imageWidth.toNat := by
    ring
  have hj : 3 * (y * rt.imageWidth.toNat + x) + k =
      (x + y * rt.imageWidth.toNat) * 3 + k := by ring
  rw [hj, (RayTracer.render_getElem? sqrt pow rt _ _ hW hH).2 _ (by omega),
    RayTracer.byteAt_pixel sqrt pow rt _ x y k hxW hk]

/-! ## The two image files -/

theorem Chunk.ints_append (a b : List Chunk) :
    Chunk.ints (a ++ b) = Chunk.ints a ++ Chunk.ints b := by
  induction a with
  | nil => rfl
  | cons c cs ih =>
    cases c <;> simp [Chunk.ints, ih]

theorem RayTracer.ints_textPixel (rt : RayTracer F) (W : Nat)
    (hW : rt.imageWidth = (W : Int)) (pixels : List Nat) (y x : Nat) :
    Chunk.ints (rt.textPixel pixels y x) =
      [((pixels.getD ((x + y * W) * 3) 0 : Nat) : Int),
        ((pixels.getD ((x + y * W) * 3 + 1) 0 : Nat) : Int),
        ((pixels.getD ((x + y * W) * 3 + 2) 0 : Nat) : Int)] := by
  unfold RayTracer.textPixel
  have : ((y : Int) * rt.imageWidth + (x : Int)) * 3 = (((x + y * W) * 3 : Nat) : Int) := by
    rw [hW]
    push_cast
    ring
  simp only [this, Int.toNat_natCast]
  rfl

/-- The numbers written by the inner loop of `saveToTextFile` after `n` columns of row
`y`. -/
theorem RayTracer.ints_textRow (rt : RayTracer F) (W : Nat) (hW : rt.imageWidth = (W : Int))
    (pixels : List Nat) (y : Nat) (out : List Chunk) (n : Nat) :
    Chunk.ints ((List.range n).foldl (fun out x => out ++ rt.textPixel pixels y x) out) =
      Chunk.ints out ++
        (List.range (n * 3)).map (fun i => ((pixels.getD (y * W * 3 + i) 0 : Nat) : Int)) := by
  induction n with
  | zero => simp
  | succ n ih =>
    rw [List.range_succ, List.foldl_append]
    simp only [List.foldl_cons, List.foldl_nil]
    rw [Chunk.ints_append, ih, RayTracer.ints_textPixel rt W hW,
      show (n + 1) * 3 = n * 3 + 1 + 1 + 1 by ring, List.range_succ, List.range_succ,
      List.range_succ]
    simp only [List.map_append, List.map_cons, List.map_nil, List.append_assoc,
      List.cons_append, List.nil_append]
    have h0 : y * W * 3 + n * 3 = (n + y * W) * 3 := by ring
    have h1 : y * W * 3 + (n * 3 + 1) = (n + y * W) * 3 + 1 := by ring
    have h2 : y * W * 3 + (n * 3 + 1 + 1) = (n + y * W) * 3 + 2 := by ring
    rw [h0, h1, h2]

/-- The numbers written by the outer loop of `saveToTextFile` after `m` rows. -/
theorem RayTracer.ints_textRows (rt : RayTracer F) (W : Nat) (hW : rt.imageWidth = (W : Int))
    (pixels : List Nat) (m : Nat) :
    Chunk.ints ((List.range m).foldl
      (fun out y => (List.range W).foldl (fun out x => out ++ rt.textPixel pixels y x) out)
      []) =
      (List.range (m * W * 3)).map (fun j => ((pixels.getD j 0 : Nat) : Int)) := by
  induction m with
  | zero => simp [Chunk.ints]
  | succ m ih =>
    rw [List.range_succ, List.foldl_append]
    simp only [List.foldl_cons, List.foldl_nil]
    rw [RayTracer.ints_textRow rt W hW, ih,
      show (m + 1) * W * 3 = m * W * 3 + W * 3 by ring, List.range_add, List.map_append,
      List.map_map]
    rfl

theorem List.map_getD_range (l : List Nat) :
    (List.range l.length).map (fun j => ((l.getD j 0 : Nat) : Int)) =
      l.map (fun b : Nat => (b : Int)) := by
  apply List.ext_getElem
  · simp
  · intro i h1 h2
    simp only [List.length_map, List.length_range] at h1
    simp [List.getD_eq_getElem?_getD, List.getElem?_eq_getElem h1]

/-- The numbers of the text body are the bytes of the buffer, in order. -/
theorem RayTracer.ints_textBody (rt : RayTracer F) (pixels : List Nat)
    (hw : 0 ≤ rt.imageWidth) (hh : 0 ≤ rt.imageHeight)
    (hlen : pixels.length = (rt.imageWidth * rt.imageHeight * 3).toNat) :
    Chunk.ints (rt.textBody pixels) = pixels.map (fun b : Nat => (b : Int)) := by
  have hW : rt.imageWidth = ((rt.imageWidth.toNat : Nat) : Int) := by omega
  have hH : rt.imageHeight = ((rt.imageHeight.toNat : Nat) : Int) := by omega
  have hsize : (rt.imageWidth * rt.imageHeight * 3).toNat =
      rt.imageHeight.toNat * rt.imageWidth.toNat * 3 := by
    have : rt.imageWidth * rt.imageHeight * 3 =
        ((rt.imageHeight.toNat * rt.imageWidth.toNat * 3 : Nat) : Int) := by
      conv_lhs => rw [hW, hH]
      push_cast
      ring
    rw [this, Int.toNat_natCast]
  unfold RayTracer.textBody
  rw [RayTracer.ints_textRows rt _ hW, ← hsize, ← hlen, List.map_getD_range]

/-! ## The scene loader -/

/-- The method `addMesh` changes only the primitive list, by appending triangles. -/
theorem RayTracer.addMesh_eq (sqrt : F → F) (vertices : List (Vector3f F))
    (material : Material F) (n : Nat) :
    ∀ (indices : List Nat) (rt : RayTracer F), indices.length ≤ n →
      rt.addMesh sqrt vertices indices material =
        { rt with
          world := ⟨rt.world.objects ++ meshTriangles sqrt vertices material indices⟩ } := by
  induction n using Nat.strong_induction_on with
  | _ n ih =>
    intro indices rt hlen
    match indices, hlen with
    | [], _ => simp [RayTracer.addMesh, meshTriangles]
    | [_], _ => simp [RayTracer.addMesh, meshTriangles]
    | [_, _], _ => simp [RayTracer.addMesh, meshTriangles]
    | i0 :: i1 :: i2 :: rest, hlen =>
      have hr : rest.length ≤ n - 3 := by
        simp only [List.length_cons] at hlen
        omega
      have hn : n - 3 < n := by
        simp only [List.length_cons] at hlen
        omega
      rw [RayTracer.addMesh, ih (n - 3) hn rest _ hr]
      simp [RayTracer.addTriangle, HittableList.add, meshTriangles]

/-- A line whose keyword is not recognised leaves the state as it is. -/
theorem RayTracer.loadLine_other (sqrt tan : F → F) (toFloat : String → F)
    (toInt : String → Int) (readOffFile : String → Option (OffModel F)) (rt : RayTracer F)
    (line : List String) (h : line.headD "" ∉ sceneKeywords) :
    RayTracer.loadLine sqrt tan toFloat toInt readOffFile rt line = rt := by
  simp only [sceneKeywords, List.mem_cons, List.mem_singleton, List.not_mem_nil, or_false,
    not_or] at h
  obtain ⟨h1, h2, h3, h4, h5, h6, h7, h8⟩ := h
  unfold RayTracer.loadLine
  simp only [h1, h2, h3, h4, h5, h6, h7, h8, if_false]

/-- The function `addMeshFromFile` changes only the primitive list. -/
theorem addMeshFromFile_eq (sqrt : F → F) (readOffFile : String → Option (OffModel F))
    (rt : RayTracer F) (filename : String) (position : Vector3f F) (scale : F)
    (material : Material F) :
    addMeshFromFile sqrt readOffFile rt filename position scale material =
      match readOffFile filename with
      | none => rt
      | some model =>
        { rt with
          world := ⟨rt.world.objects ++
            meshTriangles sqrt
              (model.vertices.foldl
                (fun vertices p =>
                  vertices ++
                    [⟨p.x * scale + position.x, p.y * scale + position.y,
                      p.z * scale + position.z⟩]) [])
              material (model.polygons.foldl Polygon.pushIndices [])⟩ } := by
  unfold addMeshFromFile
  cases readOffFile filename with
  | none => rfl
  | some model => exact RayTracer.addMesh_eq sqrt _ material _ _ rt (le_refl _)

theorem addMeshFromFile_lights (sqrt : F → F) (readOffFile : String → Option (OffModel F))
    (rt : RayTracer F) (filename : String) (position : Vector3f F) (scale : F)
    (material : Material F) :
    (addMeshFromFile sqrt readOffFile rt filename position scale material).lights =
      rt.lights := by
  rw [addMeshFromFile_eq]
  cases readOffFile filename <;> rfl

/-- A mesh file that cannot be read: `addMeshFromFile` returns without a change. -/
theorem addMeshFromFile_unreadable (sqrt : F → F) (readOffFile : String → Option (OffModel F))
    (rt : RayTracer F) (filename : String) (position : Vector3f F) (scale : F)
    (material : Material F) (h : readOffFile filename = none) :
    addMeshFromFile sqrt readOffFile rt filename position scale material = rt := by
  unfold addMeshFromFile
  rw [h]

/-- An `off_model` line whose mesh file cannot be read leaves the state as it is. -/
theorem RayTracer.loadLine_unreadable (sqrt tan : F → F) (toFloat : String → F)
    (toInt : String → Int) (readOffFile : String → Option (OffModel F)) (rt : RayTracer F)
    (line : List String) (hk : line.headD "" = "off_model")
    (hr : readOffFile (line.getD 1 "") = none) :
    RayTracer.loadLine sqrt tan toFloat toInt readOffFile rt line = rt := by
  unfold RayTracer.loadLine
  simp only [hk]
  rw [if_pos trivial]
  exact addMeshFromFile_unreadable sqrt readOffFile rt _ _ _ _ hr

/-- Removing a line that leaves every state as it is does not change the result. -/
theorem RayTracer.loadSceneFromFile_skip (sqrt tan : F → F) (toFloat : String → F)
    (toInt : String → Int) (readOffFile : String → Option (OffModel F)) (rt : RayTracer F)
    (pre post : List (List String)) (line : List String)
    (h : ∀ st : RayTracer F,
      RayTracer.loadLine sqrt tan toFloat toInt readOffFile st line = st) :
    rt.loadSceneFromFile sqrt tan toFloat toInt readOffFile (some (pre ++ line :: post)) =
      rt.loadSceneFromFile sqrt tan toFloat toInt readOffFile (some (pre ++ post)) := by
  unfold RayTracer.loadSceneFromFile
  simp only [List.foldl_append, List.foldl_cons, h]

/-- The lights after one line. -/
theorem RayTracer.loadLine_lights (sqrt tan : F → F) (toFloat : String → F)
    (toInt : String → Int) (readOffFile : String → Option (OffModel F)) (rt : RayTracer F)
    (line : List String) :
    (RayTracer.loadLine sqrt tan toFloat toInt readOffFile rt line).lights =
      if line.headD "" = "light" then rt.lights ++ [lightOfLine toFloat line]
      else rt.lights := by
  unfold RayTracer.loadLine
  by_cases h1 : line.headD "" = "camera"
  · simp only [h1]
    rw [if_pos trivial, if_neg (by decide)]
    rfl
  by_cases h2 : line.headD "" = "light"
  · simp only [h2]
    rw [if_pos trivial, if_pos trivial]
    rfl
  simp only [h1, h2, if_false]
  split_ifs <;> first | rfl | exact addMeshFromFile_lights _ _ _ _ _ _ _

/-- The lights after a sequence of lines: those of the `light` lines, appended in order. -/
theorem RayTracer.foldl_loadLine_lights (sqrt tan : F → F) (toFloat : String → F)
    (toInt : String → Int) (readOffFile : String → Option (OffModel F))
    (lines : List (List String)) (rt : RayTracer F) :
    (lines.foldl (RayTracer.loadLine sqrt tan toFloat toInt readOffFile) rt).lights =
      rt.lights ++
        (lines.filter (fun l => l.headD "" = "light")).map (lightOfLine toFloat) := by
  induction lines generalizing rt with
  | nil => simp
  | cons l ls ih =>
    rw [List.foldl_cons, ih, RayTracer.loadLine_lights]
    by_cases h : l.headD "" = "light"
    · have hf : (l :: ls).filter (fun l => l.headD "" = "light") =
          l :: ls.filter (fun l => l.headD "" = "light") :=
        List.filter_cons_of_pos (decide_eq_true h)
      rw [if_pos h, hf, List.map_cons, List.append_assoc, List.singleton_append]
    · have hf : (l :: ls).filter (fun l => l.headD "" = "light") =
          ls.filter (fun l => l.headD "" = "light") :=
        List.filter_cons_of_neg (by rw [decide_eq_true_eq]; exact h)
      rw [if_neg h, hf]

/-- A well-formed `sphere`, `box` or `triangle` line appends its primitive. -/
theorem RayTracer.loadLine_primitive (sqrt tan : F → F) (toFloat : String → F)
    (toInt : String → Int) (readOffFile : String → Option (OffModel F)) (rt : RayTracer F)
    (line : List String) (p : Hittable F) (h : primitiveOfLine sqrt toFloat line = some p) :
    RayTracer.loadLine sqrt tan toFloat toInt readOffFile rt line =
      { rt with world := ⟨rt.world.objects ++ [p]⟩ } := by
  unfold primitiveOfLine at h
  split at h
  · split_ifs at h with hk
    subst hk
    cases h
    simp [RayTracer.loadLine, field, materialAt, RayTracer.addSphere, HittableList.add]
  · split_ifs at h with hk
    subst hk
    cases h
    simp [RayTracer.loadLine, field, materialAt, RayTracer.addBox, HittableList.add]
  · split_ifs at h with hk
    subst hk
    cases h
    simp [RayTracer.loadLine, field, materialAt, RayTracer.addTriangle, HittableList.add]
  · cases h

/-- A sequence of well-formed primitive lines appends the primitives in order and changes
nothing else. -/
theorem RayTracer.foldl_loadLine_primitives (sqrt tan : F → F) (toFloat : String → F)
    (toInt : String → Int) (readOffFile : String → Option (OffModel F))
    (lines : List (List String)) (prims : List (Hittable F)) (rt : RayTracer F)
    (h : lines.map (primitiveOfLine sqrt toFloat) = prims.map some) :
    lines.foldl (RayTracer.loadLine sqrt tan toFloat toInt readOffFile) rt =
      { rt with world := ⟨rt.world.objects ++ prims⟩ } := by
  induction lines generalizing prims rt with
  | nil =>
    cases prims with
    | nil => simp
    | cons p ps => simp at h
  | cons l ls ih =>
    cases prims with
    | nil => simp at h
    | cons p ps =>
      simp only [List.map_cons, List.cons.injEq] at h
      rw [List.foldl_cons, RayTracer.loadLine_primitive sqrt tan toFloat toInt readOffFile rt l p
        h.1, ih ps _ h.2]
      simp

theorem primitiveScene_primitives :
    primitiveScene.map (primitiveOfLine qsqrt readDecimal) =
      [sceneSphere, sceneBox, sceneTriangle].map some := by
  simp [primitiveScene, primitiveOfLine, readDecimal, sceneSphere, sceneBox, sceneTriangle]

/-- Loading a file of well-formed primitive lines. -/
theorem RayTracer.loadSceneFromFile_of_primitives (sqrt tan : F → F) (toFloat : String → F)
    (toInt : String → Int) (readOffFile : String → Option (OffModel F))
    (lines : List (List String)) (prims : List (Hittable F)) (rt : RayTracer F)
    (h : lines.map (primitiveOfLine sqrt toFloat) = prims.map some) :
    (rt.loadSceneFromFile sqrt tan toFloat toInt readOffFile (some lines)).1 = true ∧
    (rt.loadSceneFromFile sqrt tan toFloat toInt readOffFile (some lines)).2.world.objects =
      prims := by
  refine ⟨rfl, ?_⟩
  unfold RayTracer.loadSceneFromFile
  simp only [RayTracer.foldl_loadLine_primitives sqrt tan toFloat toInt readOffFile lines prims
    _ h]
  split_ifs <;> simp [RayTracer.clearScene, HittableList.clear, RayTracer.addLight]

/-! ## Mesh import -/

theorem List.foldl_append_singleton {α β : Type} (g : α → β) (l : List α) (init : List β) :
    l.foldl (fun acc a => acc ++ [g a]) init = init ++ l.map g := by
  induction l generalizing init with
  | nil => simp
  | cons a as ih => simp [ih]

theorem List.foldl_append_flatMap {α β : Type} (g : α → List β) (l : List α) (init : List β) :
    l.foldl (fun acc a => acc ++ g a) init = init ++ l.flatMap g := by
  induction l generalizing init with
  | nil => simp
  | cons a as ih => simp [ih]

/-- The indices pushed for one polygon are the triples of its fan, flattened. -/
theorem Polygon.pushIndices_eq (indices : List Nat) (p : Polygon) :
    Polygon.pushIndices indices p =
      indices ++ p.fan.flatMap (fun t => [t.1, t.2.1, t.2.2]) := by
  unfold Polygon.pushIndices Polygon.fan
  by_cases h : 3 ≤ p.noSides
  · have hn : p.noSides.toNat - 2 = (p.noSides.toNat - 3) + 1 := by omega
    have hfun : (fun (indices : List Nat) (j : Nat) =>
        indices ++ [p.v.getD 0 0] ++ [p.v.getD (j - 1) 0] ++ [p.v.getD j 0]) =
        fun acc j => acc ++ [p.v.getD 0 0, p.v.getD (j - 1) 0, p.v.getD j 0] := by
      funext acc j
      simp
    rw [if_pos h, if_pos h, hn, List.range'_succ]
    simp only [hfun]
    rw [List.foldl_append_flatMap]
    simp [List.flatMap_map]
  · rw [if_neg h, if_neg h]
    simp

theorem Polygon.foldl_pushIndices (polygons : List Polygon) (init : List Nat) :
    polygons.foldl Polygon.pushIndices init =
      init ++ (polygons.flatMap Polygon.fan).flatMap (fun t => [t.1, t.2.1, t.2.2]) := by
  induction polygons generalizing init with
  | nil => simp
  | cons p ps ih =>
    rw [List.foldl_cons, ih, Polygon.pushIndices_eq]
    simp [List.flatMap_append]

/-- The triangles `addMesh` adds for a flattened list of index triples. -/
theorem meshTriangles_flatMap (sqrt : F → F) (vertices : List (Vector3f F))
    (material : Material F) (ts : List (Nat × Nat × Nat)) :
    meshTriangles sqrt vertices material (ts.flatMap (fun t => [t.1, t.2.1, t.2.2])) =
      ts.map (fun t =>
        Hittable.triangle
          (Triangle.new sqrt (vertices.getD t.1 Vector3f.zero)
            (vertices.getD t.2.1 Vector3f.zero) (vertices.getD t.2.2 Vector3f.zero)
            material)) := by
  induction ts with
  | nil => rfl
  | cons t ts ih =>
    show meshTriangles sqrt vertices material
      (t.1 :: t.2.1 :: t.2.2 :: ts.flatMap (fun t => [t.1, t.2.1, t.2.2])) = _
    rw [meshTriangles, ih]
    rfl

theorem List.getD_map_of_lt {α β : Type} (g : α → β) (l : List α) (i : Nat) (a : α) (b : β)
    (h : i < l.length) : (l.map g).getD i b = g (l.getD i a) := by
  simp [List.getD_eq_getElem?_getD, List.getElem?_eq_getElem h]

/-- The triangles of the fan of one polygon, in terms of the placed vertices. -/
theorem Polygon.fan_triangles (sqrt : F → F) (model : OffModel F) (scale : F)
    (position : Vector3f F) (material : Material F) (p : Polygon)
    (hv : 3 ≤ p.noSides → ∀ j : Nat, j < p.noSides.toNat →
      p.v.getD j 0 < model.vertices.length) :
    p.fan.map (fun t =>
        Hittable.triangle
          (Triangle.new sqrt
            ((model.vertices.map (fun q : Vector3f F =>
              (⟨q.x * scale + position.x, q.y * scale + position.y,
                q.z * scale + position.z⟩ : Vector3f F))).getD t.1 Vector3f.zero)
            ((model.vertices.map (fun q : Vector3f F =>
              (⟨q.x * scale + position.x, q.y * scale + position.y,
                q.z * scale + position.z⟩ : Vector3f F))).getD t.2.1 Vector3f.zero)
            ((model.vertices.map (fun q : Vector3f F =>
              (⟨q.x * scale + position.x, q.y * scale + position.y,
                q.z * scale + position.z⟩ : Vector3f F))).getD t.2.2 Vector3f.zero)
            material)) =
      if 3 ≤ p.noSides then
        (List.range' 2 (p.noSides.toNat - 2)).map (fun j =>
          Hittable.triangle
            (Triangle.new sqrt (placeVertex model scale position (p.v.getD 0 0))
              (placeVertex model scale position (p.v.getD (j - 1) 0))
              (placeVertex model scale position (p.v.getD j 0)) material))
      else [] := by
  unfold Polygon.fan
  by_cases h : 3 ≤ p.noSides
  · rw [if_pos h, if_pos h, List.map_map]
    apply List.map_congr_left
    intro j hj
    rw [List.mem_range'_1] at hj
    have h0 := hv h 0 (by omega)
    have h1 := hv h (j - 1) (by omega)
    have h2 := hv h j (by omega)
    simp only [Function.comp_apply]
    rw [List.getD_map_of_lt _ _ _ Vector3f.zero _ h0,
      List.getD_map_of_lt _ _ _ Vector3f.zero _ h1,
      List.getD_map_of_lt _ _ _ Vector3f.zero _ h2]
    rfl
  · rw [if_neg h, if_neg h]
    rfl

/-- The triangles of the fans of a list of polygons. -/
theorem Polygon.flatMap_fan_triangles (sqrt : F → F) (model : OffModel F) (scale : F)
    (position : Vector3f F) (material : Material F) (ps : List Polygon)
    (hv : ∀ p ∈ ps, 3 ≤ p.noSides → ∀ j : Nat, j < p.noSides.toNat →
      p.v.getD j 0 < model.vertices.length) :
    (ps.flatMap Polygon.fan).map (fun t =>
        Hittable.triangle
          (Triangle.new sqrt
            ((model.vertices.map (fun q : Vector3f F =>
              (⟨q.x * scale + position.x, q.y * scale + position.y,
                q.z * scale + position.z⟩ : Vector3f F))).getD t.1 Vector3f.zero)
            ((model.vertices.map (fun q : Vector3f F =>
              (⟨q.x * scale + position.x, q.y * scale + position.y,
                q.z * scale + position.z⟩ : Vector3f F))).getD t.2.1 Vector3f.zero)
            ((model.vertices.map (fun q : Vector3f F =>
              (⟨q.x * scale + position.x, q.y * scale + position.y,
                q.z * scale + position.z⟩ : Vector3f F))).getD t.2.2 Vector3f.zero)
            material)) =
      ps.flatMap (fun p =>
        if 3 ≤ p.noSides then
          (List.range' 2 (p.noSides.toNat - 2)).map (fun j =>
            Hittable.triangle
              (Triangle.new sqrt (placeVertex model scale position (p.v.getD 0 0))
                (placeVertex model scale position (p.v.getD (j - 1) 0))
                (placeVertex model scale position (p.v.getD j 0)) material))
        else []) := by
  induction ps with
  | nil => rfl
  | cons p ps ih =>
    rw [List.flatMap_cons, List.map_append, List.flatMap_cons,
      Polygon.fan_triangles sqrt model scale position material p
        (hv p (List.mem_cons_self _ _)),
      ih (fun q hq => hv q (List.mem_cons_of_mem _ hq))]

/-! ## The hit point of a triangle -/

/-- Cramer's rule behind `Triangle::hit`: with a non-zero determinant the values `u`, `v`
and `t` solve `origin + t * direction = v0 + u * edge1 + v * edge2`. -/
theorem Triangle.point_eq_barycentric (tr : Triangle F) (ray : Ray F)
    (hdet : tr.det ray ≠ 0) :
    ray.origin + ray.direction.scale (tr.dist ray) =
      tr.v0 + (tr.v1 - tr.v0).scale (tr.baryU ray) + (tr.v2 - tr.v0).scale (tr.baryV ray) := by
  have hu : tr.baryU ray * tr.det ray =
      (ray.origin - tr.v0).Dot (ray.direction.Cross (tr.v2 - tr.v0)) := by
    unfold Triangle.baryU
    field_simp
  have hv : tr.baryV ray * tr.det ray =
      ray.direction.Dot ((ray.origin - tr.v0).Cross (tr.v1 - tr.v0)) := by
    unfold Triangle.baryV
    field_simp
  have ht : tr.dist ray * tr.det ray =
      (tr.v2 - tr.v0).Dot ((ray.origin - tr.v0).Cross (tr.v1 - tr.v0)) := by
    unfold Triangle.dist
    field_simp
  generalize tr.baryU ray = u at hu
  generalize tr.baryV ray = v at hv
  generalize tr.dist ray = t at ht
  simp only [Triangle.det, Vector3f.dot_def, Vector3f.Cross, Vector3f.sub_x, Vector3f.sub_y,
    Vector3f.sub_z] at hu hv ht hdet
  apply Vector3f.eq_of_components
  · simp only [Vector3f.add_x, Vector3f.scale_x, Vector3f.sub_x]
    apply mul_right_cancel₀ hdet
    linear_combination ray.direction.x * ht - (tr.v1.x - tr.v0.x) * hu -
      (tr.v2.x - tr.v0.x) * hv
  · simp only [Vector3f.add_y, Vector3f.scale_y, Vector3f.sub_y]
    apply mul_right_cancel₀ hdet
    linear_combination ray.direction.y * ht - (tr.v1.y - tr.v0.y) * hu -
      (tr.v2.y - tr.v0.y) * hv
  · simp only [Vector3f.add_z, Vector3f.scale_z, Vector3f.sub_z]
    apply mul_right_cancel₀ hdet
    linear_combination ray.direction.z * ht - (tr.v1.z - tr.v0.z) * hu -
      (tr.v2.z - tr.v0.z) * hv

theorem flatTriangle_hit_dropRay :
    flatTriangle.hit dropRay 0 ⊤ HitRecord.fresh =
      some (flatTriangle.fill dropRay (flatTriangle.dist dropRay) HitRecord.fresh) := by
  have hd : flatTriangle.det dropRay = 1 := by
    norm_num [Triangle.det, flatTriangle, dropRay, Vector3f.dot_def, Vector3f.Cross]
  have hu : flatTriangle.baryU dropRay = 1 / 4 := by
    unfold Triangle.baryU
    rw [hd]
    norm_num [flatTriangle, dropRay, Vector3f.dot_def, Vector3f.Cross]
  have hv : flatTriangle.baryV dropRay = 1 / 4 := by
    unfold Triangle.baryV
    rw [hd]
    norm_num [flatTriangle, dropRay, Vector3f.dot_def, Vector3f.Cross]
  have ht : flatTriangle.dist dropRay = 2 := by
    unfold Triangle.dist
    rw [hd]
    norm_num [flatTriangle, dropRay, Vector3f.dot_def, Vector3f.Cross]
  rw [Triangle.hit_eq_triangle, if_pos]
  rw [hd, hu, hv, ht]
  refine ⟨by norm_num, by norm_num, by norm_num, by norm_num, by norm_num, by norm_num, le_top⟩

/-! ## Termination of the integrator -/

/-- With more fuel than the depth, the bounded run returns the value of the integrator. -/
theorem RayTracer.rayColorWithReflectionFuel_eq (sqrt : F → F) (pow : F → F → F)
    (rt : RayTracer F) (world : HittableList F) (fuel : Nat) :
    ∀ (ray : Ray F) (depth : Int), depth.toNat < fuel →
      rt.rayColorWithReflectionFuel sqrt pow fuel ray world depth =
        some (rt.rayColorWithReflection sqrt pow ray world depth) := by
  induction fuel with
  | zero => intro ray depth h; omega
  | succ fuel ih =>
    intro ray depth h
    rw [RayTracer.rayColorWithReflectionFuel, RayTracer.rayColorWithReflection]
    by_cases hd : depth ≤ 0
    · rw [if_pos hd, if_pos hd]
    · rw [if_neg hd, if_neg hd]
      cases hhit : world.hit sqrt ray (1 / 1000) ⊤ HitRecord.fresh with
      | none => rfl
      | some rec =>
        simp only
        by_cases hr : rec.material.reflectivity > 0
        · rw [if_pos hr, if_pos hr, ih _ (depth - 1) (by omega)]
        · rw [if_neg hr, if_neg hr]

/-- The integrator makes at most `depth` nested recursive calls. -/
theorem RayTracer.recursiveCalls_le (sqrt : F → F) (world : HittableList F) (n : Nat) :
    ∀ (ray : Ray F) (depth : Int), depth.toNat ≤ n →
      RayTracer.recursiveCalls sqrt ray world depth ≤ depth.toNat := by
  induction n with
  | zero =>
    intro ray depth h
    rw [RayTracer.recursiveCalls, if_pos (by omega)]
    exact Nat.zero_le _
  | succ n ih =>
    intro ray depth h
    rw [RayTracer.recursiveCalls]
    by_cases hd : depth ≤ 0
    · rw [if_pos hd]
      exact Nat.zero_le _
    · rw [if_neg hd]
      cases hhit : world.hit sqrt ray (1 / 1000) ⊤ HitRecord.fresh with
      | none => exact Nat.zero_le _
      | some rec =>
        simp only
        by_cases hr : rec.material.reflectivity > 0
        · rw [if_pos hr]
          have := ih (Ray.new sqrt (rec.point + rec.normal.scale (1 / 1000))
            (RayTracer.reflect ray.direction rec.normal)) (depth - 1) (by omega)
          omega
        · rw [if_neg hr]
          exact Nat.zero_le _

/-! ## Unit directions -/

theorem sqrt_one_of_exact (sqrt : F → F) (hsq : ∀ x : F, 0 ≤ x → sqrt x * sqrt x = x)
    (hnn : ∀ x : F, 0 ≤ sqrt x) : sqrt 1 = 1 := by
  have h1 := hsq 1 zero_le_one
  have h0 := hnn 1
  have : (sqrt 1 - 1) * (sqrt 1 + 1) = 0 := by linear_combination h1
  rcases mul_eq_zero.mp this with h | h
  · linarith
  · linarith

theorem Vector3f.length_eq_sqrt_dot (sqrt : F → F) (v : Vector3f F) :
    v.length sqrt = sqrt (v.Dot v) := rfl

/-- A vector of squared length 1 has length 1 and is left unchanged by `Normalize`. -/
theorem Vector3f.normalize_of_unit (sqrt : F → F) (hs1 : sqrt 1 = 1) (v : Vector3f F)
    (hv : v.Dot v = 1) : v.length sqrt = 1 ∧ v.Normalize sqrt = v := by
  have hl : v.length sqrt = 1 := by rw [Vector3f.length_eq_sqrt_dot, hv, hs1]
  refine ⟨hl, ?_⟩
  unfold Vector3f.Normalize
  rw [hl]
  apply Vector3f.eq_of_components <;> simp

/-- The constructor `Ray(o, d)` on a non-zero `d`. -/
theorem Ray.new_length (sqrt : F → F) (hsq : ∀ x : F, 0 ≤ x → sqrt x * sqrt x = x)
    (hnn : ∀ x : F, 0 ≤ sqrt x) (o d : Vector3f F) (hd : d ≠ Vector3f.zero) :
    (Ray.new sqrt o d).direction.Dot (Ray.new sqrt o d).direction = 1 ∧
    (Ray.new sqrt o d).direction.length sqrt = 1 := by
  have h1 : (d.Normalize sqrt).Dot (d.Normalize sqrt) = 1 :=
    Vector3f.normalize_dot_self sqrt d hd (hsq _ (Vector3f.dot_self_nonneg d))
  exact ⟨h1, (Vector3f.normalize_of_unit sqrt (sqrt_one_of_exact sqrt hsq hnn) _ h1).1⟩

theorem Vector3f.dot_of_length_one (sqrt : F → F) (hsq : ∀ x : F, 0 ≤ x → sqrt x * sqrt x = x)
    (v : Vector3f F) (h : v.length sqrt = 1) : v.Dot v = 1 := by
  have h2 := hsq _ (Vector3f.dot_self_nonneg v)
  have h3 : sqrt (v.Dot v) = 1 := h
  rw [h3, mul_one] at h2
  exact h2.symm

theorem RayTracer.reflect_zero (v : Vector3f F) : RayTracer.reflect v Vector3f.zero = v := by
  apply Vector3f.eq_of_components <;>
    simp [RayTracer.reflect, Vector3f.zero, Vector3f.scale]

/-! ## The face a box is entered through -/

theorem Box.outwardNormal_of_min (i : Nat) (hi : i < 3) :
    (Box.outwardNormal (i : Int) true : Vector3f F) = Vector3f.zero.set i (-1) := by
  have : i = 0 ∨ i = 1 ∨ i = 2 := by omega
  rcases this with rfl | rfl | rfl <;> simp [Box.outwardNormal, Vector3f.set, Vector3f.zero]

theorem Vector3f.dot_set_zero (d : Vector3f F) (i : Nat) (hi : i < 3) (s : F) :
    d.Dot (Vector3f.zero.set i s) = d.get i * s := by
  have : i = 0 ∨ i = 1 ∨ i = 2 := by omega
  rcases this with rfl | rfl | rfl <;>
    simp [Vector3f.dot_def, Vector3f.set, Vector3f.zero, Vector3f.get]

/-- The face normal `Box::hit` derives: the flag `hitIsMin` is set whenever an axis is
recorded, so the local `outwardNormal` is minus the unit vector of that axis, and
`frontFace` is set exactly when the ray runs in the positive direction of the axis. -/
theorem Box.hit_outward (b : Box F) (ray : Ray F) (tMin : F) (tMax : WithTop F)
    (rec r : HitRecord F) (h : b.hit ray tMin tMax rec = some r) :
    ∃ st, b.slabs ray tMin tMax = some st ∧ r = b.fill ray st rec ∧
      ((st.hitAxis = -1 ∧ (Box.outwardNormal st.hitAxis st.hitIsMin : Vector3f F) =
          Vector3f.zero) ∨
        ∃ i : Nat, i < 3 ∧ st.hitAxis = (i : Int) ∧ st.hitIsMin = true ∧
          (Box.outwardNormal st.hitAxis st.hitIsMin : Vector3f F) = Vector3f.zero.set i (-1) ∧
          (r.frontFace = true ↔ 0 < ray.direction.get i)) := by
  obtain ⟨st, hsl, -, hr⟩ := (Box.hit_some_iff b ray tMin tMax rec r).mp h
  refine ⟨st, hsl, hr, ?_⟩
  rcases Box.slabs_axisOk b ray tMin tMax st hsl with hno | ⟨hax, hmin, -⟩
  · left
    refine ⟨hno.1, ?_⟩
    rw [hno.1]
    simp [Box.outwardNormal]
  · right
    have hex : ∃ i : Nat, i < 3 ∧ st.hitAxis = (i : Int) := by
      rcases hax with h0 | h1 | h2
      · exact ⟨0, by norm_num, h0⟩
      · exact ⟨1, by norm_num, h1⟩
      · exact ⟨2, by norm_num, h2⟩
    obtain ⟨i, hi, hax'⟩ := hex
    have hout : (Box.outwardNormal st.hitAxis st.hitIsMin : Vector3f F) =
        Vector3f.zero.set i (-1) := by
      rw [hax', hmin]
      exact Box.outwardNormal_of_min i hi
    refine ⟨i, hi, hax', hmin, hout, ?_⟩
    subst hr
    have hff : (b.fill ray st rec).frontFace =
        decide (ray.direction.Dot (Box.outwardNormal st.hitAxis st.hitIsMin) < 0) := rfl
    rw [hff, hout, Vector3f.dot_set_zero _ _ hi, decide_eq_true_eq]
    constructor
    · intro hlt
      linarith
    · intro hlt
      linarith

/-- The slab loop of `unitBox` on `shadeRay`, which comes down the z axis from `z = 5`. -/
theorem unitBox_slabs_shadeRay :
    unitBox.slabs shadeRay (1 / 1000) ⊤ =
      some { tNear := 4, tFar := ((6 : ℚ) : WithTop ℚ), hitAxis := 2, hitIsMin := true } := by
  have h0 : ∀ st : SlabState ℚ, unitBox.slabStep shadeRay (1 / 1000) st 0 = some st :=
    fun st => (Box.slabStep_parallel _ _ _ _ _ _
      (by norm_num [Vector3f.get, shadeRay])).mpr
      ⟨by norm_num [Vector3f.get, shadeRay, unitBox], rfl⟩
  have h1 : ∀ st : SlabState ℚ, unitBox.slabStep shadeRay (1 / 1000) st 1 = some st :=
    fun st => (Box.slabStep_parallel _ _ _ _ _ _
      (by norm_num [Vector3f.get, shadeRay])).mpr
      ⟨by norm_num [Vector3f.get, shadeRay, unitBox], rfl⟩
  have hlo : unitBox.slabLo shadeRay 2 = 4 := by
    norm_num [Box.slabLo, Vector3f.get, shadeRay, unitBox]
  have hhi : unitBox.slabHi shadeRay 2 = 6 := by
    norm_num [Box.slabHi, Vector3f.get, shadeRay, unitBox]
  have hnext : unitBox.slabNext shadeRay
      { tNear := 1 / 1000, tFar := ⊤, hitAxis := -1, hitIsMin := false } 2 =
      { tNear := 4, tFar := ((6 : ℚ) : WithTop ℚ), hitAxis := 2, hitIsMin := true } := by
    simp only [Box.slabNext, hlo, hhi, SlabState.mk.injEq]
    exact ⟨by norm_num, by simp, by norm_num, by norm_num⟩
  have h2 : unitBox.slabStep shadeRay (1 / 1000)
      { tNear := 1 / 1000, tFar := ⊤, hitAxis := -1, hitIsMin := false } 2 =
      some { tNear := 4, tFar := ((6 : ℚ) : WithTop ℚ), hitAxis := 2, hitIsMin := true } := by
    rw [Box.slabStep_some_iff _ _ _ _ _ _ (by norm_num [Vector3f.get, shadeRay]), hnext]
    exact ⟨WithTop.coe_le_coe.mpr (by norm_num), WithTop.coe_le_coe.mpr (by norm_num), rfl⟩
  simp only [Box.slabs, List.foldlM_cons, List.foldlM_nil, h0, h1, h2, Option.bind_eq_bind,
    Option.some_bind]
  rfl

theorem unitBox_fill_shadeRay :
    unitBox.fill shadeRay
        { tNear := 4, tFar := ((6 : ℚ) : WithTop ℚ), hitAxis := 2, hitIsMin := true }
        HitRecord.fresh =
      { t := 4, point := ⟨0, 0, 1⟩, normal := ⟨0, 0, 1⟩, frontFace := false,
        material := Material.default } := by
  have hout : (Box.outwardNormal 2 true : Vector3f ℚ) = ⟨0, 0, -1⟩ := by
    simp [Box.outwardNormal, Vector3f.zero]
  unfold Box.fill
  simp only [hout]
  simp only [HitRecord.setFaceNormal, shadeRay, Vector3f.dot_def, HitRecord.mk.injEq]
  refine ⟨trivial, ?_, ?_, ?_, rfl⟩
  · apply Vector3f.eq_of_components <;> norm_num
  · norm_num [Vector3f.scale]
  · norm_num

/-! ## The mirror direction -/

theorem RayTracer.reflect_dot_normal (v n : Vector3f F) (hn : n.Dot n = 1) :
    (RayTracer.reflect v n).Dot n = -(v.Dot n) := by
  simp only [RayTracer.reflect, Vector3f.dot_def, Vector3f.sub_x, Vector3f.sub_y,
    Vector3f.sub_z, Vector3f.scale_x, Vector3f.scale_y, Vector3f.scale_z] at hn ⊢
  linear_combination (-2 * (v.x * n.x + v.y * n.y + v.z * n.z)) * hn

/-! ## The ray through the centre of the viewport -/

theorem Camera.centre_direction (sqrt tan : F → F) (lookFrom lookAt vup : Vector3f F)
    (vfov aspect : F) :
    (Camera.new sqrt tan lookFrom lookAt vup vfov aspect).lowerLeftCorner +
        (Camera.new sqrt tan lookFrom lookAt vup vfov aspect).horizontal.scale (1 / 2) +
        (Camera.new sqrt tan lookFrom lookAt vup vfov aspect).vertical.scale (1 / 2) -
        (Camera.new sqrt tan lookFrom lookAt vup vfov aspect).origin =
      (Camera.forward sqrt lookFrom lookAt).scale (-1) := by
  apply Vector3f.eq_of_components <;>
    simp only [Camera.new, Camera.forward, Vector3f.add_x, Vector3f.add_y, Vector3f.add_z,
      Vector3f.sub_x, Vector3f.sub_y, Vector3f.sub_z, Vector3f.scale_x, Vector3f.scale_y,
      Vector3f.scale_z] <;> ring

theorem Vector3f.normalize_swap (sqrt : F → F) (a b : Vector3f F) :
    (b - a).Normalize sqrt = ((a - b).Normalize sqrt).scale (-1) := by
  have hl : (b - a).length sqrt = (a - b).length sqrt := by
    unfold Vector3f.length
    congr 1
    simp only [Vector3f.sub_x, Vector3f.sub_y, Vector3f.sub_z]
    ring
  unfold Vector3f.Normalize
  rw [hl]
  apply Vector3f.eq_of_components <;>
    simp only [Vector3f.sub_x, Vector3f.sub_y, Vector3f.sub_z, Vector3f.scale_x,
      Vector3f.scale_y, Vector3f.scale_z] <;> ring

theorem Vector3f.scale_neg_one_dot_self (v : Vector3f F) :
    (v.scale (-1)).Dot (v.scale (-1)) = v.Dot v := by
  simp only [Vector3f.dot_def, Vector3f.scale_x, Vector3f.scale_y, Vector3f.scale_z]
  ring

/-! ## What the scene loader leaves alone -/

/-- A line other than a `camera`, `background` or `reflections` directive keeps the image
size, the camera, the background colour and the reflection settings. -/
theorem RayTracer.loadLine_frame (sqrt tan : F → F) (toFloat : String → F)
    (toInt : String → Int) (readOffFile : String → Option (OffModel F)) (rt : RayTracer F)
    (line : List String) (h : line.headD "" ∉ ["camera", "background", "reflections"]) :
    (RayTracer.loadLine sqrt tan toFloat toInt readOffFile rt line).camera = rt.camera ∧
    (RayTracer.loadLine sqrt tan toFloat toInt readOffFile rt line).backgroundColor =
      rt.backgroundColor ∧
    (RayTracer.loadLine sqrt tan toFloat toInt readOffFile rt line).reflectionsEnabled =
      rt.reflectionsEnabled ∧
    (RayTracer.loadLine sqrt tan toFloat toInt readOffFile rt line).maxReflectionDepth =
      rt.maxReflectionDepth ∧
    (RayTracer.loadLine sqrt tan toFloat toInt readOffFile rt line).imageWidth =
      rt.imageWidth ∧
    (RayTracer.loadLine sqrt tan toFloat toInt readOffFile rt line).imageHeight =
      rt.imageHeight := by
  simp only [List.mem_cons, List.mem_singleton, List.not_mem_nil, or_false, not_or] at h
  obtain ⟨h1, h2, h3⟩ := h
  unfold RayTracer.loadLine
  simp only [h1, h2, h3, if_false]
  split_ifs
  · exact ⟨rfl, rfl, rfl, rfl, rfl, rfl⟩
  · exact ⟨rfl, rfl, rfl, rfl, rfl, rfl⟩
  · exact ⟨rfl, rfl, rfl, rfl, rfl, rfl⟩
  · exact ⟨rfl, rfl, rfl, rfl, rfl, rfl⟩
  · rw [addMeshFromFile_eq]
    cases readOffFile (line.getD 1 "") <;> exact ⟨rfl, rfl, rfl, rfl, rfl, rfl⟩
  · exact ⟨rfl, rfl, rfl, rfl, rfl, rfl⟩

theorem RayTracer.foldl_loadLine_frame (sqrt tan : F → F) (toFloat : String → F)
    (toInt : String → Int) (readOffFile : String → Option (OffModel F))
    (lines : List (List String)) (rt : RayTracer F)
    (h : ∀ l ∈ lines, l.headD "" ∉ ["camera", "background", "reflections"]) :
    (lines.foldl (RayTracer.loadLine sqrt tan toFloat toInt readOffFile) rt).camera =
      rt.camera ∧
    (lines.foldl (RayTracer.loadLine sqrt tan toFloat toInt readOffFile) rt).backgroundColor =
      rt.backgroundColor ∧
    (lines.foldl (RayTracer.loadLine sqrt tan toFloat toInt readOffFile) rt).reflectionsEnabled =
      rt.reflectionsEnabled ∧
    (lines.foldl (RayTracer.loadLine sqrt tan toFloat toInt readOffFile) rt).maxReflectionDepth =
      rt.maxReflectionDepth ∧
    (lines.foldl (RayTracer.loadLine sqrt tan toFloat toInt readOffFile) rt).imageWidth =
      rt.imageWidth ∧
    (lines.foldl (RayTracer.loadLine sqrt tan toFloat toInt readOffFile) rt).imageHeight =
      rt.imageHeight := by
  induction lines generalizing rt with
  | nil => exact ⟨rfl, rfl, rfl, rfl, rfl, rfl⟩
  | cons l ls ih =>
    rw [List.foldl_cons]
    obtain ⟨a1, a2, a3, a4, a5, a6⟩ := ih
      (RayTracer.loadLine sqrt tan toFloat toInt readOffFile rt l)
      (fun q hq => h q (List.mem_cons_of_mem _ hq))
    obtain ⟨b1, b2, b3, b4, b5, b6⟩ := RayTracer.loadLine_frame sqrt tan toFloat toInt
      readOffFile rt l (h l (List.mem_cons_self _ _))
    exact ⟨a1.trans b1, a2.trans b2, a3.trans b3, a4.trans b4, a5.trans b5, a6.trans b6⟩

/-! ## Reflections with a depth that is not positive -/

theorem List.set_replicate_same {α : Type} (n i : Nat) (a : α) :
    (List.replicate n a).set i a = List.replicate n a := by
  apply List.ext_getElem?
  intro j
  rw [List.getElem?_set]
  by_cases h : i = j
  · subst h
    rw [if_pos rfl, List.length_replicate, List.getElem?_replicate]
  · rw [if_neg h]

/-- With reflections enabled and a maximum depth that is not positive, every pixel colour
is black. -/
theorem RayTracer.pixelColor_black (sqrt : F → F) (pow : F → F → F) (rt : RayTracer F)
    (hen : rt.reflectionsEnabled = true) (hd : rt.maxReflectionDepth ≤ 0) (x y : Int) :
    rt.pixelColor sqrt pow x y = ⟨0, 0, 0⟩ := by
  unfold RayTracer.pixelColor
  simp only [hen, if_true]
  rw [RayTracer.rayColorWithReflection, if_pos hd]

theorem RayTracer.renderPixel_black [FloorRing F] (sqrt : F → F) (pow : F → F → F)
    (rt : RayTracer F) (hs0 : sqrt 0 = 0) (hen : rt.reflectionsEnabled = true)
    (hd : rt.maxReflectionDepth ≤ 0) (n y x : Nat) :
    rt.renderPixel sqrt pow y (List.replicate n 0) x = List.replicate n 0 := by
  unfold RayTracer.renderPixel RayTracer.storePixel
  simp only [RayTracer.pixelColor_black sqrt pow rt hen hd, channelByte_zero sqrt hs0,
    List.set_replicate_same]

theorem RayTracer.render_black [FloorRing F] (sqrt : F → F) (pow : F → F → F)
    (rt : RayTracer F) (hs0 : sqrt 0 = 0) (hen : rt.reflectionsEnabled = true)
    (hd : rt.maxReflectionDepth ≤ 0) :
    rt.render sqrt pow = List.replicate (rt.imageWidth * rt.imageHeight * 3).toNat 0 := by
  have hrow : ∀ (n y : Nat) (xs : List Nat),
      xs.foldl (rt.renderPixel sqrt pow y) (List.replicate n 0) = List.replicate n 0 := by
    intro n y xs
    induction xs with
    | nil => rfl
    | cons x xs ih => rw [List.foldl_cons, RayTracer.renderPixel_black sqrt pow rt hs0 hen hd, ih]
  have hrows : ∀ (n : Nat) (ys : List Nat),
      ys.foldl (rt.renderRow sqrt pow) (List.replicate n 0) = List.replicate n 0 := by
    intro n ys
    induction ys with
    | nil => rfl
    | cons y ys ih =>
      rw [List.foldl_cons]
      unfold RayTracer.renderRow at ih ⊢
      rw [hrow, ih]
  unfold RayTracer.render
  exact hrows _ _

/-! ## Scenes without reflective materials -/

/-- The record a primitive reports carries the material of the primitive. -/
theorem Hittable.hit_material (sqrt : F → F) (o : Hittable F) (ray : Ray F) (tMin : F)
    (tMax : WithTop F) (rec r : HitRecord F) (h : o.hit sqrt ray tMin tMax rec = some r) :
    r.material = o.material := by
  cases o with
  | sphere s =>
    change s.hit sqrt ray tMin tMax rec = some r at h
    rw [Sphere.hit_eq_sphere] at h
    split_ifs at h <;> injection h with h <;> subst h <;> rfl
  | box b =>
    change b.hit ray tMin tMax rec = some r at h
    obtain ⟨st, -, -, hr⟩ := (Box.hit_some_iff b ray tMin tMax rec r).mp h
    subst hr
    rfl
  | triangle t =>
    change t.hit ray tMin tMax rec = some r at h
    rw [Triangle.hit_eq_triangle] at h
    split_ifs at h
    injection h with h
    subst h
    rfl

/-- The record a scene reports carries the material of one of its primitives. -/
theorem HittableList.hit_material_list (sqrt : F → F) (l : HittableList F) (ray : Ray F) (tMin : F)
    (tMax : WithTop F) (rec r : HitRecord F) (h : l.hit sqrt ray tMin tMax rec = some r) :
    ∃ o ∈ l.objects, r.material = o.material :=
  HittableList.hit_invariant sqrt l ray tMin tMax (fun r => ∃ o ∈ l.objects, r.material = o.material)
    (fun o ho c rec r _ hh => ⟨o, ho, Hittable.hit_material sqrt o ray tMin c rec r hh⟩) rec r h

/-- Without a reflective material the recursive integrator is the plain one. -/
theorem RayTracer.rayColorWithReflection_eq_rayColor (sqrt : F → F) (pow : F → F → F)
    (rt : RayTracer F) (ray : Ray F) (world : HittableList F) (depth : Int) (hd : 1 ≤ depth)
    (hall : ∀ o ∈ world.objects, o.material.reflectivity ≤ 0) :
    rt.rayColorWithReflection sqrt pow ray world depth = rt.rayColor sqrt pow ray world := by
  unfold RayTracer.rayColor
  cases hhit : world.hit sqrt ray (1 / 1000) ⊤ HitRecord.fresh with
  | none => exact RayTracer.rayColorWithReflection_none sqrt pow rt ray world depth hd hhit
  | some rec =>
    obtain ⟨o, ho, hm⟩ := HittableList.hit_material_list sqrt world ray _ _ _ rec hhit
    rw [RayTracer.rayColorWithReflection_some sqrt pow rt ray world depth rec hd hhit,
      if_neg (by rw [hm]; exact not_lt.mpr (hall o ho))]

/-- Two states of the same size with the same pixel colours render the same buffer. -/
theorem RayTracer.render_congr [FloorRing F] (sqrt : F → F) (pow : F → F → F)
    (rt rt' : RayTracer F) (hw : rt'.imageWidth = rt.imageWidth)
    (hh : rt'.imageHeight = rt.imageHeight)
    (hpix : ∀ x y : Int, rt'.pixelColor sqrt pow x y = rt.pixelColor sqrt pow x y) :
    rt'.render sqrt pow = rt.render sqrt pow := by
  have hrow : rt'.renderRow sqrt pow = rt.renderRow sqrt pow := by
    funext pixels y
    unfold RayTracer.renderRow
    rw [hw]
    congr 1
    funext pixels x
    unfold RayTracer.renderPixel
    rw [hpix, hw]
  unfold RayTracer.render
  rw [hrow, hw, hh]

/-! ## Colours stay in the unit cube -/

/-- Records that are all strictly farther do not replace the record held. -/
theorem foldl_nearer_keep (r : HitRecord F) (owns : List (Option (HitRecord F)))
    (h : ∀ r', some r' ∈ owns → r.t < r'.t) : owns.foldl nearer (some r) = some r := by
  induction owns with
  | nil => rfl
  | cons x xs ih =>
    rw [List.foldl_cons]
    have hx : nearer (some r) x = some r := by
      cases x with
      | none => rfl
      | some r' =>
        have := h r' (List.mem_cons_self _ _)
        simp only [nearer]
        rw [if_neg (not_le.mpr this)]
    rw [hx]
    exact ih (fun r' hr' => h r' (List.mem_cons_of_mem _ hr'))

/-- A record at most as far as every earlier one replaces the record held. -/
theorem foldl_nearer_take (r : HitRecord F) (owns : List (Option (HitRecord F)))
    (h : ∀ r', some r' ∈ owns → r.t ≤ r'.t) :
    nearer (owns.foldl nearer none) (some r) = some r := by
  cases hacc : owns.foldl nearer none with
  | none => rfl
  | some a =>
    have ha := ((foldl_nearer_spec owns).2 a hacc).1
    simp only [nearer]
    rw [if_pos (h a ha)]

/-! ## The epsilon gates -/

theorem checkedDiv_of_gate (a : F) (h : ¬ |a| < 1 / 10 ^ 8) : checkedDiv 1 a = some (1 / a) := by
  have hne : a ≠ 0 := by
    intro h0
    apply h
    rw [h0, abs_zero]
    positivity
  unfold checkedDiv
  rw [if_neg hne]

theorem Box.slabStep_eq_body (b : Box F) (ray : Ray F) (tMin : F) (st : SlabState F) (i : Nat) :
    b.slabStep ray tMin st i =
      if |ray.direction.get i| < 1 / 10 ^ 8 then
        if ray.origin.get i < b.boxMin.get i ∨ ray.origin.get i > b.boxMax.get i then none
        else some st
      else b.slabBody ray tMin st i (1 / ray.direction.get i) := rfl

/-- A checked iteration of the slab loop never divides by zero. -/
theorem Box.slabStepChecked_eq (b : Box F) (ray : Ray F) (tMin : F) (st : SlabState F)
    (i : Nat) : b.slabStepChecked ray tMin st i = some (b.slabStep ray tMin st i) := by
  rw [Box.slabStep_eq_body]
  unfold Box.slabStepChecked
  by_cases hg : |ray.direction.get i| < 1 / 10 ^ 8
  · rw [if_pos hg, if_pos hg]
    split_ifs <;> rfl
  · rw [if_neg hg, if_neg hg, checkedDiv_of_gate _ hg]

/-- The checked box test never divides by zero. -/
theorem Box.hitChecked_eq_box (b : Box F) (ray : Ray F) (tMin : F) (tMax : WithTop F)
    (rec : HitRecord F) : b.hitChecked ray tMin tMax rec = some (b.hit ray tMin tMax rec) := by
  unfold Box.hitChecked Box.hit Box.slabs
  simp only [List.foldl_cons, List.foldl_nil, List.foldlM_cons, List.foldlM_nil,
    Box.slabStepChecked_eq, Option.bind_eq_bind]
  cases h0 : b.slabStep ray tMin
      { tNear := tMin, tFar := tMax, hitAxis := -1, hitIsMin := false } 0 with
  | none => rfl
  | some st0 =>
    simp only [Option.some_bind, Box.slabStepChecked_eq]
    cases h1 : b.slabStep ray tMin st0 1 with
    | none => rfl
    | some st1 =>
      simp only [Option.some_bind, Box.slabStepChecked_eq]
      cases h2 : b.slabStep ray tMin st1 2 with
      | none => rfl
      | some st2 =>
        simp only [Option.some_bind, Option.pure_def]
        split_ifs <;> rfl

theorem Triangle.hit_eq_body (tr : Triangle F) (ray : Ray F) (tMin : F) (tMax : WithTop F)
    (rec : HitRecord F) :
    tr.hit ray tMin tMax rec =
      if |tr.det ray| < 1 / 10 ^ 8 then none
      else tr.hitBody ray tMin tMax rec (1 / tr.det ray) := rfl

/-- The checked triangle test never divides by zero. -/
theorem Triangle.hitChecked_eq_triangle (tr : Triangle F) (ray : Ray F) (tMin : F) (tMax : WithTop F)
    (rec : HitRecord F) :
    tr.hitChecked ray tMin tMax rec = some (tr.hit ray tMin tMax rec) := by
  rw [Triangle.hit_eq_body]
  unfold Triangle.hitChecked
  show (if |tr.det ray| < 1 / 10 ^ 8 then some none
    else match checkedDiv 1 (tr.det ray) with
      | none => none
      | some f => some (tr.hitBody ray tMin tMax rec f)) = _
  by_cases hg : |tr.det ray| < 1 / 10 ^ 8
  · rw [if_pos hg, if_pos hg]
  · rw [if_neg hg, if_neg hg, checkedDiv_of_gate _ hg]

/-- An axis the ray is parallel to, with the origin outside the slab, gives no hit. -/
theorem Box.hit_parallel_outside (b : Box F) (ray : Ray F) (tMin : F) (tMax : WithTop F)
    (rec : HitRecord F) (i : Nat) (hi : i < 3) (hg : |ray.direction.get i| < 1 / 10 ^ 8)
    (hout : ray.origin.get i < b.boxMin.get i ∨ ray.origin.get i > b.boxMax.get i) :
    b.hit ray tMin tMax rec = none := by
  have hstep : ∀ st, b.slabStep ray tMin st i = none := by
    intro st
    rw [Box.slabStep_eq_body, if_pos hg, if_pos hout]
  have hs : b.slabs ray tMin tMax = none := by
    unfold Box.slabs
    simp only [List.foldlM_cons, List.foldlM_nil, Option.bind_eq_bind]
    have : i = 0 ∨ i = 1 ∨ i = 2 := by omega
    rcases this with rfl | rfl | rfl
    · rw [hstep]
      rfl
    · cases b.slabStep ray tMin
          { tNear := tMin, tFar := tMax, hitAxis := -1, hitIsMin := false } 0 with
      | none => rfl
      | some st0 =>
        simp only [Option.some_bind, hstep]
        rfl
    · cases b.slabStep ray tMin
          { tNear := tMin, tFar := tMax, hitAxis := -1, hitIsMin := false } 0 with
      | none => rfl
      | some st0 =>
        simp only [Option.some_bind]
        cases b.slabStep ray tMin st0 1 with
        | none => rfl
        | some st1 =>
          simp only [Option.some_bind, hstep]
          rfl
  unfold Box.hit
  rw [hs]

/-! ## A sphere does not shadow itself -/

/-- `Sphere::hit` for a unit sphere centred on the z axis and a ray along the z axis, for
any `sqrt` with `sqrt 1 = 1`. -/
theorem Sphere.hit_on_z_axis (sqrt : F → F) (hs1 : sqrt 1 = 1) (cz oz s : F)
    (mat : Material F) (hs : s * s = 1) (tMin : F) (tMax : WithTop F) (rec : HitRecord F) :
    Sphere.hit sqrt ⟨⟨0, 0, cz⟩, 1, mat⟩ ⟨⟨0, 0, oz⟩, ⟨0, 0, s⟩⟩ tMin tMax rec =
      if tMin ≤ -(oz - cz) * s - 1 ∧ ((-(oz - cz) * s - 1 : F) : WithTop F) ≤ tMax then
        some (Sphere.fill ⟨⟨0, 0, cz⟩, 1, mat⟩ ⟨⟨0, 0, oz⟩, ⟨0, 0, s⟩⟩ (-(oz - cz) * s - 1) rec)
      else if tMin ≤ -(oz - cz) * s + 1 ∧ ((-(oz - cz) * s + 1 : F) : WithTop F) ≤ tMax then
        some (Sphere.fill ⟨⟨0, 0, cz⟩, 1, mat⟩ ⟨⟨0, 0, oz⟩, ⟨0, 0, s⟩⟩ (-(oz - cz) * s + 1) rec)
      else none := by
  have hd : Sphere.discriminant ⟨⟨0, 0, cz⟩, 1, mat⟩ ⟨⟨0, 0, oz⟩, ⟨0, 0, s⟩⟩ = 1 := by
    simp only [Sphere.discriminant, Vector3f.dot_def, Vector3f.sub_x, Vector3f.sub_y,
      Vector3f.sub_z]
    linear_combination hs
  have hn : Sphere.rootNear sqrt ⟨⟨0, 0, cz⟩, 1, mat⟩ ⟨⟨0, 0, oz⟩, ⟨0, 0, s⟩⟩ =
      -(oz - cz) * s - 1 := by
    unfold Sphere.rootNear
    rw [hd, hs1]
    simp only [Vector3f.dot_def, Vector3f.sub_x, Vector3f.sub_y, Vector3f.sub_z, mul_zero,
      zero_add, sub_self, zero_mul, hs, div_one]
    ring
  have hf : Sphere.rootFar sqrt ⟨⟨0, 0, cz⟩, 1, mat⟩ ⟨⟨0, 0, oz⟩, ⟨0, 0, s⟩⟩ =
      -(oz - cz) * s + 1 := by
    unfold Sphere.rootFar
    rw [hd, hs1]
    simp only [Vector3f.dot_def, Vector3f.sub_x, Vector3f.sub_y, Vector3f.sub_z, mul_zero,
      zero_add, sub_self, zero_mul, hs, div_one]
    ring
  rw [Sphere.hit_eq_sphere, hd, hn, hf, if_neg (by norm_num)]

/-- Both roots of `Sphere::hit` are non-positive for a ray that starts on or outside the
sphere and does not head towards the centre. -/
theorem Sphere.roots_nonpos (sqrt : F → F) (hsq : ∀ x : F, 0 ≤ x → sqrt x * sqrt x = x)
    (hnn : ∀ x : F, 0 ≤ sqrt x) (s : Sphere F) (ray : Ray F)
    (hb : 0 ≤ (ray.origin - s.center).Dot ray.direction)
    (hc : 0 ≤ (ray.origin - s.center).Dot (ray.origin - s.center) - s.radius * s.radius)
    (hd : ¬ s.discriminant ray < 0) :
    s.rootNear sqrt ray ≤ 0 ∧ s.rootFar sqrt ray ≤ 0 := by
  have ha : 0 ≤ ray.direction.Dot ray.direction := Vector3f.dot_self_nonneg _
  have hs := hsq _ (not_lt.mp hd)
  have h0 := hnn (s.discriminant ray)
  have hle : sqrt (s.discriminant ray) ≤ (ray.origin - s.center).Dot ray.direction := by
    by_contra hgt
    rw [not_le] at hgt
    have h1 : (ray.origin - s.center).Dot ray.direction *
        (ray.origin - s.center).Dot ray.direction <
        sqrt (s.discriminant ray) * sqrt (s.discriminant ray) :=
      mul_self_lt_mul_self hb hgt
    rw [hs] at h1
    have h2 : s.discriminant ray =
        (ray.origin - s.center).Dot ray.direction * (ray.origin - s.center).Dot ray.direction -
          ray.direction.Dot ray.direction *
            ((ray.origin - s.center).Dot (ray.origin - s.center) - s.radius * s.radius) := rfl
    have h3 := mul_nonneg ha hc
    linarith
  constructor
  · unfold Sphere.rootNear
    exact div_nonpos_of_nonpos_of_nonneg (by linarith) ha
  · unfold Sphere.rootFar
    exact div_nonpos_of_nonpos_of_nonneg (by linarith) ha

/-- Such a ray reports no hit over a window that starts above zero. -/
theorem Sphere.hit_none_of_away (sqrt : F → F) (hsq : ∀ x : F, 0 ≤ x → sqrt x * sqrt x = x)
    (hnn : ∀ x : F, 0 ≤ sqrt x) (s : Sphere F) (ray : Ray F) (tMin : F) (tMax : WithTop F)
    (rec : HitRecord F) (ht : 0 < tMin)
    (hb : 0 ≤ (ray.origin - s.center).Dot ray.direction)
    (hc : 0 ≤ (ray.origin - s.center).Dot (ray.origin - s.center) - s.radius * s.radius) :
    s.hit sqrt ray tMin tMax rec = none := by
  rw [Sphere.hit_eq_sphere]
  by_cases hd : s.discriminant ray < 0
  · rw [if_pos hd]
  · obtain ⟨h1, h2⟩ := Sphere.roots_nonpos sqrt hsq hnn s ray hb hc hd
    rw [if_neg hd, if_neg (fun h => absurd h.1 (not_le.mpr (lt_of_le_of_lt h1 ht))),
      if_neg (fun h => absurd h.1 (not_le.mpr (lt_of_le_of_lt h2 ht)))]

/-- The geometry of a front-face record of a sphere: the point lies on the sphere and the
normal is the outward one. -/
theorem Sphere.hit_front_geometry (sqrt : F → F) (hsq : ∀ x : F, 0 ≤ x → sqrt x * sqrt x = x)
    (s : Sphere F) (ray : Ray F) (tMin : F) (tMax : WithTop F) (rec r : HitRecord F)
    (ha : ray.direction.Dot ray.direction ≠ 0) (h : s.hit sqrt ray tMin tMax rec = some r)
    (hfront : r.frontFace = true) :
    (r.point - s.center).Dot (r.point - s.center) = s.radius * s.radius ∧
    r.normal = (r.point - s.center).scale (1 / s.radius) := by
  have key : ∀ t,
      (ray.direction.Dot ray.direction * t + (ray.origin - s.center).Dot ray.direction) *
      (ray.direction.Dot ray.direction * t + (ray.origin - s.center).Dot ray.direction) =
      s.discriminant ray → (s.fill ray t rec).frontFace = true →
      ((s.fill ray t rec).point - s.center).Dot ((s.fill ray t rec).point - s.center) =
        s.radius * s.radius ∧
      (s.fill ray t rec).normal = ((s.fill ray t rec).point - s.center).scale (1 / s.radius) := by
    intro t ht hf
    refine ⟨Sphere.point_on_sphere s ray t ha ht, ?_⟩
    have hn := (HitRecord.setFaceNormal_spec
      { { rec with t := t } with point := ray.origin + ray.direction.scale t } ray
      (((ray.origin + ray.direction.scale t) - s.center).scale (1 / s.radius))).2.1
    have hf' : (HitRecord.setFaceNormal
      { { rec with t := t } with point := ray.origin + ray.direction.scale t } ray
      (((ray.origin + ray.direction.scale t) - s.center).scale (1 / s.radius))).frontFace =
        true := hf
    rw [hf', if_pos rfl] at hn
    exact hn
  rw [Sphere.hit_eq_sphere] at h
  split_ifs at h with hd
  · injection h with h
    subst h
    apply key _ _ hfront
    unfold Sphere.rootNear
    have : ray.direction.Dot ray.direction *
        ((-(ray.origin - s.center).Dot ray.direction - sqrt (s.discriminant ray)) /
          ray.direction.Dot ray.direction) + (ray.origin - s.center).Dot ray.direction =
        -sqrt (s.discriminant ray) := by
      field_simp
      ring
    simp only [this]
    rw [neg_mul_neg, hsq _ (not_lt.mp hd)]
  · injection h with h
    subst h
    apply key _ _ hfront
    unfold Sphere.rootFar
    have : ray.direction.Dot ray.direction *
        ((-(ray.origin - s.center).Dot ray.direction + sqrt (s.discriminant ray)) /
          ray.direction.Dot ray.direction) + (ray.origin - s.center).Dot ray.direction =
        sqrt (s.discriminant ray) := by
      field_simp
    simp only [this]
    rw [hsq _ (not_lt.mp hd)]

/-- A ray that leaves a sphere from just above a surface point, on the side of the outward
normal, reports no hit on that sphere. -/
theorem Sphere.shadow_miss (sqrt : F → F) (hsq : ∀ x : F, 0 ≤ x → sqrt x * sqrt x = x)
    (hnn : ∀ x : F, 0 ≤ sqrt x) (s : Sphere F) (hr : 0 < s.radius) (p n D : Vector3f F)
    (hp : (p - s.center).Dot (p - s.center) = s.radius * s.radius)
    (hn : n = (p - s.center).scale (1 / s.radius)) (hD : 0 ≤ n.Dot D) (tMax : WithTop F)
    (rec : HitRecord F) :
    s.hit sqrt ⟨p + n.scale (1 / 1000), D⟩ (1 / 1000) tMax rec = none := by
  have he : 0 < 1 / s.radius * (1 / 1000) := by positivity
  have hpd : 0 ≤ (p - s.center).Dot D := by
    have h1 : n.Dot D = 1 / s.radius * (p - s.center).Dot D := by
      rw [hn]
      simp only [Vector3f.dot_def, Vector3f.scale_x, Vector3f.scale_y, Vector3f.scale_z]
      ring
    rw [h1] at hD
    have h2 : (p - s.center).Dot D = s.radius * (1 / s.radius * (p - s.center).Dot D) := by
      field_simp
    rw [h2]
    exact mul_nonneg hr.le hD
  apply Sphere.hit_none_of_away sqrt hsq hnn s _ _ tMax rec (by norm_num)
  · have h1 : (p + n.scale (1 / 1000) - s.center).Dot D =
        (1 + 1 / s.radius * (1 / 1000)) * (p - s.center).Dot D := by
      rw [hn]
      simp only [Vector3f.dot_def, Vector3f.scale_x, Vector3f.scale_y, Vector3f.scale_z,
        Vector3f.add_x, Vector3f.add_y, Vector3f.add_z, Vector3f.sub_x, Vector3f.sub_y,
        Vector3f.sub_z]
      ring
    show 0 ≤ (p + n.scale (1 / 1000) - s.center).Dot D
    rw [h1]
    exact mul_nonneg (by linarith) hpd
  · have h1 : (p + n.scale (1 / 1000) - s.center).Dot (p + n.scale (1 / 1000) - s.center) =
        (1 + 1 / s.radius * (1 / 1000)) * (1 + 1 / s.radius * (1 / 1000)) *
          (p - s.center).Dot (p - s.center) := by
      rw [hn]
      simp only [Vector3f.dot_def, Vector3f.scale_x, Vector3f.scale_y, Vector3f.scale_z,
        Vector3f.add_x, Vector3f.add_y, Vector3f.add_z, Vector3f.sub_x, Vector3f.sub_y,
        Vector3f.sub_z]
      ring
    show 0 ≤ (p + n.scale (1 / 1000) - s.center).Dot (p + n.scale (1 / 1000) - s.center) -
      s.radius * s.radius
    rw [h1, hp]
    have hrr : 0 ≤ s.radius * s.radius := mul_self_nonneg _
    nlinarith [mul_nonneg hrr he.le, mul_nonneg (mul_nonneg hrr he.le) he.le]

/-- The record of the ray that comes down the z axis onto the unit sphere at the origin. -/
theorem unitSphere_fill_top (mat : Material F) :
    Sphere.fill ⟨⟨0, 0, 0⟩, 1, mat⟩ ⟨⟨0, 0, 5⟩, ⟨0, 0, -1⟩⟩ 4 (HitRecord.fresh : HitRecord F) =
      { t := 4, point := ⟨0, 0, 1⟩, normal := ⟨0, 0, 1⟩, frontFace := true, material := mat } := by
  simp only [Sphere.fill, HitRecord.setFaceNormal, Vector3f.dot_def, Vector3f.scale,
    HitRecord.mk.injEq]
  refine ⟨trivial, ?_, ?_, ?_, trivial⟩
  · apply Vector3f.eq_of_components <;> norm_num
  · norm_num
  · norm_num

theorem unitSphere_hit_top (sqrt : F → F) (hs1 : sqrt 1 = 1) (mat : Material F) :
    Sphere.hit sqrt ⟨⟨0, 0, 0⟩, 1, mat⟩ ⟨⟨0, 0, 5⟩, ⟨0, 0, -1⟩⟩ (1 / 1000) ⊤
        (HitRecord.fresh : HitRecord F) =
      some { t := 4, point := ⟨0, 0, 1⟩, normal := ⟨0, 0, 1⟩, frontFace := true,
             material := mat } := by
  rw [Sphere.hit_on_z_axis sqrt hs1 0 5 (-1) mat (by norm_num), if_pos ⟨by norm_num, le_top⟩,
    ← unitSphere_fill_top mat]
  norm_num

/-! ## Bresenham's line -/

theorem LineRasterizer.isPath_single (a : Pixel) : LineRasterizer.IsPath [a] a a 0 :=
  ⟨rfl, rfl, rfl, List.chain'_singleton a⟩

theorem LineRasterizer.isPath_cons (a b last : Pixel) (p : List Pixel) (n : Nat)
    (hp : LineRasterizer.IsPath p b last n) (hab : LineRasterizer.Adjacent a b) :
    LineRasterizer.IsPath (a :: p) a last (n + 1) := by
  obtain ⟨h1, h2, h3, h4⟩ := hp
  cases p with
  | nil => simp at h1
  | cons c cs =>
    simp only [List.head?_cons, Option.some.injEq] at h1
    subst h1
    refine ⟨rfl, ?_, ?_, ?_⟩
    · rw [List.getLast?_cons_cons]
      exact h2
    · simp only [List.length_cons] at h3 ⊢
      omega
    · rw [List.chain'_cons']
      refine ⟨?_, h4⟩
      intro y hy
      simp only [List.head?_cons, Option.mem_def, Option.some.injEq] at hy
      subst hy
      exact hab

/-- One step of the loop moves to an adjacent pixel when the x coordinate moves. -/
theorem LineRasterizer.adjacent_of_x (x y sx d : Int) (hsx : sx = 1 ∨ sx = -1)
    (hd : d = 0 ∨ d = 1 ∨ d = -1) :
    LineRasterizer.Adjacent ⟨x, y⟩ ⟨x + sx, y + d⟩ := by
  refine ⟨?_, ?_, ?_⟩
  · intro h
    have := congrArg Pixel.x h
    simp only at this
    rcases hsx with h1 | h1 <;> omega
  · show |x + sx - x| ≤ 1
    rw [abs_le]
    rcases hsx with h1 | h1 <;> constructor <;> omega
  · show |y + d - y| ≤ 1
    rw [abs_le]
    rcases hd with h1 | h1 | h1 <;> constructor <;> omega

/-- One step of the loop moves to an adjacent pixel when the y coordinate moves. -/
theorem LineRasterizer.adjacent_of_y (x y sy d : Int) (hsy : sy = 1 ∨ sy = -1)
    (hd : d = 0 ∨ d = 1 ∨ d = -1) :
    LineRasterizer.Adjacent ⟨x, y⟩ ⟨x + d, y + sy⟩ := by
  refine ⟨?_, ?_, ?_⟩
  · intro h
    have := congrArg Pixel.y h
    simp only at this
    rcases hsy with h1 | h1 <;> omega
  · show |x + d - x| ≤ 1
    rw [abs_le]
    rcases hd with h1 | h1 | h1 <;> constructor <;> omega
  · show |y + sy - y| ≤ 1
    rw [abs_le]
    rcases hsy with h1 | h1 <;> constructor <;> omega

/-- One iteration of the loop that does not stop: the pixel is stored and the loop goes
on from the updated position and error. -/
theorem LineRasterizer.bresenhamLoop_step (x1 y1 dx dy sx sy : Int) (fuel : Nat)
    (x y err : Int) (acc : List Pixel) (hne : ¬ (x = x1 ∧ y = y1)) :
    LineRasterizer.bresenhamLoop x1 y1 dx dy sx sy (fuel + 1) x y err acc =
      LineRasterizer.bresenhamLoop x1 y1 dx dy sx sy fuel
        (if 2 * err > -dy then x + sx else x)
        (if 2 * err < dx then y + sy else y)
        (if 2 * err < dx then (if 2 * err > -dy then err - dy else err) + dx
          else (if 2 * err > -dy then err - dy else err))
        (acc ++ [⟨x, y⟩]) := by
  rw [LineRasterizer.bresenhamLoop]
  simp only [hne, if_false]
  by_cases h1 : 2 * err > -dy <;> by_cases h2 : 2 * err < dx <;>
    simp only [h1, h2, if_true, if_false]

/-- The loop on a line that is not steeper than the diagonal: the x coordinate moves at
every iteration, and the end point is reached after exactly the remaining `n` steps. -/
theorem LineRasterizer.bresenhamLoop_xmajor (x1 y1 dx dy sx sy : Int)
    (hsx : sx = 1 ∨ sx = -1) (hsy : sy = 1 ∨ sy = -1) (hdy : 0 ≤ dy) (hle : dy ≤ dx)
    (hdx : 0 < dx) (n : Nat) :
    ∀ (x y err m : Int),
      x1 = x + sx * n → y1 = y + sy * m → err = dx - dy + n * dy - m * dx →
      -dy < 2 * err → 2 * err < 3 * dx - 2 * dy →
      ∃ p, LineRasterizer.IsPath p ⟨x, y⟩ ⟨x1, y1⟩ n ∧
        ∀ (fuel : Nat) (acc : List Pixel), n < fuel →
          LineRasterizer.bresenhamLoop x1 y1 dx dy sx sy fuel x y err acc =
            some (acc ++ p) := by
  induction n with
  | zero =>
    intro x y err m hx hy hE hlo hhi
    simp only [Nat.cast_zero, mul_zero, add_zero, zero_mul] at hx hE
    have hm : m = 0 := by
      have h1 : m < 1 := by
        by_contra hc
        rw [not_lt] at hc
        nlinarith
      have h2 : -1 < m := by
        by_contra hc
        rw [not_lt] at hc
        nlinarith
      omega
    subst hm
    simp only [mul_zero, add_zero] at hy
    refine ⟨[⟨x, y⟩], ?_, ?_⟩
    · rw [hx, hy]
      exact LineRasterizer.isPath_single _
    · intro fuel acc hf
      obtain ⟨f, rfl⟩ : ∃ f, fuel = f + 1 := ⟨fuel - 1, by omega⟩
      rw [LineRasterizer.bresenhamLoop]
      simp only [hx, hy, and_self, if_true]
  | succ n ih =>
    intro x y err m hx hy hE hlo hhi
    push_cast at hx hE
    have hxne : ¬ (x = x1 ∧ y = y1) := by
      rintro ⟨h, -⟩
      rcases hsx with h1 | h1 <;> subst h1 <;> omega
    have hstep : 2 * err > -dy := hlo
    by_cases hc : 2 * err < dx
    · obtain ⟨p, hp1, hp2⟩ := ih (x + sx) (y + sy) (err - dy + dx) (m - 1)
        (by rw [hx]; ring) (by rw [hy]; ring) (by rw [hE]; ring) (by omega) (by omega)
      refine ⟨⟨x, y⟩ :: p, ?_, ?_⟩
      · exact LineRasterizer.isPath_cons _ _ _ _ _ hp1
          (LineRasterizer.adjacent_of_x x y sx sy hsx (Or.inr hsy))
      · intro fuel acc hf
        obtain ⟨f, rfl⟩ : ∃ f, fuel = f + 1 := ⟨fuel - 1, by omega⟩
        rw [LineRasterizer.bresenhamLoop_step _ _ _ _ _ _ _ _ _ _ _ hxne]
        simp only [hstep, hc, if_true]
        rw [hp2 f _ (by omega), List.append_assoc, List.singleton_append]
    · obtain ⟨p, hp1, hp2⟩ := ih (x + sx) y (err - dy) m
        (by rw [hx]; ring) hy (by rw [hE]; ring) (by omega) (by omega)
      refine ⟨⟨x, y⟩ :: p, ?_, ?_⟩
      · have := LineRasterizer.adjacent_of_x x y sx 0 hsx (Or.inl rfl)
        rw [add_zero] at this
        exact LineRasterizer.isPath_cons _ _ _ _ _ hp1 this
      · intro fuel acc hf
        obtain ⟨f, rfl⟩ : ∃ f, fuel = f + 1 := ⟨fuel - 1, by omega⟩
        rw [LineRasterizer.bresenhamLoop_step _ _ _ _ _ _ _ _ _ _ _ hxne]
        simp only [hstep, hc, if_true, if_false]
        rw [hp2 f _ (by omega), List.append_assoc, List.singleton_append]

/-- The loop on a line that is steeper than the diagonal: the y coordinate moves at every
iteration, and the end point is reached after exactly the remaining `n` steps. -/
theorem LineRasterizer.bresenhamLoop_ymajor (x1 y1 dx dy sx sy : Int)
    (hsx : sx = 1 ∨ sx = -1) (hsy : sy = 1 ∨ sy = -1) (hdx : 0 ≤ dx) (hlt : dx < dy)
    (n : Nat) :
    ∀ (x y err m : Int),
      x1 = x + sx * m → y1 = y + sy * n → err = dx - dy + m * dy - n * dx →
      2 * dx - 3 * dy < 2 * err → 2 * err < dx →
      ∃ p, LineRasterizer.IsPath p ⟨x, y⟩ ⟨x1, y1⟩ n ∧
        ∀ (fuel : Nat) (acc : List Pixel), n < fuel →
          LineRasterizer.bresenhamLoop x1 y1 dx dy sx sy fuel x y err acc =
            some (acc ++ p) := by
  induction n with
  | zero =>
    intro x y err m hx hy hE hlo hhi
    simp only [Nat.cast_zero, mul_zero, add_zero, zero_mul, sub_zero] at hy hE
    have hm : m = 0 := by
      have h1 : m < 1 := by
        by_contra hc
        rw [not_lt] at hc
        nlinarith
      have h2 : -1 < m := by
        by_contra hc
        rw [not_lt] at hc
        nlinarith
      omega
    subst hm
    simp only [mul_zero, add_zero] at hx
    refine ⟨[⟨x, y⟩], ?_, ?_⟩
    · rw [hx, hy]
      exact LineRasterizer.isPath_single _
    · intro fuel acc hf
      obtain ⟨f, rfl⟩ : ∃ f, fuel = f + 1 := ⟨fuel - 1, by omega⟩
      rw [LineRasterizer.bresenhamLoop]
      simp only [hx, hy, and_self, if_true]
  | succ n ih =>
    intro x y err m hx hy hE hlo hhi
    push_cast at hy hE
    have hxne : ¬ (x = x1 ∧ y = y1) := by
      rintro ⟨-, h⟩
      rcases hsy with h1 | h1 <;> subst h1 <;> omega
    by_cases hc : 2 * err > -dy
    · obtain ⟨p, hp1, hp2⟩ := ih (x + sx) (y + sy) (err - dy + dx) (m - 1)
        (by rw [hx]; ring) (by rw [hy]; ring) (by rw [hE]; ring) (by omega) (by omega)
      refine ⟨⟨x, y⟩ :: p, ?_, ?_⟩
      · exact LineRasterizer.isPath_cons _ _ _ _ _ hp1
          (LineRasterizer.adjacent_of_x x y sx sy hsx (Or.inr hsy))
      · intro fuel acc hf
        obtain ⟨f, rfl⟩ : ∃ f, fuel = f + 1 := ⟨fuel - 1, by omega⟩
        rw [LineRasterizer.bresenhamLoop_step _ _ _ _ _ _ _ _ _ _ _ hxne]
        simp only [hhi, hc, if_true]
        rw [hp2 f _ (by omega), List.append_assoc, List.singleton_append]
    · obtain ⟨p, hp1, hp2⟩ := ih x (y + sy) (err + dx) m
        hx (by rw [hy]; ring) (by rw [hE]; ring) (by omega) (by omega)
      refine ⟨⟨x, y⟩ :: p, ?_, ?_⟩
      · have := LineRasterizer.adjacent_of_y x y sy 0 hsy (Or.inl rfl)
        rw [add_zero] at this
        exact LineRasterizer.isPath_cons _ _ _ _ _ hp1 this
      · intro fuel acc hf
        obtain ⟨f, rfl⟩ : ∃ f, fuel = f + 1 := ⟨fuel - 1, by omega⟩
        rw [LineRasterizer.bresenhamLoop_step _ _ _ _ _ _ _ _ _ _ _ hxne]
        simp only [hhi, hc, if_true, if_false]
        rw [hp2 f _ (by omega), List.append_assoc, List.singleton_append]

/-- The step towards the end point, times the distance, is the signed distance. -/
theorem LineRasterizer.step_mul_delta (a b : Int) :
    b = a + (if a < b then 1 else -1) * ((|b - a|).toNat : Int) := by
  have h0 : 0 ≤ |b - a| := abs_nonneg _
  rw [Int.toNat_of_nonneg h0]
  by_cases h : a < b
  · rw [if_pos h, abs_of_pos (by omega)]
    ring
  · rw [if_neg h, abs_of_nonpos (by omega)]
    ring

/-! ## The face flag of a box entered through a `boxMax` face -/

/-- The slab loop of `unitBox` on `sideRay`, which comes along the x axis from `x = 3`. -/
theorem unitBox_slabs_sideRay :
    unitBox.slabs sideRay (1 / 1000) ⊤ =
      some { tNear := 2, tFar := ((4 : ℚ) : WithTop ℚ), hitAxis := 0, hitIsMin := true } := by
  have h1 : ∀ st : SlabState ℚ, unitBox.slabStep sideRay (1 / 1000) st 1 = some st :=
    fun st => (Box.slabStep_parallel _ _ _ _ _ _
      (by norm_num [Vector3f.get, sideRay])).mpr
      ⟨by norm_num [Vector3f.get, sideRay, unitBox], rfl⟩
  have h2 : ∀ st : SlabState ℚ, unitBox.slabStep sideRay (1 / 1000) st 2 = some st :=
    fun st => (Box.slabStep_parallel _ _ _ _ _ _
      (by norm_num [Vector3f.get, sideRay])).mpr
      ⟨by norm_num [Vector3f.get, sideRay, unitBox], rfl⟩
  have hlo : unitBox.slabLo sideRay 0 = 2 := by
    norm_num [Box.slabLo, Vector3f.get, sideRay, unitBox]
  have hhi : unitBox.slabHi sideRay 0 = 4 := by
    norm_num [Box.slabHi, Vector3f.get, sideRay, unitBox]
  have hnext : unitBox.slabNext sideRay
      { tNear := 1 / 1000, tFar := ⊤, hitAxis := -1, hitIsMin := false } 0 =
      { tNear := 2, tFar := ((4 : ℚ) : WithTop ℚ), hitAxis := 0, hitIsMin := true } := by
    simp only [Box.slabNext, hlo, hhi, SlabState.mk.injEq]
    exact ⟨by norm_num, by simp, by norm_num, by norm_num⟩
  have h0 : unitBox.slabStep sideRay (1 / 1000)
      { tNear := 1 / 1000, tFar := ⊤, hitAxis := -1, hitIsMin := false } 0 =
      some { tNear := 2, tFar := ((4 : ℚ) : WithTop ℚ), hitAxis := 0, hitIsMin := true } := by
    rw [Box.slabStep_some_iff _ _ _ _ _ _ (by norm_num [Vector3f.get, sideRay]), hnext]
    exact ⟨WithTop.coe_le_coe.mpr (by norm_num), WithTop.coe_le_coe.mpr (by norm_num), rfl⟩
  simp only [Box.slabs, List.foldlM_cons, List.foldlM_nil, h0, h1, h2, Option.bind_eq_bind,
    Option.some_bind]
  rfl

theorem unitBox_fill_sideRay :
    unitBox.fill sideRay
        { tNear := 2, tFar := ((4 : ℚ) : WithTop ℚ), hitAxis := 0, hitIsMin := true }
        HitRecord.fresh =
      { t := 2, point := ⟨1, 0, 0⟩, normal := ⟨1, 0, 0⟩, frontFace := false,
        material := Material.default } := by
  have hout : (Box.outwardNormal 0 true : Vector3f ℚ) = ⟨-1, 0, 0⟩ := by
    simp [Box.outwardNormal, Vector3f.zero]
  unfold Box.fill
  simp only [hout]
  simp only [HitRecord.setFaceNormal, sideRay, Vector3f.dot_def, HitRecord.mk.injEq]
  refine ⟨trivial, ?_, ?_, ?_, rfl⟩
  · apply Vector3f.eq_of_components <;> norm_num
  · norm_num [Vector3f.scale]
  · norm_num

theorem unitBox_hit_sideRay :
    unitBox.hit sideRay (1 / 1000) ⊤ HitRecord.fresh =
      some { t := 2, point := ⟨1, 0, 0⟩, normal := ⟨1, 0, 0⟩, frontFace := false,
             material := Material.default } := by
  rw [← unitBox_fill_sideRay, Box.hit_some_iff]
  exact ⟨_, unitBox_slabs_sideRay, le_top, rfl⟩

/-- The record of a box: the stored normal opposes the ray, and the flag and the normal
come from the vector the slab loop derives, which is zero or minus a unit vector. -/
theorem Box.hit_face (b : Box F) (ray : Ray F) (tMin : F) (tMax : WithTop F)
    (rec r : HitRecord F) (h : b.hit ray tMin tMax rec = some r) :
    r.normal.Dot ray.direction ≤ 0 ∧
    ∃ st, b.slabs ray tMin tMax = some st ∧
      (r.frontFace = true ↔
        ray.direction.Dot (Box.outwardNormal st.hitAxis st.hitIsMin) < 0) ∧
      r.normal = (if r.frontFace = true then Box.outwardNormal st.hitAxis st.hitIsMin
        else (Box.outwardNormal st.hitAxis st.hitIsMin : Vector3f F).scale (-1)) ∧
      ((st.hitAxis = -1 ∧
          (Box.outwardNormal st.hitAxis st.hitIsMin : Vector3f F) = Vector3f.zero) ∨
        ∃ i : Nat, i < 3 ∧ st.hitAxis = (i : Int) ∧
          (Box.outwardNormal st.hitAxis st.hitIsMin : Vector3f F) =
            Vector3f.zero.set i (-1)) := by
  obtain ⟨n, ⟨st, hsl, hn⟩, h1, h2, h3⟩ :=
    Hittable.hit_faceNormal (fun x => x) (.box b) ray tMin tMax rec r h
  subst hn
  refine ⟨h3, st, hsl, h1, h2, ?_⟩
  obtain ⟨st', hsl', -, hcase⟩ := Box.hit_outward b ray tMin tMax rec r h
  rw [hsl] at hsl'
  injection hsl' with hst
  subst hst
  rcases hcase with hl | ⟨i, hi, hax, -, hout, -⟩
  · exact Or.inl hl
  · exact Or.inr ⟨i, hi, hax, hout⟩

/-! ## A scene on which the colour bound is exercised -/

/-- C1: for every list of primitives, ray and window `[tMin, tMax]`, `HittableList::hit`
reports a hit if and only if at least one primitive, tested on its own with the same ray
and the original window, reports a hit; and the reported `rec.t` is the minimum of the
distances those primitives report on their own (it is one of them and is at most each of
them).  `sqrt` is assumed to return non-negative values. -/
theorem HittableList.hit_nearest (sqrt : F → F) (hs : ∀ x, 0 ≤ sqrt x) (l : HittableList F)
    (ray : Ray F) (tMin : F) (tMax : WithTop F) (rec rec0 : HitRecord F) :
    ((l.hit sqrt ray tMin tMax rec).isSome ↔
        ∃ o ∈ l.objects, (o.hit sqrt ray tMin tMax rec0).isSome) ∧
      ∀ r, l.hit sqrt ray tMin tMax rec = some r →
        (∃ o ∈ l.objects, ∃ r0, o.hit sqrt ray tMin tMax rec0 = some r0 ∧ r0.t = r.t) ∧
        ∀ o ∈ l.objects, ∀ r0, o.hit sqrt ray tMin tMax rec0 = some r0 → r.t ≤ r0.t := by
  rw [HittableList.hit_eq_foldl sqrt hs l ray tMin tMax rec rec0]
  obtain ⟨h1, h2⟩ := foldl_nearer_spec (l.objects.map (fun o => o.hit sqrt ray tMin tMax rec0))
  constructor
  · rw [← not_iff_not, Option.not_isSome_iff_eq_none, h1]
    constructor
    · rintro h ⟨o, ho, hsome⟩
      have := h _ (List.mem_map.mpr ⟨o, ho, rfl⟩)
      rw [this] at hsome
      cases hsome
    · intro h x hx
      obtain ⟨o, ho, rfl⟩ := List.mem_map.mp hx
      by_contra hne
      exact h ⟨o, ho, Option.isSome_iff_ne_none.mpr hne⟩
  · intro r hr
    obtain ⟨hmem, hmin⟩ := h2 r hr
    constructor
    · obtain ⟨o, ho, heq⟩ := List.mem_map.mp hmem
      exact ⟨o, ho, r, heq, rfl⟩
    · intro o ho r0 hr0
      exact hmin r0 (List.mem_map.mpr ⟨o, ho, hr0⟩)

/-- Witness for C1: `demoWorld` and `demoRay`, with the rational square root. -/
theorem HittableList.hit_nearest_witness :
    (∀ x, 0 ≤ qsqrt x) ∧
      (((demoWorld.hit qsqrt demoRay (1 / 1000) ⊤ HitRecord.fresh).isSome ↔
          ∃ o ∈ demoWorld.objects,
            (o.hit qsqrt demoRay (1 / 1000) ⊤ HitRecord.fresh).isSome) ∧
        ∀ r, demoWorld.hit qsqrt demoRay (1 / 1000) ⊤ HitRecord.fresh = some r →
          (∃ o ∈ demoWorld.objects, ∃ r0,
            o.hit qsqrt demoRay (1 / 1000) ⊤ HitRecord.fresh = some r0 ∧ r0.t = r.t) ∧
          ∀ o ∈ demoWorld.objects, ∀ r0,
            o.hit qsqrt demoRay (1 / 1000) ⊤ HitRecord.fresh = some r0 → r.t ≤ r0.t) :=
  ⟨qsqrt_nonneg, HittableList.hit_nearest qsqrt qsqrt_nonneg demoWorld demoRay (1 / 1000) ⊤
    HitRecord.fresh HitRecord.fresh⟩

/-- C2: with `a = d.d`, `half_b = (o - center).d`, `c = (o - center).(o - center) - r^2` and
`disc = half_b^2 - a*c`, `Sphere::hit` reports no hit when `disc < 0`; otherwise it reports
`rec.t = (-half_b - sqrt disc) / a` if that root lies in `[tMin, tMax]`; otherwise
`rec.t = (-half_b + sqrt disc) / a` if that root lies in `[tMin, tMax]`; otherwise no hit. -/
theorem Sphere.hit_roots (sqrt : F → F) (s : Sphere F) (ray : Ray F) (tMin : F)
    (tMax : WithTop F) (rec : HitRecord F) :
    (s.hit sqrt ray tMin tMax rec).map (fun r => r.t) =
      (let oc := ray.origin - s.center
       let a := ray.direction.Dot ray.direction
       let half_b := oc.Dot ray.direction
       let c := oc.Dot oc - s.radius * s.radius
       let disc := half_b * half_b - a * c
       let r1 : F := (-half_b - sqrt disc) / a
       let r2 : F := (-half_b + sqrt disc) / a
       if disc < 0 then none
       else if tMin ≤ r1 ∧ ((r1 : F) : WithTop F) ≤ tMax then some r1
       else if tMin ≤ r2 ∧ ((r2 : F) : WithTop F) ≤ tMax then some r2
       else none) := by
  rw [Sphere.hit_eq_sphere]
  show _ = if s.discriminant ray < 0 then none
    else if tMin ≤ s.rootNear sqrt ray ∧ ((s.rootNear sqrt ray : F) : WithTop F) ≤ tMax then
      some (s.rootNear sqrt ray)
    else if tMin ≤ s.rootFar sqrt ray ∧ ((s.rootFar sqrt ray : F) : WithTop F) ≤ tMax then
      some (s.rootFar sqrt ray)
    else none
  split_ifs <;> rfl

/-- C3: for a ray with origin `o` and unit direction `d`, a radius `r >= 0` and any `D`, the
sphere of radius `r` centred at `o + D*d` has its two roots at `D - r` and `D + r`, and
`Sphere::hit` over a window that contains both roots reports `rec.t = D - r`.  `sqrt` is
assumed exact at `r*r`. -/
theorem Sphere.hit_on_axis (sqrt : F → F) (o d : Vector3f F) (r D : F) (mat : Material F)
    (tMin : F) (tMax : WithTop F) (rec : HitRecord F) (hd : d.Dot d = 1) (hr : 0 ≤ r)
    (hsq : sqrt (r * r) = r) (h1 : tMin ≤ D - r) (h2 : ((D + r : F) : WithTop F) ≤ tMax) :
    Sphere.rootNear sqrt ⟨o + d.scale D, r, mat⟩ ⟨o, d⟩ = D - r ∧
      Sphere.rootFar sqrt ⟨o + d.scale D, r, mat⟩ ⟨o, d⟩ = D + r ∧
      (Sphere.hit sqrt ⟨o + d.scale D, r, mat⟩ ⟨o, d⟩ tMin tMax rec).map (fun x => x.t) =
        some (D - r) := by
  have hd' : d.x * d.x + d.y * d.y + d.z * d.z = 1 := hd
  have hdisc : Sphere.discriminant ⟨o + d.scale D, r, mat⟩ ⟨o, d⟩ = r * r := by
    simp only [Sphere.discriminant, Vector3f.dot_def, Vector3f.sub_x, Vector3f.sub_y,
      Vector3f.sub_z, Vector3f.add_x, Vector3f.add_y, Vector3f.add_z, Vector3f.scale_x,
      Vector3f.scale_y, Vector3f.scale_z]
    linear_combination (r * r) * hd'
  have hn : Sphere.rootNear sqrt ⟨o + d.scale D, r, mat⟩ ⟨o, d⟩ = D - r := by
    unfold Sphere.rootNear
    rw [hdisc, hsq]
    simp only [Vector3f.dot_def, Vector3f.sub_x, Vector3f.sub_y,
      Vector3f.sub_z, Vector3f.add_x, Vector3f.add_y, Vector3f.add_z, Vector3f.scale_x,
      Vector3f.scale_y, Vector3f.scale_z, hd', div_one]
    linear_combination D * hd'
  have hf : Sphere.rootFar sqrt ⟨o + d.scale D, r, mat⟩ ⟨o, d⟩ = D + r := by
    unfold Sphere.rootFar
    rw [hdisc, hsq]
    simp only [Vector3f.dot_def, Vector3f.sub_x, Vector3f.sub_y,
      Vector3f.sub_z, Vector3f.add_x, Vector3f.add_y, Vector3f.add_z, Vector3f.scale_x,
      Vector3f.scale_y, Vector3f.scale_z, hd', div_one]
    linear_combination D * hd'
  refine ⟨hn, hf, ?_⟩
  rw [Sphere.hit_eq_sphere, hdisc, hn]
  have hnn : ¬ r * r < 0 := not_lt.mpr (mul_nonneg hr hr)
  have hw : tMin ≤ D - r ∧ ((D - r : F) : WithTop F) ≤ tMax :=
    ⟨h1, le_trans (WithTop.coe_le_coe.mpr (by linarith)) h2⟩
  rw [if_neg hnn, if_pos hw]
  rfl

/-- Witness for C3: the unit sphere centred 5 along the z axis, window `[0, 10]`. -/
theorem Sphere.hit_on_axis_witness :
    Sphere.rootNear qsqrt ⟨(⟨0, 0, 0⟩ : Vector3f ℚ) + (⟨0, 0, 1⟩ : Vector3f ℚ).scale 5, 1,
        Material.default⟩ ⟨⟨0, 0, 0⟩, ⟨0, 0, 1⟩⟩ = 5 - 1 ∧
      Sphere.rootFar qsqrt ⟨(⟨0, 0, 0⟩ : Vector3f ℚ) + (⟨0, 0, 1⟩ : Vector3f ℚ).scale 5, 1,
        Material.default⟩ ⟨⟨0, 0, 0⟩, ⟨0, 0, 1⟩⟩ = 5 + 1 ∧
      (Sphere.hit qsqrt ⟨(⟨0, 0, 0⟩ : Vector3f ℚ) + (⟨0, 0, 1⟩ : Vector3f ℚ).scale 5, 1,
        Material.default⟩ ⟨⟨0, 0, 0⟩, ⟨0, 0, 1⟩⟩ 0 ((10 : ℚ) : WithTop ℚ)
        HitRecord.fresh).map (fun x => x.t) = some (5 - 1) :=
  Sphere.hit_on_axis qsqrt ⟨0, 0, 0⟩ ⟨0, 0, 1⟩ 1 5 Material.default 0 ((10 : ℚ) : WithTop ℚ)
    HitRecord.fresh (by norm_num [Vector3f.dot_def]) (by norm_num)
    (by rw [mul_one]; exact qsqrt_one) (by norm_num)
    (by exact WithTop.coe_le_coe.mpr (by norm_num))

/-- C4 (amended): for a triangle with non-collinear vertices built by the constructor, and
the ray built from `centroid + k*n` with direction `-n` (`n` the stored unit normal), if the
determinant `edge1 . (direction x edge2)` passes the gate `|a| >= 1e-8` then `u = v = 1/3`
(so `u >= 0`, `v >= 0`, `u + v <= 1`), `t = k`, and over a window that contains `k` the test
reports a hit at `rec.t = k`.  The determinant equals the length of the cross product of the
edges.  `sqrt` is assumed non-negative, exact at the squared length of the cross product and
at 1. -/
theorem Triangle.hit_centroid (sqrt : F → F) (v0 v1 v2 : Vector3f F) (mat : Material F)
    (k tMin : F) (tMax : WithTop F) (rec : HitRecord F)
    (hnc : (v1 - v0).Cross (v2 - v0) ≠ Vector3f.zero)
    (hs : 0 ≤ sqrt (((v1 - v0).Cross (v2 - v0)).Dot ((v1 - v0).Cross (v2 - v0))))
    (hsq : sqrt (((v1 - v0).Cross (v2 - v0)).Dot ((v1 - v0).Cross (v2 - v0))) *
      sqrt (((v1 - v0).Cross (v2 - v0)).Dot ((v1 - v0).Cross (v2 - v0))) =
      ((v1 - v0).Cross (v2 - v0)).Dot ((v1 - v0).Cross (v2 - v0)))
    (hs1 : sqrt 1 = 1)
    (hgate : 1 / 10 ^ 8 ≤ |(Triangle.new sqrt v0 v1 v2 mat).det
      (Ray.new sqrt ((v0 + v1 + v2).scale (1 / 3) +
        (Triangle.new sqrt v0 v1 v2 mat).normal.scale k)
        (-(Triangle.new sqrt v0 v1 v2 mat).normal))|)
    (hw1 : tMin ≤ k) (hw2 : ((k : F) : WithTop F) ≤ tMax) :
    (Triangle.new sqrt v0 v1 v2 mat).det
        (Ray.new sqrt ((v0 + v1 + v2).scale (1 / 3) +
          (Triangle.new sqrt v0 v1 v2 mat).normal.scale k)
          (-(Triangle.new sqrt v0 v1 v2 mat).normal)) =
        sqrt (((v1 - v0).Cross (v2 - v0)).Dot ((v1 - v0).Cross (v2 - v0))) ∧
      (Triangle.new sqrt v0 v1 v2 mat).baryU
        (Ray.new sqrt ((v0 + v1 + v2).scale (1 / 3) +
          (Triangle.new sqrt v0 v1 v2 mat).normal.scale k)
          (-(Triangle.new sqrt v0 v1 v2 mat).normal)) = 1 / 3 ∧
      (Triangle.new sqrt v0 v1 v2 mat).baryV
        (Ray.new sqrt ((v0 + v1 + v2).scale (1 / 3) +
          (Triangle.new sqrt v0 v1 v2 mat).normal.scale k)
          (-(Triangle.new sqrt v0 v1 v2 mat).normal)) = 1 / 3 ∧
      ((Triangle.new sqrt v0 v1 v2 mat).hit
        (Ray.new sqrt ((v0 + v1 + v2).scale (1 / 3) +
          (Triangle.new sqrt v0 v1 v2 mat).normal.scale k)
          (-(Triangle.new sqrt v0 v1 v2 mat).normal)) tMin tMax rec).map (fun r => r.t) =
        some k := by
  have hNN := Vector3f.dot_self_pos _ hnc
  generalize hL : sqrt (((v1 - v0).Cross (v2 - v0)).Dot ((v1 - v0).Cross (v2 - v0))) = L
    at hs hsq ⊢
  have hLpos : 0 < L := by
    rcases lt_or_eq_of_le hs with h | h
    · exact h
    · rw [← h] at hsq; rw [← hsq] at hNN; simp at hNN
  have hLne : L ≠ 0 := ne_of_gt hLpos
  -- the ray the constructor builds
  have hray : Ray.new sqrt ((v0 + v1 + v2).scale (1 / 3) +
        (Triangle.new sqrt v0 v1 v2 mat).normal.scale k)
        (-(Triangle.new sqrt v0 v1 v2 mat).normal) =
      ⟨(v0 + v1 + v2).scale (1 / 3) + ((v1 - v0).Cross (v2 - v0)).scale (k / L),
        ((v1 - v0).Cross (v2 - v0)).scale (-1 / L)⟩ := by
    have hlen : ((v1 - v0).Cross (v2 - v0)).length sqrt = L := hL
    have harg : (-(((v1 - v0).Cross (v2 - v0)).Normalize sqrt)).x *
          (-(((v1 - v0).Cross (v2 - v0)).Normalize sqrt)).x +
        (-(((v1 - v0).Cross (v2 - v0)).Normalize sqrt)).y *
          (-(((v1 - v0).Cross (v2 - v0)).Normalize sqrt)).y +
        (-(((v1 - v0).Cross (v2 - v0)).Normalize sqrt)).z *
          (-(((v1 - v0).Cross (v2 - v0)).Normalize sqrt)).z = 1 := by
      simp only [Vector3f.Normalize, hlen, Vector3f.neg_x, Vector3f.neg_y, Vector3f.neg_z]
      rw [Vector3f.dot_def] at hsq
      field_simp
      linear_combination -hsq
    simp only [Ray.new, Triangle.new, Ray.mk.injEq]
    refine ⟨?_, ?_⟩
    · apply Vector3f.eq_of_components <;>
        simp only [Vector3f.Normalize, hlen, Vector3f.add_x, Vector3f.add_y, Vector3f.add_z,
          Vector3f.scale_x, Vector3f.scale_y, Vector3f.scale_z] <;> ring
    · have hlen2 : (-(((v1 - v0).Cross (v2 - v0)).Normalize sqrt)).length sqrt = 1 := by
        unfold Vector3f.length
        rw [harg, hs1]
      apply Vector3f.eq_of_components
      · show (-(((v1 - v0).Cross (v2 - v0)).Normalize sqrt)).x /
          (-(((v1 - v0).Cross (v2 - v0)).Normalize sqrt)).length sqrt = _
        rw [hlen2]
        show -(((v1 - v0).Cross (v2 - v0)).x / ((v1 - v0).Cross (v2 - v0)).length sqrt) / 1 = _
        rw [hlen, Vector3f.scale_x]
        ring
      · show (-(((v1 - v0).Cross (v2 - v0)).Normalize sqrt)).y /
          (-(((v1 - v0).Cross (v2 - v0)).Normalize sqrt)).length sqrt = _
        rw [hlen2]
        show -(((v1 - v0).Cross (v2 - v0)).y / ((v1 - v0).Cross (v2 - v0)).length sqrt) / 1 = _
        rw [hlen, Vector3f.scale_y]
        ring
      · show (-(((v1 - v0).Cross (v2 - v0)).Normalize sqrt)).z /
          (-(((v1 - v0).Cross (v2 - v0)).Normalize sqrt)).length sqrt = _
        rw [hlen2]
        show -(((v1 - v0).Cross (v2 - v0)).z / ((v1 - v0).Cross (v2 - v0)).length sqrt) / 1 = _
        rw [hlen, Vector3f.scale_z]
        ring
  rw [hray] at hgate ⊢
  obtain ⟨e1, e2, e3, e4⟩ := Triangle.values_along_normal v0 v1 v2
    (((v1 - v0).Cross (v2 - v0)).Normalize sqrt) mat (k / L) (-1 / L)
  simp only at e1 e2 e3 e4
  have hdet : (Triangle.new sqrt v0 v1 v2 mat).det
      ⟨(v0 + v1 + v2).scale (1 / 3) + ((v1 - v0).Cross (v2 - v0)).scale (k / L),
        ((v1 - v0).Cross (v2 - v0)).scale (-1 / L)⟩ = L := by
    rw [show Triangle.new sqrt v0 v1 v2 mat =
      ⟨v0, v1, v2, ((v1 - v0).Cross (v2 - v0)).Normalize sqrt, mat⟩ from rfl, e1, ← hsq]
    field_simp
  have hu : (Triangle.new sqrt v0 v1 v2 mat).baryU
      ⟨(v0 + v1 + v2).scale (1 / 3) + ((v1 - v0).Cross (v2 - v0)).scale (k / L),
        ((v1 - v0).Cross (v2 - v0)).scale (-1 / L)⟩ = 1 / 3 := by
    unfold Triangle.baryU
    rw [hdet]
    simp only [show (Triangle.new sqrt v0 v1 v2 mat).v0 = v0 from rfl,
      show (Triangle.new sqrt v0 v1 v2 mat).v2 = v2 from rfl]
    rw [e2, ← hsq]
    field_simp
  have hv : (Triangle.new sqrt v0 v1 v2 mat).baryV
      ⟨(v0 + v1 + v2).scale (1 / 3) + ((v1 - v0).Cross (v2 - v0)).scale (k / L),
        ((v1 - v0).Cross (v2 - v0)).scale (-1 / L)⟩ = 1 / 3 := by
    unfold Triangle.baryV
    rw [hdet]
    simp only [show (Triangle.new sqrt v0 v1 v2 mat).v0 = v0 from rfl,
      show (Triangle.new sqrt v0 v1 v2 mat).v1 = v1 from rfl]
    rw [e3, ← hsq]
    field_simp
  have ht : (Triangle.new sqrt v0 v1 v2 mat).dist
      ⟨(v0 + v1 + v2).scale (1 / 3) + ((v1 - v0).Cross (v2 - v0)).scale (k / L),
        ((v1 - v0).Cross (v2 - v0)).scale (-1 / L)⟩ = k := by
    unfold Triangle.dist
    rw [hdet]
    simp only [show (Triangle.new sqrt v0 v1 v2 mat).v0 = v0 from rfl,
      show (Triangle.new sqrt v0 v1 v2 mat).v1 = v1 from rfl,
      show (Triangle.new sqrt v0 v1 v2 mat).v2 = v2 from rfl]
    rw [e4, ← hsq]
    field_simp
  refine ⟨hdet, hu, hv, ?_⟩
  rw [Triangle.hit_eq_triangle, hu, hv, ht]
  rw [if_pos ⟨hgate, by norm_num, by norm_num, by norm_num, by norm_num, hw1, hw2⟩]
  simp only [Option.map_some', Triangle.fill_t_triangle]

/-- Counterexample to C4 as stated: the vertices `(0,0,0)`, `(1e-5,0,0)`, `(0,1e-5,0)` are
not collinear, the stored normal is `(0,0,1)`, and the ray from `centroid + 1*n` with
direction `-n` over the window `[0, 2]` is not reported as a hit, because the determinant
`1e-10` is below the gate `1e-8`. -/
theorem Triangle.hit_centroid_counterexample :
    ((⟨1 / 100000, 0, 0⟩ : Vector3f ℚ) - ⟨0, 0, 0⟩).Cross
        ((⟨0, 1 / 100000, 0⟩ : Vector3f ℚ) - ⟨0, 0, 0⟩) ≠ Vector3f.zero ∧
      tinyTriangle.det tinyRay = 1 / 10 ^ 10 ∧
      tinyTriangle.hit tinyRay 0 ((2 : ℚ) : WithTop ℚ) HitRecord.fresh = none := by
  have hdet : tinyTriangle.det tinyRay = 1 / 10 ^ 10 := by
    rw [tinyRay_eq]
    norm_num [tinyTriangle, Triangle.new, Triangle.det, Vector3f.Cross, Vector3f.dot_def]
  refine ⟨?_, hdet, ?_⟩
  · intro h
    have := congrArg Vector3f.z h
    norm_num [Vector3f.Cross, Vector3f.zero] at this
  · unfold Triangle.hit
    rw [hdet, if_pos (by rw [abs_of_pos (by norm_num)]; norm_num)]

/-- Witness for C4 (amended): the triangle `(0,0,0)`, `(1,0,0)`, `(0,1,0)`, `k = 2`,
window `[0, 5]`. -/
theorem Triangle.hit_centroid_witness :
    unitTriangle.baryU (Ray.new qsqrt
        (((⟨0, 0, 0⟩ : Vector3f ℚ) + ⟨1, 0, 0⟩ + ⟨0, 1, 0⟩).scale (1 / 3) +
          unitTriangle.normal.scale 2) (-unitTriangle.normal)) = 1 / 3 ∧
      (unitTriangle.hit (Ray.new qsqrt
        (((⟨0, 0, 0⟩ : Vector3f ℚ) + ⟨1, 0, 0⟩ + ⟨0, 1, 0⟩).scale (1 / 3) +
          unitTriangle.normal.scale 2) (-unitTriangle.normal)) 0 ((5 : ℚ) : WithTop ℚ)
        HitRecord.fresh).map (fun r => r.t) = some 2 := by
  have hc : ((⟨1, 0, 0⟩ : Vector3f ℚ) - ⟨0, 0, 0⟩).Cross
      ((⟨0, 1, 0⟩ : Vector3f ℚ) - ⟨0, 0, 0⟩) = ⟨0, 0, 1⟩ := by
    apply Vector3f.eq_of_components <;> norm_num [Vector3f.Cross]
  have hq : qsqrt ((⟨0, 0, 1⟩ : Vector3f ℚ).Dot ⟨0, 0, 1⟩) = 1 := by
    norm_num [Vector3f.dot_def, qsqrt_one]
  have hn : unitTriangle.normal = ⟨0, 0, 1⟩ := by
    unfold unitTriangle Triangle.new
    simp only
    rw [hc, normalize_qsqrt _ 1 (by norm_num) (by norm_num)]
    norm_num
  have hr : Ray.new qsqrt
        (((⟨0, 0, 0⟩ : Vector3f ℚ) + ⟨1, 0, 0⟩ + ⟨0, 1, 0⟩).scale (1 / 3) +
          unitTriangle.normal.scale 2) (-unitTriangle.normal) =
      ⟨⟨1 / 3, 1 / 3, 2⟩, ⟨0, 0, -1⟩⟩ := by
    unfold Ray.new
    rw [hn, normalize_qsqrt _ 1 (by norm_num) (by norm_num)]
    simp only [Ray.mk.injEq]
    constructor
    · apply Vector3f.eq_of_components <;> norm_num
    · apply Vector3f.eq_of_components <;> norm_num
  have hg : 1 / 10 ^ 8 ≤ |unitTriangle.det (Ray.new qsqrt
        (((⟨0, 0, 0⟩ : Vector3f ℚ) + ⟨1, 0, 0⟩ + ⟨0, 1, 0⟩).scale (1 / 3) +
          unitTriangle.normal.scale 2) (-unitTriangle.normal))| := by
    rw [hr]
    norm_num [unitTriangle, Triangle.new, Triangle.det, Vector3f.Cross, Vector3f.dot_def]
  have h := Triangle.hit_centroid qsqrt ⟨0, 0, 0⟩ ⟨1, 0, 0⟩ ⟨0, 1, 0⟩ Material.default 2 0
    ((5 : ℚ) : WithTop ℚ) HitRecord.fresh
    (by rw [hc]; intro h; have := congrArg Vector3f.z h; norm_num [Vector3f.zero] at this)
    (qsqrt_nonneg _) (by rw [hc, hq]; norm_num [Vector3f.dot_def]) qsqrt_one
    hg
    (by norm_num) (WithTop.coe_le_coe.mpr (by norm_num))
  exact ⟨h.2.1, h.2.2.2⟩

/-- C5 (amended): for a box with `boxMin < boxMax` on every axis and a ray whose origin lies
outside the box, whose direction points from the origin to the box centre, and which on
every axis with `|direction[i]| < 1e-8` has its origin coordinate within
`[boxMin[i], boxMax[i]]`, `Box::hit` over a window `[tMin, tMax]` that contains the entry
distance `E` reports a hit at `rec.t = tNear = E`, with `tNear <= tFar` (and `tNear < tFar`
when `E < tMax`), and the reported point has a coordinate equal to `boxMin` or `boxMax` of
its axis. -/
theorem Box.hit_centre_aimed (b : Box F) (ray : Ray F) (tMin E L : F) (tMax : WithTop F)
    (rec : HitRecord F)
    (hbox : ∀ i, i < 3 → b.boxMin.get i < b.boxMax.get i)
    (hout : ∃ i, i < 3 ∧
      (ray.origin.get i < b.boxMin.get i ∨ b.boxMax.get i < ray.origin.get i))
    (hL : 0 < L)
    (haim : ∀ i, i < 3 →
      (b.boxMin.get i + b.boxMax.get i) / 2 - ray.origin.get i = L * ray.direction.get i)
    (hgate : ∀ i, i < 3 → |ray.direction.get i| < 1 / 10 ^ 8 →
      b.boxMin.get i ≤ ray.origin.get i ∧ ray.origin.get i ≤ b.boxMax.get i)
    (hE : b.IsEntry ray E) (hw1 : tMin ≤ E) (hw2 : ((E : F) : WithTop F) ≤ tMax) :
    ∃ st, b.slabs ray tMin tMax = some st ∧ st.tNear = E ∧
      ((st.tNear : F) : WithTop F) ≤ st.tFar ∧
      (((E : F) : WithTop F) < tMax → ((st.tNear : F) : WithTop F) < st.tFar) ∧
      b.hit ray tMin tMax rec = some (b.fill ray st rec) ∧ (b.fill ray st rec).t = E ∧
      ∃ i, i < 3 ∧ ((b.fill ray st rec).point.get i = b.boxMin.get i ∨
        (b.fill ray st rec).point.get i = b.boxMax.get i) := by
  obtain ⟨m, hm3, hmout⟩ := hout
  have hm := Box.slabLo_pos_of_outside b ray m L hL (hbox m hm3) hmout (haim m hm3)
  have hEpos : 0 < E := lt_of_lt_of_le hm.2 (hE.2 m hm3 hm.1)
  obtain ⟨⟨k, hk3, hdk, hlok⟩, hEmax⟩ := hE
  have hne : ∀ i, ¬ |ray.direction.get i| < 1 / 10 ^ 8 → ray.direction.get i ≠ 0 := by
    intro i hnp h0
    apply hnp
    rw [h0, abs_zero]
    positivity
  have hax : ∀ i ∈ [0, 1, 2],
      (|ray.direction.get i| < 1 / 10 ^ 8 →
        ¬ (ray.origin.get i < b.boxMin.get i ∨ ray.origin.get i > b.boxMax.get i)) ∧
      (¬ |ray.direction.get i| < 1 / 10 ^ 8 → b.slabLo ray i ≤ E ∧ E < b.slabHi ray i) := by
    intro i hi
    have hi3 : i < 3 := by
      simp only [List.mem_cons, List.mem_singleton, List.not_mem_nil, or_false] at hi
      omega
    constructor
    · intro hp hor
      obtain ⟨g1, g2⟩ := hgate i hi3 hp
      rcases hor with h | h
      · exact absurd g1 (not_le.mpr h)
      · exact absurd g2 (not_le.mpr h)
    · intro hnp
      refine ⟨hEmax i hi3 (hne i hnp), ?_⟩
      rw [← hlok]
      exact lt_trans (Box.slab_centre_between b ray k L (hbox k hk3) hdk (haim k hk3)).1
        (Box.slab_centre_between b ray i L (hbox i hi3) (hne i hnp) (haim i hi3)).2
  obtain ⟨st, hf, -, m2, m3, m4, m5⟩ := Box.foldlM_entry b ray tMin E hw1 [0, 1, 2] hax
    { tNear := tMin, tFar := tMax, hitAxis := -1, hitIsMin := false } hw1 hw2
  have hk_nongated : ¬ |ray.direction.get k| < 1 / 10 ^ 8 := by
    intro hp
    have := Box.slabLo_nonpos_of_inside b ray k hdk (hgate k hk3 hp)
    rw [hlok] at this
    exact absurd hEpos (not_lt.mpr this)
  have hkmem : k ∈ [0, 1, 2] := by
    simp only [List.mem_cons, List.mem_singleton, List.not_mem_nil, or_false]
    omega
  have hnear : st.tNear = E := le_antisymm m2 (by rw [← hlok]; exact m5 k hkmem hk_nongated)
  refine ⟨st, hf, hnear, by rw [hnear]; exact m3, fun h => by rw [hnear]; exact m4 h, ?_,
    hnear, k, hk3, ?_⟩
  · exact (Box.hit_some_iff b ray tMin tMax rec _).mpr ⟨st, hf, by rw [hnear]; exact hw2, rfl⟩
  · show (ray.origin + ray.direction.scale st.tNear).get k = b.boxMin.get k ∨
      (ray.origin + ray.direction.scale st.tNear).get k = b.boxMax.get k
    rw [Vector3f.get_add, Vector3f.get_scale, hnear, ← hlok]
    unfold Box.slabLo
    rcases min_choice ((b.boxMin.get k - ray.origin.get k) * (1 / ray.direction.get k))
      ((b.boxMax.get k - ray.origin.get k) * (1 / ray.direction.get k)) with h | h
    · left; rw [h]; field_simp
    · right; rw [h]; field_simp

/-- Counterexample to C5 as stated.  First part: `unitBox` has `boxMin < boxMax`, the origin
`farOrigin` lies outside it, `farRay` has the unit direction from the origin to the centre,
the entry distance lies in the window `[0, +inf)`, and yet `Box::hit` reports no hit: the x
component of the direction, about `2e-9`, is below the gate `1e-8` and the origin is outside
the x slab.  Second part: for `nearRay` and the window `[0, 4]`, whose upper end is the
entry distance 4, the loop ends with `tNear = tFar = 4`, not `tNear < tFar`. -/
theorem Box.hit_centre_aimed_counterexample :
    (farRay.origin.x < unitBox.boxMin.x ∧
      farRay.direction.Dot farRay.direction = 1 ∧
      unitBox.IsEntry farRay ((10 ^ 18 - 2) * (10 ^ 18 + 1) / (10 ^ 18 - 1)) ∧
      unitBox.hit farRay 0 ⊤ HitRecord.fresh = none) ∧
    (unitBox.IsEntry nearRay 4 ∧
      unitBox.slabs nearRay 0 ((4 : ℚ) : WithTop ℚ) =
        some { tNear := 4, tFar := ((4 : ℚ) : WithTop ℚ), hitAxis := 2, hitIsMin := true }) := by
  refine ⟨⟨?_, ?_, ?_, ?_⟩, ?_, ?_⟩
  · rw [farRay_eq]; norm_num [unitBox]
  · rw [farRay_eq]; norm_num [Vector3f.dot_def]
  · rw [farRay_eq]
    constructor
    · refine ⟨2, by norm_num, ?_, ?_⟩
      · norm_num [Vector3f.get]
      · norm_num [Box.slabLo, unitBox, Vector3f.get]
    · intro i hi hd
      have : i = 0 ∨ i = 1 ∨ i = 2 := by omega
      rcases this with rfl | rfl | rfl
      · norm_num [Box.slabLo, unitBox, Vector3f.get]
      · exact absurd rfl hd
      · norm_num [Box.slabLo, unitBox, Vector3f.get]
  · rw [farRay_eq]
    have h0 : ∀ st : SlabState ℚ, unitBox.slabStep
        ⟨⟨-2000000000, 0, -(10 ^ 18 - 1)⟩,
          ⟨2000000000 / (10 ^ 18 + 1), 0, (10 ^ 18 - 1) / (10 ^ 18 + 1)⟩⟩ 0 st 0 = none := by
      intro st
      unfold Box.slabStep
      rw [if_pos (by rw [abs_of_pos (by norm_num [Vector3f.get])]; norm_num [Vector3f.get]),
        if_pos (by left; norm_num [Vector3f.get, unitBox])]
    simp only [Box.hit, Box.slabs, List.foldlM_cons, h0, Option.bind_eq_bind, Option.none_bind]
  · exact unitBox_entry_nearRay
  · rw [unitBox_slabs_nearRay _ (le_refl _),
      min_eq_left (WithTop.coe_le_coe.mpr (by norm_num))]

/-- Witness for C5 (amended): `unitBox`, the ray from `(0, 0, -5)` aimed at the centre,
window `[0, 10]`, entry distance 4. -/
theorem Box.hit_centre_aimed_witness :
    ∃ st, unitBox.slabs nearRay 0 ((10 : ℚ) : WithTop ℚ) = some st ∧ st.tNear = 4 ∧
      ((st.tNear : ℚ) : WithTop ℚ) ≤ st.tFar ∧
      (((4 : ℚ) : WithTop ℚ) < ((10 : ℚ) : WithTop ℚ) →
        ((st.tNear : ℚ) : WithTop ℚ) < st.tFar) ∧
      unitBox.hit nearRay 0 ((10 : ℚ) : WithTop ℚ) HitRecord.fresh =
        some (unitBox.fill nearRay st HitRecord.fresh) ∧
      (unitBox.fill nearRay st HitRecord.fresh).t = 4 ∧
      ∃ i, i < 3 ∧
        ((unitBox.fill nearRay st HitRecord.fresh).point.get i = unitBox.boxMin.get i ∨
          (unitBox.fill nearRay st HitRecord.fresh).point.get i = unitBox.boxMax.get i) := by
  have three : ∀ i, i < 3 → i = 0 ∨ i = 1 ∨ i = 2 := fun i hi => by omega
  apply Box.hit_centre_aimed unitBox nearRay 0 4 5 ((10 : ℚ) : WithTop ℚ) HitRecord.fresh
  · intro i hi
    rcases three i hi with rfl | rfl | rfl <;> norm_num [unitBox, Vector3f.get]
  · exact ⟨2, by norm_num, Or.inl (by rw [nearRay_eq]; norm_num [unitBox, Vector3f.get])⟩
  · norm_num
  · intro i hi
    rw [nearRay_eq]
    rcases three i hi with rfl | rfl | rfl <;> norm_num [unitBox, Vector3f.get]
  · intro i hi
    rw [nearRay_eq]
    rcases three i hi with rfl | rfl | rfl <;> norm_num [unitBox, Vector3f.get]
  · exact unitBox_entry_nearRay
  · norm_num
  · exact WithTop.coe_le_coe.mpr (by norm_num)

/-- C6: for every variant (Sphere, Box, Triangle, HittableList), every ray and every window,
whenever `hit` reports a hit the recorded distance satisfies `tMin <= rec.t <= tMax` and
`rec.point = origin + rec.t * direction`. -/
theorem hit_in_window (sqrt : F → F) (ray : Ray F) (tMin : F) (tMax : WithTop F) :
    (∀ (o : Hittable F) (rec r : HitRecord F), o.hit sqrt ray tMin tMax rec = some r →
      tMin ≤ r.t ∧ ((r.t : F) : WithTop F) ≤ tMax ∧
        r.point = ray.origin + ray.direction.scale r.t) ∧
    (∀ (l : HittableList F) (rec r : HitRecord F), l.hit sqrt ray tMin tMax rec = some r →
      tMin ≤ r.t ∧ ((r.t : F) : WithTop F) ≤ tMax ∧
        r.point = ray.origin + ray.direction.scale r.t) := by
  constructor
  · intro o rec r h
    exact Hittable.hit_bounds sqrt o ray tMin tMax rec r h
  · intro l rec r h
    apply HittableList.hit_invariant sqrt l ray tMin tMax
      (fun r => tMin ≤ r.t ∧ ((r.t : F) : WithTop F) ≤ tMax ∧
        r.point = ray.origin + ray.direction.scale r.t) _ rec r h
    intro o _ c rec' r' hc hr
    obtain ⟨b1, b2, b3⟩ := Hittable.hit_bounds sqrt o ray tMin c rec' r' hr
    exact ⟨b1, le_trans b2 hc, b3⟩

/-- C7 (the behaviour of the code): `setFaceNormal` sets `frontFace` exactly when the vector
it is given has negative dot product with the ray direction, stores that vector in that
case and its negation otherwise, so the stored normal `n'` satisfies `n' . direction <= 0`.
A sphere with `radius != 0`, hit by a ray whose direction is not zero, passes
`(point - center) / radius`, and a triangle passes its stored normal.  A box passes the
vector the slab loop derives, which is the zero vector or minus the unit vector of the
recorded axis, whichever face the ray entered through: its stored normal opposes the ray,
but its `frontFace` does not follow the outward normal of the entry face.  The record of a
list whose spheres have a non-zero radius has a normal that opposes the ray. -/
theorem hit_normal_opposes (sqrt : F → F) (ray : Ray F) (tMin : F) (tMax : WithTop F) :
    (∀ (rec : HitRecord F) (n : Vector3f F),
      ((rec.setFaceNormal ray n).frontFace = true ↔ ray.direction.Dot n < 0) ∧
      ((rec.setFaceNormal ray n).frontFace = true → (rec.setFaceNormal ray n).normal = n) ∧
      ((rec.setFaceNormal ray n).frontFace = false →
        (rec.setFaceNormal ray n).normal = n.scale (-1)) ∧
      (rec.setFaceNormal ray n).normal.Dot ray.direction ≤ 0) ∧
    (∀ (s : Sphere F) (rec r : HitRecord F), s.radius ≠ 0 →
      ray.direction.Dot ray.direction ≠ 0 → s.hit sqrt ray tMin tMax rec = some r →
      (r.frontFace = true ↔
        ray.direction.Dot ((r.point - s.center).scale (1 / s.radius)) < 0) ∧
      r.normal = (if r.frontFace = true then (r.point - s.center).scale (1 / s.radius)
        else ((r.point - s.center).scale (1 / s.radius)).scale (-1)) ∧
      r.normal.Dot ray.direction ≤ 0) ∧
    (∀ (tr : Triangle F) (rec r : HitRecord F), tr.hit ray tMin tMax rec = some r →
      (r.frontFace = true ↔ ray.direction.Dot tr.normal < 0) ∧
      r.normal = (if r.frontFace = true then tr.normal else tr.normal.scale (-1)) ∧
      r.normal.Dot ray.direction ≤ 0) ∧
    (∀ (b : Box F) (rec r : HitRecord F), b.hit ray tMin tMax rec = some r →
      r.normal.Dot ray.direction ≤ 0 ∧
      ∃ st, b.slabs ray tMin tMax = some st ∧
        (r.frontFace = true ↔
          ray.direction.Dot (Box.outwardNormal st.hitAxis st.hitIsMin) < 0) ∧
        r.normal = (if r.frontFace = true then Box.outwardNormal st.hitAxis st.hitIsMin
          else (Box.outwardNormal st.hitAxis st.hitIsMin : Vector3f F).scale (-1)) ∧
        ((st.hitAxis = -1 ∧
            (Box.outwardNormal st.hitAxis st.hitIsMin : Vector3f F) = Vector3f.zero) ∨
          ∃ i : Nat, i < 3 ∧ st.hitAxis = (i : Int) ∧
            (Box.outwardNormal st.hitAxis st.hitIsMin : Vector3f F) =
              Vector3f.zero.set i (-1))) ∧
    (∀ (l : HittableList F) (rec r : HitRecord F),
      (∀ s : Sphere F, Hittable.sphere s ∈ l.objects → s.radius ≠ 0) →
      ray.direction.Dot ray.direction ≠ 0 → l.hit sqrt ray tMin tMax rec = some r →
      r.normal.Dot ray.direction ≤ 0) := by
  refine ⟨?_, ?_, ?_, ?_, ?_⟩
  · intro rec n
    obtain ⟨h1, h2, h3⟩ := HitRecord.setFaceNormal_spec rec ray n
    refine ⟨h1, ?_, ?_, h3⟩
    · intro hf; rw [h2, if_pos hf]
    · intro hf; rw [h2, if_neg (by rw [hf]; simp)]
  · intro s rec r _ _ h
    obtain ⟨n, hn, h1, h2, h3⟩ := Hittable.hit_faceNormal sqrt (.sphere s) ray tMin tMax rec r h
    have hn' : n = (r.point - s.center).scale (1 / s.radius) := hn
    subst hn'
    exact ⟨h1, h2, h3⟩
  · intro tr rec r h
    obtain ⟨n, hn, h1, h2, h3⟩ :=
      Hittable.hit_faceNormal (fun x => x) (.triangle tr) ray tMin tMax rec r h
    have hn' : n = tr.normal := hn
    subst hn'
    exact ⟨h1, h2, h3⟩
  · intro b rec r h
    exact Box.hit_face b ray tMin tMax rec r h
  · intro l rec r _ _ h
    apply HittableList.hit_invariant sqrt l ray tMin tMax
      (fun r => r.normal.Dot ray.direction ≤ 0) _ rec r h
    intro o _ c rec' r' _ hr
    obtain ⟨n, -, -, -, h3⟩ := Hittable.hit_faceNormal sqrt o ray tMin c rec' r' hr
    exact h3

/-- Witness for C6: the hit of `demoSphere` by `demoRay` over `[0, +inf)`, at distance 4, and
the hit of the one-box list by `nearRay` over `[0, 10]`. -/
theorem hit_in_window_witness :
    (∃ r, (Hittable.sphere demoSphere).hit qsqrt demoRay 0 ⊤ HitRecord.fresh = some r ∧
      r.t = 4 ∧ (0 ≤ r.t ∧ ((r.t : ℚ) : WithTop ℚ) ≤ ⊤ ∧
        r.point = demoRay.origin + demoRay.direction.scale r.t)) ∧
    (∃ r, (HittableList.mk [Hittable.box unitBox]).hit qsqrt nearRay 0
        ((10 : ℚ) : WithTop ℚ) HitRecord.fresh = some r ∧
      (0 ≤ r.t ∧ ((r.t : ℚ) : WithTop ℚ) ≤ ((10 : ℚ) : WithTop ℚ) ∧
        r.point = nearRay.origin + nearRay.direction.scale r.t)) := by
  have h1 : (Hittable.sphere demoSphere).hit qsqrt demoRay 0 ⊤ HitRecord.fresh =
      some (demoSphere.fill demoRay 4 HitRecord.fresh) := demoSphere_hit ⊤ le_top _
  have h2 : (HittableList.mk [Hittable.box unitBox]).hit qsqrt nearRay 0
      ((10 : ℚ) : WithTop ℚ) HitRecord.fresh = some (unitBox.fill nearRay
        { tNear := 4, tFar := ((6 : ℚ) : WithTop ℚ), hitAxis := 2, hitIsMin := true }
        HitRecord.fresh) :=
    (HittableList.hit_singleton qsqrt _ nearRay 0 _ _).trans (unitBox_hit_nearRay _)
  exact ⟨⟨_, h1, rfl, (hit_in_window qsqrt demoRay 0 ⊤).1 _ _ _ h1⟩,
    ⟨_, h2, (hit_in_window qsqrt nearRay 0 ((10 : ℚ) : WithTop ℚ)).2 _ _ _ h2⟩⟩

/-- Witness for C7: the hit of `demoSphere`, of radius 1, by `demoRay`, whose outward
normal `(0, 0, -1)` faces the ray, alone and as the only primitive of a list. -/
theorem hit_normal_opposes_witness :
    (∃ r, demoSphere.hit qsqrt demoRay 0 ⊤ HitRecord.fresh = some r ∧
      (r.frontFace = true ↔
        demoRay.direction.Dot ((r.point - demoSphere.center).scale
          (1 / demoSphere.radius)) < 0) ∧
      r.normal = (if r.frontFace = true then
          (r.point - demoSphere.center).scale (1 / demoSphere.radius)
        else ((r.point - demoSphere.center).scale (1 / demoSphere.radius)).scale (-1)) ∧
      r.normal.Dot demoRay.direction ≤ 0) ∧
    (∃ r, (HittableList.mk [Hittable.sphere demoSphere]).hit qsqrt demoRay 0 ⊤
        HitRecord.fresh = some r ∧
      r.normal.Dot demoRay.direction ≤ 0) := by
  have h1 : demoSphere.hit qsqrt demoRay 0 ⊤ HitRecord.fresh =
      some (demoSphere.fill demoRay 4 HitRecord.fresh) := demoSphere_hit ⊤ le_top _
  have h2 : (HittableList.mk [Hittable.sphere demoSphere]).hit qsqrt demoRay 0 ⊤
      HitRecord.fresh = some (demoSphere.fill demoRay 4 HitRecord.fresh) :=
    (HittableList.hit_singleton qsqrt _ demoRay 0 _ _).trans h1
  have hr : demoSphere.radius ≠ 0 := by norm_num [demoSphere]
  have hd : demoRay.direction.Dot demoRay.direction ≠ 0 := by
    norm_num [demoRay, Vector3f.dot_def]
  exact ⟨⟨_, h1, (hit_normal_opposes qsqrt demoRay 0 ⊤).2.1 demoSphere _ _ hr hd h1⟩,
    ⟨_, h2, (hit_normal_opposes qsqrt demoRay 0 ⊤).2.2.2.2 _ _ _
      (by
        intro s hs
        simp only [List.mem_singleton, Hittable.sphere.injEq] at hs
        rw [hs]
        exact hr) hd h2⟩⟩

/-- Counterexample to C7: `sideRay` starts at `(3, 0, 0)`, outside `unitBox`, and enters
it at `(1, 0, 0)` through the face `x = boxMax.x`, whose outward normal `(1, 0, 0)` is the
only outward normal of the box at that point and has negative dot product with the
direction `(-1, 0, 0)`.  `Box::hit` reports the hit with `frontFace = false`, and the
stored normal is the outward normal itself, not its negation. -/
theorem hit_normal_opposes_counterexample :
    ¬ unitBox.Contains sideRay.origin ∧
    unitBox.hit sideRay (1 / 1000) ⊤ HitRecord.fresh =
      some { t := 2, point := ⟨1, 0, 0⟩, normal := ⟨1, 0, 0⟩, frontFace := false,
             material := Material.default } ∧
    unitBox.IsOutwardNormal ⟨1, 0, 0⟩ ⟨1, 0, 0⟩ ∧
    (∀ n : Vector3f ℚ, unitBox.IsOutwardNormal ⟨1, 0, 0⟩ n → n = ⟨1, 0, 0⟩) ∧
    sideRay.direction.Dot ⟨1, 0, 0⟩ < 0 := by
  refine ⟨?_, unitBox_hit_sideRay, ?_, ?_, ?_⟩
  · norm_num [Box.Contains, unitBox, sideRay]
  · refine ⟨by norm_num [Box.Contains, unitBox], 0, by norm_num, Or.inl ⟨?_, ?_⟩⟩
    · norm_num [Vector3f.get, unitBox]
    · simp [Vector3f.set, Vector3f.zero]
  · rintro n ⟨-, i, hi, h | h⟩
    · have : i = 0 ∨ i = 1 ∨ i = 2 := by omega
      rcases this with rfl | rfl | rfl
      · rw [h.2]; simp [Vector3f.set, Vector3f.zero]
      · exact absurd h.1 (by norm_num [Vector3f.get, unitBox])
      · exact absurd h.1 (by norm_num [Vector3f.get, unitBox])
    · have : i = 0 ∨ i = 1 ∨ i = 2 := by omega
      rcases this with rfl | rfl | rfl <;>
        exact absurd h.1 (by norm_num [Vector3f.get, unitBox])
  · norm_num [sideRay, Vector3f.dot_def]

/-- C8 (amended): the normal stored in the record has unit length for every hit reported by
a Sphere with `radius != 0` (ray direction not zero, `sqrt` exact at the discriminant), by a
Box at a distance `rec.t > tMin`, and by a Triangle built from non-collinear vertices (`sqrt`
exact at the squared length of the cross product of the edges); a Box hit reported at
`rec.t = tMin` stores the zero vector. -/
theorem hit_normal_unit (sqrt : F → F) (ray : Ray F) (tMin : F) (tMax : WithTop F) :
    (∀ (s : Sphere F) (rec r : HitRecord F), s.radius ≠ 0 →
      ray.direction.Dot ray.direction ≠ 0 →
      sqrt (s.discriminant ray) * sqrt (s.discriminant ray) = s.discriminant ray →
      s.hit sqrt ray tMin tMax rec = some r → r.normal.Dot r.normal = 1) ∧
    (∀ (b : Box F) (rec r : HitRecord F), b.hit ray tMin tMax rec = some r →
      (tMin < r.t → r.normal.Dot r.normal = 1) ∧ (r.t = tMin → r.normal = Vector3f.zero)) ∧
    (∀ (v0 v1 v2 : Vector3f F) (mat : Material F) (rec r : HitRecord F),
      (v1 - v0).Cross (v2 - v0) ≠ Vector3f.zero →
      sqrt (((v1 - v0).Cross (v2 - v0)).Dot ((v1 - v0).Cross (v2 - v0))) *
        sqrt (((v1 - v0).Cross (v2 - v0)).Dot ((v1 - v0).Cross (v2 - v0))) =
        ((v1 - v0).Cross (v2 - v0)).Dot ((v1 - v0).Cross (v2 - v0)) →
      (Triangle.new sqrt v0 v1 v2 mat).hit ray tMin tMax rec = some r →
      r.normal.Dot r.normal = 1) := by
  refine ⟨?_, ?_, ?_⟩
  · intro s rec r hr ha hsq h
    exact Sphere.hit_normal_unit_sphere sqrt s ray tMin tMax rec r hr ha hsq h
  · intro b rec r h
    exact Box.hit_normal_box b ray tMin tMax rec r h
  · intro v0 v1 v2 mat rec r hnc hsq h
    exact Triangle.hit_normal_unit_triangle sqrt v0 v1 v2 mat ray tMin tMax rec r hnc hsq h

/-- Counterexample to C8 as stated: the ray from the centre of `unitBox` along the z axis,
over the window `[0.001, +inf)`, is reported as a hit at `t = 0.001` whose stored normal is
the zero vector, of squared length 0. -/
theorem hit_normal_unit_counterexample :
    (unitBox.hit demoRay (1 / 1000) ⊤ HitRecord.fresh).map (fun r => r.t) = some (1 / 1000) ∧
    (unitBox.hit demoRay (1 / 1000) ⊤ HitRecord.fresh).map (fun r => r.normal) =
      some ⟨0, 0, 0⟩ ∧
    (unitBox.hit demoRay (1 / 1000) ⊤ HitRecord.fresh).map (fun r => r.normal.Dot r.normal) =
      some 0 := by
  rw [unitBox_hit_inside]
  refine ⟨rfl, ?_, ?_⟩ <;>
    simp [Box.fill, HitRecord.setFaceNormal, Box.outwardNormal, Vector3f.zero,
      Vector3f.dot_def, Vector3f.scale, demoRay]

/-- Witness for C8 (amended): the unit normals recorded for `demoSphere` hit by `demoRay` and
for `unitBox` hit by `nearRay` at distance 4. -/
theorem hit_normal_unit_witness :
    (∃ r, demoSphere.hit qsqrt demoRay 0 ⊤ HitRecord.fresh = some r ∧
      r.normal.Dot r.normal = 1) ∧
    (∃ r, unitBox.hit nearRay 0 ((10 : ℚ) : WithTop ℚ) HitRecord.fresh = some r ∧
      r.normal.Dot r.normal = 1) := by
  have hd : demoSphere.discriminant demoRay = 1 := by
    norm_num [Sphere.discriminant, demoSphere, demoRay, Vector3f.dot_def]
  refine ⟨⟨_, demoSphere_hit ⊤ le_top _, ?_⟩, ⟨_, unitBox_hit_nearRay _, ?_⟩⟩
  · exact (hit_normal_unit qsqrt demoRay 0 ⊤).1 demoSphere HitRecord.fresh _
      (by norm_num [demoSphere]) (by norm_num [demoRay, Vector3f.dot_def])
      (by rw [hd, qsqrt_one]; norm_num) (demoSphere_hit ⊤ le_top _)
  · exact ((hit_normal_unit qsqrt nearRay 0 ((10 : ℚ) : WithTop ℚ)).2.1 unitBox HitRecord.fresh _
      (unitBox_hit_nearRay _)).1 (by rw [Box.fill_t_box]; norm_num)

/-- C9: for every scene and every ray, `rayColorWithReflection` called with `depth <= 0`
returns black `(0, 0, 0)`, whatever the scene contains. -/
theorem RayTracer.rayColorWithReflection_floor (sqrt : F → F) (pow : F → F → F)
    (rt : RayTracer F) (ray : Ray F) (world : HittableList F) (depth : Int) (h : depth ≤ 0) :
    rt.rayColorWithReflection sqrt pow ray world depth = Vector3f.mk 0 0 0 := by
  rw [RayTracer.rayColorWithReflection, if_pos h]

/-- Witness for C9: depth 0 and depth -2 on `demoTracer`. -/
theorem RayTracer.rayColorWithReflection_floor_witness :
    ((0 : Int) ≤ 0 ∧
      demoTracer.rayColorWithReflection qsqrt qpow demoRay demoWorld 0 = Vector3f.mk 0 0 0) ∧
    ((-2 : Int) ≤ 0 ∧
      demoTracer.rayColorWithReflection qsqrt qpow demoRay demoWorld (-2) = Vector3f.mk 0 0 0) :=
  ⟨⟨le_refl _, RayTracer.rayColorWithReflection_floor qsqrt qpow demoTracer demoRay demoWorld 0
      (le_refl _)⟩,
    ⟨by norm_num, RayTracer.rayColorWithReflection_floor qsqrt qpow demoTracer demoRay demoWorld
      (-2) (by norm_num)⟩⟩

/-- C10 (amended): for every shaded hit point and every light, if some primitive of the
scene, tested on its own against the shadow ray (origin `hitPoint + 0.001 * normal`,
direction towards the light) over the window `[0.001, distance - 0.001]`, reports a hit, then
that light adds exactly zero diffuse and zero specular contribution: the loop body leaves
`resultColor` unchanged and `calculateLighting` returns what it returns with that light
removed.  `sqrt` is assumed to return non-negative values. -/
theorem RayTracer.calculateLighting_occluded (sqrt : F → F) (pow : F → F → F)
    (hs : ∀ x, 0 ≤ sqrt x) (rt : RayTracer F) (rec : HitRecord F) (ray : Ray F)
    (world : HittableList F) (pre post : List (Light F)) (light : Light F) (o : Hittable F)
    (rec0 : HitRecord F) (ho : o ∈ world.objects)
    (hocc : (o.hit sqrt
      (Ray.new sqrt (rec.point + rec.normal.scale (1 / 1000))
        ((light.position - rec.point).Normalize sqrt)) (1 / 1000)
      ((((light.position - rec.point).length sqrt - 1 / 1000 : F)) : WithTop F)
      rec0).isSome = true)
    (hl : rt.lights = pre ++ light :: post) :
    (∀ acc, RayTracer.lightStep sqrt pow rec ray world acc light = acc) ∧
      rt.calculateLighting sqrt pow rec ray world =
        RayTracer.calculateLighting sqrt pow { rt with lights := pre ++ post } rec ray world := by
  have hstep : ∀ acc, RayTracer.lightStep sqrt pow rec ray world acc light = acc := fun acc =>
    RayTracer.lightStep_inShadow sqrt pow rec ray world acc light
      (HittableList.hit_isSome_of_mem sqrt hs world _ _ _ HitRecord.fresh rec0 o ho hocc)
  refine ⟨hstep, ?_⟩
  unfold RayTracer.calculateLighting
  simp only [hl, List.foldl_append, List.foldl_cons, hstep]

/-- Counterexample to C10 as stated: `thinBox` contains the point of the segment from the
shaded point `(0, 0, 0)` to the light `(0, 0, 10)` at parameter `1/10000` (height `0.001`),
strictly between the ends, and yet the light contributes: `calculateLighting` returns
`0.94` per channel with the light and `0.08` (the ambient term) without it.  The shadow ray
starts at height `0.001` and its window starts `0.001` further, beyond the box. -/
theorem RayTracer.calculateLighting_occluded_counterexample :
    ((0 : ℚ) < 1 / 10000 ∧ (1 / 10000 : ℚ) < 1 ∧
      thinBox.Contains
        (shadeRec.point + (topLight.position - shadeRec.point).scale (1 / 10000))) ∧
    shadeTracer.calculateLighting qsqrt qpow shadeRec shadeRay shadeTracer.world =
      ⟨47 / 50, 47 / 50, 47 / 50⟩ ∧
    RayTracer.calculateLighting qsqrt qpow { shadeTracer with lights := [] } shadeRec shadeRay
      shadeTracer.world = ⟨2 / 25, 2 / 25, 2 / 25⟩ := by
  refine ⟨⟨by norm_num, by norm_num, ?_⟩, ?_, ?_⟩
  · norm_num [Box.Contains, thinBox, shadeRec, topLight]
  · have hmiss : (shadeTracer.world.hit qsqrt
        (Ray.new qsqrt (shadeRec.point + shadeRec.normal.scale (1 / 1000))
          ((topLight.position - shadeRec.point).Normalize qsqrt)) (1 / 1000)
        ((((topLight.position - shadeRec.point).length qsqrt - 1 / 1000 : ℚ)) : WithTop ℚ)
        HitRecord.fresh).isSome = false := by
      rw [shade_shadowRay, shade_lightDir.1]
      show ((HittableList.mk [Hittable.box thinBox]).hit qsqrt _ _ _ _).isSome = false
      rw [HittableList.hit_singleton]
      show (thinBox.hit _ _ _ _).isSome = false
      rw [thinBox_shadow_miss]
      rfl
    have hhalf : ((-shadeRay.direction) + (⟨0, 0, 1⟩ : Vector3f ℚ)).Normalize qsqrt =
        ⟨0, 0, 1⟩ := by
      rw [normalize_qsqrt _ 2 (by norm_num) (by norm_num [shadeRay])]
      apply Vector3f.eq_of_components <;> norm_num [shadeRay]
    unfold RayTracer.calculateLighting
    simp only [show shadeTracer.lights = [topLight] from rfl, List.foldl_cons, List.foldl_nil]
    rw [RayTracer.lightStep_lit qsqrt qpow shadeRec shadeRay _ _ topLight hmiss]
    simp only [shade_lightDir.2, hhalf]
    norm_num [shadeRec, topLight, Material.default, Vector3f.dot_def, Vector3f.mul, qpow,
      Vector3f.scale]
  · unfold RayTracer.calculateLighting
    simp only [List.foldl_nil]
    norm_num [shadeRec, Material.default]

/-- Witness for C10 (amended): `highBox`, between heights 4 and 6, is hit by the shadow ray
from `shadeRec` towards `topLight`. -/
theorem RayTracer.calculateLighting_occluded_witness :
    (∀ acc, RayTracer.lightStep qsqrt qpow shadeRec shadeRay ⟨[Hittable.box highBox]⟩ acc
      topLight = acc) ∧
    shadeTracer.calculateLighting qsqrt qpow shadeRec shadeRay ⟨[Hittable.box highBox]⟩ =
      RayTracer.calculateLighting qsqrt qpow { shadeTracer with lights := [] ++ [] } shadeRec
        shadeRay ⟨[Hittable.box highBox]⟩ :=
  RayTracer.calculateLighting_occluded qsqrt qpow qsqrt_nonneg shadeTracer shadeRec shadeRay
    ⟨[Hittable.box highBox]⟩ [] [] topLight (Hittable.box highBox) HitRecord.fresh
    (List.mem_singleton.mpr rfl)
    (by rw [shade_shadowRay, shade_lightDir.1]; exact highBox_shadow_hit _) rfl

/-- C11: for every hit record, originating ray and light sequence, `calculateLighting`
returns, per channel, `min(1, ambient + sum over unoccluded lights of (diffuse + specular))`
as the specification words it (`lightingSpec`): the clamp is applied once, after the
summation. -/
theorem RayTracer.calculateLighting_eq_spec (sqrt : F → F) (pow : F → F → F) (rt : RayTracer F)
    (rec : HitRecord F) (ray : Ray F) (world : HittableList F) :
    rt.calculateLighting sqrt pow rec ray world =
      ⟨rt.lightingSpec sqrt pow rec ray world Vector3f.x,
        rt.lightingSpec sqrt pow rec ray world Vector3f.y,
        rt.lightingSpec sqrt pow rec ray world Vector3f.z⟩ := by
  unfold RayTracer.calculateLighting RayTracer.lightingSpec
  simp only [RayTracer.foldl_lightStep, Vector3f.scale_x, Vector3f.scale_y, Vector3f.scale_z,
    Vector3f.mk.injEq]
  exact ⟨min_comm _ _, min_comm _ _, min_comm _ _⟩

/-- C12: for a ray that hits the scene and a depth `>= 1`, with `direct` the result of
`calculateLighting` at the hit and `rho` the hit material's reflectivity: if `rho > 0` the
integrator returns `direct * (1 - rho) + R * rho`, where `R` is the integrator's result at
`depth - 1` for the ray constructed from the origin `hitPoint + 0.001 * normal` and the
direction `v - 2 (v.n) n`; if `rho` is 0 it returns `direct`.  The constructed ray has
exactly that direction when `v` and `n` have length 1 and `sqrt 1 = 1`. -/
theorem RayTracer.rayColorWithReflection_blend (sqrt : F → F) (pow : F → F → F)
    (rt : RayTracer F) (ray : Ray F) (world : HittableList F) (depth : Int)
    (rec : HitRecord F) (hd : 1 ≤ depth)
    (hhit : world.hit sqrt ray (1 / 1000) ⊤ HitRecord.fresh = some rec) :
    (0 < rec.material.reflectivity →
      rt.rayColorWithReflection sqrt pow ray world depth =
        (rt.calculateLighting sqrt pow rec ray world).scale (1 - rec.material.reflectivity) +
          (rt.rayColorWithReflection sqrt pow
            (Ray.new sqrt (rec.point + rec.normal.scale (1 / 1000))
              (RayTracer.reflect ray.direction rec.normal)) world (depth - 1)).scale
            rec.material.reflectivity) ∧
    (rec.material.reflectivity = 0 →
      rt.rayColorWithReflection sqrt pow ray world depth =
        rt.calculateLighting sqrt pow rec ray world) ∧
    RayTracer.reflect ray.direction rec.normal =
      ⟨ray.direction.x - 2 * ray.direction.Dot rec.normal * rec.normal.x,
        ray.direction.y - 2 * ray.direction.Dot rec.normal * rec.normal.y,
        ray.direction.z - 2 * ray.direction.Dot rec.normal * rec.normal.z⟩ ∧
    (sqrt 1 = 1 → ray.direction.Dot ray.direction = 1 → rec.normal.Dot rec.normal = 1 →
      Ray.new sqrt (rec.point + rec.normal.scale (1 / 1000))
          (RayTracer.reflect ray.direction rec.normal) =
        ⟨rec.point + rec.normal.scale (1 / 1000),
          RayTracer.reflect ray.direction rec.normal⟩) := by
  have h := RayTracer.rayColorWithReflection_some sqrt pow rt ray world depth rec hd hhit
  refine ⟨?_, ?_, ?_, ?_⟩
  · intro hrho
    rw [h, if_pos hrho]
  · intro hrho
    rw [h, if_neg (by rw [hrho]; exact lt_irrefl _)]
  · apply Vector3f.eq_of_components <;>
      simp only [RayTracer.reflect, Vector3f.sub_x, Vector3f.sub_y, Vector3f.sub_z,
        Vector3f.scale_x, Vector3f.scale_y, Vector3f.scale_z] <;> ring
  · intro hs1 hv hn
    exact Ray.new_of_unit sqrt hs1 _ _ (by rw [RayTracer.reflect_dot_self _ _ hn, hv])

/-- Witness for C12: `shadeRay` on `mirrorWorld` at depth 1 hits the mirror sphere. -/
theorem RayTracer.rayColorWithReflection_blend_witness :
    (0 < mirrorHit.material.reflectivity →
      mirrorTracer.rayColorWithReflection qsqrt qpow shadeRay mirrorWorld 1 =
        (mirrorTracer.calculateLighting qsqrt qpow mirrorHit shadeRay mirrorWorld).scale
            (1 - mirrorHit.material.reflectivity) +
          (mirrorTracer.rayColorWithReflection qsqrt qpow
            (Ray.new qsqrt (mirrorHit.point + mirrorHit.normal.scale (1 / 1000))
              (RayTracer.reflect shadeRay.direction mirrorHit.normal)) mirrorWorld (1 - 1)).scale
            mirrorHit.material.reflectivity) ∧
    (mirrorHit.material.reflectivity = 0 →
      mirrorTracer.rayColorWithReflection qsqrt qpow shadeRay mirrorWorld 1 =
        mirrorTracer.calculateLighting qsqrt qpow mirrorHit shadeRay mirrorWorld) ∧
    RayTracer.reflect shadeRay.direction mirrorHit.normal =
      ⟨shadeRay.direction.x - 2 * shadeRay.direction.Dot mirrorHit.normal * mirrorHit.normal.x,
        shadeRay.direction.y - 2 * shadeRay.direction.Dot mirrorHit.normal * mirrorHit.normal.y,
        shadeRay.direction.z -
          2 * shadeRay.direction.Dot mirrorHit.normal * mirrorHit.normal.z⟩ ∧
    (qsqrt 1 = 1 → shadeRay.direction.Dot shadeRay.direction = 1 →
      mirrorHit.normal.Dot mirrorHit.normal = 1 →
      Ray.new qsqrt (mirrorHit.point + mirrorHit.normal.scale (1 / 1000))
          (RayTracer.reflect shadeRay.direction mirrorHit.normal) =
        ⟨mirrorHit.point + mirrorHit.normal.scale (1 / 1000),
          RayTracer.reflect shadeRay.direction mirrorHit.normal⟩) :=
  RayTracer.rayColorWithReflection_blend qsqrt qpow mirrorTracer shadeRay mirrorWorld 1
    mirrorHit (le_refl 1) mirrorWorld_hit_shadeRay

/-- C14 (amended): Scenario C.  Let the primary ray hit a mirror of reflectivity 1 and let
the reflection ray built there hit a surface of reflectivity 0.  With a maximum reflection
depth of at least 2 the integrator returns the local illumination of the reflected hit;
with maximum reflection depth 1 it returns black, because the reflection ray is traced at
depth 0. -/
theorem RayTracer.mirror_shows_reflected (sqrt : F → F) (pow : F → F → F)
    (rt : RayTracer F) (ray : Ray F) (rec rec2 : HitRecord F)
    (hhit : rt.world.hit sqrt ray (1 / 1000) ⊤ HitRecord.fresh = some rec)
    (hrho : rec.material.reflectivity = 1)
    (hhit2 : rt.world.hit sqrt
      (Ray.new sqrt (rec.point + rec.normal.scale (1 / 1000))
        (RayTracer.reflect ray.direction rec.normal)) (1 / 1000) ⊤ HitRecord.fresh = some rec2)
    (hrho2 : rec2.material.reflectivity = 0) :
    (2 ≤ rt.maxReflectionDepth →
      rt.rayColorWithReflection sqrt pow ray rt.world rt.maxReflectionDepth =
        rt.calculateLighting sqrt pow rec2
          (Ray.new sqrt (rec.point + rec.normal.scale (1 / 1000))
            (RayTracer.reflect ray.direction rec.normal)) rt.world) ∧
    (rt.maxReflectionDepth = 1 →
      rt.rayColorWithReflection sqrt pow ray rt.world rt.maxReflectionDepth = ⟨0, 0, 0⟩) := by
  refine ⟨fun hd => ?_, fun hd => ?_⟩
  · exact RayTracer.rayColorWithReflection_mirror_deep sqrt pow rt ray rt.world rec rec2 _ hd
      hhit hrho hhit2 hrho2
  · rw [hd]
    exact RayTracer.rayColorWithReflection_mirror_one sqrt pow rt ray rt.world rec hhit hrho

/-- Counterexample to C14 as stated: in `mirrorTracer` (reflections enabled, maximum
reflection depth 1) the ray `shadeRay` hits the mirror sphere, its mirror ray `mirrorRay`
hits the coloured sphere, whose local illumination there is `(1, 0.56, 0.56)`, and the
integrator returns black. -/
theorem RayTracer.mirror_shows_reflected_counterexample :
    mirrorTracer.reflectionsEnabled = true ∧ mirrorTracer.maxReflectionDepth = 1 ∧
    mirrorTracer.world.hit qsqrt shadeRay (1 / 1000) ⊤ HitRecord.fresh = some mirrorHit ∧
    mirrorHit.material.reflectivity = 1 ∧
    Ray.new qsqrt (mirrorHit.point + mirrorHit.normal.scale (1 / 1000))
      (RayTracer.reflect shadeRay.direction mirrorHit.normal) = mirrorRay ∧
    mirrorTracer.world.hit qsqrt mirrorRay (1 / 1000) ⊤ HitRecord.fresh = some colourHit ∧
    mirrorTracer.calculateLighting qsqrt qpow colourHit mirrorRay mirrorTracer.world =
      ⟨1, 14 / 25, 14 / 25⟩ ∧
    mirrorTracer.rayColorWithReflection qsqrt qpow shadeRay mirrorTracer.world
      mirrorTracer.maxReflectionDepth = ⟨0, 0, 0⟩ :=
  ⟨rfl, rfl, mirrorWorld_hit_shadeRay, rfl, mirrorHit_reflectionRay, mirrorWorld_hit_mirrorRay,
    colourHit_lighting,
    RayTracer.rayColorWithReflection_mirror_one qsqrt qpow mirrorTracer shadeRay mirrorWorld
      mirrorHit mirrorWorld_hit_shadeRay rfl⟩

/-- Witness for C14 (amended): `mirrorTracer` with maximum reflection depth 2. -/
theorem RayTracer.mirror_shows_reflected_witness :
    ((2 : Int) ≤ 2 →
      RayTracer.rayColorWithReflection qsqrt qpow { mirrorTracer with maxReflectionDepth := 2 }
          shadeRay mirrorWorld 2 =
        RayTracer.calculateLighting qsqrt qpow { mirrorTracer with maxReflectionDepth := 2 }
          colourHit
          (Ray.new qsqrt (mirrorHit.point + mirrorHit.normal.scale (1 / 1000))
            (RayTracer.reflect shadeRay.direction mirrorHit.normal)) mirrorWorld) ∧
    ((2 : Int) = 1 →
      RayTracer.rayColorWithReflection qsqrt qpow { mirrorTracer with maxReflectionDepth := 2 }
        shadeRay mirrorWorld 2 = ⟨0, 0, 0⟩) :=
  RayTracer.mirror_shows_reflected qsqrt qpow { mirrorTracer with maxReflectionDepth := 2 }
    shadeRay mirrorHit colourHit mirrorWorld_hit_shadeRay rfl
    (by rw [mirrorHit_reflectionRay]; exact mirrorWorld_hit_mirrorRay) rfl

/-- C15 (Scenario B): in a scene with no primitives and background colour `B`, for every
unit-direction ray the colour `rayColor` computes, and `rayColorWithReflection` at any depth
`>= 1`, equals `lam * white + (1 - lam) * B` for one `lam` in `[0, 1]`, the same for the
three channels. -/
theorem RayTracer.empty_scene_on_segment (sqrt : F → F) (pow : F → F → F) (rt : RayTracer F)
    (ray : Ray F) (depth : Int) (hd : ray.direction.Dot ray.direction = 1) (hdepth : 1 ≤ depth) :
    ∃ lam : F, 0 ≤ lam ∧ lam ≤ 1 ∧
      rt.rayColor sqrt pow ray ⟨[]⟩ =
        (Vector3f.mk 1 1 1).scale lam + rt.backgroundColor.scale (1 - lam) ∧
      rt.rayColorWithReflection sqrt pow ray ⟨[]⟩ depth =
        (Vector3f.mk 1 1 1).scale lam + rt.backgroundColor.scale (1 - lam) := by
  obtain ⟨h1, h2⟩ := Vector3f.y_bounds_of_unit ray.direction hd
  refine ⟨1 - 1 / 2 * (ray.direction.y + 1), by linarith, by linarith, ?_, ?_⟩
  · rw [RayTracer.rayColor_none sqrt pow rt ray ⟨[]⟩ (HittableList.hit_nil sqrt ray _ _ _)]
    simp only [RayTracer.background, sub_sub_cancel]
  · rw [RayTracer.rayColorWithReflection_none sqrt pow rt ray ⟨[]⟩ depth hdepth
      (HittableList.hit_nil sqrt ray _ _ _)]
    simp only [RayTracer.background, sub_sub_cancel]

/-- Witness for C15: `shadeTracer` (background `(0.2, 0.2, 0.4)`), the ray with direction
`(0, 3/5, 4/5)`, depth 3. -/
theorem RayTracer.empty_scene_on_segment_witness :
    ∃ lam : ℚ, 0 ≤ lam ∧ lam ≤ 1 ∧
      shadeTracer.rayColor qsqrt qpow slantRay ⟨[]⟩ =
        (Vector3f.mk 1 1 1).scale lam + shadeTracer.backgroundColor.scale (1 - lam) ∧
      shadeTracer.rayColorWithReflection qsqrt qpow slantRay ⟨[]⟩ 3 =
        (Vector3f.mk 1 1 1).scale lam + shadeTracer.backgroundColor.scale (1 - lam) :=
  RayTracer.empty_scene_on_segment qsqrt qpow shadeTracer slantRay 3
    (by norm_num [slantRay, Vector3f.dot_def]) (by norm_num)

/-- C16 (amended): for every ray that hits nothing, with blend factor
`t = 0.5 * (direction.y + 1)`, both integrators return `white * (1 - t) + background * t`:
the configured background colour when `t = 1` (direction straight up) and white when `t = 0`
(direction straight down). -/
theorem RayTracer.backdrop_ends (sqrt : F → F) (pow : F → F → F) (rt : RayTracer F)
    (ray : Ray F) (world : HittableList F) (depth : Int) (hdepth : 1 ≤ depth)
    (hhit : world.hit sqrt ray (1 / 1000) ⊤ HitRecord.fresh = none) :
    rt.rayColorWithReflection sqrt pow ray world depth = rt.rayColor sqrt pow ray world ∧
    rt.rayColor sqrt pow ray world =
      (Vector3f.mk 1 1 1).scale (1 - 1 / 2 * (ray.direction.y + 1)) +
        rt.backgroundColor.scale (1 / 2 * (ray.direction.y + 1)) ∧
    (1 / 2 * (ray.direction.y + 1) = 1 → rt.rayColor sqrt pow ray world = rt.backgroundColor) ∧
    (1 / 2 * (ray.direction.y + 1) = 0 → rt.rayColor sqrt pow ray world = Vector3f.mk 1 1 1) := by
  have h1 := RayTracer.rayColor_none sqrt pow rt ray world hhit
  have h2 := RayTracer.rayColorWithReflection_none sqrt pow rt ray world depth hdepth hhit
  refine ⟨by rw [h1, h2], by rw [h1]; rfl, ?_, ?_⟩
  · intro ht
    rw [h1]
    unfold RayTracer.background
    simp only [ht]
    apply Vector3f.eq_of_components <;> simp
  · intro ht
    rw [h1]
    unfold RayTracer.background
    simp only [ht]
    apply Vector3f.eq_of_components <;> simp

/-- Counterexample to C16 as stated: with background `(0.2, 0.2, 0.4)` and no primitives, the
ray straight up has `t = 1` and gets the background colour, not white; the ray straight down
has `t = 0` and gets white, not the background colour. -/
theorem RayTracer.backdrop_ends_counterexample :
    (1 / 2 * (upRay.direction.y + 1) = 1 ∧
      shadeTracer.rayColor qsqrt qpow upRay ⟨[]⟩ = ⟨1 / 5, 1 / 5, 2 / 5⟩ ∧
      shadeTracer.rayColor qsqrt qpow upRay ⟨[]⟩ ≠ ⟨1, 1, 1⟩) ∧
    (1 / 2 * (downRay.direction.y + 1) = 0 ∧
      shadeTracer.rayColor qsqrt qpow downRay ⟨[]⟩ = ⟨1, 1, 1⟩ ∧
      shadeTracer.rayColor qsqrt qpow downRay ⟨[]⟩ ≠ shadeTracer.backgroundColor) := by
  have hu : shadeTracer.rayColor qsqrt qpow upRay ⟨[]⟩ = ⟨1 / 5, 1 / 5, 2 / 5⟩ := by
    rw [RayTracer.rayColor_none qsqrt qpow shadeTracer upRay ⟨[]⟩
      (HittableList.hit_nil qsqrt upRay _ _ _)]
    apply Vector3f.eq_of_components <;> norm_num [RayTracer.background, upRay, shadeTracer]
  have hdn : shadeTracer.rayColor qsqrt qpow downRay ⟨[]⟩ = ⟨1, 1, 1⟩ := by
    rw [RayTracer.rayColor_none qsqrt qpow shadeTracer downRay ⟨[]⟩
      (HittableList.hit_nil qsqrt downRay _ _ _)]
    apply Vector3f.eq_of_components <;> norm_num [RayTracer.background, downRay, shadeTracer]
  refine ⟨⟨by norm_num [upRay], hu, ?_⟩, ⟨by norm_num [downRay], hdn, ?_⟩⟩
  · rw [hu]
    intro h
    have := congrArg Vector3f.x h
    norm_num at this
  · rw [hdn]
    intro h
    have := congrArg Vector3f.x h
    norm_num [shadeTracer] at this

/-- Witness for C16 (amended): the ray straight up over the empty scene, depth 2. -/
theorem RayTracer.backdrop_ends_witness :
    shadeTracer.rayColorWithReflection qsqrt qpow upRay ⟨[]⟩ 2 =
        shadeTracer.rayColor qsqrt qpow upRay ⟨[]⟩ ∧
      (1 / 2 * (upRay.direction.y + 1) = 1 →
        shadeTracer.rayColor qsqrt qpow upRay ⟨[]⟩ = shadeTracer.backgroundColor) :=
  ⟨(RayTracer.backdrop_ends qsqrt qpow shadeTracer upRay ⟨[]⟩ 2 (by norm_num)
      (HittableList.hit_nil qsqrt upRay _ _ _)).1,
    (RayTracer.backdrop_ends qsqrt qpow shadeTracer upRay ⟨[]⟩ 2 (by norm_num)
      (HittableList.hit_nil qsqrt upRay _ _ _)).2.2.1⟩

/-- C17: for `lookFrom != lookAt` and an `up` vector whose cross product with the forward
axis is not zero, the `Camera` constructor's `forward = normalize(lookFrom - lookAt)`,
`right = normalize(up x forward)` and `trueUp = forward x right` are mutually orthogonal unit
vectors, and it stores `origin = lookFrom`, `horizontal = right * (aspect * 2 * tan(theta/2))`,
`vertical = trueUp * (2 * tan(theta/2))` and
`lowerLeftCorner = lookFrom - horizontal/2 - vertical/2 - forward`, where
`theta = vfov * 3.1415926 / 180` is the field of view in radians.  `sqrt` is assumed exact at
the two squared lengths it is applied to. -/
theorem Camera.new_basis (sqrt tan : F → F) (lookFrom lookAt vup : Vector3f F) (vfov aspect : F)
    (hne : lookFrom - lookAt ≠ Vector3f.zero)
    (hup : vup.Cross (Camera.forward sqrt lookFrom lookAt) ≠ Vector3f.zero)
    (hs1 : sqrt ((lookFrom - lookAt).Dot (lookFrom - lookAt)) *
      sqrt ((lookFrom - lookAt).Dot (lookFrom - lookAt)) =
      (lookFrom - lookAt).Dot (lookFrom - lookAt))
    (hs2 : sqrt ((vup.Cross (Camera.forward sqrt lookFrom lookAt)).Dot
        (vup.Cross (Camera.forward sqrt lookFrom lookAt))) *
      sqrt ((vup.Cross (Camera.forward sqrt lookFrom lookAt)).Dot
        (vup.Cross (Camera.forward sqrt lookFrom lookAt))) =
      (vup.Cross (Camera.forward sqrt lookFrom lookAt)).Dot
        (vup.Cross (Camera.forward sqrt lookFrom lookAt))) :
    ((Camera.forward sqrt lookFrom lookAt).Dot (Camera.forward sqrt lookFrom lookAt) = 1 ∧
      (Camera.right sqrt lookFrom lookAt vup).Dot (Camera.right sqrt lookFrom lookAt vup) = 1 ∧
      (Camera.trueUp sqrt lookFrom lookAt vup).Dot (Camera.trueUp sqrt lookFrom lookAt vup) = 1 ∧
      (Camera.right sqrt lookFrom lookAt vup).Dot (Camera.forward sqrt lookFrom lookAt) = 0 ∧
      (Camera.trueUp sqrt lookFrom lookAt vup).Dot (Camera.forward sqrt lookFrom lookAt) = 0 ∧
      (Camera.trueUp sqrt lookFrom lookAt vup).Dot (Camera.right sqrt lookFrom lookAt vup) = 0) ∧
    (Camera.new sqrt tan lookFrom lookAt vup vfov aspect).origin = lookFrom ∧
    (Camera.new sqrt tan lookFrom lookAt vup vfov aspect).horizontal =
      (Camera.right sqrt lookFrom lookAt vup).scale
        (aspect * (2 * tan (vfov * (31415926 / 10000000) / 180 / 2))) ∧
    (Camera.new sqrt tan lookFrom lookAt vup vfov aspect).vertical =
      (Camera.trueUp sqrt lookFrom lookAt vup).scale
        (2 * tan (vfov * (31415926 / 10000000) / 180 / 2)) ∧
    (Camera.new sqrt tan lookFrom lookAt vup vfov aspect).lowerLeftCorner =
      lookFrom - (Camera.new sqrt tan lookFrom lookAt vup vfov aspect).horizontal.scale (1 / 2) -
        (Camera.new sqrt tan lookFrom lookAt vup vfov aspect).vertical.scale (1 / 2) -
        Camera.forward sqrt lookFrom lookAt := by
  have hw : (Camera.forward sqrt lookFrom lookAt).Dot (Camera.forward sqrt lookFrom lookAt) = 1 :=
    Vector3f.normalize_dot_self sqrt _ hne hs1
  have hu : (Camera.right sqrt lookFrom lookAt vup).Dot
      (Camera.right sqrt lookFrom lookAt vup) = 1 :=
    Vector3f.normalize_dot_self sqrt _ hup hs2
  have huw : (Camera.right sqrt lookFrom lookAt vup).Dot
      (Camera.forward sqrt lookFrom lookAt) = 0 := by
    unfold Camera.right
    rw [Vector3f.normalize_dot, Vector3f.cross_dot_right, zero_div]
  refine ⟨⟨hw, hu, ?_, huw, ?_, ?_⟩, rfl, rfl, rfl, rfl⟩
  · unfold Camera.trueUp
    rw [Vector3f.cross_dot_self, hw, hu, Vector3f.dot_comm, huw]
    ring
  · unfold Camera.trueUp
    exact Vector3f.cross_dot_left _ _
  · unfold Camera.trueUp
    exact Vector3f.cross_dot_right _ _

/-- Witness for C17: the default camera position, `lookFrom = (0, 0, 5)`,
`lookAt = (0, 0, 0)`, `up = (0, 1, 0)`; the basis is `(0, 0, 1)`, `(1, 0, 0)`, `(0, 1, 0)`. -/
theorem Camera.new_basis_witness :
    Camera.forward qsqrt (⟨0, 0, 5⟩ : Vector3f ℚ) ⟨0, 0, 0⟩ = ⟨0, 0, 1⟩ ∧
    Camera.right qsqrt (⟨0, 0, 5⟩ : Vector3f ℚ) ⟨0, 0, 0⟩ ⟨0, 1, 0⟩ = ⟨1, 0, 0⟩ ∧
    (Camera.trueUp qsqrt (⟨0, 0, 5⟩ : Vector3f ℚ) ⟨0, 0, 0⟩ ⟨0, 1, 0⟩).Dot
      (Camera.trueUp qsqrt (⟨0, 0, 5⟩ : Vector3f ℚ) ⟨0, 0, 0⟩ ⟨0, 1, 0⟩) = 1 ∧
    (Camera.trueUp qsqrt (⟨0, 0, 5⟩ : Vector3f ℚ) ⟨0, 0, 0⟩ ⟨0, 1, 0⟩).Dot
      (Camera.right qsqrt (⟨0, 0, 5⟩ : Vector3f ℚ) ⟨0, 0, 0⟩ ⟨0, 1, 0⟩) = 0 := by
  have hf : Camera.forward qsqrt (⟨0, 0, 5⟩ : Vector3f ℚ) ⟨0, 0, 0⟩ = ⟨0, 0, 1⟩ := by
    unfold Camera.forward
    rw [normalize_qsqrt _ 5 (by norm_num) (by norm_num)]
    apply Vector3f.eq_of_components <;> norm_num
  have hc : (⟨0, 1, 0⟩ : Vector3f ℚ).Cross ⟨0, 0, 1⟩ = ⟨1, 0, 0⟩ := by
    apply Vector3f.eq_of_components <;> norm_num [Vector3f.Cross]
  have hr : Camera.right qsqrt (⟨0, 0, 5⟩ : Vector3f ℚ) ⟨0, 0, 0⟩ ⟨0, 1, 0⟩ = ⟨1, 0, 0⟩ := by
    unfold Camera.right
    rw [hf, hc, normalize_qsqrt _ 1 (by norm_num) (by norm_num)]
    apply Vector3f.eq_of_components <;> norm_num
  have h := Camera.new_basis qsqrt (fun a => a) (⟨0, 0, 5⟩ : Vector3f ℚ) ⟨0, 0, 0⟩ ⟨0, 1, 0⟩
    60 (4 / 3)
    (by intro h; have := congrArg Vector3f.z h; norm_num [Vector3f.zero] at this)
    (by rw [hf, hc]; intro h; have := congrArg Vector3f.x h; norm_num [Vector3f.zero] at this)
    (by
      have : ((⟨0, 0, 5⟩ : Vector3f ℚ) - ⟨0, 0, 0⟩).Dot ((⟨0, 0, 5⟩ : Vector3f ℚ) - ⟨0, 0, 0⟩) =
          5 * 5 := by norm_num [Vector3f.dot_def]
      rw [this, qsqrt_mul_self 5 (by norm_num)])
    (by
      rw [hf, hc]
      have : (⟨1, 0, 0⟩ : Vector3f ℚ).Dot ⟨1, 0, 0⟩ = 1 := by norm_num [Vector3f.dot_def]
      rw [this, qsqrt_one]; norm_num)
  exact ⟨hf, hr, h.1.2.2.1, h.1.2.2.2.2.2⟩

/-- C18 (amended): for every width and height of at least 2 and every pixel `(x, y)` of the
image, the divisors `imageWidth - 1` and `imageHeight - 1` of the render loop are not zero,
the viewport coordinates `u = x / (width - 1)` and `v = 1 - y / (height - 1)` lie in
`[0, 1]`, column 0 gives `u = 0`, the last column `u = 1`, row 0 gives `v = 1` and the last
row `v = 0`. -/
theorem RayTracer.viewport_coords (rt : RayTracer F) (x y : Int) (hw : 2 ≤ rt.imageWidth)
    (hh : 2 ≤ rt.imageHeight) (hx : 0 ≤ x) (hxw : x < rt.imageWidth) (hy : 0 ≤ y)
    (hyh : y < rt.imageHeight) :
    (((rt.imageWidth - 1 : Int) : F) ≠ 0 ∧ ((rt.imageHeight - 1 : Int) : F) ≠ 0) ∧
    (0 ≤ rt.pixelU x ∧ rt.pixelU x ≤ 1) ∧ (0 ≤ rt.pixelV y ∧ rt.pixelV y ≤ 1) ∧
    rt.pixelU 0 = 0 ∧ rt.pixelU (rt.imageWidth - 1) = 1 ∧
    rt.pixelV 0 = 1 ∧ rt.pixelV (rt.imageHeight - 1) = 0 := by
  have hwp : (0 : F) < ((rt.imageWidth - 1 : Int) : F) := by
    exact_mod_cast (by omega : (0 : Int) < rt.imageWidth - 1)
  have hhp : (0 : F) < ((rt.imageHeight - 1 : Int) : F) := by
    exact_mod_cast (by omega : (0 : Int) < rt.imageHeight - 1)
  have hx0 : (0 : F) ≤ (x : F) := by exact_mod_cast hx
  have hy0 : (0 : F) ≤ (y : F) := by exact_mod_cast hy
  have hx1 : (x : F) ≤ ((rt.imageWidth - 1 : Int) : F) := by
    exact_mod_cast (by omega : x ≤ rt.imageWidth - 1)
  have hy1 : (y : F) ≤ ((rt.imageHeight - 1 : Int) : F) := by
    exact_mod_cast (by omega : y ≤ rt.imageHeight - 1)
  refine ⟨⟨ne_of_gt hwp, ne_of_gt hhp⟩, ⟨?_, ?_⟩, ⟨?_, ?_⟩, ?_, ?_, ?_, ?_⟩
  · exact div_nonneg hx0 (le_of_lt hwp)
  · exact (div_le_one hwp).mpr hx1
  · exact sub_nonneg.mpr ((div_le_one hhp).mpr hy1)
  · exact sub_le_self _ (div_nonneg hy0 (le_of_lt hhp))
  · simp [RayTracer.pixelU]
  · exact div_self (ne_of_gt hwp)
  · simp [RayTracer.pixelV]
  · show 1 - _ / _ = (0 : F)
    rw [div_self (ne_of_gt hhp), sub_self]

/-- Counterexample to C18 as stated: for the positive width and height 1 the only pixel is
`(0, 0)`, both divisors are `1 - 1 = 0`, so the source divides `0.0f` by zero; with the
convention `a / 0 = 0` of the model the last column does not get `u = 1` and the last row
does not get `v = 0`. -/
theorem RayTracer.viewport_coords_counterexample :
    (0 < onePixelTracer.imageWidth ∧ 0 < onePixelTracer.imageHeight) ∧
    ((0 : Int) ≤ 0 ∧ (0 : Int) < onePixelTracer.imageWidth ∧
      (0 : Int) < onePixelTracer.imageHeight) ∧
    ((onePixelTracer.imageWidth - 1 : Int) : ℚ) = 0 ∧
    ((onePixelTracer.imageHeight - 1 : Int) : ℚ) = 0 ∧
    onePixelTracer.pixelU (onePixelTracer.imageWidth - 1) ≠ 1 ∧
    onePixelTracer.pixelV (onePixelTracer.imageHeight - 1) ≠ 0 := by
  refine ⟨⟨by decide, by decide⟩, ⟨le_refl 0, by decide, by decide⟩, ?_, ?_, ?_, ?_⟩ <;>
    norm_num [onePixelTracer, RayTracer.pixelU, RayTracer.pixelV]

/-- Witness for C18 (amended): the pixel `(1, 2)` of the 4 by 3 image of `shadeTracer`. -/
theorem RayTracer.viewport_coords_witness :
    (((shadeTracer.imageWidth - 1 : Int) : ℚ) ≠ 0 ∧
      ((shadeTracer.imageHeight - 1 : Int) : ℚ) ≠ 0) ∧
    (0 ≤ shadeTracer.pixelU 1 ∧ shadeTracer.pixelU 1 ≤ 1) ∧
    (0 ≤ shadeTracer.pixelV 2 ∧ shadeTracer.pixelV 2 ≤ 1) ∧
    shadeTracer.pixelU 0 = 0 ∧ shadeTracer.pixelU (shadeTracer.imageWidth - 1) = 1 ∧
    shadeTracer.pixelV 0 = 1 ∧ shadeTracer.pixelV (shadeTracer.imageHeight - 1) = 0 :=
  RayTracer.viewport_coords shadeTracer 1 2 (by decide) (by decide) (by decide) (by decide)
    (by decide) (by decide)

/-- C19: for a square root with `sqrt 0 = 0`, `sqrt 1 = 1` that is monotone on the
non-negative values, the byte the render loop stores for a linear channel value `c >= 0`
is `floor(255.99 * sqrt(min(c, 1)))`; it is at most 255, non-decreasing in `c`, 0 for
`c = 0` and 255 for every `c >= 1`.  The buffer `render()` returns has length
`3 * width * height`, and the byte of channel `k` of the pixel `(x, y)` is at index
`3 * (y * width + x) + k`. -/
theorem RayTracer.render_bytes [FloorRing F] (sqrt : F → F) (pow : F → F → F)
    (rt : RayTracer F) (hs0 : sqrt 0 = 0) (hs1 : sqrt 1 = 1)
    (hmono : ∀ a b : F, 0 ≤ a → a ≤ b → sqrt a ≤ sqrt b) :
    (∀ c : F, 0 ≤ c →
      channelByte sqrt c = Int.toNat ⌊25599 / 100 * sqrt (min c 1)⌋ ∧
        channelByte sqrt c ≤ 255) ∧
    (∀ c c' : F, 0 ≤ c → c ≤ c' → channelByte sqrt c ≤ channelByte sqrt c') ∧
    channelByte sqrt (0 : F) = 0 ∧
    (∀ c : F, 1 ≤ c → channelByte sqrt c = 255) ∧
    (rt.render sqrt pow).length = (3 * rt.imageWidth * rt.imageHeight).toNat ∧
    ∀ x y k : Nat, (x : Int) < rt.imageWidth → (y : Int) < rt.imageHeight → k < 3 →
      (rt.render sqrt pow)[3 * (y * rt.imageWidth.toNat + x) + k]? =
        some (channelByte sqrt ((rt.pixelColor sqrt pow (x : Int) (y : Int)).get k)) := by
  refine ⟨fun c hc => channelByte_eq sqrt hs0 hs1 hmono c hc,
    fun c c' hc hcc => channelByte_mono sqrt hs0 hs1 hmono c c' hc hcc,
    channelByte_zero sqrt hs0, fun c hc => channelByte_of_one_le sqrt hs1 c hc, ?_,
    fun x y k hx hy hk => RayTracer.render_pixel sqrt pow rt x y k hx hy hk⟩
  rw [RayTracer.length_render]
  congr 1
  ring

/-- Witness for C19: the real square root, on a 4 by 3 image of an empty scene. -/
theorem RayTracer.render_bytes_witness :
    (∀ c : ℝ, 0 ≤ c →
      channelByte Real.sqrt c = Int.toNat ⌊25599 / 100 * Real.sqrt (min c 1)⌋ ∧
        channelByte Real.sqrt c ≤ 255) ∧
    (∀ c c' : ℝ, 0 ≤ c → c ≤ c' → channelByte Real.sqrt c ≤ channelByte Real.sqrt c') ∧
    channelByte Real.sqrt (0 : ℝ) = 0 ∧
    (∀ c : ℝ, 1 ≤ c → channelByte Real.sqrt c = 255) ∧
    (RayTracer.render Real.sqrt (fun a b => a ^ b)
      (RayTracer.mk 4 3 3 false ⟨⟨0, 0, 5⟩, ⟨-1, -1, 4⟩, ⟨2, 0, 0⟩, ⟨0, 2, 0⟩⟩ ⟨[]⟩ []
        ⟨1 / 5, 1 / 5, 2 / 5⟩ : RayTracer ℝ)).length = (3 * (4 : Int) * 3).toNat ∧
    ∀ x y k : Nat, (x : Int) < 4 → (y : Int) < 3 → k < 3 →
      (RayTracer.render Real.sqrt (fun a b => a ^ b)
        (RayTracer.mk 4 3 3 false ⟨⟨0, 0, 5⟩, ⟨-1, -1, 4⟩, ⟨2, 0, 0⟩, ⟨0, 2, 0⟩⟩ ⟨[]⟩ []
          ⟨1 / 5, 1 / 5, 2 / 5⟩ : RayTracer ℝ))[3 * (y * (4 : Int).toNat + x) + k]? =
        some (channelByte Real.sqrt
          ((RayTracer.pixelColor Real.sqrt (fun a b => a ^ b)
            (RayTracer.mk 4 3 3 false ⟨⟨0, 0, 5⟩, ⟨-1, -1, 4⟩, ⟨2, 0, 0⟩, ⟨0, 2, 0⟩⟩ ⟨[]⟩ []
              ⟨1 / 5, 1 / 5, 2 / 5⟩ : RayTracer ℝ) (x : Int) (y : Int)).get k)) :=
  RayTracer.render_bytes Real.sqrt (fun a b => a ^ b)
    (RayTracer.mk 4 3 3 false ⟨⟨0, 0, 5⟩, ⟨-1, -1, 4⟩, ⟨2, 0, 0⟩, ⟨0, 2, 0⟩⟩ ⟨[]⟩ []
      ⟨1 / 5, 1 / 5, 2 / 5⟩ : RayTracer ℝ)
    Real.sqrt_zero Real.sqrt_one (fun _ _ _ hab => Real.sqrt_le_sqrt hab)

/-- C20: for a renderer state with non-negative width and height, what `saveToFile` and
`saveToTextFile` write for the same state is the header (the tag `P6` resp. `P3`, a line
`width height`, a line `255`) followed, in the binary file, by the buffer of `render()` as
raw bytes and, in the text file, by a body whose decimal numbers, read in order, are the
bytes of that same buffer. -/
theorem RayTracer.save_outputs_agree [FloorRing F] (sqrt : F → F) (pow : F → F → F)
    (rt : RayTracer F) (writeOk : Bool) (hw : 0 ≤ rt.imageWidth) (hh : 0 ≤ rt.imageHeight) :
    (rt.saveToFile sqrt pow true writeOk).2 =
      some ([Chunk.text "P6\n", Chunk.int rt.imageWidth, Chunk.text " ",
        Chunk.int rt.imageHeight, Chunk.text "\n255\n"] ++ [Chunk.raw (rt.render sqrt pow)]) ∧
    (rt.saveToTextFile sqrt pow true writeOk).2 =
      some ([Chunk.text "P3\n", Chunk.int rt.imageWidth, Chunk.text " ",
        Chunk.int rt.imageHeight, Chunk.text "\n255\n"] ++
          rt.textBody (rt.render sqrt pow)) ∧
    Chunk.ints (rt.textBody (rt.render sqrt pow)) =
      (rt.render sqrt pow).map (fun b : Nat => (b : Int)) := by
  refine ⟨?_, ?_, RayTracer.ints_textBody rt _ hw hh (RayTracer.length_render sqrt pow rt)⟩
  · cases writeOk <;> rfl
  · cases writeOk <;> rfl

/-- Witness for C20: the 4 by 3 image of `shadeTracer`. -/
theorem RayTracer.save_outputs_agree_witness :
    (shadeTracer.saveToFile qsqrt qpow true true).2 =
      some ([Chunk.text "P6\n", Chunk.int shadeTracer.imageWidth, Chunk.text " ",
        Chunk.int shadeTracer.imageHeight, Chunk.text "\n255\n"] ++
          [Chunk.raw (shadeTracer.render qsqrt qpow)]) ∧
    (shadeTracer.saveToTextFile qsqrt qpow true true).2 =
      some ([Chunk.text "P3\n", Chunk.int shadeTracer.imageWidth, Chunk.text " ",
        Chunk.int shadeTracer.imageHeight, Chunk.text "\n255\n"] ++
          shadeTracer.textBody (shadeTracer.render qsqrt qpow)) ∧
    Chunk.ints (shadeTracer.textBody (shadeTracer.render qsqrt qpow)) =
      (shadeTracer.render qsqrt qpow).map (fun b : Nat => (b : Int)) :=
  RayTracer.save_outputs_agree qsqrt qpow shadeTracer true (by decide) (by decide)

/-- C21: when the scene file cannot be opened, `loadSceneFromFile` returns `false` and the
state after the call is the state before it: primitives, lights, camera, background and
reflection settings are untouched. -/
theorem RayTracer.loadSceneFromFile_unopened (sqrt tan : F → F) (toFloat : String → F)
    (toInt : String → Int) (readOffFile : String → Option (OffModel F)) (rt : RayTracer F) :
    (rt.loadSceneFromFile sqrt tan toFloat toInt readOffFile none).1 = false ∧
    (rt.loadSceneFromFile sqrt tan toFloat toInt readOffFile none).2 = rt :=
  ⟨rfl, rfl⟩

/-- C22 (amended): when the mesh file named by an `off_model` line cannot be read by the mesh
reader, `addMeshFromFile` returns without a change, and `loadSceneFromFile` goes on: it
returns `true`, and its result is that of the same file without that line, so the lines
after it are applied. -/
theorem RayTracer.loadSceneFromFile_unreadable_mesh (sqrt tan : F → F) (toFloat : String → F)
    (toInt : String → Int) (readOffFile : String → Option (OffModel F)) (rt : RayTracer F)
    (pre post : List (List String)) (line : List String)
    (hk : line.headD "" = "off_model") (hr : readOffFile (line.getD 1 "") = none) :
    (rt.loadSceneFromFile sqrt tan toFloat toInt readOffFile (some (pre ++ line :: post))).1 =
      true ∧
    rt.loadSceneFromFile sqrt tan toFloat toInt readOffFile (some (pre ++ line :: post)) =
      rt.loadSceneFromFile sqrt tan toFloat toInt readOffFile (some (pre ++ post)) :=
  ⟨rfl, RayTracer.loadSceneFromFile_skip sqrt tan toFloat toInt readOffFile rt pre post line
    (fun st => RayTracer.loadLine_unreadable sqrt tan toFloat toInt readOffFile st line hk hr)⟩

/-- Counterexample to C22 as stated: the first line of `brokenMeshScene` names a mesh file
that cannot be read; `loadSceneFromFile` returns `true` and the sphere of the second line is
in the scene. -/
theorem RayTracer.loadSceneFromFile_unreadable_mesh_counterexample :
    (brokenMeshScene.head?.map (fun l => l.headD "") = some "off_model" ∧
      noMesh "missing.off" = none) ∧
    (demoTracer.loadSceneFromFile qsqrt (fun a => a) readDecimal readInteger noMesh
      (some brokenMeshScene)).1 = true ∧
    (demoTracer.loadSceneFromFile qsqrt (fun a => a) readDecimal readInteger noMesh
      (some brokenMeshScene)).2.world.objects = [sceneSphere] := by
  refine ⟨⟨rfl, rfl⟩, rfl, ?_⟩
  have hskip := RayTracer.loadSceneFromFile_skip qsqrt (fun a => a) readDecimal readInteger
    noMesh demoTracer [] [["sphere", "0", "0", "0", "1", "1", "0", "0", "0", "1", "0", "32", "0"]]
    ["off_model", "missing.off", "1", "1", "1", "0", "1", "0", "32", "0"]
    (fun st => RayTracer.loadLine_unreadable qsqrt (fun a => a) readDecimal readInteger noMesh st
      _ rfl rfl)
  have hload := (RayTracer.loadSceneFromFile_of_primitives qsqrt (fun a => a) readDecimal
    readInteger noMesh
    [["sphere", "0", "0", "0", "1", "1", "0", "0", "0", "1", "0", "32", "0"]] [sceneSphere]
    demoTracer (by simp [primitiveOfLine, readDecimal, sceneSphere])).2
  show (demoTracer.loadSceneFromFile qsqrt (fun a => a) readDecimal readInteger noMesh
    (some ([] ++ ["off_model", "missing.off", "1", "1", "1", "0", "1", "0", "32", "0"] ::
      [["sphere", "0", "0", "0", "1", "1", "0", "0", "0", "1", "0", "32", "0"]]))).2.world.objects
    = [sceneSphere]
  rw [hskip]
  exact hload

/-- Witness for C22 (amended): `brokenMeshScene` with the collaborator `noMesh`. -/
theorem RayTracer.loadSceneFromFile_unreadable_mesh_witness :
    (demoTracer.loadSceneFromFile qsqrt (fun a => a) readDecimal readInteger noMesh
      (some ([] ++ ["off_model", "missing.off", "1", "1", "1", "0", "1", "0", "32", "0"] ::
        [["sphere", "0", "0", "0", "1", "1", "0", "0", "0", "1", "0", "32", "0"]]))).1 =
      true ∧
    demoTracer.loadSceneFromFile qsqrt (fun a => a) readDecimal readInteger noMesh
      (some ([] ++ ["off_model", "missing.off", "1", "1", "1", "0", "1", "0", "32", "0"] ::
        [["sphere", "0", "0", "0", "1", "1", "0", "0", "0", "1", "0", "32", "0"]])) =
      demoTracer.loadSceneFromFile qsqrt (fun a => a) readDecimal readInteger noMesh
        (some ([] ++
          [["sphere", "0", "0", "0", "1", "1", "0", "0", "0", "1", "0", "32", "0"]])) :=
  RayTracer.loadSceneFromFile_unreadable_mesh qsqrt (fun a => a) readDecimal readInteger noMesh
    demoTracer [] [["sphere", "0", "0", "0", "1", "1", "0", "0", "0", "1", "0", "32", "0"]]
    ["off_model", "missing.off", "1", "1", "1", "0", "1", "0", "32", "0"] rfl rfl

/-- C23: a line whose first token is none of `camera`, `light`, `sphere`, `box`,
`triangle`, `background`, `reflections`, `off_model` (an empty line has no first token) is
ignored: loading the file gives the same return value and the same state as loading the
file without that line. -/
theorem RayTracer.loadSceneFromFile_ignores (sqrt tan : F → F) (toFloat : String → F)
    (toInt : String → Int) (readOffFile : String → Option (OffModel F)) (rt : RayTracer F)
    (pre post : List (List String)) (line : List String)
    (h : line.headD "" ∉
      ["camera", "light", "sphere", "box", "triangle", "background", "reflections",
        "off_model"]) :
    rt.loadSceneFromFile sqrt tan toFloat toInt readOffFile (some (pre ++ line :: post)) =
      rt.loadSceneFromFile sqrt tan toFloat toInt readOffFile (some (pre ++ post)) :=
  RayTracer.loadSceneFromFile_skip sqrt tan toFloat toInt readOffFile rt pre post line
    (fun st => RayTracer.loadLine_other sqrt tan toFloat toInt readOffFile st line h)

/-- Witness for C23: an empty line in the middle of `primitiveScene`. -/
theorem RayTracer.loadSceneFromFile_ignores_witness :
    demoTracer.loadSceneFromFile qsqrt (fun a => a) readDecimal readInteger noMesh
        (some (primitiveScene ++ [] :: primitiveScene)) =
      demoTracer.loadSceneFromFile qsqrt (fun a => a) readDecimal readInteger noMesh
        (some (primitiveScene ++ primitiveScene)) :=
  RayTracer.loadSceneFromFile_ignores qsqrt (fun a => a) readDecimal readInteger noMesh
    demoTracer primitiveScene primitiveScene [] (by decide)

/-- C24: `loadSceneFromFile` on a file that can be opened returns `true`; if no line of the
file is a `light` directive, the lights after the call are exactly the default light
(position `(10, 10, 10)`, colour `(1, 1, 1)`, intensity 1), whatever the lights before the
call; if some line is a `light` directive, the lights are those of the `light` lines of
the file (position, colour, intensity), in file order, and no default light is added. -/
theorem RayTracer.loadSceneFromFile_lights (sqrt tan : F → F) (toFloat : String → F)
    (toInt : String → Int) (readOffFile : String → Option (OffModel F)) (rt : RayTracer F)
    (lines : List (List String)) :
    (rt.loadSceneFromFile sqrt tan toFloat toInt readOffFile (some lines)).1 = true ∧
    ((∀ l ∈ lines, l.headD "" ≠ "light") →
      (rt.loadSceneFromFile sqrt tan toFloat toInt readOffFile (some lines)).2.lights =
        [⟨⟨10, 10, 10⟩, ⟨1, 1, 1⟩, 1⟩]) ∧
    ((∃ l ∈ lines, l.headD "" = "light") →
      (rt.loadSceneFromFile sqrt tan toFloat toInt readOffFile (some lines)).2.lights =
        (lines.filter (fun l => l.headD "" = "light")).map
          (fun l =>
            ⟨⟨field toFloat l 1, field toFloat l 2, field toFloat l 3⟩,
              ⟨field toFloat l 4, field toFloat l 5, field toFloat l 6⟩,
              field toFloat l 7⟩)) := by
  have hl : (lines.foldl (RayTracer.loadLine sqrt tan toFloat toInt readOffFile)
      rt.clearScene).lights =
      (lines.filter (fun l => l.headD "" = "light")).map (lightOfLine toFloat) := by
    rw [RayTracer.foldl_loadLine_lights]
    rfl
  refine ⟨rfl, fun hno => ?_, fun hsome => ?_⟩
  · have hf : lines.filter (fun l => l.headD "" = "light") = [] := by
      rw [List.filter_eq_nil_iff]
      intro l hmem
      rw [decide_eq_true_eq]
      exact hno l hmem
    unfold RayTracer.loadSceneFromFile
    simp only [hl, hf, List.map_nil, List.isEmpty_nil, if_true]
    simp only [RayTracer.addLight, hl, hf, List.map_nil, List.nil_append]
  · obtain ⟨l, hmem, hk⟩ := hsome
    have hf : lines.filter (fun l => l.headD "" = "light") ≠ [] := by
      intro hnil
      have : l ∈ lines.filter (fun l => l.headD "" = "light") :=
        List.mem_filter.mpr ⟨hmem, decide_eq_true hk⟩
      rw [hnil] at this
      exact List.not_mem_nil _ this
    have hne : (lines.foldl (RayTracer.loadLine sqrt tan toFloat toInt readOffFile)
        rt.clearScene).lights.isEmpty = false := by
      rw [hl]
      cases hc : lines.filter (fun l => l.headD "" = "light") with
      | nil => exact absurd hc hf
      | cons a as => rfl
    unfold RayTracer.loadSceneFromFile
    simp only [hne, Bool.false_eq_true, if_false]
    rw [hl]
    rfl

/-- C25: for a scene file whose lines are well-formed `sphere`, `box` and `triangle`
directives, describing the primitives `prims` in the field order of the format (centre and
radius, or the two corners, or the three vertices, then colour, ambient, diffuse, specular,
shininess, reflectivity), `loadSceneFromFile` returns `true` and the primitive sequence
after the call is exactly `prims`: one primitive per line, in file order, with nothing left
from before the call. -/
theorem RayTracer.loadSceneFromFile_primitives (sqrt tan : F → F) (toFloat : String → F)
    (toInt : String → Int) (readOffFile : String → Option (OffModel F)) (rt : RayTracer F)
    (lines : List (List String)) (prims : List (Hittable F))
    (h : lines.map (primitiveOfLine sqrt toFloat) = prims.map some) :
    (rt.loadSceneFromFile sqrt tan toFloat toInt readOffFile (some lines)).1 = true ∧
    (rt.loadSceneFromFile sqrt tan toFloat toInt readOffFile (some lines)).2.world.objects =
      prims ∧
    prims.length = lines.length :=
  ⟨(RayTracer.loadSceneFromFile_of_primitives sqrt tan toFloat toInt readOffFile lines prims rt
      h).1,
    (RayTracer.loadSceneFromFile_of_primitives sqrt tan toFloat toInt readOffFile lines prims rt
      h).2,
    by simpa using (congrArg List.length h).symm⟩

/-- Witness for C25: `primitiveScene`, loaded into a state that already holds primitives. -/
theorem RayTracer.loadSceneFromFile_primitives_witness :
    (demoTracer.loadSceneFromFile qsqrt (fun a => a) readDecimal readInteger noMesh
      (some primitiveScene)).1 = true ∧
    (demoTracer.loadSceneFromFile qsqrt (fun a => a) readDecimal readInteger noMesh
      (some primitiveScene)).2.world.objects = [sceneSphere, sceneBox, sceneTriangle] ∧
    [sceneSphere, sceneBox, sceneTriangle].length = primitiveScene.length :=
  RayTracer.loadSceneFromFile_primitives qsqrt (fun a => a) readDecimal readInteger noMesh
    demoTracer primitiveScene [sceneSphere, sceneBox, sceneTriangle] primitiveScene_primitives

/-- C26: for a mesh the import collaborator returns, whose polygons name vertices of the
mesh, a scale `s` and an offset `p`, `addMeshFromFile` appends to the primitives, polygon
after polygon, for each polygon with `n >= 3` sides the `n - 2` triangles
`(w0, w[j-1], w[j])`, `j = 2, ..., n - 1`, in that order, where `w[i]` is `s * vertex + p`
for the polygon's `i`-th vertex; a polygon with fewer than 3 sides adds nothing; the rest
of the state is unchanged. -/
theorem addMeshFromFile_fan (sqrt : F → F) (readOffFile : String → Option (OffModel F))
    (rt : RayTracer F) (filename : String) (position : Vector3f F) (scale : F)
    (material : Material F) (model : OffModel F) (hread : readOffFile filename = some model)
    (hvalid : ∀ p ∈ model.polygons, 3 ≤ p.noSides → ∀ j : Nat, j < p.noSides.toNat →
      p.v.getD j 0 < model.vertices.length) :
    addMeshFromFile sqrt readOffFile rt filename position scale material =
      { rt with
        world := ⟨rt.world.objects ++
          model.polygons.flatMap (fun p =>
            if 3 ≤ p.noSides then
              (List.range' 2 (p.noSides.toNat - 2)).map (fun j =>
                Hittable.triangle
                  (Triangle.new sqrt (placeVertex model scale position (p.v.getD 0 0))
                    (placeVertex model scale position (p.v.getD (j - 1) 0))
                    (placeVertex model scale position (p.v.getD j 0)) material))
            else [])⟩ } ∧
    ∀ p ∈ model.polygons, 3 ≤ p.noSides →
      (((List.range' 2 (p.noSides.toNat - 2)).length : Nat) : Int) = p.noSides - 2 := by
  constructor
  · rw [addMeshFromFile_eq, hread]
    simp only
    rw [List.foldl_append_singleton, List.nil_append, Polygon.foldl_pushIndices,
      List.nil_append, meshTriangles_flatMap,
      Polygon.flatMap_fan_triangles sqrt model scale position material model.polygons hvalid]
  · intro p _ h3
    rw [List.length_range']
    omega

/-- Witness for C26: the square of `squareModel`, scaled by 2 and moved by `(0, 0, 1)`. -/
theorem addMeshFromFile_fan_witness :
    addMeshFromFile qsqrt squareReader demoTracer "square.off" ⟨0, 0, 1⟩ 2 Material.default =
      { demoTracer with
        world := ⟨demoTracer.world.objects ++
          squareModel.polygons.flatMap (fun p =>
            if 3 ≤ p.noSides then
              (List.range' 2 (p.noSides.toNat - 2)).map (fun j =>
                Hittable.triangle
                  (Triangle.new qsqrt (placeVertex squareModel 2 ⟨0, 0, 1⟩ (p.v.getD 0 0))
                    (placeVertex squareModel 2 ⟨0, 0, 1⟩ (p.v.getD (j - 1) 0))
                    (placeVertex squareModel 2 ⟨0, 0, 1⟩ (p.v.getD j 0)) Material.default))
            else [])⟩ } ∧
    ∀ p ∈ squareModel.polygons, 3 ≤ p.noSides →
      (((List.range' 2 (p.noSides.toNat - 2)).length : Nat) : Int) = p.noSides - 2 :=
  addMeshFromFile_fan qsqrt squareReader demoTracer "square.off" ⟨0, 0, 1⟩ 2 Material.default
    squareModel rfl (by
      intro p hp h3 j hj
      simp only [squareModel, List.mem_cons, List.mem_singleton, List.not_mem_nil,
        or_false] at hp
      rcases hp with rfl | rfl
      · have hj4 : j < 4 := hj
        interval_cases j <;> decide
      · exact absurd h3 (by decide))

/-- C27: for a square root that is exact on the non-negative values, the ray built by
`Ray(o, d)` from a non-zero `d` has origin `o` and direction `d / |d|`, of length exactly 1.
In particular the rays of `Camera::getRay`, the shadow rays and the reflection rays, which
are built by that constructor, have a direction of length 1: the camera ray when the
vector from the origin to the viewport point is not zero, the shadow ray when the light is
not at the hit point, the reflection ray when the incoming direction has length 1 and the
recorded normal has length 1 or is zero. -/
theorem Ray.new_unit_direction (sqrt : F → F)
    (hsq : ∀ x : F, 0 ≤ x → sqrt x * sqrt x = x) (hnn : ∀ x : F, 0 ≤ sqrt x) :
    (∀ o d : Vector3f F, d ≠ Vector3f.zero →
      (Ray.new sqrt o d).origin = o ∧
      (Ray.new sqrt o d).direction =
        ⟨d.x / d.length sqrt, d.y / d.length sqrt, d.z / d.length sqrt⟩ ∧
      (Ray.new sqrt o d).direction.length sqrt = 1) ∧
    (∀ (cam : Camera F) (s t : F),
      cam.lowerLeftCorner + cam.horizontal.scale s + cam.vertical.scale t - cam.origin ≠
        Vector3f.zero →
      (cam.getRay sqrt s t).direction.length sqrt = 1) ∧
    (∀ (rec : HitRecord F) (light : Light F), light.position - rec.point ≠ Vector3f.zero →
      (RayTracer.shadowRay sqrt rec light).direction.length sqrt = 1) ∧
    (∀ (rec : HitRecord F) (ray : Ray F), ray.direction.length sqrt = 1 →
      rec.normal.length sqrt = 1 ∨ rec.normal = Vector3f.zero →
      (RayTracer.reflectionRay sqrt rec ray).direction.length sqrt = 1) := by
  have hs1 := sqrt_one_of_exact sqrt hsq hnn
  refine ⟨fun o d hd => ⟨rfl, rfl, (Ray.new_length sqrt hsq hnn o d hd).2⟩,
    fun cam s t h => (Ray.new_length sqrt hsq hnn _ _ h).2, fun rec light h => ?_,
    fun rec ray hv hn => ?_⟩
  · have hu : ((light.position - rec.point).Normalize sqrt).Dot
        ((light.position - rec.point).Normalize sqrt) = 1 :=
      Vector3f.normalize_dot_self sqrt _ h (hsq _ (Vector3f.dot_self_nonneg _))
    unfold RayTracer.shadowRay Ray.new
    simp only
    rw [(Vector3f.normalize_of_unit sqrt hs1 _ hu).2]
    exact (Vector3f.normalize_of_unit sqrt hs1 _ hu).1
  · have hvv := Vector3f.dot_of_length_one sqrt hsq _ hv
    have hr : (RayTracer.reflect ray.direction rec.normal).Dot
        (RayTracer.reflect ray.direction rec.normal) = 1 := by
      rcases hn with hn | hn
      · rw [RayTracer.reflect_dot_self _ _ (Vector3f.dot_of_length_one sqrt hsq _ hn), hvv]
      · rw [hn, RayTracer.reflect_zero, hvv]
    unfold RayTracer.reflectionRay Ray.new
    simp only
    rw [(Vector3f.normalize_of_unit sqrt hs1 _ hr).2]
    exact (Vector3f.normalize_of_unit sqrt hs1 _ hr).1

/-- Witness for C27: the real square root. -/
theorem Ray.new_unit_direction_witness :
    (∀ o d : Vector3f ℝ, d ≠ Vector3f.zero →
      (Ray.new Real.sqrt o d).origin = o ∧
      (Ray.new Real.sqrt o d).direction =
        ⟨d.x / d.length Real.sqrt, d.y / d.length Real.sqrt, d.z / d.length Real.sqrt⟩ ∧
      (Ray.new Real.sqrt o d).direction.length Real.sqrt = 1) ∧
    (∀ (cam : Camera ℝ) (s t : ℝ),
      cam.lowerLeftCorner + cam.horizontal.scale s + cam.vertical.scale t - cam.origin ≠
        Vector3f.zero →
      (cam.getRay Real.sqrt s t).direction.length Real.sqrt = 1) ∧
    (∀ (rec : HitRecord ℝ) (light : Light ℝ), light.position - rec.point ≠ Vector3f.zero →
      (RayTracer.shadowRay Real.sqrt rec light).direction.length Real.sqrt = 1) ∧
    (∀ (rec : HitRecord ℝ) (ray : Ray ℝ), ray.direction.length Real.sqrt = 1 →
      rec.normal.length Real.sqrt = 1 ∨ rec.normal = Vector3f.zero →
      (RayTracer.reflectionRay Real.sqrt rec ray).direction.length Real.sqrt = 1) :=
  Ray.new_unit_direction Real.sqrt (fun _ hx => Real.mul_self_sqrt hx) Real.sqrt_nonneg

/-- C28: `rayColorWithReflection` is a total function of scene, ray and depth; its only
recursive call passes `depth - 1`, so for every scene, ray and depth a run that allows more
than `depth` nested invocations (one for a depth `<= 0`) returns its value, and the number
of nested recursive calls is at most `depth` (none for a depth `<= 0`). -/
theorem RayTracer.rayColorWithReflection_terminates (sqrt : F → F) (pow : F → F → F)
    (rt : RayTracer F) (ray : Ray F) (world : HittableList F) (depth : Int) :
    (∀ fuel : Nat, depth.toNat < fuel →
      rt.rayColorWithReflectionFuel sqrt pow fuel ray world depth =
        some (rt.rayColorWithReflection sqrt pow ray world depth)) ∧
    RayTracer.recursiveCalls sqrt ray world depth ≤ depth.toNat ∧
    (depth ≤ 0 → RayTracer.recursiveCalls sqrt ray world depth = 0) :=
  ⟨fun fuel h => RayTracer.rayColorWithReflectionFuel_eq sqrt pow rt world fuel ray depth h,
    RayTracer.recursiveCalls_le sqrt world depth.toNat ray depth (le_refl _),
    fun h => by
      have := RayTracer.recursiveCalls_le sqrt world depth.toNat ray depth (le_refl _)
      omega⟩

/-- C29: whenever `Triangle::hit` reports a hit, with `u` and `v` the barycentric values
the test computed, the reported distance is the computed `t`, the reported point is
`origin + t * direction`, which equals `v0 + u * (v1 - v0) + v * (v2 - v0)`, with `u >= 0`,
`v >= 0` and `u + v <= 1`, and `t` lies in `[tMin, tMax]`. -/
theorem Triangle.hit_point_in_triangle (tr : Triangle F) (ray : Ray F) (tMin : F)
    (tMax : WithTop F) (rec r : HitRecord F) (h : tr.hit ray tMin tMax rec = some r) :
    r.t = tr.dist ray ∧
    r.point = ray.origin + ray.direction.scale r.t ∧
    ray.origin + ray.direction.scale r.t =
      tr.v0 + (tr.v1 - tr.v0).scale (tr.baryU ray) + (tr.v2 - tr.v0).scale (tr.baryV ray) ∧
    0 ≤ tr.baryU ray ∧ 0 ≤ tr.baryV ray ∧ tr.baryU ray + tr.baryV ray ≤ 1 ∧
    tMin ≤ r.t ∧ ((r.t : F) : WithTop F) ≤ tMax := by
  rw [Triangle.hit_eq_triangle] at h
  split_ifs at h with h0
  injection h with h
  subst h
  obtain ⟨hdet, hu0, -, hv0, huv, htmin, htmax⟩ := h0
  have hne : tr.det ray ≠ 0 := by
    intro hz
    rw [hz, abs_zero] at hdet
    exact absurd hdet (not_le.mpr (by positivity))
  exact ⟨rfl, rfl, Triangle.point_eq_barycentric tr ray hne, hu0, hv0, huv, htmin, htmax⟩

/-- Witness for C29: `dropRay` meets `flatTriangle` at `(1/4, 1/4, 0)`. -/
theorem Triangle.hit_point_in_triangle_witness :
    (flatTriangle.fill dropRay (flatTriangle.dist dropRay) HitRecord.fresh).t =
      flatTriangle.dist dropRay ∧
    (flatTriangle.fill dropRay (flatTriangle.dist dropRay) HitRecord.fresh).point =
      dropRay.origin + dropRay.direction.scale
        (flatTriangle.fill dropRay (flatTriangle.dist dropRay) HitRecord.fresh).t ∧
    dropRay.origin + dropRay.direction.scale
        (flatTriangle.fill dropRay (flatTriangle.dist dropRay) HitRecord.fresh).t =
      flatTriangle.v0 + (flatTriangle.v1 - flatTriangle.v0).scale (flatTriangle.baryU dropRay) +
        (flatTriangle.v2 - flatTriangle.v0).scale (flatTriangle.baryV dropRay) ∧
    0 ≤ flatTriangle.baryU dropRay ∧ 0 ≤ flatTriangle.baryV dropRay ∧
    flatTriangle.baryU dropRay + flatTriangle.baryV dropRay ≤ 1 ∧
    0 ≤ (flatTriangle.fill dropRay (flatTriangle.dist dropRay) HitRecord.fresh).t ∧
    ((((flatTriangle.fill dropRay (flatTriangle.dist dropRay) HitRecord.fresh).t : ℚ)) :
      WithTop ℚ) ≤ ⊤ :=
  Triangle.hit_point_in_triangle flatTriangle dropRay 0 ⊤ HitRecord.fresh _
    flatTriangle_hit_dropRay

/-- C30 (the behaviour of the code): whenever `Box::hit` reports a hit whose entry distance
was produced by axis `i`, the flag `hitIsMin` is set, whichever face the ray entered
through: the local `outwardNormal` is minus the unit vector of axis `i`, and `frontFace`
is set exactly when the direction of the ray is positive along that axis.  When no axis
raised `tNear`, the local `outwardNormal` is the zero vector. -/
theorem Box.hit_entry_face (b : Box F) (ray : Ray F) (tMin : F) (tMax : WithTop F)
    (rec r : HitRecord F) (h : b.hit ray tMin tMax rec = some r) :
    ∃ st, b.slabs ray tMin tMax = some st ∧ r = b.fill ray st rec ∧
      ((st.hitAxis = -1 ∧ (Box.outwardNormal st.hitAxis st.hitIsMin : Vector3f F) =
          Vector3f.zero) ∨
        ∃ i : Nat, i < 3 ∧ st.hitAxis = (i : Int) ∧ st.hitIsMin = true ∧
          (Box.outwardNormal st.hitAxis st.hitIsMin : Vector3f F) = Vector3f.zero.set i (-1) ∧
          (r.frontFace = true ↔ 0 < ray.direction.get i)) :=
  Box.hit_outward b ray tMin tMax rec r h

/-- Counterexample to C30: `shadeRay` starts at `(0, 0, 5)`, outside `unitBox`, and comes
down the z axis; it enters the box through the face `z = boxMax.z = 1` at `t = 4`.
`Box::hit` records axis 2 with `hitIsMin` set, derives the outward normal `(0, 0, -1)`
instead of `(0, 0, 1)`, and stores `frontFace = false`. -/
theorem Box.hit_entry_face_counterexample :
    ¬ unitBox.Contains shadeRay.origin ∧
    unitBox.slabs shadeRay (1 / 1000) ⊤ =
      some { tNear := 4, tFar := ((6 : ℚ) : WithTop ℚ), hitAxis := 2, hitIsMin := true } ∧
    (Box.outwardNormal 2 true : Vector3f ℚ) = ⟨0, 0, -1⟩ ∧
    unitBox.hit shadeRay (1 / 1000) ⊤ HitRecord.fresh =
      some { t := 4, point := ⟨0, 0, 1⟩, normal := ⟨0, 0, 1⟩, frontFace := false,
             material := Material.default } ∧
    (shadeRay.origin + shadeRay.direction.scale 4).z = unitBox.boxMax.z := by
  refine ⟨?_, unitBox_slabs_shadeRay, ?_, ?_, ?_⟩
  · norm_num [Box.Contains, unitBox, shadeRay]
  · simp [Box.outwardNormal, Vector3f.zero]
  · rw [← unitBox_fill_shadeRay, Box.hit_some_iff]
    exact ⟨_, unitBox_slabs_shadeRay, le_top, rfl⟩
  · norm_num [shadeRay, unitBox]

/-- Witness for C30: the hit of `shadeRay` on `unitBox`. -/
theorem Box.hit_entry_face_witness :
    ∃ st, unitBox.slabs shadeRay (1 / 1000) ⊤ = some st ∧
      unitBox.fill shadeRay
          { tNear := 4, tFar := ((6 : ℚ) : WithTop ℚ), hitAxis := 2, hitIsMin := true }
          HitRecord.fresh = unitBox.fill shadeRay st HitRecord.fresh ∧
      ((st.hitAxis = -1 ∧ (Box.outwardNormal st.hitAxis st.hitIsMin : Vector3f ℚ) =
          Vector3f.zero) ∨
        ∃ i : Nat, i < 3 ∧ st.hitAxis = (i : Int) ∧ st.hitIsMin = true ∧
          (Box.outwardNormal st.hitAxis st.hitIsMin : Vector3f ℚ) = Vector3f.zero.set i (-1) ∧
          ((unitBox.fill shadeRay
              { tNear := 4, tFar := ((6 : ℚ) : WithTop ℚ), hitAxis := 2, hitIsMin := true }
              HitRecord.fresh).frontFace = true ↔ 0 < shadeRay.direction.get i)) :=
  Box.hit_entry_face unitBox shadeRay (1 / 1000) ⊤ HitRecord.fresh _
    ((Box.hit_some_iff unitBox shadeRay (1 / 1000) ⊤ HitRecord.fresh _).mpr
      ⟨_, unitBox_slabs_shadeRay, le_top, rfl⟩)

/-- C31: the degenerate inputs are gated by `1e-8`.  `Box::hit` with its division checked
returns what `Box::hit` returns, so the reciprocal `1 / direction[i]` is never taken at
zero; an axis with `|direction[i]| < 1e-8` whose origin coordinate lies outside
`[boxMin[i], boxMax[i]]` gives no hit.  `Triangle::hit` with its division checked returns
what `Triangle::hit` returns, so the reciprocal of the determinant is never taken at zero;
a determinant of magnitude below `1e-8` gives no hit.  Whenever a reciprocal is taken its
argument has magnitude at least `1e-8`. -/
theorem hit_epsilon_gated (b : Box F) (tr : Triangle F) (ray : Ray F) (tMin : F)
    (tMax : WithTop F) (rec : HitRecord F) :
    b.hitChecked ray tMin tMax rec = some (b.hit ray tMin tMax rec) ∧
    (∀ (st : SlabState F) (i : Nat),
      b.slabStepChecked ray tMin st i = some (b.slabStep ray tMin st i) ∧
      (¬ |ray.direction.get i| < 1 / 10 ^ 8 →
        ray.direction.get i ≠ 0 ∧
          b.slabStep ray tMin st i = b.slabBody ray tMin st i (1 / ray.direction.get i))) ∧
    (∀ i : Nat, i < 3 → |ray.direction.get i| < 1 / 10 ^ 8 →
      ray.origin.get i < b.boxMin.get i ∨ ray.origin.get i > b.boxMax.get i →
      b.hit ray tMin tMax rec = none) ∧
    tr.hitChecked ray tMin tMax rec = some (tr.hit ray tMin tMax rec) ∧
    (|tr.det ray| < 1 / 10 ^ 8 → tr.hit ray tMin tMax rec = none) ∧
    (¬ |tr.det ray| < 1 / 10 ^ 8 →
      tr.det ray ≠ 0 ∧
        tr.hit ray tMin tMax rec = tr.hitBody ray tMin tMax rec (1 / tr.det ray)) := by
  have hne : ∀ a : F, ¬ |a| < 1 / 10 ^ 8 → a ≠ 0 := by
    intro a h h0
    apply h
    rw [h0, abs_zero]
    positivity
  refine ⟨Box.hitChecked_eq_box b ray tMin tMax rec, fun st i => ⟨Box.slabStepChecked_eq b ray tMin st i,
    fun hg => ⟨hne _ hg, ?_⟩⟩,
    fun i hi hg hout => Box.hit_parallel_outside b ray tMin tMax rec i hi hg hout,
    Triangle.hitChecked_eq_triangle tr ray tMin tMax rec, fun hg => ?_, fun hg => ⟨hne _ hg, ?_⟩⟩
  · rw [Box.slabStep_eq_body, if_neg hg]
  · rw [Triangle.hit_eq_body, if_pos hg]
  · rw [Triangle.hit_eq_body, if_neg hg]

/-- C32: when several primitives report the same nearest distance for a ray,
`HittableList::hit` returns the record of the one that comes last in the list: if the
primitive `o` reports the record `r`, no primitive before it reports a smaller distance
and every primitive after it that reports a hit reports a strictly larger distance, then
the scan returns `r` (a later primitive is accepted at a distance equal to the closest
one so far). -/
theorem HittableList.hit_tie_last (sqrt : F → F) (hs : ∀ x, 0 ≤ sqrt x) (l : HittableList F)
    (ray : Ray F) (tMin : F) (tMax : WithTop F) (rec : HitRecord F)
    (pre post : List (Hittable F)) (o : Hittable F) (r : HitRecord F)
    (hl : l.objects = pre ++ o :: post)
    (ho : o.hit sqrt ray tMin tMax HitRecord.fresh = some r)
    (hpre : ∀ o' ∈ pre, ∀ r', o'.hit sqrt ray tMin tMax HitRecord.fresh = some r' → r.t ≤ r'.t)
    (hpost : ∀ o' ∈ post, ∀ r', o'.hit sqrt ray tMin tMax HitRecord.fresh = some r' →
      r.t < r'.t) :
    l.hit sqrt ray tMin tMax rec = some r ∧
    (l.hit sqrt ray tMin tMax rec).map (fun q => q.material) = some o.material := by
  have hhit : l.hit sqrt ray tMin tMax rec = some r := by
    rw [HittableList.hit_eq_foldl sqrt hs l ray tMin tMax rec HitRecord.fresh, hl,
      List.map_append, List.map_cons, List.foldl_append, List.foldl_cons, ho,
      foldl_nearer_take r _ (fun r' hr' => by
        obtain ⟨o', ho', e⟩ := List.mem_map.mp hr'
        exact hpre o' ho' r' e)]
    exact foldl_nearer_keep r _ (fun r' hr' => by
      obtain ⟨o', ho', e⟩ := List.mem_map.mp hr'
      exact hpost o' ho' r' e)
  refine ⟨hhit, ?_⟩
  rw [hhit, Option.map_some', Hittable.hit_material sqrt o ray tMin tMax _ r ho]

/-- Witness for C32: on the two coincident spheres of `twinWorld` both report `t = 4` for
`shadeRay`, and the scan returns the record of the second one, with its red material. -/
theorem HittableList.hit_tie_last_witness :
    twinWorld.hit qsqrt shadeRay (1 / 1000) ⊤ HitRecord.fresh =
      some (Sphere.fill ⟨⟨0, 0, 0⟩, 1, redMat⟩ shadeRay 4 HitRecord.fresh) ∧
    (twinWorld.hit qsqrt shadeRay (1 / 1000) ⊤ HitRecord.fresh).map (fun q => q.material) =
      some (Hittable.sphere ⟨⟨0, 0, 0⟩, 1, redMat⟩).material := by
  have hown : ∀ mat : Material ℚ,
      (Hittable.sphere ⟨⟨0, 0, 0⟩, 1, mat⟩).hit qsqrt shadeRay (1 / 1000) ⊤ HitRecord.fresh =
        some (Sphere.fill ⟨⟨0, 0, 0⟩, 1, mat⟩ shadeRay 4 HitRecord.fresh) := by
    intro mat
    show Sphere.hit qsqrt ⟨⟨0, 0, 0⟩, 1, mat⟩ ⟨⟨0, 0, 5⟩, ⟨0, 0, -1⟩⟩ _ _ _ = _
    rw [axisSphere_hit 0 5 (-1) mat (by norm_num), if_pos ⟨by norm_num, le_top⟩]
    norm_num [shadeRay]
  exact HittableList.hit_tie_last qsqrt qsqrt_nonneg twinWorld shadeRay (1 / 1000) ⊤
    HitRecord.fresh [.sphere ⟨⟨0, 0, 0⟩, 1, mirrorMat⟩] [] (.sphere ⟨⟨0, 0, 0⟩, 1, redMat⟩) _ rfl
    (hown redMat)
    (by
      intro o' ho' r' hr'
      simp only [List.mem_singleton] at ho'
      subst ho'
      rw [hown mirrorMat] at hr'
      injection hr' with hr'
      subst hr'
      exact le_refl _)
    (by
      intro o' ho'
      exact absurd ho' (List.not_mem_nil _))

/-- C33: when reflections are enabled and the maximum reflection depth is `<= 0`, as after
the directive `reflections 1 0`, every pixel colour is black, for hits and for the
background alike, and `render()` returns a buffer of `width * height * 3` bytes that are
all 0 (`sqrt 0 = 0` is assumed). -/
theorem RayTracer.render_depth_zero [FloorRing F] (sqrt : F → F) (pow : F → F → F)
    (rt : RayTracer F) (hs0 : sqrt 0 = 0) (hen : rt.reflectionsEnabled = true)
    (hd : rt.maxReflectionDepth ≤ 0) :
    (∀ x y : Int, rt.pixelColor sqrt pow x y = ⟨0, 0, 0⟩) ∧
    rt.render sqrt pow = List.replicate (rt.imageWidth * rt.imageHeight * 3).toNat 0 ∧
    (∀ b ∈ rt.render sqrt pow, b = 0) ∧
    (∀ (tan : F → F) (toFloat : String → F) (toInt : String → Int)
      (readOffFile : String → Option (OffModel F)) (st : RayTracer F),
      toInt "1" = 1 → toInt "0" = 0 →
      (RayTracer.loadLine sqrt tan toFloat toInt readOffFile st
        ["reflections", "1", "0"]).reflectionsEnabled = true ∧
      (RayTracer.loadLine sqrt tan toFloat toInt readOffFile st
        ["reflections", "1", "0"]).maxReflectionDepth = 0) := by
  have hr := RayTracer.render_black sqrt pow rt hs0 hen hd
  refine ⟨RayTracer.pixelColor_black sqrt pow rt hen hd, hr, ?_, ?_⟩
  · intro b hb
    rw [hr] at hb
    exact List.eq_of_mem_replicate hb
  · intro tan toFloat toInt readOffFile st h1 h0
    simp [RayTracer.loadLine, RayTracer.setReflectionsEnabled,
      RayTracer.setMaxReflectionDepth, h1, h0]

/-- Witness for C33: `mirrorTracer` with maximum reflection depth 0. -/
theorem RayTracer.render_depth_zero_witness :
    (∀ x y : Int,
      RayTracer.pixelColor qsqrt qpow { mirrorTracer with maxReflectionDepth := 0 }
        x y = ⟨0, 0, 0⟩) ∧
    RayTracer.render qsqrt qpow { mirrorTracer with maxReflectionDepth := 0 } =
      List.replicate ((4 : Int) * 3 * 3).toNat 0 ∧
    (∀ b ∈ RayTracer.render qsqrt qpow
      { mirrorTracer with maxReflectionDepth := 0 }, b = 0) ∧
    (∀ (tan : ℚ → ℚ) (toFloat : String → ℚ) (toInt : String → Int)
      (readOffFile : String → Option (OffModel ℚ)) (st : RayTracer ℚ),
      toInt "1" = 1 → toInt "0" = 0 →
      (RayTracer.loadLine qsqrt tan toFloat toInt readOffFile st
        ["reflections", "1", "0"]).reflectionsEnabled = true ∧
      (RayTracer.loadLine qsqrt tan toFloat toInt readOffFile st
        ["reflections", "1", "0"]).maxReflectionDepth = 0) :=
  RayTracer.render_depth_zero qsqrt qpow { mirrorTracer with maxReflectionDepth := 0 }
    (by simp [qsqrt]) rfl (by decide)

/-- C34: for a scene all of whose materials have reflectivity `<= 0`, every ray and every
depth `>= 1`, `rayColorWithReflection` returns what `rayColor` returns; so with a positive
maximum depth the pixel colours and the buffer of `render()` are the same with reflections
enabled and disabled. -/
theorem RayTracer.no_reflective_material [FloorRing F] (sqrt : F → F) (pow : F → F → F)
    (rt : RayTracer F) (hall : ∀ o ∈ rt.world.objects, o.material.reflectivity ≤ 0) :
    (∀ (ray : Ray F) (depth : Int), 1 ≤ depth →
      rt.rayColorWithReflection sqrt pow ray rt.world depth =
        rt.rayColor sqrt pow ray rt.world) ∧
    (1 ≤ rt.maxReflectionDepth →
      (∀ x y : Int,
        RayTracer.pixelColor sqrt pow { rt with reflectionsEnabled := true } x y =
          RayTracer.pixelColor sqrt pow { rt with reflectionsEnabled := false } x y) ∧
      RayTracer.render sqrt pow { rt with reflectionsEnabled := true } =
        RayTracer.render sqrt pow { rt with reflectionsEnabled := false }) := by
  have h1 : ∀ (ray : Ray F) (depth : Int), 1 ≤ depth →
      rt.rayColorWithReflection sqrt pow ray rt.world depth =
        rt.rayColor sqrt pow ray rt.world :=
    fun ray depth hd =>
      RayTracer.rayColorWithReflection_eq_rayColor sqrt pow rt ray rt.world depth hd hall
  refine ⟨h1, fun hd => ?_⟩
  have hpix : ∀ x y : Int,
      RayTracer.pixelColor sqrt pow { rt with reflectionsEnabled := true } x y =
        RayTracer.pixelColor sqrt pow { rt with reflectionsEnabled := false } x y := by
    intro x y
    unfold RayTracer.pixelColor
    simp only [if_true, Bool.false_eq_true, if_false]
    exact RayTracer.rayColorWithReflection_eq_rayColor sqrt pow _ _ rt.world _ hd hall
  exact ⟨hpix, RayTracer.render_congr sqrt pow _ _ rfl rfl hpix⟩

/-- Witness for C34: `shadeTracer`, whose only primitive has the default material. -/
theorem RayTracer.no_reflective_material_witness :
    (∀ (ray : Ray ℚ) (depth : Int), 1 ≤ depth →
      shadeTracer.rayColorWithReflection qsqrt qpow ray shadeTracer.world depth =
        shadeTracer.rayColor qsqrt qpow ray shadeTracer.world) ∧
    (1 ≤ shadeTracer.maxReflectionDepth →
      (∀ x y : Int,
        RayTracer.pixelColor qsqrt qpow { shadeTracer with reflectionsEnabled := true } x y =
          RayTracer.pixelColor qsqrt qpow { shadeTracer with reflectionsEnabled := false } x y) ∧
      RayTracer.render qsqrt qpow { shadeTracer with reflectionsEnabled := true } =
        RayTracer.render qsqrt qpow { shadeTracer with reflectionsEnabled := false }) :=
  RayTracer.no_reflective_material qsqrt qpow shadeTracer (by
    intro o ho
    simp only [shadeTracer, List.mem_singleton] at ho
    subst ho
    show (thinBox.material.reflectivity : ℚ) ≤ 0
    norm_num [thinBox, Material.default])

/-- C36: for every vector `v` and every unit vector `n`, `reflect(v, n) = v - 2 (v.n) n`
has the same length as `v`, and its normal component is negated:
`reflect(v, n).n = -(v.n)`.  So when `v.n <= 0`, as for the normal of a hit record, the
mirror direction, and the direction of the ray built from it, have a non-negative
component along `n`. -/
theorem RayTracer.reflect_mirror (v n : Vector3f F) (hn : n.Dot n = 1) :
    RayTracer.reflect v n =
      ⟨v.x - 2 * v.Dot n * n.x, v.y - 2 * v.Dot n * n.y, v.z - 2 * v.Dot n * n.z⟩ ∧
    (RayTracer.reflect v n).Dot (RayTracer.reflect v n) = v.Dot v ∧
    (∀ sqrt : F → F, (RayTracer.reflect v n).length sqrt = v.length sqrt) ∧
    (RayTracer.reflect v n).Dot n = -(v.Dot n) ∧
    (v.Dot n ≤ 0 → 0 ≤ (RayTracer.reflect v n).Dot n) ∧
    (∀ (sqrt : F → F) (o : Vector3f F), (∀ x, 0 ≤ sqrt x) → v.Dot n ≤ 0 →
      0 ≤ (Ray.new sqrt o (RayTracer.reflect v n)).direction.Dot n) := by
  have hd := RayTracer.reflect_dot_self v n hn
  have hdn := RayTracer.reflect_dot_normal v n hn
  refine ⟨?_, hd, fun sqrt => ?_, hdn, fun h => ?_, fun sqrt o hs h => ?_⟩
  · apply Vector3f.eq_of_components <;>
      simp only [RayTracer.reflect, Vector3f.sub_x, Vector3f.sub_y, Vector3f.sub_z,
        Vector3f.scale_x, Vector3f.scale_y, Vector3f.scale_z] <;> ring
  · rw [Vector3f.length_eq_sqrt_dot, Vector3f.length_eq_sqrt_dot, hd]
  · rw [hdn]
    linarith
  · show 0 ≤ ((RayTracer.reflect v n).Normalize sqrt).Dot n
    rw [Vector3f.normalize_dot, hdn]
    exact div_nonneg (by linarith) (hs _)

/-- Witness for C36: `v = (3, 0, -4)` and the normal `n = (0, 0, 1)`. -/
theorem RayTracer.reflect_mirror_witness :
    RayTracer.reflect (⟨3, 0, -4⟩ : Vector3f ℚ) ⟨0, 0, 1⟩ =
      ⟨3 - 2 * (⟨3, 0, -4⟩ : Vector3f ℚ).Dot ⟨0, 0, 1⟩ * 0,
        0 - 2 * (⟨3, 0, -4⟩ : Vector3f ℚ).Dot ⟨0, 0, 1⟩ * 0,
        -4 - 2 * (⟨3, 0, -4⟩ : Vector3f ℚ).Dot ⟨0, 0, 1⟩ * 1⟩ ∧
    (RayTracer.reflect (⟨3, 0, -4⟩ : Vector3f ℚ) ⟨0, 0, 1⟩).Dot
        (RayTracer.reflect (⟨3, 0, -4⟩ : Vector3f ℚ) ⟨0, 0, 1⟩) =
      (⟨3, 0, -4⟩ : Vector3f ℚ).Dot ⟨3, 0, -4⟩ ∧
    (∀ sqrt : ℚ → ℚ, (RayTracer.reflect (⟨3, 0, -4⟩ : Vector3f ℚ) ⟨0, 0, 1⟩).length sqrt =
      (⟨3, 0, -4⟩ : Vector3f ℚ).length sqrt) ∧
    (RayTracer.reflect (⟨3, 0, -4⟩ : Vector3f ℚ) ⟨0, 0, 1⟩).Dot ⟨0, 0, 1⟩ =
      -((⟨3, 0, -4⟩ : Vector3f ℚ).Dot ⟨0, 0, 1⟩) ∧
    ((⟨3, 0, -4⟩ : Vector3f ℚ).Dot ⟨0, 0, 1⟩ ≤ 0 →
      0 ≤ (RayTracer.reflect (⟨3, 0, -4⟩ : Vector3f ℚ) ⟨0, 0, 1⟩).Dot ⟨0, 0, 1⟩) ∧
    (∀ (sqrt : ℚ → ℚ) (o : Vector3f ℚ), (∀ x, 0 ≤ sqrt x) →
      (⟨3, 0, -4⟩ : Vector3f ℚ).Dot ⟨0, 0, 1⟩ ≤ 0 →
      0 ≤ (Ray.new sqrt o (RayTracer.reflect (⟨3, 0, -4⟩ : Vector3f ℚ) ⟨0, 0, 1⟩)).direction.Dot
        ⟨0, 0, 1⟩) :=
  RayTracer.reflect_mirror (⟨3, 0, -4⟩ : Vector3f ℚ) ⟨0, 0, 1⟩
    (by norm_num [Vector3f.dot_def])

/-- C37: in a scene that consists of a single sphere of radius `r > 0`, for a front-face
record of a ray on it and a light with `normal . lightDir >= 0`, the shadow query from
`hitPoint + 0.001 * normal` towards the light over `[0.001, distance - 0.001]` reports no
hit, so the iteration of the light loop adds the diffuse and specular terms of that light.
`sqrt` is assumed exact on the non-negative values. -/
theorem RayTracer.sphere_no_self_shadow (sqrt : F → F) (pow : F → F → F)
    (hsq : ∀ x : F, 0 ≤ x → sqrt x * sqrt x = x) (hnn : ∀ x : F, 0 ≤ sqrt x) (s : Sphere F)
    (hr : 0 < s.radius) (ray : Ray F) (tMin : F) (tMax : WithTop F) (rec0 rec : HitRecord F)
    (hdir : ray.direction.Dot ray.direction = 1)
    (hhit : s.hit sqrt ray tMin tMax rec0 = some rec) (hfront : rec.frontFace = true)
    (light : Light F)
    (hnl : 0 ≤ rec.normal.Dot ((light.position - rec.point).Normalize sqrt))
    (acc : Vector3f F) :
    (HittableList.mk [Hittable.sphere s]).hit sqrt (RayTracer.shadowRay sqrt rec light)
      (1 / 1000) ((((light.position - rec.point).length sqrt - 1 / 1000 : F)) : WithTop F)
      HitRecord.fresh = none ∧
    RayTracer.lightStep sqrt pow rec ray ⟨[Hittable.sphere s]⟩ acc light =
      acc +
        (((rec.material.color.mul light.color).scale
          (max (rec.normal.Dot ((light.position - rec.point).Normalize sqrt)) 0)).scale
          rec.material.diffuseCoef).scale light.intensity +
        ((light.color.scale
          (pow (max (rec.normal.Dot
            ((-ray.direction + (light.position - rec.point).Normalize sqrt).Normalize sqrt)) 0)
            rec.material.shininess)).scale rec.material.specularCoef).scale light.intensity := by
  obtain ⟨hp, hn⟩ := Sphere.hit_front_geometry sqrt hsq s ray tMin tMax rec0 rec
    (by rw [hdir]; exact one_ne_zero) hhit hfront
  have hD : 0 ≤ rec.normal.Dot
      (((light.position - rec.point).Normalize sqrt).Normalize sqrt) := by
    rw [Vector3f.dot_comm, Vector3f.normalize_dot, Vector3f.dot_comm]
    exact div_nonneg hnl (hnn _)
  have hmiss : (HittableList.mk [Hittable.sphere s]).hit sqrt
      (RayTracer.shadowRay sqrt rec light) (1 / 1000)
      ((((light.position - rec.point).length sqrt - 1 / 1000 : F)) : WithTop F)
      HitRecord.fresh = none := by
    rw [HittableList.hit_singleton]
    exact Sphere.shadow_miss sqrt hsq hnn s hr rec.point rec.normal _ hp hn hD _ _
  refine ⟨hmiss, ?_⟩
  apply RayTracer.lightStep_lit
  have hmiss' := hmiss
  unfold RayTracer.shadowRay at hmiss'
  rw [hmiss']
  rfl

/-- Witness for C37: the unit sphere at the origin, hit from `(0, 0, 5)` straight down, and
a light at `(0, 0, 5)`, with the real square root. -/
theorem RayTracer.sphere_no_self_shadow_witness :
    (HittableList.mk [Hittable.sphere (⟨⟨0, 0, 0⟩, 1, Material.default⟩ : Sphere ℝ)]).hit
      Real.sqrt
      (RayTracer.shadowRay Real.sqrt
        { t := 4, point := ⟨0, 0, 1⟩, normal := ⟨0, 0, 1⟩, frontFace := true,
          material := Material.default }
        ⟨⟨0, 0, 5⟩, ⟨1, 1, 1⟩, 1⟩)
      (1 / 1000)
      ((((((⟨0, 0, 5⟩ : Vector3f ℝ) - ⟨0, 0, 1⟩).length Real.sqrt - 1 / 1000 : ℝ))) : WithTop ℝ)
      HitRecord.fresh = none ∧
    RayTracer.lightStep Real.sqrt (fun a b => a ^ b)
        { t := 4, point := ⟨0, 0, 1⟩, normal := ⟨0, 0, 1⟩, frontFace := true,
          material := Material.default }
        ⟨⟨0, 0, 5⟩, ⟨0, 0, -1⟩⟩
        ⟨[Hittable.sphere (⟨⟨0, 0, 0⟩, 1, Material.default⟩ : Sphere ℝ)]⟩ ⟨0, 0, 0⟩
        ⟨⟨0, 0, 5⟩, ⟨1, 1, 1⟩, 1⟩ =
      (⟨0, 0, 0⟩ : Vector3f ℝ) +
        ((((Material.default : Material ℝ).color.mul ⟨1, 1, 1⟩).scale
          (max ((⟨0, 0, 1⟩ : Vector3f ℝ).Dot
            (((⟨0, 0, 5⟩ : Vector3f ℝ) - ⟨0, 0, 1⟩).Normalize Real.sqrt)) 0)).scale
          (Material.default : Material ℝ).diffuseCoef).scale 1 +
        (((⟨1, 1, 1⟩ : Vector3f ℝ).scale
          ((max ((⟨0, 0, 1⟩ : Vector3f ℝ).Dot
            ((-(⟨0, 0, -1⟩ : Vector3f ℝ) +
              ((⟨0, 0, 5⟩ : Vector3f ℝ) - ⟨0, 0, 1⟩).Normalize Real.sqrt).Normalize
                Real.sqrt)) 0) ^ (Material.default : Material ℝ).shininess)).scale
          (Material.default : Material ℝ).specularCoef).scale 1 :=
  RayTracer.sphere_no_self_shadow Real.sqrt (fun a b => a ^ b)
    (fun _ hx => Real.mul_self_sqrt hx) Real.sqrt_nonneg
    (⟨⟨0, 0, 0⟩, 1, Material.default⟩ : Sphere ℝ) one_pos ⟨⟨0, 0, 5⟩, ⟨0, 0, -1⟩⟩ (1 / 1000) ⊤
    HitRecord.fresh
    { t := 4, point := ⟨0, 0, 1⟩, normal := ⟨0, 0, 1⟩, frontFace := true,
      material := Material.default }
    (by norm_num [Vector3f.dot_def])
    (unitSphere_hit_top Real.sqrt Real.sqrt_one Material.default) rfl
    ⟨⟨0, 0, 5⟩, ⟨1, 1, 1⟩, 1⟩
    (by
      rw [Vector3f.dot_comm, Vector3f.normalize_dot]
      exact div_nonneg (by norm_num [Vector3f.dot_def]) (Real.sqrt_nonneg _))
    ⟨0, 0, 0⟩

/-- C38: `clearScene` resets only the primitives and the lights, and so does
`loadSceneFromFile`: after loading a file none of whose lines is a `camera`, `background`
or `reflections` directive, the camera, the background colour, the reflections-enabled
flag, the maximum reflection depth and the image size are what they were before the
call. -/
theorem RayTracer.loadSceneFromFile_frame (sqrt tan : F → F) (toFloat : String → F)
    (toInt : String → Int) (readOffFile : String → Option (OffModel F)) (rt : RayTracer F)
    (lines : List (List String))
    (h : ∀ l ∈ lines, l.headD "" ∉ ["camera", "background", "reflections"]) :
    rt.clearScene = { rt with world := ⟨[]⟩, lights := [] } ∧
    (rt.loadSceneFromFile sqrt tan toFloat toInt readOffFile (some lines)).2.camera =
      rt.camera ∧
    (rt.loadSceneFromFile sqrt tan toFloat toInt readOffFile (some lines)).2.backgroundColor =
      rt.backgroundColor ∧
    (rt.loadSceneFromFile sqrt tan toFloat toInt readOffFile
      (some lines)).2.reflectionsEnabled = rt.reflectionsEnabled ∧
    (rt.loadSceneFromFile sqrt tan toFloat toInt readOffFile
      (some lines)).2.maxReflectionDepth = rt.maxReflectionDepth ∧
    (rt.loadSceneFromFile sqrt tan toFloat toInt readOffFile (some lines)).2.imageWidth =
      rt.imageWidth ∧
    (rt.loadSceneFromFile sqrt tan toFloat toInt readOffFile (some lines)).2.imageHeight =
      rt.imageHeight := by
  obtain ⟨a1, a2, a3, a4, a5, a6⟩ := RayTracer.foldl_loadLine_frame sqrt tan toFloat toInt
    readOffFile lines rt.clearScene h
  refine ⟨rfl, ?_, ?_, ?_, ?_, ?_, ?_⟩ <;>
  · unfold RayTracer.loadSceneFromFile
    simp only
    split_ifs <;> simp only [RayTracer.addLight, a1, a2, a3, a4, a5, a6] <;> rfl

/-- Witness for C38: `primitiveScene` has no `camera`, `background` or `reflections`
line. -/
theorem RayTracer.loadSceneFromFile_frame_witness :
    mirrorTracer.clearScene = { mirrorTracer with world := ⟨[]⟩, lights := [] } ∧
    (mirrorTracer.loadSceneFromFile qsqrt (fun a => a) readDecimal readInteger noMesh
      (some primitiveScene)).2.camera = mirrorTracer.camera ∧
    (mirrorTracer.loadSceneFromFile qsqrt (fun a => a) readDecimal readInteger noMesh
      (some primitiveScene)).2.backgroundColor = mirrorTracer.backgroundColor ∧
    (mirrorTracer.loadSceneFromFile qsqrt (fun a => a) readDecimal readInteger noMesh
      (some primitiveScene)).2.reflectionsEnabled = mirrorTracer.reflectionsEnabled ∧
    (mirrorTracer.loadSceneFromFile qsqrt (fun a => a) readDecimal readInteger noMesh
      (some primitiveScene)).2.maxReflectionDepth = mirrorTracer.maxReflectionDepth ∧
    (mirrorTracer.loadSceneFromFile qsqrt (fun a => a) readDecimal readInteger noMesh
      (some primitiveScene)).2.imageWidth = mirrorTracer.imageWidth ∧
    (mirrorTracer.loadSceneFromFile qsqrt (fun a => a) readDecimal readInteger noMesh
      (some primitiveScene)).2.imageHeight = mirrorTracer.imageHeight :=
  RayTracer.loadSceneFromFile_frame qsqrt (fun a => a) readDecimal readInteger noMesh
    mirrorTracer primitiveScene (by decide)

/-- C39: for a camera built from `lookFrom != lookAt`, whatever the up vector, the field of
view and the aspect ratio, the ray `getRay(0.5, 0.5)` through the centre of the viewport
starts at `lookFrom` and has the direction `normalize(lookAt - lookFrom)`, of length 1.
`sqrt` is assumed exact at the squared distance of the two points and at 1. -/
theorem Camera.getRay_centre (sqrt tan : F → F) (lookFrom lookAt vup : Vector3f F)
    (vfov aspect : F) (hne : lookFrom - lookAt ≠ Vector3f.zero)
    (hsq : sqrt ((lookFrom - lookAt).Dot (lookFrom - lookAt)) *
      sqrt ((lookFrom - lookAt).Dot (lookFrom - lookAt)) =
      (lookFrom - lookAt).Dot (lookFrom - lookAt))
    (hs1 : sqrt 1 = 1) :
    ((Camera.new sqrt tan lookFrom lookAt vup vfov aspect).getRay sqrt (1 / 2) (1 / 2)).origin =
      lookFrom ∧
    ((Camera.new sqrt tan lookFrom lookAt vup vfov aspect).getRay sqrt (1 / 2)
      (1 / 2)).direction = (lookAt - lookFrom).Normalize sqrt ∧
    ((Camera.new sqrt tan lookFrom lookAt vup vfov aspect).getRay sqrt (1 / 2)
      (1 / 2)).direction.length sqrt = 1 := by
  have hw : (Camera.forward sqrt lookFrom lookAt).Dot (Camera.forward sqrt lookFrom lookAt) = 1 :=
    Vector3f.normalize_dot_self sqrt _ hne hsq
  have hu : ((Camera.forward sqrt lookFrom lookAt).scale (-1)).Dot
      ((Camera.forward sqrt lookFrom lookAt).scale (-1)) = 1 := by
    rw [Vector3f.scale_neg_one_dot_self, hw]
  have hdir : ((Camera.new sqrt tan lookFrom lookAt vup vfov aspect).getRay sqrt (1 / 2)
      (1 / 2)).direction = (Camera.forward sqrt lookFrom lookAt).scale (-1) := by
    unfold Camera.getRay Ray.new
    simp only
    rw [Camera.centre_direction, (Vector3f.normalize_of_unit sqrt hs1 _ hu).2]
  refine ⟨rfl, ?_, ?_⟩
  · rw [hdir, Vector3f.normalize_swap]
    rfl
  · rw [hdir]
    exact (Vector3f.normalize_of_unit sqrt hs1 _ hu).1

/-- Witness for C39: the default camera, from `(0, 0, 5)` towards the origin. -/
theorem Camera.getRay_centre_witness :
    ((Camera.new qsqrt (fun a => a) (⟨0, 0, 5⟩ : Vector3f ℚ) ⟨0, 0, 0⟩ ⟨0, 1, 0⟩ 60
      (4 / 3)).getRay qsqrt (1 / 2) (1 / 2)).origin = ⟨0, 0, 5⟩ ∧
    ((Camera.new qsqrt (fun a => a) (⟨0, 0, 5⟩ : Vector3f ℚ) ⟨0, 0, 0⟩ ⟨0, 1, 0⟩ 60
      (4 / 3)).getRay qsqrt (1 / 2) (1 / 2)).direction =
      ((⟨0, 0, 0⟩ : Vector3f ℚ) - ⟨0, 0, 5⟩).Normalize qsqrt ∧
    ((Camera.new qsqrt (fun a => a) (⟨0, 0, 5⟩ : Vector3f ℚ) ⟨0, 0, 0⟩ ⟨0, 1, 0⟩ 60
      (4 / 3)).getRay qsqrt (1 / 2) (1 / 2)).direction.length qsqrt = 1 :=
  Camera.getRay_centre qsqrt (fun a => a) (⟨0, 0, 5⟩ : Vector3f ℚ) ⟨0, 0, 0⟩ ⟨0, 1, 0⟩ 60 (4 / 3)
    (by intro h; have := congrArg Vector3f.z h; norm_num [Vector3f.zero] at this)
    (by
      have : ((⟨0, 0, 5⟩ : Vector3f ℚ) - ⟨0, 0, 0⟩).Dot ((⟨0, 0, 5⟩ : Vector3f ℚ) - ⟨0, 0, 0⟩) =
          5 * 5 := by norm_num [Vector3f.dot_def]
      rw [this, qsqrt_mul_self 5 (by norm_num)])
    qsqrt_one

/-- C40: for all integer end points `(x0, y0)` and `(x1, y1)`, `BresenhamLine` terminates:
there is one list of pixels that every run allowing more than `max(|x1 - x0|, |y1 - y0|)`
iterations of the loop returns. Its first pixel is `(x0, y0)`, its last pixel is
`(x1, y1)`, its length is exactly `max(|x1 - x0|, |y1 - y0|) + 1`, and any two consecutive
pixels are distinct and differ by at most 1 in each coordinate. -/
theorem LineRasterizer.BresenhamLine_path (x0 y0 x1 y1 : Int) :
    ∃ pixels : List Pixel,
      (∀ fuel : Nat, (max |x1 - x0| |y1 - y0|).toNat < fuel →
        LineRasterizer.BresenhamLine fuel x0 y0 x1 y1 = some pixels) ∧
      pixels.head? = some ⟨x0, y0⟩ ∧
      pixels.getLast? = some ⟨x1, y1⟩ ∧
      pixels.length = (max |x1 - x0| |y1 - y0|).toNat + 1 ∧
      List.Chain' (fun p q : Pixel => p ≠ q ∧ |q.x - p.x| ≤ 1 ∧ |q.y - p.y| ≤ 1) pixels := by
  have hX : 0 ≤ |x1 - x0| := abs_nonneg _
  have hY : 0 ≤ |y1 - y0| := abs_nonneg _
  have hsx : (if x0 < x1 then (1 : Int) else -1) = 1 ∨ (if x0 < x1 then (1 : Int) else -1) = -1 := by
    by_cases h : x0 < x1
    · exact Or.inl (if_pos h)
    · exact Or.inr (if_neg h)
  have hsy : (if y0 < y1 then (1 : Int) else -1) = 1 ∨ (if y0 < y1 then (1 : Int) else -1) = -1 := by
    by_cases h : y0 < y1
    · exact Or.inl (if_pos h)
    · exact Or.inr (if_neg h)
  have hx := LineRasterizer.step_mul_delta x0 x1
  have hy := LineRasterizer.step_mul_delta y0 y1
  have hXn : ((|x1 - x0|).toNat : Int) = |x1 - x0| := Int.toNat_of_nonneg hX
  have hYn : ((|y1 - y0|).toNat : Int) = |y1 - y0| := Int.toNat_of_nonneg hY
  by_cases hle : |y1 - y0| ≤ |x1 - x0|
  · rw [max_eq_left hle]
    by_cases hpos : 0 < |x1 - x0|
    · obtain ⟨p, hp, hrun⟩ := LineRasterizer.bresenhamLoop_xmajor x1 y1 |x1 - x0| |y1 - y0|
        _ _ hsx hsy hY hle hpos (|x1 - x0|).toNat x0 y0 (|x1 - x0| - |y1 - y0|) |y1 - y0|
        hx (by rw [hYn] at hy; exact hy) (by rw [hXn]; ring) (by omega) (by omega)
      refine ⟨p, ?_, hp⟩
      intro fuel hf
      have := hrun fuel [] hf
      rw [List.nil_append] at this
      exact this
    · have hX0 : |x1 - x0| = 0 := by omega
      have hY0 : |y1 - y0| = 0 := by omega
      have ex : x1 = x0 := by
        have := abs_eq_zero.mp hX0
        omega
      have ey : y1 = y0 := by
        have := abs_eq_zero.mp hY0
        omega
      subst ex ey
      refine ⟨[⟨x1, y1⟩], ?_, ?_⟩
      · intro fuel hf
        obtain ⟨f, rfl⟩ : ∃ f, fuel = f + 1 := ⟨fuel - 1, by omega⟩
        unfold LineRasterizer.BresenhamLine
        simp only
        rw [LineRasterizer.bresenhamLoop]
        simp only [and_self, if_true, List.nil_append]
      · rw [hX0]
        exact LineRasterizer.isPath_single _
  · rw [not_le] at hle
    rw [max_eq_right (le_of_lt hle)]
    obtain ⟨p, hp, hrun⟩ := LineRasterizer.bresenhamLoop_ymajor x1 y1 |x1 - x0| |y1 - y0|
      _ _ hsx hsy hX hle (|y1 - y0|).toNat x0 y0 (|x1 - x0| - |y1 - y0|) |x1 - x0|
      (by rw [hXn] at hx; exact hx) hy (by rw [hYn]; ring) (by omega) (by omega)
    refine ⟨p, ?_, hp⟩
    intro fuel hf
    have := hrun fuel [] hf
    rw [List.nil_append] at this
    exact this

end RayMesh
